import Mathlib

/-!
# kryon-flowchart: graph model, Mermaid parser, layered layout and terminal lines

A shallow embedding of `flowchart_builder.c`, `flowchart_parser.c`,
`flowchart_layout.c` and the line drawing of `renderer_terminal.c`.

Conventions of the embedding.

* A C string (`char*`) is a `List Char`, one `Char` per C `char`; a pointer that
  may be `NULL` is an `Option`.  `c_str` cuts a buffer at its first NUL, which is
  what `strlen`/`strdup` see.
* The parser cursor (`source`, `length`, `pos`) is the list `rest` of the
  characters from `pos` to `length`: `peek` is its head, `advance` drops it.
  The `line`/`col` counters are never read by the code and are left out.
* `float` values are rationals (`ℚ`): rounding, infinities and NaN are not
  represented.  The node geometry of the layout is embedded a second time with
  the rounding of every `float` operation (the definitions that end in `_fl`,
  with `f32_round` for the rounding): there each operation is rounded to
  `float` on its own, as C does when it evaluates `float` expressions in
  `float` precision without fused operations, and the range of the exponent is
  taken as unbounded.
* `int` values of the terminal renderer are integers (`ℤ`), taken not to
  overflow.
* Allocation always succeeds.
* A loop whose termination is not structural carries a bound (`fuel`) on its
  turns, and `none` means the bound was reached; the bounds used are shown never
  to be reached.
* `ir_add_child` and `ir_create_component` belong to the host framework
  (`ir_builder.h`); `ir_add_child parent child` is taken to append `child` to
  the children of `parent`.
* A pointer to a component inside the tree is the path of child indices that
  leads to it from the flowchart root.
-/

namespace KryonFlowchart

/-! ## flowchart_types.h -/

inductive IRFlowchartDirection where
  | TB | LR | BT | RL
  deriving DecidableEq, Repr

inductive IRFlowchartShape where
  | RECTANGLE | ROUNDED | STADIUM | DIAMOND | CIRCLE | HEXAGON
  | PARALLELOGRAM | CYLINDER | SUBROUTINE | ASYMMETRIC | TRAPEZOID
  deriving DecidableEq, Repr

inductive IRFlowchartEdgeType where
  | ARROW | OPEN | BIDIRECTIONAL | DOTTED | THICK
  deriving DecidableEq, Repr

inductive IRFlowchartMarker where
  | NONE | ARROW | CIRCLE | CROSS
  deriving DecidableEq, Repr

/-- Record `IRFlowchartNodeData`; `calloc` zeroes every field that
`ir_flowchart_node_data_create` does not set. -/
structure IRFlowchartNodeData where
  node_id : Option (List Char)
  shape : IRFlowchartShape
  label : Option (List Char)
  x : ℚ := 0
  y : ℚ := 0
  width : ℚ := 0
  height : ℚ := 0
  fill_color : Nat := 0
  stroke_color : Nat := 0
  stroke_width : ℚ := 0
  subgraph_id : Option (List Char) := none
  deriving DecidableEq

/-- Record `IRFlowchartEdgeData`; `path_points` is the flat array
`[x0, y0, x1, y1, ...]`. -/
structure IRFlowchartEdgeData where
  from_id : Option (List Char)
  to_id : Option (List Char)
  label : Option (List Char) := none
  type : IRFlowchartEdgeType := IRFlowchartEdgeType.ARROW
  start_marker : IRFlowchartMarker := IRFlowchartMarker.NONE
  end_marker : IRFlowchartMarker := IRFlowchartMarker.NONE
  path_points : Option (List ℚ) := none
  path_point_count : Nat := 0
  label_x : ℚ := 0
  label_y : ℚ := 0
  deriving DecidableEq

/-- Record `IRFlowchartSubgraphData`. -/
structure IRFlowchartSubgraphData where
  subgraph_id : Option (List Char)
  title : Option (List Char)
  direction : IRFlowchartDirection := IRFlowchartDirection.TB
  x : ℚ := 0
  y : ℚ := 0
  width : ℚ := 0
  height : ℚ := 0
  local_width : ℚ := 0
  local_height : ℚ := 0
  layout_computed : Bool := false
  parent_subgraph_id : Option (List Char) := none
  background_color : Nat := 0
  border_color : Nat := 0
  deriving DecidableEq

/-- Record `IRFlowchartState`: the three registries hold the registered records
in registration order (the capacities of the growable arrays are not kept). -/
structure IRFlowchartState where
  direction : IRFlowchartDirection := IRFlowchartDirection.TB
  nodes : List IRFlowchartNodeData := []
  edges : List IRFlowchartEdgeData := []
  subgraphs : List IRFlowchartSubgraphData := []
  layout_computed : Bool := false
  computed_width : ℚ := 0
  computed_height : ℚ := 0
  natural_width : ℚ := 0
  natural_height : ℚ := 0
  content_width : ℚ := 0
  content_height : ℚ := 0
  content_offset_x : ℚ := 0
  content_offset_y : ℚ := 0
  node_spacing : ℚ := 0
  rank_spacing : ℚ := 0
  subgraph_padding : ℚ := 0
  deriving DecidableEq

/-- A component below the flowchart root: its type tag with its `custom_data`,
and for a subgraph its `children`. -/
inductive IRComponent where
  | FLOWCHART_NODE (data : IRFlowchartNodeData)
  | FLOWCHART_EDGE (data : IRFlowchartEdgeData)
  | FLOWCHART_SUBGRAPH (data : IRFlowchartSubgraphData) (children : List IRComponent)

/-- The root component of type `IR_COMPONENT_FLOWCHART`: its `custom_data`
(the state), its children, and the font size of its style when it has one. -/
structure Flowchart where
  state : IRFlowchartState
  children : List IRComponent := []
  style_font_size : Option ℚ := none

/-! ## Characters and C strings -/

def NUL : Char := Char.ofNat 0

def isupper (c : Char) : Bool := 65 ≤ c.toNat && c.toNat ≤ 90
def islower (c : Char) : Bool := 97 ≤ c.toNat && c.toNat ≤ 122
def isalpha (c : Char) : Bool := isupper c || islower c
def isdigit (c : Char) : Bool := 48 ≤ c.toNat && c.toNat ≤ 57
def isalnum (c : Char) : Bool := isalpha c || isdigit c
/-- Function `isspace` of the C locale: space, `\t`, `\n`, `\v`, `\f`, `\r`. -/
def isspace (c : Char) : Bool := c.toNat == 32 || (9 ≤ c.toNat && c.toNat ≤ 13)
def tolower (c : Char) : Char := if isupper c then Char.ofNat (c.toNat + 32) else c

/-- The C string held in a buffer: the characters before the first NUL. -/
def c_str (buf : List Char) : List Char := buf.takeWhile (fun c => c != NUL)

/-- What `strdup` returns for a possibly-NULL argument guarded by `s ? strdup(s) : NULL`. -/
def strdup (s : Option (List Char)) : Option (List Char) := s.map c_str

/-- Test `strncmp(src, str, strlen str) == 0` for a literal `str` without NUL. -/
def strncmp_eq (src str : List Char) : Bool := str.isPrefixOf src

/-- Test `strncasecmp(src, str, strlen str) == 0` for a literal `str` without NUL. -/
def strncasecmp_eq (src str : List Char) : Bool :=
  (str.map tolower).isPrefixOf ((src.take str.length).map tolower)

/-! ## flowchart_builder.c -/

def ir_flowchart_create_state : IRFlowchartState :=
  { direction := IRFlowchartDirection.TB, layout_computed := false,
    node_spacing := 20, rank_spacing := 40, subgraph_padding := 40 }

def ir_flowchart_node_data_create (node_id : Option (List Char)) (shape : IRFlowchartShape)
    (label : Option (List Char)) : IRFlowchartNodeData :=
  { node_id := strdup node_id, shape := shape, label := strdup label,
    fill_color := 0xFFFFFFFF, stroke_color := 0x000000FF, stroke_width := 1 }

def ir_flowchart_edge_data_create (from_id to_id : Option (List Char)) : IRFlowchartEdgeData :=
  { from_id := strdup from_id, to_id := strdup to_id,
    type := IRFlowchartEdgeType.ARROW,
    start_marker := IRFlowchartMarker.NONE, end_marker := IRFlowchartMarker.ARROW }

def ir_flowchart_edge_set_label (data : IRFlowchartEdgeData) (label : Option (List Char)) :
    IRFlowchartEdgeData :=
  { data with label := strdup label }

def ir_flowchart_subgraph_data_create (subgraph_id title : Option (List Char)) :
    IRFlowchartSubgraphData :=
  { subgraph_id := strdup subgraph_id, title := strdup title,
    direction := IRFlowchartDirection.TB,
    background_color := 0xF0F0F0FF, border_color := 0x000000FF }

def ir_flowchart (direction : IRFlowchartDirection) : Flowchart :=
  { state := { ir_flowchart_create_state with direction := direction } }

def ir_flowchart_node (node_id : Option (List Char)) (shape : IRFlowchartShape)
    (label : Option (List Char)) : IRComponent :=
  IRComponent.FLOWCHART_NODE (ir_flowchart_node_data_create node_id shape label)

def ir_flowchart_edge (from_id to_id : Option (List Char)) (type : IRFlowchartEdgeType) :
    IRComponent :=
  IRComponent.FLOWCHART_EDGE { ir_flowchart_edge_data_create from_id to_id with type := type }

def ir_flowchart_subgraph (subgraph_id title : Option (List Char)) : IRComponent :=
  IRComponent.FLOWCHART_SUBGRAPH (ir_flowchart_subgraph_data_create subgraph_id title) []

/-- Appends the node's record to the node registry; a component of another
type has no node data and is ignored. -/
def ir_flowchart_register_node (flowchart : Flowchart) (node : IRComponent) : Flowchart :=
  match node with
  | IRComponent.FLOWCHART_NODE d =>
    { flowchart with state := { flowchart.state with nodes := flowchart.state.nodes ++ [d] } }
  | _ => flowchart

def ir_flowchart_register_edge (flowchart : Flowchart) (edge : IRComponent) : Flowchart :=
  match edge with
  | IRComponent.FLOWCHART_EDGE d =>
    { flowchart with state := { flowchart.state with edges := flowchart.state.edges ++ [d] } }
  | _ => flowchart

def ir_flowchart_register_subgraph (flowchart : Flowchart) (subgraph : IRComponent) : Flowchart :=
  match subgraph with
  | IRComponent.FLOWCHART_SUBGRAPH d _ =>
    { flowchart with
      state := { flowchart.state with subgraphs := flowchart.state.subgraphs ++ [d] } }
  | _ => flowchart

/-- First registered node whose id is `node_id` (linear scan). -/
def ir_flowchart_find_node (state : IRFlowchartState) (node_id : List Char) :
    Option IRFlowchartNodeData :=
  state.nodes.find? (fun node => node.node_id == some node_id)

/-- One turn of the loop of `ir_flowchart_finalize` over `flowchart->children`. -/
def finalize_child (flowchart : Flowchart) (child : IRComponent) : Flowchart :=
  match child with
  | IRComponent.FLOWCHART_NODE _ => ir_flowchart_register_node flowchart child
  | IRComponent.FLOWCHART_EDGE _ => ir_flowchart_register_edge flowchart child
  | IRComponent.FLOWCHART_SUBGRAPH _ _ => ir_flowchart_register_subgraph flowchart child

/-- Registers the direct children of the flowchart, then clears `layout_computed`. -/
def ir_flowchart_finalize (flowchart : Flowchart) : Flowchart :=
  let registered := flowchart.children.foldl finalize_child flowchart
  { registered with state := { registered.state with layout_computed := false } }

/-- Function `ir_str_ieq` on two C strings, each given by its characters before
the NUL: equality where `A`..`Z` count as `a`..`z`. -/
def ir_str_ieq : List Char → List Char → Bool
  | a :: s, b :: t =>
    let ca := if 'A' ≤ a ∧ a ≤ 'Z' then Char.ofNat (a.toNat + 32) else a
    let cb := if 'A' ≤ b ∧ b ≤ 'Z' then Char.ofNat (b.toNat + 32) else b
    if ca != cb then false else ir_str_ieq s t
  | [], [] => true
  | _, _ => false

def ir_flowchart_parse_direction (str : Option (List Char)) : IRFlowchartDirection :=
  match str with
  | none => IRFlowchartDirection.TB
  | some s =>
    if ir_str_ieq s "TB".toList || ir_str_ieq s "TD".toList then IRFlowchartDirection.TB
    else if ir_str_ieq s "LR".toList then IRFlowchartDirection.LR
    else if ir_str_ieq s "BT".toList then IRFlowchartDirection.BT
    else if ir_str_ieq s "RL".toList then IRFlowchartDirection.RL
    else IRFlowchartDirection.TB

def ir_flowchart_direction_to_string : IRFlowchartDirection → List Char
  | IRFlowchartDirection.TB => "TB".toList
  | IRFlowchartDirection.LR => "LR".toList
  | IRFlowchartDirection.BT => "BT".toList
  | IRFlowchartDirection.RL => "RL".toList

def ir_flowchart_parse_shape (str : Option (List Char)) : IRFlowchartShape :=
  match str with
  | none => IRFlowchartShape.RECTANGLE
  | some s =>
    if ir_str_ieq s "rectangle".toList then IRFlowchartShape.RECTANGLE
    else if ir_str_ieq s "rounded".toList then IRFlowchartShape.ROUNDED
    else if ir_str_ieq s "stadium".toList then IRFlowchartShape.STADIUM
    else if ir_str_ieq s "diamond".toList then IRFlowchartShape.DIAMOND
    else if ir_str_ieq s "circle".toList then IRFlowchartShape.CIRCLE
    else if ir_str_ieq s "hexagon".toList then IRFlowchartShape.HEXAGON
    else if ir_str_ieq s "parallelogram".toList then IRFlowchartShape.PARALLELOGRAM
    else if ir_str_ieq s "cylinder".toList then IRFlowchartShape.CYLINDER
    else if ir_str_ieq s "subroutine".toList then IRFlowchartShape.SUBROUTINE
    else if ir_str_ieq s "asymmetric".toList then IRFlowchartShape.ASYMMETRIC
    else if ir_str_ieq s "trapezoid".toList then IRFlowchartShape.TRAPEZOID
    else IRFlowchartShape.RECTANGLE

def ir_flowchart_shape_to_string : IRFlowchartShape → List Char
  | IRFlowchartShape.RECTANGLE => "rectangle".toList
  | IRFlowchartShape.ROUNDED => "rounded".toList
  | IRFlowchartShape.STADIUM => "stadium".toList
  | IRFlowchartShape.DIAMOND => "diamond".toList
  | IRFlowchartShape.CIRCLE => "circle".toList
  | IRFlowchartShape.HEXAGON => "hexagon".toList
  | IRFlowchartShape.PARALLELOGRAM => "parallelogram".toList
  | IRFlowchartShape.CYLINDER => "cylinder".toList
  | IRFlowchartShape.SUBROUTINE => "subroutine".toList
  | IRFlowchartShape.ASYMMETRIC => "asymmetric".toList
  | IRFlowchartShape.TRAPEZOID => "trapezoid".toList

def ir_flowchart_parse_edge_type (str : Option (List Char)) : IRFlowchartEdgeType :=
  match str with
  | none => IRFlowchartEdgeType.ARROW
  | some s =>
    if ir_str_ieq s "arrow".toList then IRFlowchartEdgeType.ARROW
    else if ir_str_ieq s "open".toList then IRFlowchartEdgeType.OPEN
    else if ir_str_ieq s "bidirectional".toList then IRFlowchartEdgeType.BIDIRECTIONAL
    else if ir_str_ieq s "dotted".toList then IRFlowchartEdgeType.DOTTED
    else if ir_str_ieq s "thick".toList then IRFlowchartEdgeType.THICK
    else IRFlowchartEdgeType.ARROW

def ir_flowchart_edge_type_to_string : IRFlowchartEdgeType → List Char
  | IRFlowchartEdgeType.ARROW => "arrow".toList
  | IRFlowchartEdgeType.OPEN => "open".toList
  | IRFlowchartEdgeType.BIDIRECTIONAL => "bidirectional".toList
  | IRFlowchartEdgeType.DOTTED => "dotted".toList
  | IRFlowchartEdgeType.THICK => "thick".toList

def ir_flowchart_parse_marker (str : Option (List Char)) : IRFlowchartMarker :=
  match str with
  | none => IRFlowchartMarker.NONE
  | some s =>
    if ir_str_ieq s "none".toList then IRFlowchartMarker.NONE
    else if ir_str_ieq s "arrow".toList then IRFlowchartMarker.ARROW
    else if ir_str_ieq s "circle".toList then IRFlowchartMarker.CIRCLE
    else if ir_str_ieq s "cross".toList then IRFlowchartMarker.CROSS
    else IRFlowchartMarker.NONE

def ir_flowchart_marker_to_string : IRFlowchartMarker → List Char
  | IRFlowchartMarker.NONE => "none".toList
  | IRFlowchartMarker.ARROW => "arrow".toList
  | IRFlowchartMarker.CIRCLE => "circle".toList
  | IRFlowchartMarker.CROSS => "cross".toList

/-! ## Pointers into the component tree -/

/-- The children of the component a pointer designates; `[]` designates the root,
whose children are `cs`. -/
def children_at : List Nat → List IRComponent → Option (List IRComponent)
  | [], cs => some cs
  | i :: path, cs =>
    match cs[i]? with
    | some (IRComponent.FLOWCHART_SUBGRAPH _ ch) => children_at path ch
    | _ => none

/-- The subgraph data of the component a pointer designates. -/
def subgraph_data_at : List Nat → List IRComponent → Option IRFlowchartSubgraphData
  | [], _ => none
  | i :: path, cs =>
    match cs[i]? with
    | some (IRComponent.FLOWCHART_SUBGRAPH d ch) =>
      match path with
      | [] => some d
      | _ :: _ => subgraph_data_at path ch
    | _ => none

/-- The tree after `ir_add_child(parent, child)`, `parent` given by its pointer. -/
def add_child_at : List Nat → IRComponent → List IRComponent → List IRComponent
  | [], child, cs => cs ++ [child]
  | i :: path, child, cs =>
    match cs[i]? with
    | some (IRComponent.FLOWCHART_SUBGRAPH d ch) =>
      cs.set i (IRComponent.FLOWCHART_SUBGRAPH d (add_child_at path child ch))
    | _ => cs

/-- The tree after `data->direction = dir` on the subgraph a pointer designates. -/
def set_direction_at : List Nat → IRFlowchartDirection → List IRComponent → List IRComponent
  | [], _, cs => cs
  | i :: path, dir, cs =>
    match cs[i]? with
    | some (IRComponent.FLOWCHART_SUBGRAPH d ch) =>
      match path with
      | [] => cs.set i (IRComponent.FLOWCHART_SUBGRAPH { d with direction := dir } ch)
      | _ :: _ => cs.set i (IRComponent.FLOWCHART_SUBGRAPH d (set_direction_at path dir ch))
    | _ => cs

def ir_add_child (flowchart : Flowchart) (parent : List Nat) (child : IRComponent) : Flowchart :=
  { flowchart with children := add_child_at parent child flowchart.children }

mutual
/-- Function `node_exists_in_children` on the children of `parent`: some node
below has this id, or some subgraph below has it as its subgraph id. -/
def node_exists_in_children : List IRComponent → List Char → Bool
  | [], _ => false
  | child :: rest, node_id =>
    node_exists_in_child child node_id || node_exists_in_children rest node_id
/-- The body of the loop of `node_exists_in_children` for one child. -/
def node_exists_in_child : IRComponent → List Char → Bool
  | IRComponent.FLOWCHART_NODE d, node_id => d.node_id == some node_id
  | IRComponent.FLOWCHART_EDGE _, _ => false
  | IRComponent.FLOWCHART_SUBGRAPH d ch, node_id =>
    d.subgraph_id == some node_id || node_exists_in_children ch node_id
end

/-! ## flowchart_parser.c: the cursor -/

def is_at_end (rest : List Char) : Bool := rest.isEmpty

def peek (rest : List Char) : Char := rest.headD NUL

def peek_next (rest : List Char) : Char := rest.tail.headD NUL

def advance (rest : List Char) : List Char := rest.tail

/-- The loop `while (!is_at_end(p) && peek(p) != '\n') advance(p);`. -/
def skip_to_eol (rest : List Char) : List Char := rest.dropWhile (fun c => c != '\n')

def skip_whitespace (rest : List Char) : List Char :=
  rest.dropWhile (fun c => c == ' ' || c == '\t')

/-- The loop of `skip_whitespace_and_newlines`; `in_comment` is true while the
inner loop that skips a `%%` comment up to the newline is running.  After a
`\r` the code also steps over a directly following `\n`; the next turn of the
loop does the same to it, so the cursor is the one computed here. -/
def skip_whitespace_and_newlines_loop : Bool → List Char → List Char
  | _, [] => []
  | true, c :: cs =>
    if c == '\n' then skip_whitespace_and_newlines_loop false cs
    else skip_whitespace_and_newlines_loop true cs
  | false, c :: cs =>
    if c == ' ' || c == '\t' then skip_whitespace_and_newlines_loop false cs
    else if c == '\n' then skip_whitespace_and_newlines_loop false cs
    else if c == '\r' then skip_whitespace_and_newlines_loop false cs
    else if c == '%' && peek cs == '%' then skip_whitespace_and_newlines_loop true cs
    else c :: cs

def skip_whitespace_and_newlines (rest : List Char) : List Char :=
  skip_whitespace_and_newlines_loop false rest

/-- Function `match`: whether `str` is next, and the cursor, advanced past it if so. -/
def match_ (rest : List Char) (str : List Char) : Bool × List Char :=
  if rest.length < str.length then (false, rest)
  else if strncmp_eq rest str then (true, rest.drop str.length)
  else (false, rest)

def match_case_insensitive (rest : List Char) (str : List Char) : Bool × List Char :=
  if rest.length < str.length then (false, rest)
  else if strncasecmp_eq rest str then (true, rest.drop str.length)
  else (false, rest)

/-- Returns the identifier (`NULL` when none starts here) and the cursor. -/
def parse_identifier (rest : List Char) : Option (List Char) × List Char :=
  let r := skip_whitespace rest
  match r with
  | [] => (none, r)
  | c :: cs =>
    if isalpha c || c == '_' then
      (some (c :: cs.takeWhile (fun d => isalnum d || d == '_')),
       cs.dropWhile (fun d => isalnum d || d == '_'))
    else (none, r)

/-- The scan of `parse_text_in_brackets` after the opening bracket: the text
passed over and the cursor, left on the bracket that closes depth 1. -/
def bracket_scan (open_ close : Char) : Nat → List Char → List Char × List Char
  | _, [] => ([], [])
  | depth, c :: cs =>
    let depth1 := if c == open_ then depth + 1 else if c == close then depth - 1 else depth
    if depth1 > 0 then
      let r := bracket_scan open_ close depth1 cs
      (c :: r.1, r.2)
    else ([], c :: cs)

/-- Removes the characters of a buffer that `isspace` accepts at its end. -/
def trim_end (text : List Char) : List Char := (text.reverse.dropWhile isspace).reverse

/-- The loop of `process_html_in_text` from index `i`, `text` being what is left
from `i` on; `fuel` bounds the number of turns. -/
def process_html_loop : Nat → List Char → List Char
  | 0, _ => []
  | _ + 1, [] => []
  | fuel + 1, c :: cs =>
    if c == '<' then
      if strncasecmp_eq (c :: cs) "<br/>".toList then '\n' :: process_html_loop fuel (cs.drop 4)
      else if strncasecmp_eq (c :: cs) "<br>".toList then
        '\n' :: process_html_loop fuel (cs.drop 3)
      else if strncasecmp_eq (c :: cs) "<br />".toList then
        '\n' :: process_html_loop fuel (cs.drop 5)
      else
        -- closing or opening tag: skip up to and including `>`
        process_html_loop fuel (((c :: cs).dropWhile (fun d => d != '>')).tail)
    else c :: process_html_loop fuel cs

def process_html_in_text (text : List Char) : List Char :=
  process_html_loop text.length text

/-- The indices of `output` that the loop of `process_html_in_text` writes from
index `i` on, in the order of the writes, `out_pos` being the next free index
and `text` what is left from `i` on; the last one is the index of the closing
`output[out_pos] = '\0'`.  The turns are those of `process_html_loop`. -/
def process_html_writes : Nat → List Char → Nat → List Nat
  | 0, _, out_pos => [out_pos]
  | _ + 1, [], out_pos => [out_pos]
  | fuel + 1, c :: cs, out_pos =>
    if c == '<' then
      if strncasecmp_eq (c :: cs) "<br/>".toList then
        out_pos :: process_html_writes fuel (cs.drop 4) (out_pos + 1)
      else if strncasecmp_eq (c :: cs) "<br>".toList then
        out_pos :: process_html_writes fuel (cs.drop 3) (out_pos + 1)
      else if strncasecmp_eq (c :: cs) "<br />".toList then
        out_pos :: process_html_writes fuel (cs.drop 5) (out_pos + 1)
      else
        process_html_writes fuel (((c :: cs).dropWhile (fun d => d != '>')).tail) out_pos
    else out_pos :: process_html_writes fuel cs (out_pos + 1)

/-- The indices of `output` written by `process_html_in_text(text)`. -/
def process_html_written (text : List Char) : List Nat :=
  process_html_writes text.length text 0

/-- The value of `output_size` in `process_html_in_text`: the size of the
allocated buffer `output`. -/
def process_html_output_size (text : List Char) : Nat := text.length * 2

/-- Returns the processed text (`NULL` when the cursor is not on `open_`) and the cursor. -/
def parse_text_in_brackets (rest : List Char) (open_ close : Char) :
    Option (List Char) × List Char :=
  if peek rest != open_ then (none, rest)
  else
    let r := bracket_scan open_ close 1 (advance rest)
    let rest1 := if peek r.2 == close then advance r.2 else r.2
    let text := (c_str (trim_end r.1)).dropWhile isspace
    (some (process_html_in_text text), rest1)

/-- The scan of `parse_quoted_string` after the opening quote: the text passed
over and the cursor.  The flag is true between the two `advance` calls of a turn
that found a backslash before a quote. -/
def quoted_scan : Bool → List Char → List Char × List Char
  | _, [] => ([], [])
  | true, c :: cs =>
    let r := quoted_scan false cs
    (c :: r.1, r.2)
  | false, c :: cs =>
    if c == '"' then ([], c :: cs)
    else if c == '\\' && peek cs == '"' then
      let r := quoted_scan true cs
      (c :: r.1, r.2)
    else
      let r := quoted_scan false cs
      (c :: r.1, r.2)

def parse_quoted_string (rest : List Char) : Option (List Char) × List Char :=
  if peek rest != '"' then (none, rest)
  else
    let r := quoted_scan false (advance rest)
    (some r.1, if peek r.2 == '"' then advance r.2 else r.2)

/-- The direction keywords tried in order at the cursor (shared by the header
and `parse_direction`): the direction found, if any, and the cursor. -/
def match_direction (rest : List Char) : Option IRFlowchartDirection × List Char :=
  let m1 := match_case_insensitive rest "TB".toList
  if m1.1 then (some IRFlowchartDirection.TB, m1.2)
  else
    let m2 := match_case_insensitive rest "TD".toList
    if m2.1 then (some IRFlowchartDirection.TB, m2.2)
    else
      let m3 := match_case_insensitive rest "LR".toList
      if m3.1 then (some IRFlowchartDirection.LR, m3.2)
      else
        let m4 := match_case_insensitive rest "BT".toList
        if m4.1 then (some IRFlowchartDirection.BT, m4.2)
        else
          let m5 := match_case_insensitive rest "RL".toList
          if m5.1 then (some IRFlowchartDirection.RL, m5.2)
          else (none, rest)

def parse_direction (rest : List Char) : IRFlowchartDirection × List Char :=
  let m := match_direction (skip_whitespace rest)
  (m.1.getD IRFlowchartDirection.TB, m.2)

/-! ## flowchart_parser.c: colours and numbers of `style` lines -/

def hex_digit_value (c : Char) : Option Nat :=
  if isdigit c then some (c.toNat - 48)
  else if 97 ≤ c.toNat && c.toNat ≤ 102 then some (c.toNat - 87)
  else if 65 ≤ c.toNat && c.toNat ≤ 70 then some (c.toNat - 55)
  else none

/-- One `%<width>x` conversion: the value of the hex digits read (at least one,
at most `width`) and the input left, or `none` when no digit is next.  The sign
and the `0x` prefix that `%x` also accepts are not modelled. -/
def sscanf_hex (width : Nat) (input : List Char) : Option (Nat × List Char) :=
  let digits := (input.take width).takeWhile (fun c => (hex_digit_value c).isSome)
  if digits.isEmpty then none
  else some (digits.foldl (fun acc c => acc * 16 + (hex_digit_value c).getD 0) 0,
             input.drop digits.length)

/-- The values that `count` successive `%<width>x` conversions store; conversion
stops at the first failure. -/
def sscanf_hex_groups (width : Nat) : Nat → List Char → List Nat
  | 0, _ => []
  | count + 1, input =>
    match sscanf_hex width input with
    | none => []
    | some (v, input1) => v :: sscanf_hex_groups width count input1

/-- Function `parse_hex_color` on a C string. -/
def parse_hex_color (str : List Char) : Nat :=
  if peek str != '#' then 0xE0E0E0FF
  else
    let len := str.length
    let vals : List Nat :=
      if len == 4 then (sscanf_hex_groups 1 3 str.tail).map (fun v => v * 17)
      else if len == 7 then sscanf_hex_groups 2 3 str.tail
      else if len == 9 then sscanf_hex_groups 2 4 str.tail
      else []
    let r := vals.getD 0 0
    let g := vals.getD 1 0
    let b := vals.getD 2 0
    let a := vals.getD 3 255
    (r <<< 24 ||| g <<< 16 ||| b <<< 8 ||| a) % 2 ^ 32

def decimal_value (digits : List Char) : Nat :=
  digits.foldl (fun acc c => acc * 10 + (c.toNat - 48)) 0

/-- The value `sscanf(input, "%f", &width)` stores, `none` when it converts
nothing: optional white space and sign, then decimal digits with an optional
fraction and an optional decimal exponent.  Hexadecimal, infinity and NaN
spellings are not modelled. -/
def sscanf_float (input : List Char) : Option ℚ :=
  let r0 := input.dropWhile isspace
  let neg := peek r0 == '-'
  let r1 := if peek r0 == '-' || peek r0 == '+' then advance r0 else r0
  let int_digits := r1.takeWhile isdigit
  let r2 := r1.dropWhile isdigit
  let frac_digits := if peek r2 == '.' then (advance r2).takeWhile isdigit else []
  let r3 := if peek r2 == '.' then (advance r2).dropWhile isdigit else r2
  if int_digits.isEmpty && frac_digits.isEmpty then none
  else
    let mantissa : ℚ :=
      (decimal_value int_digits : ℚ) + (decimal_value frac_digits : ℚ) / 10 ^ frac_digits.length
    let e0 := if peek r3 == 'e' || peek r3 == 'E' then advance r3 else []
    let eneg := peek e0 == '-'
    let e1 := if peek e0 == '-' || peek e0 == '+' then advance e0 else e0
    let exp_digits := e1.takeWhile isdigit
    let scaled : ℚ :=
      if exp_digits.isEmpty then mantissa
      else if eneg then mantissa / 10 ^ decimal_value exp_digits
      else mantissa * 10 ^ decimal_value exp_digits
    some (if neg then -scaled else scaled)

/-! ## flowchart_parser.c: the parser -/

/-- Record `FlowchartParser`: the cursor, the header direction, the flowchart
under construction (with its state) and the stack of open subgraphs, bottom
first, each a pointer into the tree. -/
structure FlowchartParser where
  rest : List Char
  direction : IRFlowchartDirection := IRFlowchartDirection.TB
  flowchart : Flowchart
  subgraph_stack : List (List Nat) := []

def parser_push_subgraph (p : FlowchartParser) (subgraph : List Nat) : FlowchartParser :=
  { p with subgraph_stack := p.subgraph_stack ++ [subgraph] }

def parser_pop_subgraph (p : FlowchartParser) : FlowchartParser :=
  { p with subgraph_stack := p.subgraph_stack.dropLast }

def parser_current_subgraph (p : FlowchartParser) : Option (List Nat) :=
  p.subgraph_stack.getLast?

/-- The existence test that precedes every node creation:
`node_exists_in_children(p->flowchart, id)`, and when that fails and a subgraph
is open, `node_exists_in_children(current, id)`. -/
def node_already_exists (p : FlowchartParser) (node_id : List Char) : Bool :=
  let found := node_exists_in_children p.flowchart.children node_id
  match parser_current_subgraph p with
  | some current =>
    if !found then
      node_exists_in_children ((children_at current p.flowchart.children).getD []) node_id
    else found
  | none => found

/-- Adds a component to the open subgraph, or to the flowchart when none is open. -/
def add_to_current (p : FlowchartParser) (child : IRComponent) : FlowchartParser :=
  match parser_current_subgraph p with
  | some current => { p with flowchart := ir_add_child p.flowchart current child }
  | none => { p with flowchart := ir_add_child p.flowchart [] child }

/-- The block "create implicit node if it doesn't exist" of `parse_edge` and `parse_line`. -/
def ensure_implicit_node (p : FlowchartParser) (node_id : List Char) : FlowchartParser :=
  if node_already_exists p node_id then p
  else add_to_current p
    (ir_flowchart_node (some node_id) IRFlowchartShape.RECTANGLE (some node_id))

/-- The shape syntax read by `parse_node_definition` at the cursor (already past
white space): the shape, the label (`NULL` when no bracket opens here) and the
cursor. -/
def parse_shape (r0 : List Char) : IRFlowchartShape × Option (List Char) × List Char :=
  let c := peek r0
  let c2 := peek_next r0
  if c == '[' then
    if c2 == '[' then
      let t := parse_text_in_brackets (advance r0) '[' ']'
      (IRFlowchartShape.SUBROUTINE, t.1, if peek t.2 == ']' then advance t.2 else t.2)
    else if c2 == '(' then
      let t := parse_text_in_brackets (advance r0) '(' ')'
      (IRFlowchartShape.CYLINDER, t.1, if peek t.2 == ']' then advance t.2 else t.2)
    else if c2 == '/' then
      let start := advance (advance r0)
      let label := start.takeWhile (fun d => d != '/' && d != '\\')
      let r1 := start.dropWhile (fun d => d != '/' && d != '\\')
      let shape :=
        if peek r1 == '/' then IRFlowchartShape.PARALLELOGRAM
        else if peek r1 == '\\' then IRFlowchartShape.TRAPEZOID
        else IRFlowchartShape.RECTANGLE
      let r2 := if peek r1 == '/' || peek r1 == '\\' then advance r1 else r1
      (shape, some label, if peek r2 == ']' then advance r2 else r2)
    else
      let t := parse_text_in_brackets r0 '[' ']'
      (IRFlowchartShape.RECTANGLE, t.1, t.2)
  else if c == '(' then
    if c2 == '(' then
      let t := parse_text_in_brackets (advance r0) '(' ')'
      (IRFlowchartShape.CIRCLE, t.1, if peek t.2 == ')' then advance t.2 else t.2)
    else if c2 == '[' then
      let t := parse_text_in_brackets (advance r0) '[' ']'
      (IRFlowchartShape.STADIUM, t.1, if peek t.2 == ')' then advance t.2 else t.2)
    else
      let t := parse_text_in_brackets r0 '(' ')'
      (IRFlowchartShape.ROUNDED, t.1, t.2)
  else if c == '{' then
    if c2 == '{' then
      let t := parse_text_in_brackets (advance r0) '{' '}'
      (IRFlowchartShape.HEXAGON, t.1, if peek t.2 == '}' then advance t.2 else t.2)
    else
      let t := parse_text_in_brackets r0 '{' '}'
      (IRFlowchartShape.DIAMOND, t.1, t.2)
  else if c == '>' then
    let start := advance r0
    let label := start.takeWhile (fun d => d != ']')
    let r1 := start.dropWhile (fun d => d != ']')
    (IRFlowchartShape.ASYMMETRIC, some label, if peek r1 == ']' then advance r1 else r1)
  else (IRFlowchartShape.RECTANGLE, none, r0)

def parse_node_definition (p : FlowchartParser) (node_id : List Char) : FlowchartParser :=
  let s := parse_shape (skip_whitespace p.rest)
  let label := match s.2.1 with
    | some l => l
    | none => c_str node_id
  let p1 := { p with rest := s.2.2 }
  if node_already_exists p1 node_id then p1
  else add_to_current p1 (ir_flowchart_node (some node_id) s.1 (some label))

/-- The label loop of the `-- label -->` form of `parse_edge`: the characters
from `start` to the final `pos` and the cursor.  A successful `match` of the
arrow moves `pos` past it, so the arrow is part of those characters. -/
def edge_label_scan : List Char → List Char × List Char
  | [] => ([], [])
  | c :: cs =>
    if (match_ (c :: cs) "-->".toList).1 then ("-->".toList, (match_ (c :: cs) "-->".toList).2)
    else if (match_ (c :: cs) "--->".toList).1 then
      ("--->".toList, (match_ (c :: cs) "--->".toList).2)
    else if c == '\n' then ([], c :: cs)
    else if strncmp_eq (c :: cs) "-->".toList then ([], c :: cs)
    else
      let r := edge_label_scan cs
      (c :: r.1, r.2)

/-- The part "determine edge type" of `parse_edge` at the cursor (already past
white space): the type, the inline label and the cursor, or `none` for "not an
edge". -/
def parse_edge_operator (r0 : List Char) :
    Option (IRFlowchartEdgeType × Option (List Char) × List Char) :=
  if (match_ r0 "<-->".toList).1 then
    some (IRFlowchartEdgeType.BIDIRECTIONAL, none, (match_ r0 "<-->".toList).2)
  else if (match_ r0 "-.->".toList).1 then
    some (IRFlowchartEdgeType.DOTTED, none, (match_ r0 "-.->".toList).2)
  else if (match_ r0 "-..->".toList).1 then
    some (IRFlowchartEdgeType.DOTTED, none, (match_ r0 "-..->".toList).2)
  else if (match_ r0 "==>".toList).1 then
    some (IRFlowchartEdgeType.THICK, none, (match_ r0 "==>".toList).2)
  else if (match_ r0 "-->".toList).1 then
    some (IRFlowchartEdgeType.ARROW, none, (match_ r0 "-->".toList).2)
  else if (match_ r0 "---".toList).1 then
    some (IRFlowchartEdgeType.OPEN, none, (match_ r0 "---".toList).2)
  else if (match_ r0 "--".toList).1 then
    let r1 := skip_whitespace (match_ r0 "--".toList).2
    if peek r1 != '-' && peek r1 != '=' && peek r1 != '.' then
      let sc := edge_label_scan r1
      let label := if sc.1.length > 0 then some (trim_end sc.1) else none
      let r2 := skip_whitespace sc.2
      some (IRFlowchartEdgeType.ARROW, label, (match_ r2 "-->".toList).2)
    else some (IRFlowchartEdgeType.OPEN, none, r1)
  else none

/-- The part "check for |label| syntax after arrow" of `parse_edge`. -/
def parse_pipe_label (label : Option (List Char)) (r : List Char) :
    Option (List Char) × List Char :=
  if peek r == '|' then
    let start := advance r
    let r1 := start.dropWhile (fun d => d != '|')
    (some (start.takeWhile (fun d => d != '|')), if peek r1 == '|' then advance r1 else r1)
  else (label, r)

def is_shape_open (c : Char) : Bool := c == '[' || c == '(' || c == '{' || c == '>'

def is_edge_start (c : Char) : Bool := c == '-' || c == '=' || c == '<'

/-- The part of `parse_edge` that follows the target identifier: creates the
implicit target node when it does not exist, then the edge component with its
label, which it adds to the flowchart root. -/
def add_edge (p : FlowchartParser) (from_id to_id : List Char) (type : IRFlowchartEdgeType)
    (label : Option (List Char)) : FlowchartParser :=
  let p1 := ensure_implicit_node p to_id
  let edge0 := { ir_flowchart_edge_data_create (some from_id) (some to_id) with type := type }
  let edge := match label with
    | some l => ir_flowchart_edge_set_label edge0 (some l)
    | none => edge0
  { p1 with flowchart := ir_add_child p1.flowchart [] (IRComponent.FLOWCHART_EDGE edge) }

/-- The part "check if the target node needs definition" of `parse_edge`. -/
def parse_target_definition (p : FlowchartParser) (to_id : List Char) : FlowchartParser :=
  let r := skip_whitespace p.rest
  if is_shape_open (peek r) then parse_node_definition { p with rest := r } to_id
  else { p with rest := r }

/-- Function `parse_edge`; `fuel` bounds the depth of the recursion on chained
edges, `none` meaning the bound was reached. -/
def parse_edge : Nat → FlowchartParser → List Char → Option FlowchartParser
  | 0, _, _ => none
  | fuel + 1, p, from_id =>
    let r0 := skip_whitespace p.rest
    match parse_edge_operator r0 with
    | none => some { p with rest := r0 }
    | some op =>
      let lb := parse_pipe_label op.2.1 (skip_whitespace op.2.2)
      let idr := parse_identifier (skip_whitespace lb.2)
      match idr.1 with
      | none => some { p with rest := idr.2 }
      | some to_id =>
        let p3 := parse_target_definition (add_edge { p with rest := idr.2 } from_id to_id op.1 lb.1)
          to_id
        let r2 := skip_whitespace p3.rest
        if is_edge_start (peek r2) then parse_edge fuel { p3 with rest := r2 } to_id
        else some { p3 with rest := r2 }

/-- The part "parse optional title in brackets" of `parse_subgraph`. -/
def parse_subgraph_title (r : List Char) : Option (List Char) × List Char :=
  if peek r == '[' then
    let r1 := skip_whitespace (advance r)
    if peek r1 == '"' then
      let q := parse_quoted_string r1
      let r2 := skip_whitespace q.2
      (q.1, if peek r2 == ']' then advance r2 else r2)
    else parse_text_in_brackets r '[' ']'
  else (none, r)

/-- The pointer that the next child added to the open subgraph (to the
flowchart when none is open) will have. -/
def next_child_pointer (p : FlowchartParser) : List Nat :=
  let parent_ptr := (parser_current_subgraph p).getD []
  parent_ptr ++ [((children_at parent_ptr p.flowchart.children).getD []).length]

/-- The part of `parse_subgraph` that creates the subgraph component, adds it to
its parent (the open subgraph, whose id becomes its `parent_subgraph_id`, or the
flowchart) and pushes it on the stack. -/
def open_subgraph (p : FlowchartParser) (subgraph_id title : Option (List Char)) :
    FlowchartParser :=
  let data0 := ir_flowchart_subgraph_data_create subgraph_id
    (match title with
     | some t => some t
     | none => subgraph_id)
  let parent := parser_current_subgraph p
  let data :=
    match parent with
    | some ptr =>
      match (subgraph_data_at ptr p.flowchart.children).bind (fun d => d.subgraph_id) with
      | some pid => { data0 with parent_subgraph_id := strdup (some pid) }
      | none => data0
    | none => data0
  parser_push_subgraph
    { p with flowchart :=
        ir_add_child p.flowchart (parent.getD []) (IRComponent.FLOWCHART_SUBGRAPH data []) }
    (next_child_pointer p)

/-- The assignment `data->direction = dir` on the subgraph behind a pointer. -/
def set_subgraph_direction (p : FlowchartParser) (subgraph : List Nat)
    (dir : IRFlowchartDirection) : FlowchartParser :=
  { p with flowchart := { p.flowchart with
      children := set_direction_at subgraph dir p.flowchart.children } }

def parse_subgraph (p : FlowchartParser) : FlowchartParser :=
  let idr := parse_identifier (skip_whitespace p.rest)
  let tr := parse_subgraph_title (skip_whitespace idr.2)
  let subgraph := next_child_pointer p
  let p1 := open_subgraph { p with rest := tr.2 } idr.1 tr.1
  let r1 := skip_whitespace_and_newlines p1.rest
  let m := match_case_insensitive r1 "direction".toList
  if m.1 then
    set_subgraph_direction { p1 with rest := (parse_direction m.2).2 } subgraph
      (parse_direction m.2).1
  else { p1 with rest := r1 }

/-- The scan of a colour value of a `style` line. -/
def style_value_char (c : Char) : Bool := c != ',' && c != '\n' && !isspace c

/-- The assignment `node->field = v` on the node that `ir_flowchart_find_node`
returns: the first registered node with this id. -/
def update_found_node (f : IRFlowchartNodeData → IRFlowchartNodeData) (node_id : List Char) :
    List IRFlowchartNodeData → List IRFlowchartNodeData
  | [] => []
  | node :: nodes =>
    if node.node_id == some node_id then f node :: nodes
    else node :: update_found_node f node_id nodes

def set_found_node (p : FlowchartParser) (node_id : List Char)
    (f : IRFlowchartNodeData → IRFlowchartNodeData) : FlowchartParser :=
  { p with flowchart := { p.flowchart with
      state := { p.flowchart.state with
        nodes := update_found_node f node_id p.flowchart.state.nodes } } }

/-- One turn of the property loop of `parse_style`, from the first
`skip_whitespace` to the step over a separating comma. -/
def parse_style_property (p : FlowchartParser) (node_id : List Char) : FlowchartParser :=
  let r0 := skip_whitespace p.rest
  let p1 : FlowchartParser :=
    if (match_case_insensitive r0 "fill:".toList).1 then
      let r1 := skip_whitespace (match_case_insensitive r0 "fill:".toList).2
      let color := parse_hex_color (c_str (r1.takeWhile style_value_char))
      set_found_node { p with rest := r1.dropWhile style_value_char } node_id
        (fun node => { node with fill_color := color })
    else if (match_case_insensitive r0 "stroke:".toList).1 then
      let r1 := skip_whitespace (match_case_insensitive r0 "stroke:".toList).2
      let color := parse_hex_color (c_str (r1.takeWhile style_value_char))
      set_found_node { p with rest := r1.dropWhile style_value_char } node_id
        (fun node => { node with stroke_color := color })
    else if (match_case_insensitive r0 "stroke-width:".toList).1 then
      let r1 := skip_whitespace (match_case_insensitive r0 "stroke-width:".toList).2
      let width := (sscanf_float r1).getD 2
      set_found_node { p with rest := r1.dropWhile (fun c => isdigit c || c == '.') } node_id
        (fun node => { node with stroke_width := width })
    else { p with rest := r0.dropWhile (fun c => c != ',' && c != '\n') }
  if peek p1.rest == ',' then { p1 with rest := advance p1.rest } else p1

/-- The property loop of `parse_style`; `fuel` bounds the number of turns. -/
def parse_style_loop : Nat → FlowchartParser → List Char → Option FlowchartParser
  | 0, _, _ => none
  | fuel + 1, p, node_id =>
    if is_at_end p.rest || peek p.rest == '\n' then some p
    else parse_style_loop fuel (parse_style_property p node_id) node_id

def parse_style (p : FlowchartParser) : Option FlowchartParser :=
  let idr := parse_identifier (skip_whitespace p.rest)
  match idr.1 with
  | none => some { p with rest := idr.2 }
  | some node_id =>
    let r := skip_whitespace idr.2
    parse_style_loop (r.length + 1) { p with rest := r } node_id

/-- The part of `parse_line` from "parse node ID" on, for a line that opens with
no keyword. -/
def parse_node_statement (p : FlowchartParser) : Option FlowchartParser :=
  let idr := parse_identifier p.rest
  match idr.1 with
  | none => some { p with rest := skip_to_eol idr.2 }
  | some node_id =>
    let r1 := skip_whitespace idr.2
    let c := peek r1
    if is_shape_open c then
      let p1 := parse_node_definition { p with rest := r1 } node_id
      let r2 := skip_whitespace p1.rest
      if is_edge_start (peek r2) then parse_edge (r2.length + 1) { p1 with rest := r2 } node_id
      else some { p1 with rest := r2 }
    else if is_edge_start c then
      parse_edge (r1.length + 1) (ensure_implicit_node { p with rest := r1 } node_id) node_id
    else if c == '&' then
      let p1 := ensure_implicit_node { p with rest := r1 } node_id
      some { p1 with rest := skip_to_eol p1.rest }
    else some { p with rest := r1 }

def parse_line (p : FlowchartParser) : Option FlowchartParser :=
  let r0 := skip_whitespace p.rest
  if is_at_end r0 || peek r0 == '\n' then some { p with rest := r0 }
  else if peek r0 == '%' then some { p with rest := skip_to_eol r0 }
  else if (match_case_insensitive r0 "subgraph".toList).1 then
    some (parse_subgraph { p with rest := (match_case_insensitive r0 "subgraph".toList).2 })
  else if (match_case_insensitive r0 "end".toList).1 then
    some (parser_pop_subgraph { p with rest := (match_case_insensitive r0 "end".toList).2 })
  else if (match_case_insensitive r0 "style".toList).1 then
    parse_style { p with rest := (match_case_insensitive r0 "style".toList).2 }
  else if (match_case_insensitive r0 "classDef".toList).1 then
    some { p with rest := skip_to_eol (match_case_insensitive r0 "classDef".toList).2 }
  else if (match_case_insensitive r0 "class".toList).1 then
    some { p with rest := skip_to_eol (match_case_insensitive r0 "class".toList).2 }
  else if (match_case_insensitive r0 "linkStyle".toList).1 then
    some { p with rest := skip_to_eol (match_case_insensitive r0 "linkStyle".toList).2 }
  else parse_node_statement { p with rest := r0 }

/-- The loop "parse body lines" of `ir_flowchart_parse`; `fuel` bounds the number
of turns, `none` meaning the bound was reached. -/
def parse_body : Nat → FlowchartParser → Option FlowchartParser
  | 0, _ => none
  | fuel + 1, p =>
    if is_at_end p.rest then some p
    else
      let r := skip_whitespace_and_newlines p.rest
      if !is_at_end r then
        match parse_line { p with rest := r } with
        | none => none
        | some p1 => parse_body fuel { p1 with rest := skip_to_eol p1.rest }
      else parse_body fuel { p with rest := r }

/-- The header of `ir_flowchart_parse`: the direction and the cursor after it, or
`none` when neither keyword is next. -/
def parse_header (source : List Char) : Option (IRFlowchartDirection × List Char) :=
  let r0 := skip_whitespace_and_newlines source
  let m1 := match_case_insensitive r0 "flowchart".toList
  let m2 := match_case_insensitive r0 "graph".toList
  if m1.1 || m2.1 then
    let r1 := skip_whitespace (if m1.1 then m1.2 else m2.2)
    let d := match_direction r1
    some (d.1.getD IRFlowchartDirection.TB, d.2)
  else none

/-- Function `ir_flowchart_parse` with the bound `fuel` on the loops over the
body.  The outer `none` means the bound was reached; `some none` is the return
value `NULL`, `some (some f)` the returned flowchart. -/
def ir_flowchart_parse_fuel (fuel : Nat) (source : List Char) : Option (Option Flowchart) :=
  if source.length == 0 then some none
  else
    match parse_header source with
    | none => some none
    | some h =>
      match parse_body fuel
          { rest := h.2, direction := h.1, flowchart := ir_flowchart h.1, subgraph_stack := [] } with
      | none => none
      | some p => some (some (ir_flowchart_finalize p.flowchart))

/-- Function `ir_flowchart_parse`, with one turn of the body loop per character
of the source and one more, which always suffice. -/
def ir_flowchart_parse (source : List Char) : Option (Option Flowchart) :=
  ir_flowchart_parse_fuel (source.length + 1) source

/-- Function `ir_flowchart_is_mermaid` on the `length` characters of `source`. -/
def ir_flowchart_is_mermaid (source : List Char) : Bool :=
  if source.length == 0 then false
  else
    let r := source.dropWhile isspace
    if 9 ≤ r.length && strncasecmp_eq r "flowchart".toList then true
    else if 5 ≤ r.length && strncasecmp_eq r "graph".toList then true
    else false

/-! ## flowchart_layout.c -/

def FLOWCHART_NODE_MIN_WIDTH : ℚ := 40
def FLOWCHART_NODE_MIN_HEIGHT : ℚ := 24
def FLOWCHART_NODE_SPACING : ℚ := 20
def FLOWCHART_RANK_SPACING : ℚ := 40
def FLOWCHART_SUBGRAPH_PADDING : ℚ := 40
def FLOWCHART_SUBGRAPH_TITLE_HEIGHT : ℚ := 30

/-- The font-measurement callbacks behind the global `g_ir_font_metrics` of the
host framework, passed in explicitly (`none` for an unset pointer). -/
structure IRFontMetrics where
  get_text_width : Option (List Char → Nat → ℚ → ℚ)
  get_font_height : ℚ → ℚ

/-- The body of the loop of `compute_flowchart_node_sizes` for one node. -/
def compute_node_size (metrics : Option IRFontMetrics) (font_size : ℚ)
    (node : IRFlowchartNodeData) : IRFlowchartNodeData :=
  let measured : ℚ × ℚ :=
    match node.label with
    | some (c :: cs) =>
      match metrics with
      | some m =>
        match m.get_text_width with
        | some f => (f (c :: cs) (c :: cs).length font_size, m.get_font_height font_size)
        | none => (((c :: cs).length : ℚ) * font_size * (3 / 5), font_size * (6 / 5))
      | none => (((c :: cs).length : ℚ) * font_size * (3 / 5), font_size * (6 / 5))
    | _ => (50, font_size * (6 / 5))
  let label_width := measured.1
  let label_height := measured.2
  let h_padding : ℚ :=
    if node.shape = IRFlowchartShape.DIAMOND then 32 * 2
    else if node.shape = IRFlowchartShape.CIRCLE ∨ node.shape = IRFlowchartShape.HEXAGON then
      32 * (3 / 2)
    else 32
  let v_padding : ℚ :=
    if node.shape = IRFlowchartShape.DIAMOND then 20 * 2
    else if node.shape = IRFlowchartShape.CIRCLE ∨ node.shape = IRFlowchartShape.HEXAGON then
      20 * (3 / 2)
    else 20
  let width := max FLOWCHART_NODE_MIN_WIDTH (label_width + h_padding)
  let height := max FLOWCHART_NODE_MIN_HEIGHT (label_height + v_padding)
  if node.shape = IRFlowchartShape.CIRCLE ∨ node.shape = IRFlowchartShape.DIAMOND then
    { node with width := max width height, height := max width height }
  else { node with width := width, height := height }

def compute_flowchart_node_sizes (metrics : Option IRFontMetrics) (state : IRFlowchartState)
    (font_size : ℚ) : IRFlowchartState :=
  { state with nodes := state.nodes.map (compute_node_size metrics font_size) }

/-- The arrays `node_layer` and `processed` of the layering phase, with the flag
`made_progress` of the current turn. -/
structure Layering where
  node_layer : List Int
  processed : List Bool
  made_progress : Bool := false
  deriving DecidableEq

/-- The loop "find nodes with no incoming edges": such a node gets layer 0. -/
def is_start_node (state : IRFlowchartState) (node : IRFlowchartNodeData) : Bool :=
  match node.node_id with
  | none => false
  | some id => !state.edges.any (fun edge => edge.to_id == some id)

/-- The arrays after initialisation to -1, the start-node loop and the
fallback "if no start nodes found, pick the first node". -/
def initial_layering (state : IRFlowchartState) : Layering :=
  let node_layer : List Int := state.nodes.map (fun node => if is_start_node state node then 0 else -1)
  let processed : List Bool := state.nodes.map (fun node => is_start_node state node)
  let any_assigned := node_layer.any (fun l => decide (l ≥ 0))
  if !any_assigned && state.nodes.length > 0 then
    { node_layer := node_layer.set 0 0, processed := processed.set 0 true }
  else { node_layer := node_layer, processed := processed }

/-- Index of the source node of an edge: the first node whose id is `from_id`. -/
def find_source_index (state : IRFlowchartState) (from_id : Option (List Char)) : Option Nat :=
  match from_id with
  | none => none
  | some id =>
    let j := state.nodes.findIdx (fun node => node.node_id == some id)
    if j < state.nodes.length then some j else none

/-- The loop over the edges for one node: `(max_pred_layer, has_assigned_pred)`. -/
def scan_predecessors (state : IRFlowchartState) (node_layer : List Int) (node_id : List Char) :
    Int × Bool :=
  state.edges.foldl
    (fun acc edge =>
      if edge.to_id == some node_id then
        match find_source_index state edge.from_id with
        | some j =>
          if node_layer.getD j (-1) ≥ 0 then (max acc.1 (node_layer.getD j (-1)), true) else acc
        | none => acc
      else acc)
    (-1, false)

/-- The body of the sweep `for i` of one turn of the layering loop. -/
def layer_sweep_node (state : IRFlowchartState) (l : Layering) (i : Nat) : Layering :=
  if l.processed.getD i false then l
  else
    match (state.nodes.get? i).bind (fun node => node.node_id) with
    | none => l
    | some id =>
      let r := scan_predecessors state l.node_layer id
      if r.2 then
        { node_layer := l.node_layer.set i (r.1 + 1), processed := l.processed.set i true,
          made_progress := true }
      else l

/-- The step "if no progress and still have unassigned nodes, pick one". -/
def force_first_unprocessed (l : Layering) : Layering :=
  let i := l.processed.findIdx (fun b => !b)
  if i < l.processed.length then
    { node_layer := l.node_layer.set i 0, processed := l.processed.set i true,
      made_progress := true }
  else l

/-- One turn of the layering loop, up to the `all_done` test. -/
def layering_turn (state : IRFlowchartState) (l : Layering) : Layering :=
  let swept := (List.range state.nodes.length).foldl (layer_sweep_node state)
    { l with made_progress := false }
  if !swept.made_progress then force_first_unprocessed swept else swept

/-- The layering loop `for (iter = 0; iter < max_iterations; iter++)`, leaving
early once every node is processed. -/
def layering_loop (state : IRFlowchartState) : Nat → Layering → Layering
  | 0, l => l
  | k + 1, l =>
    let l1 := layering_turn state l
    if l1.processed.all (fun b => b) then l1 else layering_loop state k l1

/-- Phase 2 of `ir_layout_compute_flowchart`: the final `node_layer` array. -/
def assign_layers (state : IRFlowchartState) : Layering :=
  layering_loop state (state.nodes.length * 2) (initial_layering state)

def is_horizontal (d : IRFlowchartDirection) : Bool :=
  d == IRFlowchartDirection.LR || d == IRFlowchartDirection.RL

def is_reversed (d : IRFlowchartDirection) : Bool :=
  d == IRFlowchartDirection.BT || d == IRFlowchartDirection.RL

/-- The loop "check if any subgraphs have different directions than parent". -/
def has_directional_subgraphs (state : IRFlowchartState) : Bool :=
  state.subgraphs.any (fun sg => sg.direction != state.direction)

/-- The flag `node_in_directional_subgraph` of the positioning loop. -/
def node_in_directional_subgraph (state : IRFlowchartState) (node : IRFlowchartNodeData) : Bool :=
  has_directional_subgraphs state &&
    match node.subgraph_id with
    | none => false
    | some sid =>
      state.subgraphs.any (fun sg => sg.subgraph_id == some sid && sg.direction != state.direction)

/-- The direction used for a node: that of the first registered subgraph that
has the node's subgraph id, when it differs from the flowchart's. -/
def node_direction (state : IRFlowchartState) (node : IRFlowchartNodeData) :
    IRFlowchartDirection :=
  if has_directional_subgraphs state then
    match node.subgraph_id with
    | none => state.direction
    | some sid =>
      match state.subgraphs.find? (fun sg => sg.subgraph_id == some sid) with
      | some sg => if sg.direction != state.direction then sg.direction else state.direction
      | none => state.direction
  else state.direction

/-- The test `same_subgraph` of the positioning loop. -/
def same_subgraph (a b : IRFlowchartNodeData) : Bool :=
  match a.subgraph_id, b.subgraph_id with
  | none, none => true
  | some x, some y => x == y
  | _, _ => false

/-- Phase 3: `max_layer`, the largest layer in use (0 at least). -/
def max_layer_of (node_layer : List Int) : Int := node_layer.foldl max 0

/-- Phase 3: the number of nodes in layer `l`. -/
def nodes_per_layer (node_layer : List Int) (l : Int) : Nat := node_layer.count l

/-- Phase 3: `max_nodes_in_layer`, over the layers `0..max_layer`. -/
def max_nodes_in_layer (node_layer : List Int) : Nat :=
  (List.range ((max_layer_of node_layer).toNat + 1)).foldl
    (fun m l => max m (nodes_per_layer node_layer (l : Int))) 0

/-- The state of the positioning loop: the nodes, the counters `layer_position`
(by layer) and the running extents. -/
structure Positioning where
  nodes : List IRFlowchartNodeData
  layer_position : List Nat
  total_primary_size : ℚ := 0
  total_secondary_size : ℚ := 0

/-- The body of the positioning loop (Phase 4) for the node of index `i`. -/
def position_node (state : IRFlowchartState) (node_layer : List Int)
    (node_spacing rank_spacing max_node_width max_node_height : ℚ) (acc : Positioning) (i : Nat) :
    Positioning :=
  match acc.nodes.get? i with
  | none => acc
  | some node =>
    let layer := node_layer.getD i (-1)
    let max_layer := max_layer_of node_layer
    let in_dir := node_in_directional_subgraph state node
    let pos : Nat :=
      if in_dir then
        ((List.range i).filter (fun j =>
          node_layer.getD j (-1) == layer &&
            match acc.nodes.get? j with
            | some other =>
              (match other.subgraph_id, node.subgraph_id with
               | some x, some y => x == y
               | _, _ => false)
            | none => false)).length
      else acc.layer_position.getD layer.toNat 0
    let layer_position :=
      if in_dir then acc.layer_position
      else acc.layer_position.set layer.toNat (acc.layer_position.getD layer.toNat 0 + 1)
    let nodes_in_this_layer : Nat :=
      ((List.range acc.nodes.length).filter (fun j =>
        node_layer.getD j (-1) == layer &&
          match acc.nodes.get? j with
          | some other => same_subgraph node other
          | none => false)).length
    let node_horizontal := is_horizontal (node_direction state node)
    let node_reversed := is_reversed (node_direction state node)
    let slack : ℚ := (((max_nodes_in_layer node_layer : Int) - (nodes_in_this_layer : Int) : Int) : ℚ)
    let layer_start : ℚ :=
      if node_horizontal then slack * (max_node_height + node_spacing) / 2
      else slack * (max_node_width + node_spacing) / 2
    let placed : IRFlowchartNodeData :=
      if node_horizontal then
        let primary : ℚ :=
          if node_reversed then ((max_layer - layer : Int) : ℚ) * (max_node_width + rank_spacing)
          else (layer : ℚ) * (max_node_width + rank_spacing)
        let secondary : ℚ := layer_start + (pos : ℚ) * (max_node_height + node_spacing)
        { node with
          x := primary + (max_node_width - node.width) / 2
          y := secondary + (max_node_height - node.height) / 2 }
      else
        let primary : ℚ :=
          if node_reversed then ((max_layer - layer : Int) : ℚ) * (max_node_height + rank_spacing)
          else (layer : ℚ) * (max_node_height + rank_spacing)
        let secondary : ℚ := layer_start + (pos : ℚ) * (max_node_width + node_spacing)
        { node with
          x := secondary + (max_node_width - node.width) / 2
          y := primary + (max_node_height - node.height) / 2 }
    let horizontal := is_horizontal state.direction
    { nodes := acc.nodes.set i placed
      layer_position := layer_position
      total_primary_size := max acc.total_primary_size
        (if horizontal then placed.x + placed.width else placed.y + placed.height)
      total_secondary_size := max acc.total_secondary_size
        (if horizontal then placed.y + placed.height else placed.x + placed.width) }

/-- Phase 4: the positioning loop over all nodes. -/
def position_nodes (state : IRFlowchartState) (node_layer : List Int)
    (node_spacing rank_spacing : ℚ) : Positioning :=
  let max_node_width := state.nodes.foldl (fun m node => max m node.width) FLOWCHART_NODE_MIN_WIDTH
  let max_node_height :=
    state.nodes.foldl (fun m node => max m node.height) FLOWCHART_NODE_MIN_HEIGHT
  (List.range state.nodes.length).foldl
    (position_node state node_layer node_spacing rank_spacing max_node_width max_node_height)
    { nodes := state.nodes
      layer_position := List.replicate ((max_layer_of node_layer).toNat + 1) 0 }

/-- The node an edge end resolves to in Phase 5: the last registered node with
this id (the search loop does not stop at the first match). -/
def find_last_node (nodes : List IRFlowchartNodeData) (id : Option (List Char)) :
    Option IRFlowchartNodeData :=
  match id with
  | none => none
  | some i => nodes.reverse.find? (fun node => node.node_id == some i)

/-- The body of the routing loop (Phase 5) for one edge. -/
def route_edge (nodes : List IRFlowchartNodeData) (edge : IRFlowchartEdgeData) :
    IRFlowchartEdgeData :=
  match find_last_node nodes edge.from_id, find_last_node nodes edge.to_id with
  | some from_node, some to_node =>
    { edge with
      path_point_count := 2
      path_points := some
        [from_node.x + from_node.width / 2, from_node.y + from_node.height / 2,
         to_node.x + to_node.width / 2, to_node.y + to_node.height / 2] }
  | _, _ => edge

/-- Applies `f` to the first `n` entries of an array. -/
def map_first (f : ℚ → ℚ) : Nat → List ℚ → List ℚ
  | 0, l => l
  | _ + 1, [] => []
  | n + 1, v :: l => f v :: map_first f n l

/-- The loop over the `path_point_count` points of one edge, `f` applied to both
coordinates of each. -/
def transform_edge_path (f : ℚ → ℚ) (edge : IRFlowchartEdgeData) : IRFlowchartEdgeData :=
  match edge.path_points with
  | none => edge
  | some pts => { edge with path_points := some (map_first f (2 * edge.path_point_count) pts) }

/-- The body of the loop of `compute_subgraph_bounds` for one subgraph. -/
def compute_subgraph_bound (nodes : List IRFlowchartNodeData) (sg : IRFlowchartSubgraphData) :
    IRFlowchartSubgraphData :=
  match sg.subgraph_id with
  | none => sg
  | some sid =>
    match nodes.filter (fun node => node.subgraph_id == some sid) with
    | [] => sg
    | m :: ms =>
      let min_x := ms.foldl (fun a node => if node.x < a then node.x else a) m.x
      let min_y := ms.foldl (fun a node => if node.y < a then node.y else a) m.y
      let max_x := ms.foldl (fun a node => if node.x + node.width > a then node.x + node.width else a)
        (m.x + m.width)
      let max_y :=
        ms.foldl (fun a node => if node.y + node.height > a then node.y + node.height else a)
          (m.y + m.height)
      { sg with
        x := min_x - FLOWCHART_SUBGRAPH_PADDING
        y := min_y - FLOWCHART_SUBGRAPH_PADDING - FLOWCHART_SUBGRAPH_TITLE_HEIGHT
        width := (max_x - min_x) + FLOWCHART_SUBGRAPH_PADDING * 2
        height := (max_y - min_y) + FLOWCHART_SUBGRAPH_PADDING * 2 + FLOWCHART_SUBGRAPH_TITLE_HEIGHT }

def compute_subgraph_bounds (fc_state : IRFlowchartState) : IRFlowchartState :=
  { fc_state with subgraphs := fc_state.subgraphs.map (compute_subgraph_bound fc_state.nodes) }

/-- The uniform scale of the viewport fit, from the natural size and the viewport. -/
def fit_scale (natural_width natural_height available_width available_height : ℚ) : ℚ :=
  let padding : ℚ := 20
  let scale_x : ℚ :=
    if natural_width > available_width ∧ available_width > 0 then
      (available_width - padding * 2) / (natural_width - padding * 2)
    else 1
  let scale_y : ℚ :=
    if natural_height > available_height ∧ available_height > 0 then
      (available_height - padding * 2) / (natural_height - padding * 2)
    else 1
  let scale := min scale_x scale_y
  if scale < 3 / 5 then 3 / 5 else scale

/-- The part of `ir_layout_compute_flowchart` that runs when the layout is not
cached and the flowchart has a node. -/
def compute_layout (metrics : Option IRFontMetrics) (flowchart : Flowchart)
    (available_width available_height : ℚ) : Flowchart :=
  let state0 := flowchart.state
  let node_spacing := if state0.node_spacing > 0 then state0.node_spacing else FLOWCHART_NODE_SPACING
  let rank_spacing := if state0.rank_spacing > 0 then state0.rank_spacing else FLOWCHART_RANK_SPACING
  let font_size : ℚ :=
    match flowchart.style_font_size with
    | some size => if size > 0 then size else 14
    | none => 14
  let state1 := compute_flowchart_node_sizes metrics state0 font_size
  let node_layer := (assign_layers state1).node_layer
  let placed := position_nodes state1 node_layer node_spacing rank_spacing
  let edges := state1.edges.map (route_edge placed.nodes)
  let horizontal := is_horizontal state1.direction
  let padding : ℚ := 20
  let natural_width :=
    (if horizontal then placed.total_primary_size else placed.total_secondary_size) + padding * 2
  let natural_height :=
    (if horizontal then placed.total_secondary_size else placed.total_primary_size) + padding * 2
  let scale := fit_scale natural_width natural_height available_width available_height
  let move : ℚ → ℚ := if scale < 1 then fun v => padding + v * scale else fun v => v + padding
  let state2 : IRFlowchartState :=
    { state1 with
      nodes := placed.nodes.map (fun node => { node with x := move node.x, y := move node.y })
      edges := edges.map (transform_edge_path move)
      natural_width := natural_width
      natural_height := natural_height }
  let state3 := compute_subgraph_bounds state2
  { flowchart with
    state := { state3 with
      layout_computed := true
      computed_width := available_width
      computed_height := available_height
      content_width := state3.natural_width - 20 * 2
      content_height := state3.natural_height - 20 * 2
      content_offset_x := 0
      content_offset_y := 0 } }

/-- Function `ir_layout_compute_flowchart`. -/
def ir_layout_compute_flowchart (metrics : Option IRFontMetrics) (flowchart : Flowchart)
    (available_width available_height : ℚ) : Flowchart :=
  let state := flowchart.state
  if state.layout_computed ∧ state.computed_width = available_width ∧
      state.computed_height = available_height then flowchart
  else if state.nodes.length = 0 then
    { flowchart with
      state := { state with
        layout_computed := true
        computed_width := available_width
        computed_height := available_height } }
  else compute_layout metrics flowchart available_width available_height

/-! ## renderer_terminal.c: lines -/

/-- Record `TerminalCell`; an `int` is an integer, taken not to overflow. -/
structure TerminalCell where
  col : Int
  row : Int
  deriving DecidableEq

/-- Record `TerminalBuffer`: `chars[row][col]` and `colors[row][col]` as lists
of rows. -/
structure TerminalBuffer where
  chars : List (List Char)
  colors : List (List Nat)
  width : Int
  height : Int
  deriving DecidableEq

def terminal_buffer_set_char (buffer : TerminalBuffer) (col row : Int) (ch : Char) :
    TerminalBuffer :=
  if col ≥ 0 ∧ col < buffer.width ∧ row ≥ 0 ∧ row < buffer.height then
    { buffer with
      chars := buffer.chars.set row.toNat ((buffer.chars.getD row.toNat []).set col.toNat ch) }
  else buffer

/-- The loop `while (1)` of `draw_line_terminal` from the cell `(col, row)` with
the error term `err`; `fuel` bounds the number of turns, `none` meaning the
bound was reached.  Next to the buffer, the result lists the cells handed to
`terminal_buffer_set_char`, in order. -/
def draw_line_loop (c2 : TerminalCell) (dx dy sx sy : Int) (ch : Char) :
    Nat → TerminalBuffer → Int → Int → Int → Option (TerminalBuffer × List TerminalCell)
  | 0, _, _, _, _ => none
  | fuel + 1, buffer, col, row, err =>
    let buffer1 := terminal_buffer_set_char buffer col row ch
    if col = c2.col ∧ row = c2.row then some (buffer1, [{ col := col, row := row }])
    else
      let e2 := 2 * err
      let err1 := if e2 > -dy then err - dy else err
      let col1 := if e2 > -dy then col + sx else col
      let err2 := if e2 < dx then err1 + dx else err1
      let row1 := if e2 < dx then row + sy else row
      (draw_line_loop c2 dx dy sx sy ch fuel buffer1 col1 row1 err2).map
        (fun r => (r.1, { col := col, row := row } :: r.2))

/-- Function `draw_line_terminal` with the bound `fuel` on the turns of its loop
(the parameter `caps` is not used by the code). -/
def draw_line_terminal_fuel (fuel : Nat) (buffer : TerminalBuffer) (c1 c2 : TerminalCell)
    (edge_type : IRFlowchartEdgeType) : Option (TerminalBuffer × List TerminalCell) :=
  let dx : Int := (c2.col - c1.col).natAbs
  let dy : Int := (c2.row - c1.row).natAbs
  let sx : Int := if c1.col < c2.col then 1 else -1
  let sy : Int := if c1.row < c2.row then 1 else -1
  let err := dx - dy
  let ch_hz : Char := if edge_type = IRFlowchartEdgeType.DOTTED then '.' else '-'
  let ch_vt : Char := if edge_type = IRFlowchartEdgeType.DOTTED then ':' else '|'
  let ch := if dx > dy then ch_hz else ch_vt
  draw_line_loop c2 dx dy sx sy ch fuel buffer c1.col c1.row err

/-- Function `draw_line_terminal`, with one turn of the loop per column and per
row between the two cells and one more, which always suffice. -/
def draw_line_terminal (buffer : TerminalBuffer) (c1 c2 : TerminalCell)
    (edge_type : IRFlowchartEdgeType) : Option (TerminalBuffer × List TerminalCell) :=
  draw_line_terminal_fuel ((c2.col - c1.col).natAbs + (c2.row - c1.row).natAbs + 1)
    buffer c1 c2 edge_type

/-! ## Notions of the specification -/

/-- Case-insensitive "the text `s` begins with the word `kw`". -/
def begins_with_ci (kw s : List Char) : Bool := (kw.map tolower).isPrefixOf (s.map tolower)

/-- The words that open a statement of their own. -/
def statement_keywords : List (List Char) :=
  ["subgraph".toList, "end".toList, "style".toList, "classDef".toList, "class".toList,
   "linkStyle".toList]

/-- An identifier: a letter or underscore followed by letters, digits and underscores. -/
def is_identifier (s : List Char) : Bool :=
  match s with
  | [] => false
  | c :: cs => (isalpha c || c == '_') && cs.all (fun d => isalnum d || d == '_')

/-- What follows an identifier ends it: nothing, or a character that is neither
a letter, a digit nor an underscore. -/
def ends_identifier (t : List Char) : Prop :=
  t = [] ∨ ∃ d ds, t = d :: ds ∧ (isalnum d || d == '_') = false

/-- The text left after its leading blanks (space, tab), line ends (`\n`, `\r`)
and `%%` comment lines are removed. -/
def strip_leading (s : List Char) : List Char :=
  match s with
  | [] => []
  | c :: cs =>
    if c = ' ' ∨ c = '\t' ∨ c = '\n' ∨ c = '\r' then strip_leading cs
    else if c = '%' ∧ cs.head? = some '%' then strip_leading (cs.dropWhile (fun d => d != '\n'))
    else c :: cs
termination_by s.length
decreasing_by
  · simp
  · have h := (List.dropWhile_suffix (l := cs) (fun d => d != '\n')).length_le
    simp only [List.length_cons]
    omega

/-- The text has a header: after its leading blanks and comments it begins with
`flowchart` or `graph`, in any letter case. -/
def has_header (source : List Char) : Bool :=
  begins_with_ci "flowchart".toList (strip_leading source) ||
    begins_with_ci "graph".toList (strip_leading source)

mutual
/-- The ids of all node components and of all subgraph components of a tree. -/
def tree_ids : List IRComponent → List (List Char)
  | [] => []
  | c :: cs => component_ids c ++ tree_ids cs
/-- The ids of the node and subgraph components at or below one component. -/
def component_ids : IRComponent → List (List Char)
  | IRComponent.FLOWCHART_NODE d => d.node_id.toList
  | IRComponent.FLOWCHART_EDGE _ => []
  | IRComponent.FLOWCHART_SUBGRAPH d ch => d.subgraph_id.toList ++ tree_ids ch
end

mutual
/-- The records of all node components of a tree, at any depth. -/
def tree_nodes : List IRComponent → List IRFlowchartNodeData
  | [] => []
  | c :: cs => component_nodes c ++ tree_nodes cs
/-- The records of the node components at or below one component. -/
def component_nodes : IRComponent → List IRFlowchartNodeData
  | IRComponent.FLOWCHART_NODE d => [d]
  | IRComponent.FLOWCHART_EDGE _ => []
  | IRComponent.FLOWCHART_SUBGRAPH _ ch => tree_nodes ch
end

mutual
/-- The records of all subgraph components of a tree, at any depth. -/
def tree_subgraphs : List IRComponent → List IRFlowchartSubgraphData
  | [] => []
  | c :: cs => component_subgraphs c ++ tree_subgraphs cs
/-- The records of the subgraph components at or below one component. -/
def component_subgraphs : IRComponent → List IRFlowchartSubgraphData
  | IRComponent.FLOWCHART_NODE _ => []
  | IRComponent.FLOWCHART_EDGE _ => []
  | IRComponent.FLOWCHART_SUBGRAPH d ch => d :: tree_subgraphs ch
end

/-- An edge record resolves in a tree: both its ends are given, and each is an
id that `node_exists_in_children` finds in the tree. -/
def edge_resolves (cs : List IRComponent) (e : IRFlowchartEdgeData) : Prop :=
  ∃ f t, e.from_id = some f ∧ e.to_id = some t ∧
    node_exists_in_children cs f = true ∧ node_exists_in_children cs t = true

/-- What holds of the parser between statements: every edge component at the
root resolves in the tree, every pointer on the subgraph stack designates a
component of the tree, and the edge registry is still empty. -/
def parser_inv (p : FlowchartParser) : Prop :=
  (∀ e, IRComponent.FLOWCHART_EDGE e ∈ p.flowchart.children →
      edge_resolves p.flowchart.children e) ∧
    (∀ ptr ∈ p.subgraph_stack, (children_at ptr p.flowchart.children).isSome = true) ∧
    p.flowchart.state.edges = []

/-- The second tree has every id of the first, and every pointer that
designates a component of the first designates one of the second. -/
def tree_grows (cs cs1 : List IRComponent) : Prop :=
  (∀ id, node_exists_in_children cs id = true → node_exists_in_children cs1 id = true) ∧
    (∀ q, (children_at q cs).isSome = true → (children_at q cs1).isSome = true)

/-- The number of processed nodes. -/
def processed_count (l : Layering) : Nat := l.processed.count true

/-- The arrays of a layering have one entry per node, and every processed node
has a layer that is not negative. -/
def layering_ok (n : Nat) (l : Layering) : Prop :=
  l.node_layer.length = n ∧ l.processed.length = n ∧
    ∀ i, l.processed.getD i false = true → 0 ≤ l.node_layer.getD i (-1)

/-- Parse, then lay out with the estimated text width (no font metrics). -/
def parse_and_layout (source : List Char) (available_width available_height : ℚ) :
    Option Flowchart :=
  match ir_flowchart_parse source with
  | some (some flowchart) =>
    some (ir_layout_compute_flowchart none flowchart available_width available_height)
  | _ => none

/-! ## Notions of the parser -/

/-- A blank inside a line: space, tab or carriage return. -/
def is_blank (c : Char) : Bool := c == ' ' || c == '\t' || c == '\r'

/-- An unparseable line: it holds no newline, and its first character that is
not a blank is neither a letter, nor an underscore, nor `%`. -/
def unparseable_line (line : List Char) : Prop :=
  '\n' ∉ line ∧ ∃ bl c cs, line = bl ++ c :: cs ∧ bl.all is_blank = true ∧
    is_blank c = false ∧ (isalpha c || c == '_' || c == '%') = false

/-- The node ids of all node components of a tree, at any depth. -/
def tree_node_ids (cs : List IRComponent) : List (Option (List Char)) :=
  (tree_nodes cs).map (fun d => d.node_id)

/-- The elementary changes that the parser makes to the component tree: a node
with an id that `node_exists_in_children` does not find in the tree is added
under some parent, an edge is added at the root, an empty subgraph is added
under some parent, or the direction of a subgraph is set. -/
inductive tree_step : List IRComponent → List IRComponent → Prop
  | add_node (path : List Nat) (id : List Char) (shape : IRFlowchartShape)
      (label : Option (List Char)) (cs : List IRComponent)
      (hnew : node_exists_in_children cs id = false) (hid : c_str id = id) :
      tree_step cs (add_child_at path (ir_flowchart_node (some id) shape label) cs)
  | add_edge (e : IRFlowchartEdgeData) (cs : List IRComponent) :
      tree_step cs (add_child_at [] (IRComponent.FLOWCHART_EDGE e) cs)
  | add_subgraph (path : List Nat) (d : IRFlowchartSubgraphData) (cs : List IRComponent) :
      tree_step cs (add_child_at path (IRComponent.FLOWCHART_SUBGRAPH d []) cs)
  | set_direction (path : List Nat) (dir : IRFlowchartDirection) (cs : List IRComponent) :
      tree_step cs (set_direction_at path dir cs)

/-- A sequence of elementary changes. -/
def tree_steps : List IRComponent → List IRComponent → Prop :=
  Relation.ReflTransGen tree_step

/-- The eleven shape forms: the opening text, the closing text and the shape. -/
def shape_forms : List (List Char × List Char × IRFlowchartShape) :=
  [("[".toList, "]".toList, IRFlowchartShape.RECTANGLE),
   ("(".toList, ")".toList, IRFlowchartShape.ROUNDED),
   ("([".toList, "])".toList, IRFlowchartShape.STADIUM),
   ("\x7b".toList, "\x7d".toList, IRFlowchartShape.DIAMOND),
   ("((".toList, "))".toList, IRFlowchartShape.CIRCLE),
   ("\x7b\x7b".toList, "\x7d\x7d".toList, IRFlowchartShape.HEXAGON),
   ("[/".toList, "/]".toList, IRFlowchartShape.PARALLELOGRAM),
   ("[/".toList, "\\]".toList, IRFlowchartShape.TRAPEZOID),
   ("[(".toList, ")]".toList, IRFlowchartShape.CYLINDER),
   ("[[".toList, "]]".toList, IRFlowchartShape.SUBROUTINE),
   (">".toList, "]".toList, IRFlowchartShape.ASYMMETRIC)]

/-- A plain character of a label: no bracket, no `<` or `>`, no slash or
backslash, no newline, and not the NUL that ends a C string. -/
def is_label_char (c : Char) : Bool :=
  !("[](){}<>/\\\n".toList.contains c) && c != NUL

/-- A label text: not empty, made of plain characters, with no white space at
its start or at its end. -/
def is_label_text (t : List Char) : Bool :=
  !t.isEmpty && t.all is_label_char && !isspace (t.headD 'x') && !isspace (t.getLastD 'x')

/-! ## Notions of the layout -/

/-- The value of `node_spacing` in `ir_layout_compute_flowchart`. -/
def layout_node_spacing (state : IRFlowchartState) : ℚ :=
  if state.node_spacing > 0 then state.node_spacing else FLOWCHART_NODE_SPACING

/-- The value of `rank_spacing` in `ir_layout_compute_flowchart`. -/
def layout_rank_spacing (state : IRFlowchartState) : ℚ :=
  if state.rank_spacing > 0 then state.rank_spacing else FLOWCHART_RANK_SPACING

/-- The value of `font_size` in `ir_layout_compute_flowchart`. -/
def layout_font_size (flowchart : Flowchart) : ℚ :=
  match flowchart.style_font_size with
  | some size => if size > 0 then size else 14
  | none => 14

/-- The state after Phase 1 (sizing). -/
def layout_sized (metrics : Option IRFontMetrics) (flowchart : Flowchart) : IRFlowchartState :=
  compute_flowchart_node_sizes metrics flowchart.state (layout_font_size flowchart)

/-- The array `node_layer` after Phase 2 (layering). -/
def layout_layers (metrics : Option IRFontMetrics) (flowchart : Flowchart) : List Int :=
  (assign_layers (layout_sized metrics flowchart)).node_layer

/-- The nodes and extents after Phase 4 (positioning), before the viewport fit. -/
def layout_placed (metrics : Option IRFontMetrics) (flowchart : Flowchart) : Positioning :=
  position_nodes (layout_sized metrics flowchart) (layout_layers metrics flowchart)
    (layout_node_spacing flowchart.state) (layout_rank_spacing flowchart.state)

/-- The edges after Phase 5 (routing), before the viewport fit. -/
def layout_routed (metrics : Option IRFontMetrics) (flowchart : Flowchart) :
    List IRFlowchartEdgeData :=
  flowchart.state.edges.map (route_edge (layout_placed metrics flowchart).nodes)

/-- The value of `natural_width` in `ir_layout_compute_flowchart`, outer padding included. -/
def layout_natural_width (metrics : Option IRFontMetrics) (flowchart : Flowchart) : ℚ :=
  (if is_horizontal flowchart.state.direction then (layout_placed metrics flowchart).total_primary_size
   else (layout_placed metrics flowchart).total_secondary_size) + 20 * 2

/-- The value of `natural_height` in `ir_layout_compute_flowchart`, outer padding included. -/
def layout_natural_height (metrics : Option IRFontMetrics) (flowchart : Flowchart) : ℚ :=
  (if is_horizontal flowchart.state.direction then (layout_placed metrics flowchart).total_secondary_size
   else (layout_placed metrics flowchart).total_primary_size) + 20 * 2

/-- The value of `scale` in `ir_layout_compute_flowchart` after the clamp to 0.6. -/
def layout_scale (metrics : Option IRFontMetrics) (flowchart : Flowchart)
    (available_width available_height : ℚ) : ℚ :=
  fit_scale (layout_natural_width metrics flowchart) (layout_natural_height metrics flowchart)
    available_width available_height

/-- The move of one coordinate by the viewport fit. -/
def layout_move (scale : ℚ) : ℚ → ℚ :=
  if scale < 1 then fun v => 20 + v * scale else fun v => v + 20

/-- The value of `max_node_width` in the positioning phase. -/
def max_node_width (nodes : List IRFlowchartNodeData) : ℚ :=
  nodes.foldl (fun m node => max m node.width) FLOWCHART_NODE_MIN_WIDTH

/-- The value of `max_node_height` in the positioning phase. -/
def max_node_height (nodes : List IRFlowchartNodeData) : ℚ :=
  nodes.foldl (fun m node => max m node.height) FLOWCHART_NODE_MIN_HEIGHT

/-- The primary coordinate of a layer: the layer index times the slot size,
counted from the last layer when the direction is reversed. -/
def primary_coord (reversed : Bool) (max_layer layer : Int) (slot : ℚ) : ℚ :=
  if reversed then ((max_layer - layer : Int) : ℚ) * slot else (layer : ℚ) * slot

/-- The value of `nodes_in_this_layer` in the positioning loop. -/
def nodes_in_this_layer (nodes : List IRFlowchartNodeData) (node_layer : List Int)
    (node : IRFlowchartNodeData) (layer : Int) : Nat :=
  ((List.range nodes.length).filter (fun j =>
    node_layer.getD j (-1) == layer &&
      match nodes.get? j with
      | some other => same_subgraph node other
      | none => false)).length

/-- What the positioning loop gives a node of index `i` and layer `layer`: the
coordinates are not negative, and for a node outside every subgraph the
coordinate along the primary axis is the one of its layer, centred in the slot. -/
def placed_ok (state : IRFlowchartState) (node_layer : List Int) (rs W H : ℚ) (i : Nat)
    (node : IRFlowchartNodeData) (x y : ℚ) : Prop :=
  0 ≤ x ∧ 0 ≤ y ∧
    (node.subgraph_id = none →
      (is_horizontal state.direction = true →
        x = primary_coord (is_reversed state.direction) (max_layer_of node_layer)
              (node_layer.getD i (-1)) (W + rs) + (W - node.width) / 2) ∧
      (is_horizontal state.direction = false →
        y = primary_coord (is_reversed state.direction) (max_layer_of node_layer)
              (node_layer.getD i (-1)) (H + rs) + (H - node.height) / 2))

/-- The size floor and the squaring of circles and diamonds. -/
def size_ok (node : IRFlowchartNodeData) : Prop :=
  40 ≤ node.width ∧ 24 ≤ node.height ∧
    ((node.shape = IRFlowchartShape.CIRCLE ∨ node.shape = IRFlowchartShape.DIAMOND) →
      node.width = node.height)

/-- The flowchart of direction BT that the builder makes of the nodes A and B
and the edge A to B, finalized. -/
def plain_flowchart : Flowchart :=
  ir_flowchart_finalize
    (ir_add_child
      (ir_add_child
        (ir_add_child (ir_flowchart IRFlowchartDirection.BT) []
          (ir_flowchart_node (some "A".toList) IRFlowchartShape.RECTANGLE (some "A".toList)))
        [] (ir_flowchart_node (some "B".toList) IRFlowchartShape.RECTANGLE (some "B".toList)))
      [] (ir_flowchart_edge (some "A".toList) (some "B".toList) IRFlowchartEdgeType.ARROW))

/-- The box `(x, y, width, height)` is the union bounding box of the rectangles
of `members`, widened by 40 on the left, on the right and at the bottom, and by
40 + 30 at the top. -/
def is_padded_union_box (members : List IRFlowchartNodeData) (x y width height : ℚ) : Prop :=
  ∃ min_left min_top max_right max_bottom : ℚ,
    ((∀ m ∈ members, min_left ≤ m.x) ∧ ∃ m ∈ members, m.x = min_left) ∧
    ((∀ m ∈ members, min_top ≤ m.y) ∧ ∃ m ∈ members, m.y = min_top) ∧
    ((∀ m ∈ members, m.x + m.width ≤ max_right) ∧ ∃ m ∈ members, m.x + m.width = max_right) ∧
    ((∀ m ∈ members, m.y + m.height ≤ max_bottom) ∧
      ∃ m ∈ members, m.y + m.height = max_bottom) ∧
    x = min_left - 40 ∧ y = min_top - 70 ∧
    width = (max_right - min_left) + 80 ∧ height = (max_bottom - min_top) + 110

/-- The rectangle of a node lies inside the box of a subgraph. -/
def node_inside (m : IRFlowchartNodeData) (sg : IRFlowchartSubgraphData) : Prop :=
  sg.x ≤ m.x ∧ sg.y ≤ m.y ∧ m.x + m.width ≤ sg.x + sg.width ∧ m.y + m.height ≤ sg.y + sg.height

/-- A flowchart put together with the builder: the circle A and the diamond B,
both members of the subgraph `s`, the rectangle C outside it, and the edges A to
B and B to C. -/
def sample_flowchart : Flowchart :=
  { state := { ir_flowchart_create_state with
      nodes :=
        [{ ir_flowchart_node_data_create (some "A".toList) IRFlowchartShape.CIRCLE
             (some "Start".toList) with subgraph_id := some "s".toList },
         { ir_flowchart_node_data_create (some "B".toList) IRFlowchartShape.DIAMOND
             (some "Choice".toList) with subgraph_id := some "s".toList },
         ir_flowchart_node_data_create (some "C".toList) IRFlowchartShape.RECTANGLE
           (some "End".toList)]
      edges :=
        [ir_flowchart_edge_data_create (some "A".toList) (some "B".toList),
         ir_flowchart_edge_data_create (some "B".toList) (some "C".toList)]
      subgraphs := [ir_flowchart_subgraph_data_create (some "s".toList) (some "Group".toList)] } }

/-! ## Notions of the statements -/

mutual
/-- The records of all edge components of a tree, at any depth. -/
def tree_edges : List IRComponent → List IRFlowchartEdgeData
  | [] => []
  | c :: cs => component_edges c ++ tree_edges cs
/-- The records of the edge components at or below one component. -/
def component_edges : IRComponent → List IRFlowchartEdgeData
  | IRComponent.FLOWCHART_NODE _ => []
  | IRComponent.FLOWCHART_EDGE e => [e]
  | IRComponent.FLOWCHART_SUBGRAPH _ ch => tree_edges ch
end

/-- The edge record of a component that is an edge. -/
def edge_record : IRComponent → Option IRFlowchartEdgeData
  | IRComponent.FLOWCHART_EDGE e => some e
  | _ => none

/-- The records of the edge components that are direct children of the root,
in the order of the children. -/
def root_edges (cs : List IRComponent) : List IRFlowchartEdgeData := cs.filterMap edge_record

/-- No subgraph of the tree holds an edge component, at any depth. -/
def edges_at_root (cs : List IRComponent) : Prop :=
  ∀ d ch, IRComponent.FLOWCHART_SUBGRAPH d ch ∈ cs → tree_edges ch = []

/-- The three spellings of a line break, in lower case. -/
def line_break_spellings : List (List Char) :=
  ["<br/>".toList, "<br>".toList, "<br />".toList]

/-- A piece of a label text: a character other than `<`, a line break in one of
its three spellings (in any letter case), or another tag `<...>` whose inner
part holds no `>`. -/
inductive LabelPiece where
  | plain (c : Char) (h : (c == '<') = false)
  | line_break (spelling : List Char) (h : spelling.map tolower ∈ line_break_spellings)
  | tag (inner : List Char) (h1 : '>' ∉ inner)
      (h2 : ('<' :: (inner ++ ['>'])).map tolower ∉ line_break_spellings)

/-- The piece as it is written. -/
def LabelPiece.written : LabelPiece → List Char
  | LabelPiece.plain c _ => [c]
  | LabelPiece.line_break spelling _ => spelling
  | LabelPiece.tag inner _ _ => '<' :: (inner ++ ['>'])

/-- The piece after HTML normalization: a line break is one newline, another
tag is removed, a character stays. -/
def LabelPiece.normalized : LabelPiece → List Char
  | LabelPiece.plain c _ => [c]
  | LabelPiece.line_break _ _ => ['\n']
  | LabelPiece.tag _ _ _ => []

/-- The parts `(opening, closing, shape)` of the shape forms whose text is read
by `parse_text_in_brackets`. -/
def bracket_text_forms : List (List Char × List Char × IRFlowchartShape) :=
  [("[".toList, "]".toList, IRFlowchartShape.RECTANGLE),
   ("(".toList, ")".toList, IRFlowchartShape.ROUNDED),
   ("([".toList, "])".toList, IRFlowchartShape.STADIUM),
   ("\x7b".toList, "\x7d".toList, IRFlowchartShape.DIAMOND),
   ("((".toList, "))".toList, IRFlowchartShape.CIRCLE),
   ("\x7b\x7b".toList, "\x7d\x7d".toList, IRFlowchartShape.HEXAGON),
   ("[(".toList, ")]".toList, IRFlowchartShape.CYLINDER),
   ("[[".toList, "]]".toList, IRFlowchartShape.SUBROUTINE)]

/-- The parts of the shape forms whose text `parse_node_definition` reads itself. -/
def raw_text_forms : List (List Char × List Char × IRFlowchartShape) :=
  [("[/".toList, "/]".toList, IRFlowchartShape.PARALLELOGRAM),
   ("[/".toList, "\\]".toList, IRFlowchartShape.TRAPEZOID),
   (">".toList, "]".toList, IRFlowchartShape.ASYMMETRIC)]

/-- The shape and the label of the registered nodes after parsing
`flowchart TB`, newline, `A`, the opening, the text and the closing (no node
when the parser returns no flowchart). -/
def parsed_labels (opening text closing : List Char) :
    List (IRFlowchartShape × Option (List Char)) :=
  match ir_flowchart_parse ("flowchart TB\nA".toList ++ opening ++ text ++ closing) with
  | some (some fc) => fc.state.nodes.map (fun n => (n.shape, n.label))
  | _ => []

/-- The edge operators with the edge type of each. -/
def edge_operators : List (List Char × IRFlowchartEdgeType) :=
  [("<-->".toList, IRFlowchartEdgeType.BIDIRECTIONAL),
   ("-.->".toList, IRFlowchartEdgeType.DOTTED),
   ("-..->".toList, IRFlowchartEdgeType.DOTTED),
   ("==>".toList, IRFlowchartEdgeType.THICK),
   ("-->".toList, IRFlowchartEdgeType.ARROW),
   ("---".toList, IRFlowchartEdgeType.OPEN)]

/-- A text of spaces and tabs, possibly empty. -/
def is_blanks (s : List Char) : Bool := s.all (fun c => c == ' ' || c == '\t')

/-- The text `|label|` written after an operator; nothing when there is no label. -/
def pipe_text : Option (List Char) → List Char
  | some l => '|' :: (l ++ ['|'])
  | none => []

/-- The text of a `|label|`: it holds no `|`, and no NUL as it becomes a C string. -/
def is_pipe_label (label : Option (List Char)) : Bool :=
  match label with
  | some l => !l.contains '|' && !l.contains NUL
  | none => true

/-- The record of the node that the parser creates for an identifier met in an
edge statement: a rectangle labelled with the identifier. -/
def implicit_node (id : List Char) : IRFlowchartNodeData :=
  { node_id := some id, shape := IRFlowchartShape.RECTANGLE, label := some id,
    fill_color := 0xFFFFFFFF, stroke_color := 0x000000FF, stroke_width := 1 }

/-- The record of an edge as the parser creates it. -/
def parsed_edge (from_id to_id : List Char) (type : IRFlowchartEdgeType)
    (label : Option (List Char)) : IRFlowchartEdgeData :=
  { from_id := some from_id, to_id := some to_id, label := label, type := type,
    start_marker := IRFlowchartMarker.NONE, end_marker := IRFlowchartMarker.ARROW }

/-- One link of a chain: the blanks before the operator, the operator with its
edge type, the label written as `|label|` directly after it (if any), the
blanks before the target and the target identifier. -/
structure ChainLink where
  before : List Char
  operator : List Char × IRFlowchartEdgeType
  label : Option (List Char)
  after : List Char
  id : List Char

/-- The link as it is written. -/
def ChainLink.written (l : ChainLink) : List Char :=
  l.before ++ (l.operator.1 ++ (pipe_text l.label ++ (l.after ++ l.id)))

/-- A well-formed link. -/
def ChainLink.ok (l : ChainLink) : Bool :=
  is_blanks l.before && decide (l.operator ∈ edge_operators) && is_pipe_label l.label &&
    is_blanks l.after && is_identifier l.id

/-- The text of the links of a chain, one after the other. -/
def chain_text : List ChainLink → List Char
  | [] => []
  | l :: ls => l.written ++ chain_text ls

/-- The edges of a chain that starts at `from_id`, in the order of the links:
the target of a link is the source of the next one. -/
def chain_edges (from_id : List Char) : List ChainLink → List IRFlowchartEdgeData
  | [] => []
  | l :: ls => parsed_edge from_id l.id l.operator.2 l.label :: chain_edges l.id ls

/-- The components that a chain starting at `from_id` adds to the root: for
every link the target node, then the edge. -/
def chain_components (from_id : List Char) : List ChainLink → List IRComponent
  | [] => []
  | l :: ls =>
    IRComponent.FLOWCHART_NODE (implicit_node l.id) ::
      IRComponent.FLOWCHART_EDGE (parsed_edge from_id l.id l.operator.2 l.label) ::
      chain_components l.id ls

/-- The node record of a component that is a node. -/
def node_record : IRComponent → Option IRFlowchartNodeData
  | IRComponent.FLOWCHART_NODE d => some d
  | _ => none

/-- The records of the node components that are direct children of the root,
in the order of the children. -/
def root_nodes (cs : List IRComponent) : List IRFlowchartNodeData := cs.filterMap node_record

/-- An inline label text as written between `--` and `-->`: not empty, without
dash or newline, and not opening with a blank, `=`, `.` or `>`. -/
def is_inline_label (t : List Char) : Bool :=
  !t.isEmpty && t.all (fun c => c != '-' && c != '\n') &&
    !(" \t=.>".toList.contains (t.headD 'x'))

/-- The direction words with the direction of each. -/
def direction_words : List (List Char × IRFlowchartDirection) :=
  [("TB".toList, IRFlowchartDirection.TB), ("TD".toList, IRFlowchartDirection.TB),
   ("LR".toList, IRFlowchartDirection.LR), ("BT".toList, IRFlowchartDirection.BT),
   ("RL".toList, IRFlowchartDirection.RL)]

/-- The text `w` spells the word `word`, in any letter case. -/
def spells (w word : List Char) : Bool := w.map tolower == word.map tolower

/-- The style that `ir_flowchart_node_data_create` gives a node: white fill,
black stroke of width 1. -/
def has_default_style (n : IRFlowchartNodeData) : Prop :=
  n.fill_color = 0xFFFFFFFF ∧ n.stroke_color = 0x000000FF ∧ n.stroke_width = 1

/-- A flowchart of direction `d` put together with the builder: the subgraph
`s`, whose direction is the one `ir_flowchart_subgraph_data_create` gives it
unless `declared` holds one, the rectangles A and B, both members of `s`, and
the edge A to B. -/
def subgraph_flowchart (d : IRFlowchartDirection) (declared : Option IRFlowchartDirection) :
    Flowchart :=
  let sg := ir_flowchart_subgraph_data_create (some "s".toList) (some "s".toList)
  { state := { ir_flowchart_create_state with
      direction := d
      nodes :=
        [{ ir_flowchart_node_data_create (some "A".toList) IRFlowchartShape.RECTANGLE
             (some "A".toList) with subgraph_id := some "s".toList },
         { ir_flowchart_node_data_create (some "B".toList) IRFlowchartShape.RECTANGLE
             (some "B".toList) with subgraph_id := some "s".toList }]
      edges := [ir_flowchart_edge_data_create (some "A".toList) (some "B".toList)]
      subgraphs :=
        [match declared with
         | some dir => { sg with direction := dir }
         | none => sg] } }

/-- The id and the position of every registered node. -/
def node_positions (flowchart : Flowchart) : List (Option (List Char) × ℚ × ℚ) :=
  flowchart.state.nodes.map (fun n => (n.node_id, n.x, n.y))

/-- A parser state inside the open subgraph `outer`, whose direction is BT, of
a flowchart of direction LR; the cursor is after the keyword of the header
`subgraph inner`, which a line `direction Rl` follows. -/
def parser_in_subgraph : FlowchartParser :=
  { rest := " inner\ndirection Rl\nA-->B".toList
    direction := IRFlowchartDirection.LR
    flowchart :=
      { state := (ir_flowchart IRFlowchartDirection.LR).state
        children :=
          [IRComponent.FLOWCHART_SUBGRAPH
            { ir_flowchart_subgraph_data_create (some "outer".toList) (some "outer".toList) with
              direction := IRFlowchartDirection.BT } []] }
    subgraph_stack := [[0]] }


/-! ## Notions of the registries, the layers and the lines -/

/-- An edge arrives at node `i` from a node of layer `k`: the edge names the id
of node `i` as its target, and the first registered node with the id of its
source, which is the one the layering looks at, has layer `k`. -/
def has_source_in_layer (state : IRFlowchartState) (node_layer : List Int) (i : Nat) (k : Int) :
    Prop :=
  ∃ (node : IRFlowchartNodeData) (id : List Char) (edge : IRFlowchartEdgeData) (j : Nat),
    state.nodes.get? i = some node ∧ node.node_id = some id ∧ edge ∈ state.edges ∧
    edge.to_id = some id ∧ find_source_index state edge.from_id = some j ∧
    node_layer.getD j (-1) = k

/-- A node not yet processed has no layer, and every node of a layer `k > 0` has
an edge arriving from a node of layer `k - 1`. -/
def layering_chained (state : IRFlowchartState) (l : Layering) : Prop :=
  (∀ i, l.processed.getD i false = false → l.node_layer.getD i (-1) = -1) ∧
  (∀ i k, l.node_layer.getD i (-1) = k → 0 < k →
    has_source_in_layer state l.node_layer i (k - 1))

/-- The number of the nodes registered before node `i` that have its layer. -/
def rank_in_layer (node_layer : List Int) (i : Nat) : Nat :=
  (node_layer.take i).count (node_layer.getD i (-1))

/-- The corner `(x, y)` of the slot formulas for a node of width `w` and height
`h` that is number `pos` of the `n` nodes of its layer `layer`: along the axis
of the layers the layer index times the slot size (counted from the last layer
when the direction is reversed), across it the slots of the layer centred among
`max_nodes_in_layer` slots, the node centred in its slot of `W` x `H`. -/
def plain_position (d : IRFlowchartDirection) (node_layer : List Int) (ns rs W H : ℚ)
    (layer : Int) (n pos : Nat) (w h : ℚ) : ℚ × ℚ :=
  let slack : ℚ := (((max_nodes_in_layer node_layer : Int) - (n : Int) : Int) : ℚ)
  if is_horizontal d then
    (primary_coord (is_reversed d) (max_layer_of node_layer) layer (W + rs) + (W - w) / 2,
     slack * (H + ns) / 2 + (pos : ℚ) * (H + ns) + (H - h) / 2)
  else
    (slack * (W + ns) / 2 + (pos : ℚ) * (W + ns) + (W - w) / 2,
     primary_coord (is_reversed d) (max_layer_of node_layer) layer (H + rs) + (H - h) / 2)

/-- The flowchart of direction `d` that the builder makes of the rectangle A,
the diamond B and the rectangle C, with the edges A to B and A to C, finalized:
A is alone in layer 0, B and C share layer 1. -/
def fork_flowchart (d : IRFlowchartDirection) : Flowchart :=
  ir_flowchart_finalize
    (ir_add_child
      (ir_add_child
        (ir_add_child
          (ir_add_child
            (ir_add_child (ir_flowchart d) []
              (ir_flowchart_node (some "A".toList) IRFlowchartShape.RECTANGLE
                (some "Start".toList)))
            [] (ir_flowchart_node (some "B".toList) IRFlowchartShape.DIAMOND
              (some "Left".toList)))
          [] (ir_flowchart_node (some "C".toList) IRFlowchartShape.RECTANGLE
            (some "Right branch".toList)))
        [] (ir_flowchart_edge (some "A".toList) (some "B".toList) IRFlowchartEdgeType.ARROW))
      [] (ir_flowchart_edge (some "A".toList) (some "C".toList) IRFlowchartEdgeType.ARROW))

/-- A node record with its position cleared. -/
def node_unplaced (n : IRFlowchartNodeData) : IRFlowchartNodeData := { n with x := 0, y := 0 }

/-- The two ends of an edge. -/
def edge_ends (e : IRFlowchartEdgeData) : Option (List Char) × Option (List Char) :=
  (e.from_id, e.to_id)

/-- The id and the direction of a subgraph. -/
def subgraph_key (sg : IRFlowchartSubgraphData) : Option (List Char) × IRFlowchartDirection :=
  (sg.subgraph_id, sg.direction)

/-- Every edge one of whose ends does not resolve to a registered node has no
path points, as is the case for the edges that `ir_flowchart_edge_data_create`
makes. -/
def unrouted_edges_have_no_path (state : IRFlowchartState) : Prop :=
  ∀ e ∈ state.edges,
    (find_last_node state.nodes e.from_id = none ∨ find_last_node state.nodes e.to_id = none) →
      e.path_points = none

/-- The value of `pos` in the positioning loop for the node of index `i`: for a
node of a subgraph with a direction of its own the number of the earlier nodes
of its layer in the same subgraph, else the counter of its layer. -/
def position_in_layer (state : IRFlowchartState) (node_layer : List Int)
    (nodes : List IRFlowchartNodeData) (layer_position : List Nat) (i : Nat)
    (node : IRFlowchartNodeData) : Nat :=
  if node_in_directional_subgraph state node then
    ((List.range i).filter (fun j =>
      node_layer.getD j (-1) == node_layer.getD i (-1) &&
        match nodes.get? j with
        | some other =>
          (match other.subgraph_id, node.subgraph_id with
           | some x, some y => x == y
           | _, _ => false)
        | none => false)).length
  else layer_position.getD (node_layer.getD i (-1)).toNat 0

/-- An edge record with its path cleared. -/
def edge_unrouted (e : IRFlowchartEdgeData) : IRFlowchartEdgeData :=
  { e with path_point_count := 0, path_points := none }

/-! ## flowchart_layout.c: the node geometry with the rounding of `float` -/

/-- Nearest integer to `q`, a tie going to the even one. -/
def round_half_even (q : ℚ) : Int :=
  if q - (⌊q⌋ : ℚ) < 1 / 2 then ⌊q⌋
  else if 1 / 2 < q - (⌊q⌋ : ℚ) then ⌊q⌋ + 1
  else if ⌊q⌋ % 2 = 0 then ⌊q⌋ else ⌊q⌋ + 1

/-- The number of halvings that take `n` below 2, at most `fuel` of them. -/
def halvings : Nat → Nat → Nat
  | 0, _ => 0
  | fuel + 1, n => if 2 ≤ n then halvings fuel (n / 2) + 1 else 0

/-- The binary exponent of `x ≠ 0`: the `e` with `2 ^ e ≤ |x| < 2 ^ (e + 1)`. -/
def binary_exponent (x : ℚ) : Int :=
  let e0 : Int := (halvings x.num.natAbs x.num.natAbs : Int) - (halvings x.den x.den : Int)
  if (2 : ℚ) ^ e0 ≤ |x| then e0 else e0 - 1

/-- The `float` nearest to `x` (IEEE 754 binary32: 24 significant bits, a tie
going to the even significand), the range of the exponent taken as unbounded. -/
def f32_round (x : ℚ) : ℚ :=
  if x = 0 then 0
  else (round_half_even (x / (2 : ℚ) ^ (binary_exponent x - 23)) : ℚ) *
    (2 : ℚ) ^ (binary_exponent x - 23)

/-- The body of the loop of `compute_flowchart_node_sizes` for one node, with
`fl` applied to the result of every `float` operation, to every integer
converted to `float` and to every constant that is not an integer. -/
def compute_node_size_fl (fl : ℚ → ℚ) (metrics : Option IRFontMetrics) (font_size : ℚ)
    (node : IRFlowchartNodeData) : IRFlowchartNodeData :=
  let measured : ℚ × ℚ :=
    match node.label with
    | some (c :: cs) =>
      match metrics with
      | some m =>
        match m.get_text_width with
        | some f => (f (c :: cs) (c :: cs).length font_size, m.get_font_height font_size)
        | none =>
          (fl (fl (fl ((c :: cs).length : ℚ) * font_size) * fl (3 / 5)),
            fl (font_size * fl (6 / 5)))
      | none =>
        (fl (fl (fl ((c :: cs).length : ℚ) * font_size) * fl (3 / 5)),
          fl (font_size * fl (6 / 5)))
    | _ => (50, fl (font_size * fl (6 / 5)))
  let label_width := measured.1
  let label_height := measured.2
  let h_padding : ℚ :=
    if node.shape = IRFlowchartShape.DIAMOND then fl (32 * 2)
    else if node.shape = IRFlowchartShape.CIRCLE ∨ node.shape = IRFlowchartShape.HEXAGON then
      fl (32 * (3 / 2))
    else 32
  let v_padding : ℚ :=
    if node.shape = IRFlowchartShape.DIAMOND then fl (20 * 2)
    else if node.shape = IRFlowchartShape.CIRCLE ∨ node.shape = IRFlowchartShape.HEXAGON then
      fl (20 * (3 / 2))
    else 20
  let width := max FLOWCHART_NODE_MIN_WIDTH (fl (label_width + h_padding))
  let height := max FLOWCHART_NODE_MIN_HEIGHT (fl (label_height + v_padding))
  if node.shape = IRFlowchartShape.CIRCLE ∨ node.shape = IRFlowchartShape.DIAMOND then
    { node with width := max width height, height := max width height }
  else { node with width := width, height := height }

/-- The body of the positioning loop (Phase 4) for the node of index `i`, with
`fl` applied to the result of every `float` operation and to every integer
converted to `float`. -/
def position_node_fl (fl : ℚ → ℚ) (state : IRFlowchartState) (node_layer : List Int)
    (node_spacing rank_spacing max_node_width max_node_height : ℚ) (acc : Positioning) (i : Nat) :
    Positioning :=
  match acc.nodes.get? i with
  | none => acc
  | some node =>
    let layer := node_layer.getD i (-1)
    let max_layer := max_layer_of node_layer
    let in_dir := node_in_directional_subgraph state node
    let pos : Nat :=
      if in_dir then
        ((List.range i).filter (fun j =>
          node_layer.getD j (-1) == layer &&
            match acc.nodes.get? j with
            | some other =>
              (match other.subgraph_id, node.subgraph_id with
               | some x, some y => x == y
               | _, _ => false)
            | none => false)).length
      else acc.layer_position.getD layer.toNat 0
    let layer_position :=
      if in_dir then acc.layer_position
      else acc.layer_position.set layer.toNat (acc.layer_position.getD layer.toNat 0 + 1)
    let nodes_in_this_layer : Nat :=
      ((List.range acc.nodes.length).filter (fun j =>
        node_layer.getD j (-1) == layer &&
          match acc.nodes.get? j with
          | some other => same_subgraph node other
          | none => false)).length
    let node_horizontal := is_horizontal (node_direction state node)
    let node_reversed := is_reversed (node_direction state node)
    let slack : ℚ :=
      fl (((max_nodes_in_layer node_layer : Int) - (nodes_in_this_layer : Int) : Int) : ℚ)
    let layer_start : ℚ :=
      if node_horizontal then fl (fl (slack * fl (max_node_height + node_spacing)) / 2)
      else fl (fl (slack * fl (max_node_width + node_spacing)) / 2)
    let placed : IRFlowchartNodeData :=
      if node_horizontal then
        let primary : ℚ :=
          if node_reversed then
            fl (fl ((max_layer - layer : Int) : ℚ) * fl (max_node_width + rank_spacing))
          else fl (fl (layer : ℚ) * fl (max_node_width + rank_spacing))
        let secondary : ℚ :=
          fl (layer_start + fl (fl (pos : ℚ) * fl (max_node_height + node_spacing)))
        { node with
          x := fl (primary + fl (fl (max_node_width - node.width) / 2))
          y := fl (secondary + fl (fl (max_node_height - node.height) / 2)) }
      else
        let primary : ℚ :=
          if node_reversed then
            fl (fl ((max_layer - layer : Int) : ℚ) * fl (max_node_height + rank_spacing))
          else fl (fl (layer : ℚ) * fl (max_node_height + rank_spacing))
        let secondary : ℚ :=
          fl (layer_start + fl (fl (pos : ℚ) * fl (max_node_width + node_spacing)))
        { node with
          x := fl (secondary + fl (fl (max_node_width - node.width) / 2))
          y := fl (primary + fl (fl (max_node_height - node.height) / 2)) }
    let horizontal := is_horizontal state.direction
    { nodes := acc.nodes.set i placed
      layer_position := layer_position
      total_primary_size := max acc.total_primary_size
        (if horizontal then fl (placed.x + placed.width) else fl (placed.y + placed.height))
      total_secondary_size := max acc.total_secondary_size
        (if horizontal then fl (placed.y + placed.height) else fl (placed.x + placed.width)) }

/-- Phase 4 with the rounding `fl`: the positioning loop over all nodes. -/
def position_nodes_fl (fl : ℚ → ℚ) (state : IRFlowchartState) (node_layer : List Int)
    (node_spacing rank_spacing : ℚ) : Positioning :=
  let max_node_width := state.nodes.foldl (fun m node => max m node.width) FLOWCHART_NODE_MIN_WIDTH
  let max_node_height :=
    state.nodes.foldl (fun m node => max m node.height) FLOWCHART_NODE_MIN_HEIGHT
  (List.range state.nodes.length).foldl
    (position_node_fl fl state node_layer node_spacing rank_spacing max_node_width
      max_node_height)
    { nodes := state.nodes
      layer_position := List.replicate ((max_layer_of node_layer).toNat + 1) 0 }

/-- The uniform scale of the viewport fit with the rounding `fl`. -/
def fit_scale_fl (fl : ℚ → ℚ)
    (natural_width natural_height available_width available_height : ℚ) : ℚ :=
  let padding : ℚ := 20
  let scale_x : ℚ :=
    if natural_width > available_width ∧ available_width > 0 then
      fl (fl (available_width - fl (padding * 2)) / fl (natural_width - fl (padding * 2)))
    else 1
  let scale_y : ℚ :=
    if natural_height > available_height ∧ available_height > 0 then
      fl (fl (available_height - fl (padding * 2)) / fl (natural_height - fl (padding * 2)))
    else 1
  let scale := min scale_x scale_y
  if scale < fl (3 / 5) then fl (3 / 5) else scale

/-- The state after Phase 1 (sizing) with the rounding `fl`. -/
def layout_sized_fl (fl : ℚ → ℚ) (metrics : Option IRFontMetrics) (flowchart : Flowchart) :
    IRFlowchartState :=
  { flowchart.state with
    nodes := flowchart.state.nodes.map
      (compute_node_size_fl fl metrics (layout_font_size flowchart)) }

/-- The nodes and extents after Phase 4 (positioning) with the rounding `fl`. -/
def layout_placed_fl (fl : ℚ → ℚ) (metrics : Option IRFontMetrics) (flowchart : Flowchart) :
    Positioning :=
  position_nodes_fl fl (layout_sized_fl fl metrics flowchart)
    (assign_layers (layout_sized_fl fl metrics flowchart)).node_layer
    (layout_node_spacing flowchart.state) (layout_rank_spacing flowchart.state)

/-- The value of `natural_width` with the rounding `fl`, outer padding included. -/
def layout_natural_width_fl (fl : ℚ → ℚ) (metrics : Option IRFontMetrics)
    (flowchart : Flowchart) : ℚ :=
  fl ((if is_horizontal flowchart.state.direction then
        (layout_placed_fl fl metrics flowchart).total_primary_size
       else (layout_placed_fl fl metrics flowchart).total_secondary_size) + fl (20 * 2))

/-- The value of `natural_height` with the rounding `fl`, outer padding included. -/
def layout_natural_height_fl (fl : ℚ → ℚ) (metrics : Option IRFontMetrics)
    (flowchart : Flowchart) : ℚ :=
  fl ((if is_horizontal flowchart.state.direction then
        (layout_placed_fl fl metrics flowchart).total_secondary_size
       else (layout_placed_fl fl metrics flowchart).total_primary_size) + fl (20 * 2))

/-- The value of `scale` after the clamp, with the rounding `fl`. -/
def layout_scale_fl (fl : ℚ → ℚ) (metrics : Option IRFontMetrics) (flowchart : Flowchart)
    (available_width available_height : ℚ) : ℚ :=
  fit_scale_fl fl (layout_natural_width_fl fl metrics flowchart)
    (layout_natural_height_fl fl metrics flowchart) available_width available_height

/-- The move of one coordinate by the viewport fit, with the rounding `fl`. -/
def layout_move_fl (fl : ℚ → ℚ) (scale : ℚ) : ℚ → ℚ :=
  if scale < 1 then fun v => fl (20 + fl (v * scale)) else fun v => fl (v + 20)

/-- The node records that `ir_layout_compute_flowchart` leaves, with the
rounding `fl`: untouched when the layout is cached or there is no node, else
sized (Phase 1), placed (Phases 2 to 4) and moved by the viewport fit. -/
def ir_layout_nodes_fl (fl : ℚ → ℚ) (metrics : Option IRFontMetrics) (flowchart : Flowchart)
    (available_width available_height : ℚ) : List IRFlowchartNodeData :=
  let state := flowchart.state
  if state.layout_computed ∧ state.computed_width = available_width ∧
      state.computed_height = available_height then state.nodes
  else if state.nodes.length = 0 then state.nodes
  else
    (layout_placed_fl fl metrics flowchart).nodes.map (fun node =>
      { node with
        x := layout_move_fl fl
          (layout_scale_fl fl metrics flowchart available_width available_height) node.x
        y := layout_move_fl fl
          (layout_scale_fl fl metrics flowchart available_width available_height) node.y })

/-! ## Notions of the rounding -/

/-- The value `v` is `e` up to `k` roundings of relative error `u` each. -/
def within (k : Nat) (u e v : ℚ) : Prop :=
  (1 - u) ^ k * e ≤ v ∧ v ≤ (1 + u) ^ k * e

/-- The corner `(x, y)` that the positioning loop computes with the rounding
`fl` for a node of width `w` and height `h` that is number `pos` of the `n`
nodes of its layer `layer`, outside every subgraph. -/
def plain_position_fl (fl : ℚ → ℚ) (d : IRFlowchartDirection) (node_layer : List Int)
    (ns rs W H : ℚ) (layer : Int) (n pos : Nat) (w h : ℚ) : ℚ × ℚ :=
  let slack : ℚ := fl (((max_nodes_in_layer node_layer : Int) - (n : Int) : Int) : ℚ)
  if is_horizontal d then
    (fl ((if is_reversed d then
            fl (fl ((max_layer_of node_layer - layer : Int) : ℚ) * fl (W + rs))
          else fl (fl (layer : ℚ) * fl (W + rs))) + fl (fl (W - w) / 2)),
     fl (fl (fl (fl (slack * fl (H + ns)) / 2) + fl (fl (pos : ℚ) * fl (H + ns))) +
       fl (fl (H - h) / 2)))
  else
    (fl (fl (fl (fl (slack * fl (W + ns)) / 2) + fl (fl (pos : ℚ) * fl (W + ns))) +
       fl (fl (W - w) / 2)),
     fl ((if is_reversed d then
            fl (fl ((max_layer_of node_layer - layer : Int) : ℚ) * fl (H + rs))
          else fl (fl (layer : ℚ) * fl (H + rs))) + fl (fl (H - h) / 2)))

/-- The flowchart of direction `d` that the builder makes of the rectangles A
and B, both labelled `abc`, without an edge, finalized: both are in layer 0. -/
def pair_flowchart (d : IRFlowchartDirection) : Flowchart :=
  ir_flowchart_finalize
    (ir_add_child
      (ir_add_child (ir_flowchart d) []
        (ir_flowchart_node (some "A".toList) IRFlowchartShape.RECTANGLE (some "abc".toList)))
      [] (ir_flowchart_node (some "B".toList) IRFlowchartShape.RECTANGLE (some "abc".toList)))

/-! # Theorems -/

/-! ## Bounds that are never reached -/

/-- The bound of `process_html_loop` is never reached when it is at least the
length of the text: any two such bounds give the same result. -/
theorem process_html_loop_bound : ∀ (n m : Nat) (text : List Char),
    text.length ≤ n → text.length ≤ m → process_html_loop n text = process_html_loop m text := by
  intro n
  induction n with
  | zero =>
    intro m text hn _
    have : text = [] := List.length_eq_zero.mp (by omega)
    subst this
    cases m <;> simp [process_html_loop]
  | succ n ih =>
    intro m text hn hm
    cases text with
    | nil => cases m <;> simp [process_html_loop]
    | cons c cs =>
      cases m with
      | zero => simp at hm
      | succ m =>
        simp only [List.length_cons, Nat.add_le_add_iff_right] at hn hm
        have hd : ∀ k, (cs.drop k).length ≤ n ∧ (cs.drop k).length ≤ m := by
          intro k
          have := (List.drop_suffix k cs).length_le
          exact ⟨by omega, by omega⟩
        have ht : (((c :: cs).dropWhile (fun d => d != '>')).tail).length ≤ n ∧
            (((c :: cs).dropWhile (fun d => d != '>')).tail).length ≤ m := by
          have h1 := (List.dropWhile_suffix (l := c :: cs) (fun d => d != '>')).length_le
          have h2 : (((c :: cs).dropWhile (fun d => d != '>')).tail).length
              = ((c :: cs).dropWhile (fun d => d != '>')).length - 1 := List.length_tail _
          simp only [List.length_cons] at h1
          exact ⟨by omega, by omega⟩
        simp only [process_html_loop]
        split
        · split
          · rw [ih m _ (hd 4).1 (hd 4).2]
          · split
            · rw [ih m _ (hd 3).1 (hd 3).2]
            · split
              · rw [ih m _ (hd 5).1 (hd 5).2]
              · exact ih m _ ht.1 ht.2
        · rw [ih m cs hn hm]


/-! ## The parser on the scenarios of the specification -/

/-- C2 (the code at the claim's own input): parsing
`flowchart TB / A-->C / A-->B / B-->C` registers the nodes A, C, B in this order
and the edges A to C, A to B, B to C; the layering gives A layer 0 and both C
and B layer 1, so the edge B to C joins two nodes of the same layer, and after
layout C and B have the same y. -/
theorem layering_puts_edge_inside_one_layer :
    ∃ fc laid : Flowchart,
      ir_flowchart_parse "flowchart TB\nA-->C\nA-->B\nB-->C".toList = some (some fc) ∧
      fc.state.nodes.map (fun n => n.node_id) =
        [some "A".toList, some "C".toList, some "B".toList] ∧
      fc.state.edges.map (fun e => (e.from_id, e.to_id)) =
        [(some "A".toList, some "C".toList), (some "A".toList, some "B".toList),
         (some "B".toList, some "C".toList)] ∧
      (assign_layers (compute_flowchart_node_sizes none fc.state 14)).node_layer = [0, 1, 1] ∧
      parse_and_layout "flowchart TB\nA-->C\nA-->B\nB-->C".toList 800 600 = some laid ∧
      laid.state.nodes.map (fun n => n.y) = [20, 484 / 5, 484 / 5] := by
  refine ⟨_, _, rfl, ?_, ?_, ?_, rfl, ?_⟩
  · decide!
  · decide!
  · decide!
  · decide!

/-- C5 (the code at the claim's own input): parsing
`flowchart LR / A[Start]-->B{Decision}-->|yes|C((End))` yields the nodes A, B, C
where B and C are rectangles labelled with their own ids: the shape and label
written after an edge target are read and then dropped, because the implicit
node already exists when `parse_node_definition` runs. -/
theorem edge_target_definition_is_dropped :
    ∃ fc : Flowchart,
      ir_flowchart_parse "flowchart LR\nA[Start]-->B{Decision}-->|yes|C((End))".toList
        = some (some fc) ∧
      fc.state.nodes.map (fun n => (n.node_id, n.shape, n.label)) =
        [(some "A".toList, IRFlowchartShape.RECTANGLE, some "Start".toList),
         (some "B".toList, IRFlowchartShape.RECTANGLE, some "B".toList),
         (some "C".toList, IRFlowchartShape.RECTANGLE, some "C".toList)] ∧
      (tree_nodes fc.children).map (fun n => (n.node_id, n.shape, n.label)) =
        [(some "A".toList, IRFlowchartShape.RECTANGLE, some "Start".toList),
         (some "B".toList, IRFlowchartShape.RECTANGLE, some "B".toList),
         (some "C".toList, IRFlowchartShape.RECTANGLE, some "C".toList)] := by
  refine ⟨_, rfl, ?_, ?_⟩
  · decide!
  · decide!

/-- C6 (the code at the claim's own input): parsing
`flowchart TB / subgraph s1[Group] / A-->B / end / C-->A` skips the line `A-->B`:
the tree holds the subgraph s1 without children and, at the root, the nodes C
and A and the edge C to A; there is no node B and no edge A to B. -/
theorem line_after_subgraph_header_is_skipped :
    ∃ fc : Flowchart,
      ir_flowchart_parse "flowchart TB\nsubgraph s1[Group]\nA-->B\nend\nC-->A".toList
        = some (some fc) ∧
      (tree_subgraphs fc.children).map (fun sg => sg.subgraph_id) = [some "s1".toList] ∧
      children_at [0] fc.children = some [] ∧
      (tree_nodes fc.children).map (fun n => n.node_id) = [some "C".toList, some "A".toList] ∧
      fc.state.nodes.map (fun n => n.node_id) = [some "C".toList, some "A".toList] ∧
      fc.state.edges.map (fun e => (e.from_id, e.to_id)) =
        [(some "C".toList, some "A".toList)] := by
  refine ⟨_, rfl, ?_, ?_, ?_, ?_, ?_⟩
  · decide!
  · rfl
  · decide!
  · decide!
  · decide!

/-- C7 (the code at a failing input): after parsing
`flowchart TB / subgraph s1 / direction TB / A-->B / subgraph s2 / end / end` the
tree holds the nodes A and B inside s1 and the subgraph s2 inside s1, but the
node registry is empty and the subgraph registry holds s1 only: finalization
registers the direct children of the flowchart and nothing below them. -/
theorem finalize_misses_nested_components :
    ∃ fc : Flowchart,
      ir_flowchart_parse
        "flowchart TB\nsubgraph s1\ndirection TB\nA-->B\nsubgraph s2\nend\nend".toList
        = some (some fc) ∧
      (tree_nodes fc.children).map (fun n => n.node_id) = [some "A".toList, some "B".toList] ∧
      (tree_subgraphs fc.children).map (fun sg => sg.subgraph_id) =
        [some "s1".toList, some "s2".toList] ∧
      fc.state.nodes = [] ∧
      fc.state.subgraphs.map (fun sg => sg.subgraph_id) = [some "s1".toList] ∧
      fc.state.edges.map (fun e => (e.from_id, e.to_id)) =
        [(some "A".toList, some "B".toList)] := by
  refine ⟨_, rfl, ?_, ?_, ?_, ?_, ?_⟩
  · decide!
  · decide!
  · decide!
  · decide!
  · decide!

/-- C8 (the code at a failing input): after parsing and laying out
`flowchart TB / subgraph s1 / direction TB / A-->B / end / C-->D` the subgraph s1,
inside which A and B were defined, has width 0 and height 0; the nodes A and B
of the tree carry no subgraph id and are not in the node registry, which holds C
and D only. -/
theorem subgraph_with_members_has_empty_box :
    ∃ fc : Flowchart,
      parse_and_layout "flowchart TB\nsubgraph s1\ndirection TB\nA-->B\nend\nC-->D".toList
        800 600 = some fc ∧
      fc.state.subgraphs.map (fun sg => (sg.subgraph_id, sg.width, sg.height)) =
        [(some "s1".toList, 0, 0)] ∧
      ((children_at [0] fc.children).map tree_nodes).map
          (fun ns => ns.map (fun n => (n.node_id, n.subgraph_id))) =
        some [(some "A".toList, none), (some "B".toList, none)] ∧
      fc.state.nodes.map (fun n => (n.node_id, n.subgraph_id)) =
        [(some "C".toList, none), (some "D".toList, none)] := by
  refine ⟨_, rfl, ?_, ?_, ?_⟩
  · decide!
  · decide!
  · decide!

/-! ## Idempotence of the layout -/

/-- C10: for every flowchart, font metrics and viewport, a second call of
`ir_layout_compute_flowchart` with the same dimensions returns the flowchart
the first call produced, unchanged in every field. -/
theorem layout_idempotent (metrics : Option IRFontMetrics) (flowchart : Flowchart)
    (available_width available_height : ℚ) :
    ir_layout_compute_flowchart metrics
        (ir_layout_compute_flowchart metrics flowchart available_width available_height)
        available_width available_height
      = ir_layout_compute_flowchart metrics flowchart available_width available_height := by
  have cached : ∀ f : Flowchart,
      f.state.layout_computed = true → f.state.computed_width = available_width →
      f.state.computed_height = available_height →
      ir_layout_compute_flowchart metrics f available_width available_height = f := by
    intro f h1 h2 h3
    simp [ir_layout_compute_flowchart, h1, h2, h3]
  by_cases hc : flowchart.state.layout_computed = true ∧
      flowchart.state.computed_width = available_width ∧
      flowchart.state.computed_height = available_height
  · rw [cached flowchart hc.1 hc.2.1 hc.2.2, cached flowchart hc.1 hc.2.1 hc.2.2]
  · by_cases hn : flowchart.state.nodes.length = 0
    · have e : ir_layout_compute_flowchart metrics flowchart available_width available_height =
          { flowchart with
            state := { flowchart.state with
              layout_computed := true
              computed_width := available_width
              computed_height := available_height } } := by
        unfold ir_layout_compute_flowchart
        simp only [hc, hn, if_false, if_true]
      rw [e]
      exact cached _ rfl rfl rfl
    · have e : ir_layout_compute_flowchart metrics flowchart available_width available_height =
          compute_layout metrics flowchart available_width available_height := by
        unfold ir_layout_compute_flowchart
        simp only [hc, hn, if_false]
      rw [e]
      exact cached _ rfl rfl rfl

/-! ## The layering loop -/

theorem count_true_set (l : List Bool) (i : Nat) (h : i < l.length) (hf : l.getD i false = false) :
    (l.set i true).count true = l.count true + 1 := by
  induction l generalizing i with
  | nil => simp at h
  | cons b bs ih =>
    cases i with
    | zero =>
      simp at hf
      simp [hf]
    | succ j =>
      simp at h hf
      have := ih j h (by simpa using hf)
      simp [List.count_cons, this]
      omega

theorem all_iff_count (l : List Bool) : l.all (fun b => b) = true ↔ l.count true = l.length := by
  rw [List.count_eq_length]
  constructor
  · intro h b hb
    have := List.all_eq_true.mp h b hb
    simp at this
    exact this.symm
  · intro h
    apply List.all_eq_true.mpr
    intro b hb
    simp [← h b hb]

theorem scan_predecessors_nonneg (state : IRFlowchartState) (node_layer : List Int)
    (node_id : List Char) :
    (scan_predecessors state node_layer node_id).2 = true →
      0 ≤ (scan_predecessors state node_layer node_id).1 := by
  unfold scan_predecessors
  generalize state.edges = es
  have key : ∀ (es : List IRFlowchartEdgeData) (acc : Int × Bool), (acc.2 = true → 0 ≤ acc.1) →
      ((es.foldl
        (fun acc edge =>
          if edge.to_id == some node_id then
            match find_source_index state edge.from_id with
            | some j =>
              if node_layer.getD j (-1) ≥ 0 then (max acc.1 (node_layer.getD j (-1)), true) else acc
            | none => acc
          else acc) acc).2 = true →
       0 ≤ (es.foldl
        (fun acc edge =>
          if edge.to_id == some node_id then
            match find_source_index state edge.from_id with
            | some j =>
              if node_layer.getD j (-1) ≥ 0 then (max acc.1 (node_layer.getD j (-1)), true) else acc
            | none => acc
          else acc) acc).1) := by
    intro es
    induction es with
    | nil => intro acc h; simpa using h
    | cons e es ih =>
      intro acc h
      simp only [List.foldl_cons]
      apply ih
      split
      · split
        · split
          · next hge =>
            intro _
            exact le_max_of_le_right hge
          · exact h
        · exact h
      · exact h
  exact key es (-1, false) (by simp)

/-- The two outcomes of the sweep body: nothing changes, or node `i`, not yet
processed, gets a layer that is not negative. -/
theorem sweep_node_cases (state : IRFlowchartState) (l : Layering) (i : Nat) :
    layer_sweep_node state l i = l ∨
    (l.processed.getD i false = false ∧ ∃ v : Int, 0 ≤ v ∧
      layer_sweep_node state l i =
        { node_layer := l.node_layer.set i v, processed := l.processed.set i true,
          made_progress := true }) := by
  unfold layer_sweep_node
  by_cases hp : l.processed.getD i false = true
  · left; rw [if_pos hp]
  · rw [if_neg hp]
    cases hid : (state.nodes.get? i).bind (fun node => node.node_id) with
    | none => left; rfl
    | some id =>
      dsimp only
      by_cases hr : (scan_predecessors state l.node_layer id).2 = true
      · right
        refine ⟨Bool.eq_false_iff.mpr hp, (scan_predecessors state l.node_layer id).1 + 1, ?_, ?_⟩
        · have := scan_predecessors_nonneg state l.node_layer id hr
          omega
        · simp [hr]
      · left; simp [hr]

theorem set_step_ok (n : Nat) (l : Layering) (i : Nat) (v : Int) (mp : Bool) (hv : 0 ≤ v)
    (hi : i < n) (h : layering_ok n l) :
    layering_ok n { node_layer := l.node_layer.set i v, processed := l.processed.set i true,
                    made_progress := mp } := by
  obtain ⟨h1, h2, h3⟩ := h
  refine ⟨by simp [h1], by simp [h2], ?_⟩
  intro k hk
  simp only [List.getD_eq_getElem?_getD, List.getElem?_set] at hk ⊢
  by_cases e : i = k
  · subst e
    simp [h1, hi, hv]
  · simp only [e, if_false] at hk ⊢
    have := h3 k (by simpa [List.getD_eq_getElem?_getD] using hk)
    simpa [List.getD_eq_getElem?_getD] using this

theorem set_step_count (n : Nat) (l : Layering) (i : Nat) (v : Int) (hi : i < n)
    (h : layering_ok n l) (hp : l.processed.getD i false = false) :
    processed_count { node_layer := l.node_layer.set i v, processed := l.processed.set i true,
                      made_progress := true } = processed_count l + 1 := by
  obtain ⟨_, h2, _⟩ := h
  exact count_true_set l.processed i (by omega) hp

theorem sweep_fold (state : IRFlowchartState) (n : Nat) (is : List Nat) (his : ∀ i ∈ is, i < n)
    (l : Layering) (h : layering_ok n l) :
    layering_ok n (is.foldl (layer_sweep_node state) l) ∧
    processed_count l ≤ processed_count (is.foldl (layer_sweep_node state) l) ∧
    ((is.foldl (layer_sweep_node state) l).made_progress = true →
      l.made_progress = true ∨
        processed_count l < processed_count (is.foldl (layer_sweep_node state) l)) := by
  induction is generalizing l with
  | nil => exact ⟨h, le_refl _, fun h => Or.inl h⟩
  | cons i is ih =>
    simp only [List.foldl_cons]
    have hi : i < n := his i (by simp)
    have his1 : ∀ j ∈ is, j < n := fun j hj => his j (by simp [hj])
    rcases sweep_node_cases state l i with e | ⟨hp, v, hv, e⟩
    · rw [e]; exact ih his1 l h
    · rw [e]
      have ok1 := set_step_ok n l i v true hv hi h
      have c1 := set_step_count n l i v hi h hp
      obtain ⟨a, b, _⟩ := ih his1 _ ok1
      exact ⟨a, by omega, fun _ => Or.inr (by omega)⟩

theorem force_first_ok (n : Nat) (l : Layering) (h : layering_ok n l) :
    layering_ok n (force_first_unprocessed l) ∧
    processed_count l ≤ processed_count (force_first_unprocessed l) ∧
    (processed_count l < n → processed_count l < processed_count (force_first_unprocessed l)) := by
  unfold force_first_unprocessed
  dsimp only
  by_cases hlt : l.processed.findIdx (fun b => !b) < l.processed.length
  · simp only [hlt, if_true]
    have hi : l.processed.findIdx (fun b => !b) < n := by rw [← h.2.1]; exact hlt
    have hp : l.processed.getD (l.processed.findIdx (fun b => !b)) false = false := by
      have : (fun b : Bool => !b) (l.processed[l.processed.findIdx (fun b => !b)]) = true :=
        List.findIdx_getElem
      simp [List.getD_eq_getElem?_getD, hlt] at this ⊢
      exact this
    have c1 := set_step_count n l _ 0 hi h hp
    exact ⟨set_step_ok n l _ 0 true (le_refl _) hi h, by omega, fun _ => by omega⟩
  · simp only [hlt, if_false]
    refine ⟨h, le_refl _, ?_⟩
    intro hc
    exfalso
    have hall : ∀ x ∈ l.processed, (fun b => !b) x = false := by
      have : l.processed.findIdx (fun b => !b) ≤ l.processed.length :=
        List.findIdx_le_length _
      exact List.findIdx_eq_length.mp (by omega)
    have : l.processed.count true = l.processed.length := by
      rw [List.count_eq_length]
      intro b hb
      have := hall b hb
      simp at this
      exact this.symm
    simp only [processed_count] at hc
    rw [this, h.2.1] at hc
    omega

theorem turn_ok (state : IRFlowchartState) (l : Layering)
    (h : layering_ok state.nodes.length l) :
    layering_ok state.nodes.length (layering_turn state l) ∧
    processed_count l ≤ processed_count (layering_turn state l) ∧
    (processed_count l < state.nodes.length →
      processed_count l < processed_count (layering_turn state l)) := by
  have h0 : layering_ok state.nodes.length { l with made_progress := false } := h
  have hc0 : processed_count { l with made_progress := false } = processed_count l := rfl
  obtain ⟨a, b, c⟩ := sweep_fold state state.nodes.length (List.range state.nodes.length)
    (fun i hi => List.mem_range.mp hi) _ h0
  unfold layering_turn
  dsimp only
  by_cases hm : ((List.range state.nodes.length).foldl (layer_sweep_node state)
      { l with made_progress := false }).made_progress = true
  · simp only [hm, Bool.not_true, Bool.false_eq_true, if_false]
    refine ⟨a, by omega, fun _ => ?_⟩
    rcases c hm with c1 | c1
    · simp at c1
    · omega
  · simp only [Bool.not_eq_true] at hm
    simp only [hm, Bool.not_false, if_true]
    obtain ⟨a2, b2, c2⟩ := force_first_ok state.nodes.length _ a
    refine ⟨a2, by omega, fun hlt => ?_⟩
    by_cases hx : processed_count ((List.range state.nodes.length).foldl (layer_sweep_node state)
      { l with made_progress := false }) < state.nodes.length
    · have := c2 hx; omega
    · omega

theorem initial_layering_ok (state : IRFlowchartState) :
    layering_ok state.nodes.length (initial_layering state) := by
  have raw : layering_ok state.nodes.length
      { node_layer := state.nodes.map (fun node => if is_start_node state node then 0 else -1),
        processed := state.nodes.map (fun node => is_start_node state node) } := by
    refine ⟨by simp, by simp, ?_⟩
    intro i hi
    simp only [List.getD_eq_getElem?_getD, List.getElem?_map] at hi ⊢
    cases hn : state.nodes[i]? with
    | none => simp [hn] at hi
    | some node =>
      simp only [hn, Option.map_some', Option.getD_some] at hi ⊢
      simp [hi]
  unfold initial_layering
  dsimp only
  split
  · next hc =>
    have hpos : 0 < state.nodes.length := by
      simp only [Bool.and_eq_true, decide_eq_true_eq] at hc
      exact hc.2
    exact set_step_ok _ _ 0 0 false (le_refl _) hpos raw
  · exact raw

theorem processed_count_le (n : Nat) (l : Layering) (h : layering_ok n l) :
    processed_count l ≤ n := by
  rw [← h.2.1]
  exact List.count_le_length _ _

theorem loop_done (state : IRFlowchartState) :
    ∀ (k : Nat) (l : Layering), layering_ok state.nodes.length l →
      state.nodes.length - processed_count l ≤ k →
      layering_ok state.nodes.length (layering_loop state k l) ∧
        processed_count (layering_loop state k l) = state.nodes.length := by
  intro k
  induction k with
  | zero =>
    intro l h hk
    have := processed_count_le _ l h
    exact ⟨h, by simp only [layering_loop]; omega⟩
  | succ k ih =>
    intro l h hk
    obtain ⟨a, b, c⟩ := turn_ok state l h
    simp only [layering_loop]
    split
    · next hall =>
      refine ⟨a, ?_⟩
      have := (all_iff_count _).mp hall
      simp only [processed_count, this, a.2.1]
    · apply ih _ a
      by_cases hlt : processed_count l < state.nodes.length
      · have := c hlt; omega
      · omega

theorem loop_stable (state : IRFlowchartState) :
    ∀ (k j : Nat) (l : Layering), layering_ok state.nodes.length l →
      state.nodes.length - processed_count l ≤ k → 1 ≤ k →
      layering_loop state (k + j) l = layering_loop state k l := by
  intro k
  induction k with
  | zero => intro j l _ _ h1; omega
  | succ k ih =>
    intro j l h hk _
    obtain ⟨a, b, c⟩ := turn_ok state l h
    have e : k + 1 + j = (k + j) + 1 := by omega
    rw [e]
    simp only [layering_loop]
    split
    · rfl
    · next hall =>
      have hnot : processed_count (layering_turn state l) ≠ state.nodes.length := by
        intro hc
        apply hall
        apply (all_iff_count _).mpr
        simp only [processed_count] at hc
        rw [hc, a.2.1]
      have hle := processed_count_le _ _ a
      apply ih j _ a
      · by_cases hlt : processed_count l < state.nodes.length
        · have := c hlt; omega
        · omega
      · by_cases hlt : processed_count l < state.nodes.length
        · have := c hlt; omega
        · omega

/-- C9: for every state (any nodes and edges), the layering loop ends with one
layer per node, every node processed and every layer not negative; the result
is already reached within `node_count` turns, because each turn over a layering
that still has an unprocessed node processes at least one more; the cycle
`A-->B-->C-->A` gets the layers 0, 1, 2. -/
theorem layering_assigns_every_node (state : IRFlowchartState) :
    (assign_layers state).node_layer.length = state.nodes.length ∧
    (∀ i, i < state.nodes.length →
      (assign_layers state).processed.getD i false = true ∧
        0 ≤ (assign_layers state).node_layer.getD i (-1)) ∧
    assign_layers state = layering_loop state state.nodes.length (initial_layering state) ∧
    (∀ l : Layering, layering_ok state.nodes.length l →
      processed_count l < state.nodes.length →
      processed_count l < processed_count (layering_turn state l)) ∧
    (∃ fc : Flowchart,
      ir_flowchart_parse "flowchart TB\nA-->B-->C-->A".toList = some (some fc) ∧
      fc.state.nodes.map (fun n => n.node_id) =
        [some "A".toList, some "B".toList, some "C".toList] ∧
      (assign_layers fc.state).node_layer = [0, 1, 2]) := by
  have h0 := initial_layering_ok state
  have hk : state.nodes.length - processed_count (initial_layering state)
      ≤ state.nodes.length * 2 := by omega
  obtain ⟨ok, cnt⟩ := loop_done state _ _ h0 hk
  refine ⟨ok.1, ?_, ?_, ?_, ?_⟩
  · intro i hi
    have hall : ∀ b ∈ (assign_layers state).processed, true = b := by
      apply List.count_eq_length.mp
      have : processed_count (assign_layers state) = state.nodes.length := cnt
      simp only [processed_count] at this
      rw [this]
      exact ok.2.1.symm
    have hlen : i < (assign_layers state).processed.length := by
      have : (assign_layers state).processed.length = state.nodes.length := ok.2.1
      omega
    have hp : (assign_layers state).processed.getD i false = true := by
      rw [List.getD_eq_getElem _ _ hlen]
      exact (hall _ (List.getElem_mem hlen)).symm
    exact ⟨hp, ok.2.2 i hp⟩
  · by_cases hn : state.nodes.length = 0
    · simp [assign_layers, hn]
    · have e : state.nodes.length * 2 = state.nodes.length + state.nodes.length := by omega
      unfold assign_layers
      rw [e]
      exact loop_stable state _ _ _ h0 (by omega) (by omega)
  · intro l hl hlt
    exact (turn_ok state l hl).2.2 hlt
  · refine ⟨_, rfl, ?_, ?_⟩
    · decide!
    · decide!


/-! ## The cursor only moves forward -/

theorem skip_whitespace_suffix (r : List Char) : skip_whitespace r <:+ r :=
  List.dropWhile_suffix _

theorem skip_to_eol_suffix (r : List Char) : skip_to_eol r <:+ r :=
  List.dropWhile_suffix _

theorem advance_suffix (r : List Char) : advance r <:+ r :=
  List.tail_suffix r

theorem skip_loop_suffix (b : Bool) (l : List Char) :
    skip_whitespace_and_newlines_loop b l <:+ l := by
  induction l generalizing b with
  | nil => cases b <;> simp [skip_whitespace_and_newlines_loop]
  | cons c cs ih =>
    have step : ∀ b', skip_whitespace_and_newlines_loop b' cs <:+ c :: cs :=
      fun b' => (ih b').trans (List.suffix_cons c cs)
    cases b with
    | true =>
      simp only [skip_whitespace_and_newlines_loop]
      split <;> exact step _
    | false =>
      simp only [skip_whitespace_and_newlines_loop]
      split
      · exact step _
      · split
        · exact step _
        · split
          · exact step _
          · split
            · exact step _
            · exact List.suffix_refl _

theorem skip_whitespace_and_newlines_suffix (r : List Char) :
    skip_whitespace_and_newlines r <:+ r :=
  skip_loop_suffix false r

theorem match_suffix (r s : List Char) : (match_ r s).2 <:+ r := by
  unfold match_
  split
  · exact List.suffix_refl _
  · split
    · exact List.drop_suffix _ _
    · exact List.suffix_refl _

theorem match_length (r s : List Char) (h : (match_ r s).1 = true) :
    (match_ r s).2.length + s.length = r.length := by
  unfold match_ at h ⊢
  split
  · next hlt => simp [hlt] at h
  · next hlt =>
    split
    · simp only [List.length_drop]; omega
    · next hn => simp [hlt, hn] at h

theorem match_case_insensitive_suffix (r s : List Char) :
    (match_case_insensitive r s).2 <:+ r := by
  unfold match_case_insensitive
  split
  · exact List.suffix_refl _
  · split
    · exact List.drop_suffix _ _
    · exact List.suffix_refl _

theorem parse_identifier_suffix (r : List Char) : (parse_identifier r).2 <:+ r := by
  unfold parse_identifier
  dsimp only
  split
  · exact skip_whitespace_suffix r
  · next c cs h =>
    split
    · exact ((List.dropWhile_suffix _).trans (List.suffix_cons c cs)).trans
        (h ▸ skip_whitespace_suffix r)
    · exact skip_whitespace_suffix r

theorem bracket_scan_suffix (o c : Char) (d : Nat) (l : List Char) :
    (bracket_scan o c d l).2 <:+ l := by
  induction l generalizing d with
  | nil => simp [bracket_scan]
  | cons x xs ih =>
    simp only [bracket_scan]
    split_ifs <;> first
      | exact (ih _).trans (List.suffix_cons x xs)
      | exact List.suffix_refl _

theorem cond_advance_suffix (r : List Char) (b : Bool) :
    (if b then advance r else r) <:+ r := by
  split
  · exact advance_suffix r
  · exact List.suffix_refl _

theorem parse_text_in_brackets_suffix (r : List Char) (o c : Char) :
    (parse_text_in_brackets r o c).2 <:+ r := by
  unfold parse_text_in_brackets
  split
  · exact List.suffix_refl _
  · dsimp only
    exact ((cond_advance_suffix _ _).trans (bracket_scan_suffix o c 1 _)).trans (advance_suffix r)

theorem quoted_scan_suffix (b : Bool) (l : List Char) : (quoted_scan b l).2 <:+ l := by
  induction l generalizing b with
  | nil => cases b <;> simp [quoted_scan]
  | cons x xs ih =>
    cases b with
    | true =>
      simp only [quoted_scan]
      exact (ih _).trans (List.suffix_cons x xs)
    | false =>
      simp only [quoted_scan]
      split
      · exact List.suffix_refl _
      · split <;> exact (ih _).trans (List.suffix_cons x xs)

theorem parse_quoted_string_suffix (r : List Char) : (parse_quoted_string r).2 <:+ r := by
  unfold parse_quoted_string
  split
  · exact List.suffix_refl _
  · dsimp only
    exact ((cond_advance_suffix _ _).trans (quoted_scan_suffix false _)).trans (advance_suffix r)

theorem match_direction_suffix (r : List Char) : (match_direction r).2 <:+ r := by
  unfold match_direction
  dsimp only
  split
  · exact match_case_insensitive_suffix _ _
  · split
    · exact match_case_insensitive_suffix _ _
    · split
      · exact match_case_insensitive_suffix _ _
      · split
        · exact match_case_insensitive_suffix _ _
        · split
          · exact match_case_insensitive_suffix _ _
          · exact List.suffix_refl _

theorem parse_direction_suffix (r : List Char) : (parse_direction r).2 <:+ r :=
  (match_direction_suffix _).trans (skip_whitespace_suffix r)

theorem parse_shape_suffix (r : List Char) : (parse_shape r).2.2 <:+ r := by
  unfold parse_shape
  dsimp only
  have tb : ∀ (x : List Char) (o c e : Char),
      (if peek (parse_text_in_brackets (advance x) o c).2 == e
        then advance (parse_text_in_brackets (advance x) o c).2
        else (parse_text_in_brackets (advance x) o c).2) <:+ x :=
    fun x o c e => ((cond_advance_suffix _ _).trans (parse_text_in_brackets_suffix _ o c)).trans
      (advance_suffix x)
  split
  · split
    · exact tb r _ _ _
    · split
      · exact tb r _ _ _
      · split
        · exact ((cond_advance_suffix _ _).trans
            ((cond_advance_suffix _ _).trans (List.dropWhile_suffix _))).trans
            ((advance_suffix _).trans (advance_suffix r))
        · exact parse_text_in_brackets_suffix _ _ _
  · split
    · split
      · exact tb r _ _ _
      · split
        · exact tb r _ _ _
        · exact parse_text_in_brackets_suffix _ _ _
    · split
      · split
        · exact tb r _ _ _
        · exact parse_text_in_brackets_suffix _ _ _
      · split
        · exact ((cond_advance_suffix _ _).trans (List.dropWhile_suffix _)).trans (advance_suffix r)
        · exact List.suffix_refl _

theorem edge_label_scan_suffix (l : List Char) : (edge_label_scan l).2 <:+ l := by
  induction l with
  | nil => simp [edge_label_scan]
  | cons x xs ih =>
    simp only [edge_label_scan]
    split
    · exact match_suffix _ _
    · split
      · exact match_suffix _ _
      · split
        · exact List.suffix_refl _
        · split
          · exact List.suffix_refl _
          · exact ih.trans (List.suffix_cons x xs)

theorem parse_edge_operator_suffix (r : List Char)
    (op : IRFlowchartEdgeType × Option (List Char) × List Char)
    (h : parse_edge_operator r = some op) :
    op.2.2 <:+ r ∧ op.2.2.length + 2 ≤ r.length := by
  unfold parse_edge_operator at h
  have base : ∀ s : List Char, 2 ≤ s.length → (match_ r s).1 = true →
      (match_ r s).2 <:+ r ∧ (match_ r s).2.length + 2 ≤ r.length := by
    intro s hs hm
    have := match_length r s hm
    exact ⟨match_suffix r s, by omega⟩
  split at h
  · next hm => cases h; exact base _ (by decide) hm
  · split at h
    · next hm => cases h; exact base _ (by decide) hm
    · split at h
      · next hm => cases h; exact base _ (by decide) hm
      · split at h
        · next hm => cases h; exact base _ (by decide) hm
        · split at h
          · next hm => cases h; exact base _ (by decide) hm
          · split at h
            · next hm => cases h; exact base _ (by decide) hm
            · split at h
              · next hm =>
                obtain ⟨b1, b2⟩ := base _ (by decide) hm
                have sw := skip_whitespace_suffix (match_ r "--".toList).2
                dsimp only at h
                split at h
                · cases h
                  have s1 := ((match_suffix _ "-->".toList).trans
                    ((skip_whitespace_suffix _).trans (edge_label_scan_suffix _))).trans sw
                  refine ⟨s1.trans b1, ?_⟩
                  have := s1.length_le
                  dsimp only
                  omega
                · cases h
                  refine ⟨sw.trans b1, ?_⟩
                  have := sw.length_le
                  dsimp only
                  omega
              · cases h

theorem parse_pipe_label_suffix (label : Option (List Char)) (r : List Char) :
    (parse_pipe_label label r).2 <:+ r := by
  unfold parse_pipe_label
  split
  · dsimp only
    exact ((cond_advance_suffix _ _).trans (List.dropWhile_suffix _)).trans (advance_suffix r)
  · exact List.suffix_refl _

theorem parse_subgraph_title_suffix (r : List Char) : (parse_subgraph_title r).2 <:+ r := by
  unfold parse_subgraph_title
  split
  · dsimp only
    split
    · exact ((cond_advance_suffix _ _).trans
        ((skip_whitespace_suffix _).trans (parse_quoted_string_suffix _))).trans
        ((skip_whitespace_suffix _).trans (advance_suffix r))
    · exact parse_text_in_brackets_suffix _ _ _
  · exact List.suffix_refl _
/-! ## Every statement is parsed within the bound -/

theorem open_subgraph_rest (p : FlowchartParser) (a b : Option (List Char)) :
    (open_subgraph p a b).rest = p.rest := rfl

theorem set_subgraph_direction_rest (p : FlowchartParser) (a : List Nat) (d : IRFlowchartDirection) :
    (set_subgraph_direction p a d).rest = p.rest := rfl

theorem parse_subgraph_rest (p : FlowchartParser) : (parse_subgraph p).rest <:+ p.rest := by
  have base : (parse_subgraph_title (skip_whitespace
      (parse_identifier (skip_whitespace p.rest)).2)).2 <:+ p.rest :=
    ((parse_subgraph_title_suffix _).trans ((skip_whitespace_suffix _).trans
      (parse_identifier_suffix _))).trans (skip_whitespace_suffix _)
  unfold parse_subgraph
  simp only [apply_ite FlowchartParser.rest, set_subgraph_direction_rest, open_subgraph_rest]
  split
  · exact ((parse_direction_suffix _).trans ((match_case_insensitive_suffix _ _).trans
      (skip_whitespace_and_newlines_suffix _))).trans base
  · exact (skip_whitespace_and_newlines_suffix _).trans base

theorem add_to_current_rest (p : FlowchartParser) (c : IRComponent) :
    (add_to_current p c).rest = p.rest := by
  unfold add_to_current
  split <;> rfl

theorem ensure_implicit_node_rest (p : FlowchartParser) (id : List Char) :
    (ensure_implicit_node p id).rest = p.rest := by
  unfold ensure_implicit_node
  split
  · rfl
  · exact add_to_current_rest _ _

theorem parse_node_definition_rest (p : FlowchartParser) (id : List Char) :
    (parse_node_definition p id).rest <:+ p.rest := by
  unfold parse_node_definition
  dsimp only
  split
  · exact (parse_shape_suffix _).trans (skip_whitespace_suffix _)
  · rw [add_to_current_rest]
    exact (parse_shape_suffix _).trans (skip_whitespace_suffix _)

theorem add_edge_rest (p : FlowchartParser) (a b : List Char) (t : IRFlowchartEdgeType)
    (l : Option (List Char)) : (add_edge p a b t l).rest = p.rest := by
  unfold add_edge
  exact ensure_implicit_node_rest _ _

theorem parse_target_definition_rest (p : FlowchartParser) (id : List Char) :
    (parse_target_definition p id).rest <:+ p.rest := by
  unfold parse_target_definition
  dsimp only
  split
  · exact (parse_node_definition_rest _ _).trans (skip_whitespace_suffix _)
  · exact skip_whitespace_suffix _

theorem parse_edge_total : ∀ (fuel : Nat) (p : FlowchartParser) (from_id : List Char),
    p.rest.length < fuel →
    ∃ p1, parse_edge fuel p from_id = some p1 ∧ p1.rest <:+ p.rest := by
  intro fuel
  induction fuel with
  | zero => intro p _ h; omega
  | succ fuel ih =>
    intro p from_id hlt
    simp only [parse_edge]
    have s0 := skip_whitespace_suffix p.rest
    cases hop : parse_edge_operator (skip_whitespace p.rest) with
    | none => exact ⟨_, rfl, s0⟩
    | some op =>
      obtain ⟨o1, o2⟩ := parse_edge_operator_suffix _ op hop
      dsimp only
      have s1 : (parse_identifier (skip_whitespace
          (parse_pipe_label op.2.1 (skip_whitespace op.2.2)).2)).2 <:+ op.2.2 :=
        (parse_identifier_suffix _).trans ((skip_whitespace_suffix _).trans
          ((parse_pipe_label_suffix _ _).trans (skip_whitespace_suffix _)))
      cases hid : (parse_identifier (skip_whitespace
          (parse_pipe_label op.2.1 (skip_whitespace op.2.2)).2)).1 with
      | none => exact ⟨_, rfl, (s1.trans o1).trans s0⟩
      | some to_id =>
        dsimp only
        have s2 : ∀ q : FlowchartParser,
            q.rest = (parse_identifier (skip_whitespace
              (parse_pipe_label op.2.1 (skip_whitespace op.2.2)).2)).2 →
            skip_whitespace (parse_target_definition
              (add_edge q from_id to_id op.1
                (parse_pipe_label op.2.1 (skip_whitespace op.2.2)).1) to_id).rest <:+ op.2.2 := by
          intro q hq
          refine ((skip_whitespace_suffix _).trans (parse_target_definition_rest _ _)).trans ?_
          rw [add_edge_rest, hq]
          exact s1
        have s3 := s2 { p with rest := (parse_identifier (skip_whitespace
              (parse_pipe_label op.2.1 (skip_whitespace op.2.2)).2)).2 } rfl
        split
        · have hl := s3.length_le
          have hl0 := s0.length_le
          obtain ⟨p1, e1, e2⟩ := ih { parse_target_definition
              (add_edge { p with rest := (parse_identifier (skip_whitespace
                (parse_pipe_label op.2.1 (skip_whitespace op.2.2)).2)).2 } from_id to_id op.1
                (parse_pipe_label op.2.1 (skip_whitespace op.2.2)).1) to_id with
              rest := skip_whitespace (parse_target_definition
                (add_edge { p with rest := (parse_identifier (skip_whitespace
                  (parse_pipe_label op.2.1 (skip_whitespace op.2.2)).2)).2 } from_id to_id op.1
                  (parse_pipe_label op.2.1 (skip_whitespace op.2.2)).1) to_id).rest } to_id
            (by dsimp only; omega)
          exact ⟨p1, e1, e2.trans ((s3.trans o1).trans s0)⟩
        · exact ⟨_, rfl, (s3.trans o1).trans s0⟩

theorem match_case_insensitive_length (r s : List Char)
    (h : (match_case_insensitive r s).1 = true) :
    (match_case_insensitive r s).2.length + s.length = r.length := by
  unfold match_case_insensitive at h ⊢
  split
  · next hlt => simp [hlt] at h
  · next hlt =>
    split
    · simp only [List.length_drop]; omega
    · next hn => simp [hlt, hn] at h

theorem set_found_node_rest (p : FlowchartParser) (id : List Char)
    (f : IRFlowchartNodeData → IRFlowchartNodeData) : (set_found_node p id f).rest = p.rest := rfl

theorem skip_unknown_property_lt (l : List Char) (hne : l ≠ []) (hnl : peek l ≠ '\n') :
    (if peek (l.dropWhile (fun c => c != ',' && c != '\n')) == ','
      then advance (l.dropWhile (fun c => c != ',' && c != '\n'))
      else l.dropWhile (fun c => c != ',' && c != '\n')).length < l.length := by
  cases l with
  | nil => exact absurd rfl hne
  | cons c cs =>
    have hc : c ≠ '\n' := by simpa [peek] using hnl
    by_cases hcomma : c = ','
    · subst hcomma
      simp [List.dropWhile, peek, advance]
    · have hd : (c :: cs).dropWhile (fun c => c != ',' && c != '\n')
          = cs.dropWhile (fun c => c != ',' && c != '\n') :=
        List.dropWhile_cons_of_pos (by simp [hcomma, hc])
      rw [hd]
      have h1 := (cond_advance_suffix (cs.dropWhile (fun c => c != ',' && c != '\n'))
        (peek (cs.dropWhile (fun c => c != ',' && c != '\n')) == ',')).length_le
      have h2 := (List.dropWhile_suffix (l := cs) (fun c => c != ',' && c != '\n')).length_le
      simp only [List.length_cons]
      omega

theorem parse_style_property_rest (p : FlowchartParser) (id : List Char)
    (hne : p.rest ≠ []) (hnl : peek p.rest ≠ '\n') :
    (parse_style_property p id).rest <:+ p.rest ∧
      (parse_style_property p id).rest.length < p.rest.length := by
  have s0 := skip_whitespace_suffix p.rest
  have known : ∀ (kw r1 : List Char), 0 < kw.length →
      (match_case_insensitive (skip_whitespace p.rest) kw).1 = true →
      r1 <:+ skip_whitespace (match_case_insensitive (skip_whitespace p.rest) kw).2 →
      (if peek r1 == ',' then advance r1 else r1) <:+ p.rest ∧
        (if peek r1 == ',' then advance r1 else r1).length < p.rest.length := by
    intro kw r1 hk hm hs
    have e := match_case_insensitive_length _ _ hm
    have s1 := (cond_advance_suffix r1 (peek r1 == ',')).trans
      (hs.trans (skip_whitespace_suffix _))
    have l1 := s1.length_le
    have l0 := s0.length_le
    exact ⟨(s1.trans (match_case_insensitive_suffix _ _)).trans s0, by omega⟩
  unfold parse_style_property
  simp only [apply_ite FlowchartParser.rest, set_found_node_rest]
  split
  · next hm => exact known _ _ (by decide) hm (List.dropWhile_suffix _)
  · split
    · next hm => exact known _ _ (by decide) hm (List.dropWhile_suffix _)
    · split
      · next hm => exact known _ _ (by decide) hm (List.dropWhile_suffix _)
      · refine ⟨((cond_advance_suffix _ _).trans (List.dropWhile_suffix _)).trans s0, ?_⟩
        by_cases hlt : (skip_whitespace p.rest).length < p.rest.length
        · have h1 := ((cond_advance_suffix
            ((skip_whitespace p.rest).dropWhile (fun c => c != ',' && c != '\n'))
            (peek ((skip_whitespace p.rest).dropWhile (fun c => c != ',' && c != '\n')) == ',')).trans
            (List.dropWhile_suffix _)).length_le
          omega
        · have e : skip_whitespace p.rest = p.rest :=
            s0.eq_of_length (by have := s0.length_le; omega)
          rw [e]
          exact skip_unknown_property_lt p.rest hne hnl

theorem parse_style_loop_total : ∀ (fuel : Nat) (p : FlowchartParser) (id : List Char),
    p.rest.length < fuel →
    ∃ p1, parse_style_loop fuel p id = some p1 ∧ p1.rest <:+ p.rest := by
  intro fuel
  induction fuel with
  | zero => intro p _ h; omega
  | succ fuel ih =>
    intro p id hlt
    simp only [parse_style_loop]
    split
    · exact ⟨p, rfl, List.suffix_refl _⟩
    · next hc =>
      simp only [Bool.or_eq_true, not_or, is_at_end, List.isEmpty_iff] at hc
      have hnl : peek p.rest ≠ '\n' := by simpa using hc.2
      obtain ⟨a, b⟩ := parse_style_property_rest p id hc.1 hnl
      obtain ⟨p1, e1, e2⟩ := ih (parse_style_property p id) id (by omega)
      exact ⟨p1, e1, e2.trans a⟩

theorem parse_style_total (p : FlowchartParser) :
    ∃ p1, parse_style p = some p1 ∧ p1.rest <:+ p.rest := by
  unfold parse_style
  have s1 := (parse_identifier_suffix (skip_whitespace p.rest)).trans (skip_whitespace_suffix _)
  dsimp only
  split
  · exact ⟨_, rfl, s1⟩
  · obtain ⟨p1, e1, e2⟩ := parse_style_loop_total
      ((skip_whitespace (parse_identifier (skip_whitespace p.rest)).2).length + 1)
      { p with rest := skip_whitespace (parse_identifier (skip_whitespace p.rest)).2 } _
      (Nat.lt_succ_self _)
    exact ⟨p1, e1, e2.trans ((skip_whitespace_suffix _).trans s1)⟩

theorem parse_node_statement_total (p : FlowchartParser) :
    ∃ p1, parse_node_statement p = some p1 ∧ p1.rest <:+ p.rest := by
  unfold parse_node_statement
  have s1 := parse_identifier_suffix p.rest
  dsimp only
  split
  · exact ⟨_, rfl, (skip_to_eol_suffix _).trans s1⟩
  · next id hid =>
    have s2 := (skip_whitespace_suffix (parse_identifier p.rest).2).trans s1
    split
    · have s3 : skip_whitespace (parse_node_definition
          { p with rest := skip_whitespace (parse_identifier p.rest).2 } id).rest <:+ p.rest :=
        ((skip_whitespace_suffix _).trans (parse_node_definition_rest _ _)).trans s2
      split
      · obtain ⟨p1, e1, e2⟩ := parse_edge_total
          ((skip_whitespace (parse_node_definition
            { p with rest := skip_whitespace (parse_identifier p.rest).2 } id).rest).length + 1)
          { parse_node_definition
              { p with rest := skip_whitespace (parse_identifier p.rest).2 } id with
            rest := skip_whitespace (parse_node_definition
              { p with rest := skip_whitespace (parse_identifier p.rest).2 } id).rest } id
          (Nat.lt_succ_self _)
        exact ⟨p1, e1, e2.trans s3⟩
      · exact ⟨_, rfl, s3⟩
    · split
      · obtain ⟨p1, e1, e2⟩ := parse_edge_total
          ((skip_whitespace (parse_identifier p.rest).2).length + 1)
          (ensure_implicit_node { p with rest := skip_whitespace (parse_identifier p.rest).2 } id)
          id (by rw [ensure_implicit_node_rest]; exact Nat.lt_succ_self _)
        refine ⟨p1, e1, e2.trans ?_⟩
        rw [ensure_implicit_node_rest]
        exact s2
      · split
        · refine ⟨_, rfl, ?_⟩
          dsimp only
          rw [ensure_implicit_node_rest]
          exact (skip_to_eol_suffix _).trans s2
        · exact ⟨_, rfl, s2⟩

theorem parser_pop_subgraph_rest (p : FlowchartParser) : (parser_pop_subgraph p).rest = p.rest :=
  rfl

theorem parse_line_total (p : FlowchartParser) :
    ∃ p1, parse_line p = some p1 ∧ p1.rest <:+ p.rest := by
  unfold parse_line
  have s0 := skip_whitespace_suffix p.rest
  have kw : ∀ s : List Char, (match_case_insensitive (skip_whitespace p.rest) s).2 <:+ p.rest :=
    fun s => (match_case_insensitive_suffix _ s).trans s0
  dsimp only
  split
  · exact ⟨_, rfl, s0⟩
  · split
    · exact ⟨_, rfl, (skip_to_eol_suffix _).trans s0⟩
    · split
      · exact ⟨_, rfl, (parse_subgraph_rest _).trans (kw _)⟩
      · split
        · exact ⟨_, rfl, kw _⟩
        · split
          · obtain ⟨p1, e1, e2⟩ := parse_style_total
              { p with rest := (match_case_insensitive (skip_whitespace p.rest) "style".toList).2 }
            exact ⟨p1, e1, e2.trans (kw _)⟩
          · split
            · exact ⟨_, rfl, (skip_to_eol_suffix _).trans (kw _)⟩
            · split
              · exact ⟨_, rfl, (skip_to_eol_suffix _).trans (kw _)⟩
              · split
                · exact ⟨_, rfl, (skip_to_eol_suffix _).trans (kw _)⟩
                · obtain ⟨p1, e1, e2⟩ := parse_node_statement_total
                    { p with rest := skip_whitespace p.rest }
                  exact ⟨p1, e1, e2.trans s0⟩

theorem skip_loop_head (b : Bool) (l : List Char) (c : Char) (cs : List Char)
    (h : skip_whitespace_and_newlines_loop b l = c :: cs) : c ≠ '\n' := by
  induction l generalizing b with
  | nil => cases b <;> simp [skip_whitespace_and_newlines_loop] at h
  | cons x xs ih =>
    cases b with
    | true =>
      simp only [skip_whitespace_and_newlines_loop] at h
      split at h <;> exact ih _ h
    | false =>
      simp only [skip_whitespace_and_newlines_loop] at h
      split at h
      · exact ih _ h
      · split at h
        · exact ih _ h
        · next hn =>
          split at h
          · exact ih _ h
          · split at h
            · exact ih _ h
            · cases h
              simpa using hn

theorem skip_to_eol_lt (c : Char) (cs : List Char) (h : c ≠ '\n') :
    (skip_to_eol (c :: cs)).length < (c :: cs).length := by
  have e : skip_to_eol (c :: cs) = skip_to_eol cs :=
    List.dropWhile_cons_of_pos (by simp [h])
  rw [e]
  have := (skip_to_eol_suffix cs).length_le
  simp only [List.length_cons]
  omega

theorem parse_body_total : ∀ (fuel : Nat) (p : FlowchartParser), p.rest.length < fuel →
    ∃ p1, parse_body fuel p = some p1 := by
  intro fuel
  induction fuel with
  | zero => intro p h; omega
  | succ fuel ih =>
    intro p hlt
    simp only [parse_body]
    split
    · exact ⟨p, rfl⟩
    · next hne =>
      have s0 := skip_whitespace_and_newlines_suffix p.rest
      split
      · next hr =>
        obtain ⟨p1, e1, e2⟩ := parse_line_total
          { p with rest := skip_whitespace_and_newlines p.rest }
        rw [e1]
        dsimp only
        apply ih
        dsimp only
        cases hsk : skip_whitespace_and_newlines p.rest with
        | nil => simp [hsk, is_at_end] at hr
        | cons c cs =>
          have hc : c ≠ '\n' := skip_loop_head false p.rest c cs hsk
          have l0 := s0.length_le
          rw [hsk] at e2 l0
          dsimp only at e2
          by_cases hlen : p1.rest.length < (c :: cs).length
          · have := (skip_to_eol_suffix p1.rest).length_le
            omega
          · have e : p1.rest = c :: cs := e2.eq_of_length (by have := e2.length_le; omega)
            rw [e]
            have := skip_to_eol_lt c cs hc
            omega
      · next hr =>
        apply ih
        dsimp only
        have he : skip_whitespace_and_newlines p.rest = [] := by
          simpa [is_at_end] using hr
        have hne1 : p.rest ≠ [] := by simpa [is_at_end] using hne
        rw [he]
        cases hp : p.rest with
        | nil => exact absurd hp hne1
        | cons c cs => rw [hp] at hlt; simp at hlt ⊢; omega

/-! ## The header -/

theorem skip_loop_comment (l : List Char) :
    skip_whitespace_and_newlines_loop true l =
      skip_whitespace_and_newlines_loop false (l.dropWhile (fun d => d != '\n')) := by
  induction l with
  | nil => simp [skip_whitespace_and_newlines_loop]
  | cons c cs ih =>
    by_cases hc : c = '\n'
    · subst hc
      simp [skip_whitespace_and_newlines_loop]
    · rw [List.dropWhile_cons_of_pos (by simp [hc])]
      simp only [skip_whitespace_and_newlines_loop]
      rw [if_neg (by simpa using hc)]
      exact ih

theorem strip_leading_eq_skip_aux : ∀ (n : Nat) (s : List Char), s.length ≤ n →
    strip_leading s = skip_whitespace_and_newlines_loop false s := by
  intro n
  induction n with
  | zero =>
    intro s hs
    have : s = [] := List.length_eq_zero.mp (by omega)
    subst this
    simp [strip_leading, skip_whitespace_and_newlines_loop]
  | succ n ih =>
    intro s hs
    cases s with
    | nil => simp [strip_leading, skip_whitespace_and_newlines_loop]
    | cons c cs =>
      have hcs : cs.length ≤ n := by simpa using hs
      rw [strip_leading]
      simp only [skip_whitespace_and_newlines_loop]
      by_cases h1 : c = ' ' ∨ c = '\t' ∨ c = '\n' ∨ c = '\r'
      · rw [if_pos h1, ih cs hcs]
        rcases h1 with h1 | h1 | h1 | h1 <;> subst h1 <;> simp
      · rw [if_neg h1]
        simp only [not_or] at h1
        obtain ⟨a1, a2, a3, a4⟩ := h1
        have e1 : ¬ ((c == ' ' || c == '\t') = true) := by simp [a1, a2]
        have e2 : ¬ ((c == '\n') = true) := by simpa using a3
        have e3 : ¬ ((c == '\r') = true) := by simpa using a4
        rw [if_neg e1, if_neg e2, if_neg e3]
        by_cases h2 : c = '%' ∧ cs.head? = some '%'
        · rw [if_pos h2]
          have hp : (c == '%' && peek cs == '%') = true := by
            obtain ⟨b1, b2⟩ := h2
            subst b1
            cases cs with
            | nil => simp at b2
            | cons d ds => simp at b2; subst b2; simp [peek]
          rw [if_pos hp, skip_loop_comment]
          exact ih _ (by
            have := (List.dropWhile_suffix (l := cs) (fun d => d != '\n')).length_le
            omega)
        · rw [if_neg h2]
          have hp : ¬ (c == '%' && peek cs == '%') = true := by
            intro hp
            apply h2
            simp only [Bool.and_eq_true, beq_iff_eq] at hp
            refine ⟨hp.1, ?_⟩
            cases cs with
            | nil => simp [peek, NUL] at hp
            | cons d ds => simp [peek] at hp; simp [hp.2]
          rw [if_neg hp]

theorem strip_leading_eq_skip (s : List Char) :
    strip_leading s = skip_whitespace_and_newlines s :=
  strip_leading_eq_skip_aux s.length s (le_refl _)

theorem isPrefixOf_take (a b : List Char) : a.isPrefixOf (b.take a.length) = a.isPrefixOf b := by
  induction a generalizing b with
  | nil => simp
  | cons x xs ih =>
    cases b with
    | nil => simp
    | cons y ys => simp [List.isPrefixOf, ih]

theorem match_case_insensitive_fst (r kw : List Char) :
    (match_case_insensitive r kw).1 = begins_with_ci kw r := by
  unfold match_case_insensitive begins_with_ci strncasecmp_eq
  have e : (kw.map tolower).isPrefixOf ((r.take kw.length).map tolower)
      = (kw.map tolower).isPrefixOf (r.map tolower) := by
    rw [List.map_take]
    have := isPrefixOf_take (kw.map tolower) (r.map tolower)
    simpa using this
  rw [e]
  split
  · next hlt =>
    symm
    rw [Bool.eq_false_iff]
    intro hp
    have := (List.isPrefixOf_iff_prefix.mp hp).length_le
    simp at this
    omega
  · split
    · next hp => exact hp.symm
    · next hp => exact (Bool.eq_false_iff.mpr hp).symm

theorem parse_header_isSome (source : List Char) :
    (parse_header source).isSome = has_header source := by
  unfold parse_header has_header
  rw [strip_leading_eq_skip]
  dsimp only
  rw [match_case_insensitive_fst, match_case_insensitive_fst]
  split
  · next h => rw [h]; rfl
  · next h => rw [Bool.eq_false_iff.mpr h]; rfl

theorem parse_header_suffix (source : List Char) (h : IRFlowchartDirection × List Char)
    (e : parse_header source = some h) : h.2 <:+ source := by
  unfold parse_header at e
  dsimp only at e
  split at e
  · cases e
    dsimp only
    refine ((match_direction_suffix _).trans (skip_whitespace_suffix _)).trans ?_
    split
    · exact (match_case_insensitive_suffix _ _).trans (skip_whitespace_and_newlines_suffix _)
    · exact (match_case_insensitive_suffix _ _).trans (skip_whitespace_and_newlines_suffix _)
  · cases e

/-- C3: for every source text `ir_flowchart_parse` returns (the bound on its
loops is never reached), and it returns `NULL` exactly when the text is empty
or has no header, that is, after its leading blanks, line ends and `%%`
comment lines it does not begin with `flowchart` or `graph` in some letter
case; every text with a header yields a flowchart. -/
theorem ir_flowchart_parse_returns (source : List Char) :
    ∃ r, ir_flowchart_parse source = some r ∧
      (r = none ↔ (source = [] ∨ has_header source = false)) := by
  unfold ir_flowchart_parse ir_flowchart_parse_fuel
  by_cases h0 : source = []
  · subst h0
    exact ⟨none, by simp, by simp⟩
  · have hlen : ¬ (source.length == 0) = true := by simpa using h0
    rw [if_neg hlen]
    have hh := parse_header_isSome source
    cases hp : parse_header source with
    | none =>
      rw [hp] at hh
      exact ⟨none, rfl, by simp [← hh]⟩
    | some h =>
      rw [hp] at hh
      have hs := (parse_header_suffix source h hp).length_le
      obtain ⟨p1, e1⟩ := parse_body_total (source.length + 1)
        { rest := h.2, direction := h.1, flowchart := ir_flowchart h.1, subgraph_stack := [] }
        (by dsimp only; omega)
      dsimp only
      rw [e1]
      refine ⟨_, rfl, ?_⟩
      simp [h0, ← hh]


/-! ## A single edge between two new identifiers -/

theorem parse_header_flowchart_TB (t : List Char) :
    parse_header ("flowchart TB\n".toList ++ t) = some (IRFlowchartDirection.TB, '\n' :: t) := by
  rfl

theorem takeWhile_append_all (p : Char → Bool) (cs t : List Char) (h : cs.all p = true) :
    (cs ++ t).takeWhile p = cs ++ t.takeWhile p := by
  induction cs with
  | nil => rfl
  | cons c cs ih =>
    simp only [List.all_cons, Bool.and_eq_true] at h
    simp [List.takeWhile, h.1, ih h.2]

theorem dropWhile_append_all (p : Char → Bool) (cs t : List Char) (h : cs.all p = true) :
    (cs ++ t).dropWhile p = t.dropWhile p := by
  induction cs with
  | nil => rfl
  | cons c cs ih =>
    simp only [List.all_cons, Bool.and_eq_true] at h
    simp [List.dropWhile, h.1, ih h.2]

theorem identifier_start_ne (c d : Char) (h : (isalpha c || c == '_') = true)
    (hd : (isalpha d || d == '_') = false) : c ≠ d := by
  rintro rfl
  rw [h] at hd
  exact Bool.noConfusion hd

theorem identifier_char_ne (c d : Char) (h : (isalnum c || c == '_') = true)
    (hd : (isalnum d || d == '_') = false) : c ≠ d := by
  rintro rfl
  rw [h] at hd
  exact Bool.noConfusion hd

theorem is_identifier_cons (a : List Char) (h : is_identifier a = true) :
    ∃ c cs, a = c :: cs ∧ (isalpha c || c == '_') = true ∧
      cs.all (fun d => isalnum d || d == '_') = true := by
  cases a with
  | nil => simp [is_identifier] at h
  | cons c cs =>
    simp only [is_identifier, Bool.and_eq_true] at h
    exact ⟨c, cs, rfl, h.1, h.2⟩

theorem skip_whitespace_start (c : Char) (cs : List Char) (h : (isalpha c || c == '_') = true) :
    skip_whitespace (c :: cs) = c :: cs := by
  have h1 := identifier_start_ne c ' ' h (by decide)
  have h2 := identifier_start_ne c '\t' h (by decide)
  exact List.dropWhile_cons_of_neg (by simp [h1, h2])

theorem skip_whitespace_and_newlines_start (c : Char) (cs : List Char)
    (h : (isalpha c || c == '_') = true) :
    skip_whitespace_and_newlines (c :: cs) = c :: cs := by
  have h1 := identifier_start_ne c ' ' h (by decide)
  have h2 := identifier_start_ne c '\t' h (by decide)
  have h3 := identifier_start_ne c '\n' h (by decide)
  have h4 := identifier_start_ne c '\r' h (by decide)
  have h5 := identifier_start_ne c '%' h (by decide)
  simp [skip_whitespace_and_newlines, skip_whitespace_and_newlines_loop, h1, h2, h3, h4, h5]

theorem parse_identifier_append (a t : List Char) (ha : is_identifier a = true)
    (ht : ends_identifier t) : parse_identifier (a ++ t) = (some a, t) := by
  obtain ⟨c, cs, rfl, hc, hcs⟩ := is_identifier_cons a ha
  unfold parse_identifier
  rw [List.cons_append, skip_whitespace_start c _ hc]
  simp only [hc, if_true]
  rw [takeWhile_append_all _ _ _ hcs, dropWhile_append_all _ _ _ hcs]
  rcases ht with rfl | ⟨d, ds, rfl, hd⟩
  · simp
  · rw [List.takeWhile_cons_of_neg (by simp [hd]), List.dropWhile_cons_of_neg (by simp [hd])]
    simp

theorem c_str_identifier (a : List Char) (ha : is_identifier a = true) : c_str a = a := by
  obtain ⟨c, cs, rfl, hc, hcs⟩ := is_identifier_cons a ha
  unfold c_str
  rw [List.takeWhile_eq_self_iff]
  intro x hx
  simp only [List.mem_cons] at hx
  rcases hx with rfl | hx
  · have := identifier_start_ne x NUL hc (by decide)
    simpa using this
  · have hx2 := List.all_eq_true.mp hcs x hx
    have := identifier_char_ne x NUL hx2 (by decide)
    simpa using this

theorem isPrefixOf_append_stop (p x y : List Char) (d : Char) (hd : d ∉ p)
    (h : p.isPrefixOf (x ++ d :: y) = true) : p.isPrefixOf x = true := by
  induction p generalizing x with
  | nil => simp
  | cons q qs ih =>
    cases x with
    | nil =>
      simp only [List.nil_append, List.isPrefixOf, Bool.and_eq_true, beq_iff_eq] at h
      exact absurd h.1.symm (fun e => hd (by simp [e]))
    | cons x0 xs =>
      simp only [List.cons_append, List.isPrefixOf, Bool.and_eq_true, beq_iff_eq] at h ⊢
      exact ⟨h.1, ih xs (fun hm => hd (List.mem_cons_of_mem _ hm)) h.2⟩

theorem keyword_not_matched (a t kw : List Char) (d : Char)
    (hk : begins_with_ci kw a = false) (hd : tolower d ∉ kw.map tolower) :
    (match_case_insensitive (a ++ d :: t) kw).1 = false := by
  rw [match_case_insensitive_fst, Bool.eq_false_iff]
  intro h
  unfold begins_with_ci at h hk
  rw [List.map_append, List.map_cons] at h
  rw [isPrefixOf_append_stop _ _ _ _ hd h] at hk
  exact Bool.noConfusion hk

theorem match_fails (r s : List Char) (h : strncmp_eq r s = false) :
    match_ r s = (false, r) := by
  unfold match_
  split
  · rfl
  · simp [h]

theorem match_succeeds (s t : List Char) : match_ (s ++ t) s = (true, t) := by
  unfold match_ strncmp_eq
  simp

theorem parse_edge_operator_arrow (b : List Char) :
    parse_edge_operator ("-->".toList ++ b) = some (IRFlowchartEdgeType.ARROW, none, b) := by
  unfold parse_edge_operator
  rw [match_fails ("-->".toList ++ b) "<-->".toList rfl,
    match_fails ("-->".toList ++ b) "-.->".toList rfl,
    match_fails ("-->".toList ++ b) "-..->".toList rfl,
    match_fails ("-->".toList ++ b) "==>".toList rfl,
    match_succeeds]
  rfl

theorem node_already_exists_root (r : List Char) (d : IRFlowchartDirection) (f : Flowchart)
    (id : List Char) :
    node_already_exists { rest := r, direction := d, flowchart := f, subgraph_stack := [] } id
      = node_exists_in_children f.children id := rfl

theorem add_to_current_root (r : List Char) (d : IRFlowchartDirection) (f : Flowchart)
    (c : IRComponent) :
    add_to_current { rest := r, direction := d, flowchart := f, subgraph_stack := [] } c
      = { rest := r, direction := d, flowchart := { f with children := f.children ++ [c] },
          subgraph_stack := [] } := rfl

/-- The node that the parser creates for an identifier met in an edge. -/
theorem implicit_node_data (a : List Char) (ha : is_identifier a = true) :
    ir_flowchart_node (some a) IRFlowchartShape.RECTANGLE (some a) =
      IRComponent.FLOWCHART_NODE
        { node_id := some a, shape := IRFlowchartShape.RECTANGLE, label := some a,
          fill_color := 0xFFFFFFFF, stroke_color := 0x000000FF, stroke_width := 1 } := by
  simp [ir_flowchart_node, ir_flowchart_node_data_create, strdup, c_str_identifier a ha]

theorem parse_edge_single (n : Nat) (a b : List Char) (ha : is_identifier a = true)
    (hb : is_identifier b = true) (hab : a ≠ b) (d : IRFlowchartDirection) (st : IRFlowchartState) :
    parse_edge (n + 1)
      { rest := "-->".toList ++ b
        direction := d
        flowchart :=
          { state := st
            children := [ir_flowchart_node (some a) IRFlowchartShape.RECTANGLE (some a)] }
        subgraph_stack := [] } a
    = some
      { rest := []
        direction := d
        flowchart :=
          { state := st
            children :=
              [ir_flowchart_node (some a) IRFlowchartShape.RECTANGLE (some a),
               ir_flowchart_node (some b) IRFlowchartShape.RECTANGLE (some b),
               IRComponent.FLOWCHART_EDGE
                 { from_id := some a, to_id := some b, type := IRFlowchartEdgeType.ARROW,
                   start_marker := IRFlowchartMarker.NONE,
                   end_marker := IRFlowchartMarker.ARROW }] }
        subgraph_stack := [] } := by
  obtain ⟨c, cs, hbe, hc, hcs⟩ := is_identifier_cons b hb
  have sw : skip_whitespace b = b := by rw [hbe]; exact skip_whitespace_start c cs hc
  have hpipe : (peek b == '|') = false := by
    rw [hbe]
    have := identifier_start_ne c '|' hc (by decide)
    simpa [peek] using this
  have hid : parse_identifier b = (some b, []) := by
    have := parse_identifier_append b [] hb (Or.inl rfl)
    simpa using this
  simp only [parse_edge]
  have e0 : skip_whitespace ("-->".toList ++ b) = "-->".toList ++ b := rfl
  rw [e0, parse_edge_operator_arrow]
  simp only [sw, parse_pipe_label, hpipe, Bool.false_eq_true, if_false, hid]
  have hex : node_exists_in_children
      [ir_flowchart_node (some a) IRFlowchartShape.RECTANGLE (some a)] b = false := by
    rw [implicit_node_data a ha]
    simp [node_exists_in_children, node_exists_in_child, hab]
  simp only [add_edge, ensure_implicit_node, node_already_exists_root, hex, Bool.false_eq_true,
    if_false, add_to_current_root, ir_add_child, add_child_at, parse_target_definition]
  simp [skip_whitespace, peek, is_shape_open, is_edge_start, NUL, ir_flowchart_edge_data_create,
    strdup, c_str_identifier a ha, c_str_identifier b hb]

theorem parse_line_single (a b : List Char) (ha : is_identifier a = true)
    (hb : is_identifier b = true) (hab : a ≠ b)
    (hk : ∀ kw ∈ statement_keywords, begins_with_ci kw a = false)
    (d : IRFlowchartDirection) (st : IRFlowchartState) :
    parse_line
      { rest := a ++ ("-->".toList ++ b)
        direction := d
        flowchart := { state := st, children := [] }
        subgraph_stack := [] }
    = some
      { rest := []
        direction := d
        flowchart :=
          { state := st
            children :=
              [ir_flowchart_node (some a) IRFlowchartShape.RECTANGLE (some a),
               ir_flowchart_node (some b) IRFlowchartShape.RECTANGLE (some b),
               IRComponent.FLOWCHART_EDGE
                 { from_id := some a, to_id := some b, type := IRFlowchartEdgeType.ARROW,
                   start_marker := IRFlowchartMarker.NONE,
                   end_marker := IRFlowchartMarker.ARROW }] }
        subgraph_stack := [] } := by
  obtain ⟨c, cs, hae, hc, hcs⟩ := is_identifier_cons a ha
  have sw : skip_whitespace (a ++ ("-->".toList ++ b)) = a ++ ("-->".toList ++ b) := by
    rw [hae]; exact skip_whitespace_start c _ hc
  have hpeek : peek (a ++ ("-->".toList ++ b)) = c := by rw [hae]; rfl
  have hend : is_at_end (a ++ ("-->".toList ++ b)) = false := by rw [hae]; rfl
  have hnl : (c == '\n') = false := by
    simpa using identifier_start_ne c '\n' hc (by decide)
  have hpc : (c == '%') = false := by
    simpa using identifier_start_ne c '%' hc (by decide)
  have kw : ∀ k ∈ statement_keywords,
      (match_case_insensitive (a ++ ("-->".toList ++ b)) k).1 = false := by
    intro k hkm
    have hd : tolower '-' ∉ k.map tolower := by
      revert k
      decide
    exact keyword_not_matched a _ k '-' (hk k hkm) hd
  have k1 := kw "subgraph".toList (by decide)
  have k2 := kw "end".toList (by decide)
  have k3 := kw "style".toList (by decide)
  have k4 := kw "classDef".toList (by decide)
  have k5 := kw "class".toList (by decide)
  have k6 := kw "linkStyle".toList (by decide)
  have hid : parse_identifier (a ++ ("-->".toList ++ b)) = (some a, "-->".toList ++ b) :=
    parse_identifier_append a _ ha (Or.inr ⟨'-', _, rfl, by decide⟩)
  have e0 : skip_whitespace ("-->".toList ++ b) = "-->".toList ++ b := rfl
  have e1 : peek ("-->".toList ++ b) = '-' := rfl
  unfold parse_line
  simp only [sw, hpeek, hend, hnl, hpc, k1, k2, k3, k4, k5, k6, Bool.or_self,
    Bool.false_eq_true, if_false]
  unfold parse_node_statement
  simp only [hid, e0, e1]
  have s1 : is_shape_open '-' = false := by decide
  have s2 : is_edge_start '-' = true := by decide
  simp only [s1, s2, Bool.false_eq_true, if_false, if_true]
  have hex : node_exists_in_children ([] : List IRComponent) a = false := rfl
  simp only [ensure_implicit_node, node_already_exists_root, hex, Bool.false_eq_true, if_false,
    add_to_current_root, List.nil_append]
  exact parse_edge_single _ a b ha hb hab d st

theorem parse_body_single (n : Nat) (a b : List Char) (ha : is_identifier a = true)
    (hb : is_identifier b = true) (hab : a ≠ b)
    (hk : ∀ kw ∈ statement_keywords, begins_with_ci kw a = false)
    (d : IRFlowchartDirection) (st : IRFlowchartState) :
    parse_body (n + 2)
      { rest := '\n' :: (a ++ ("-->".toList ++ b))
        direction := d
        flowchart := { state := st, children := [] }
        subgraph_stack := [] }
    = some
      { rest := []
        direction := d
        flowchart :=
          { state := st
            children :=
              [ir_flowchart_node (some a) IRFlowchartShape.RECTANGLE (some a),
               ir_flowchart_node (some b) IRFlowchartShape.RECTANGLE (some b),
               IRComponent.FLOWCHART_EDGE
                 { from_id := some a, to_id := some b, type := IRFlowchartEdgeType.ARROW,
                   start_marker := IRFlowchartMarker.NONE,
                   end_marker := IRFlowchartMarker.ARROW }] }
        subgraph_stack := [] } := by
  obtain ⟨c, cs, hae, hc, hcs⟩ := is_identifier_cons a ha
  have e1 : skip_whitespace_and_newlines ('\n' :: (a ++ ("-->".toList ++ b)))
      = a ++ ("-->".toList ++ b) := by
    have : skip_whitespace_and_newlines ('\n' :: (a ++ ("-->".toList ++ b)))
        = skip_whitespace_and_newlines (a ++ ("-->".toList ++ b)) := rfl
    rw [this, hae]
    exact skip_whitespace_and_newlines_start c _ hc
  have hend : is_at_end (a ++ ("-->".toList ++ b)) = false := by rw [hae]; rfl
  have hend0 : is_at_end ('\n' :: (a ++ ("-->".toList ++ b))) = false := rfl
  simp only [parse_body, hend0, Bool.false_eq_true, if_false, e1, hend, Bool.not_false, if_true,
    parse_line_single a b ha hb hab hk d st]
  rfl

/-- C4: for identifiers `a` and `b` that differ, `a` not beginning (in any
letter case) with a statement keyword, parsing `flowchart TB`, newline, `a-->b`
yields exactly the two nodes a and b, in this order, both rectangles labelled
with their own id, and exactly one edge, from a to b, of arrow type. -/
theorem parse_single_arrow (a b : List Char) (ha : is_identifier a = true)
    (hb : is_identifier b = true) (hab : a ≠ b)
    (hk : ∀ kw ∈ statement_keywords, begins_with_ci kw a = false) :
    ∃ fc : Flowchart,
      ir_flowchart_parse ("flowchart TB\n".toList ++ a ++ "-->".toList ++ b) = some (some fc) ∧
      fc.state.nodes.map (fun n => (n.node_id, n.shape, n.label)) =
        [(some a, IRFlowchartShape.RECTANGLE, some a),
         (some b, IRFlowchartShape.RECTANGLE, some b)] ∧
      fc.state.edges.map (fun e => (e.from_id, e.to_id, e.type)) =
        [(some a, some b, IRFlowchartEdgeType.ARROW)] := by
  have hsrc : "flowchart TB\n".toList ++ a ++ "-->".toList ++ b
      = "flowchart TB\n".toList ++ (a ++ ("-->".toList ++ b)) := by
    simp only [List.append_assoc]
  have hlen : ("flowchart TB\n".toList ++ (a ++ ("-->".toList ++ b))).length + 1
      = (a ++ ("-->".toList ++ b)).length + 12 + 2 := by
    simp only [List.length_append]
    have : "flowchart TB\n".toList.length = 13 := rfl
    omega
  rw [hsrc]
  unfold ir_flowchart_parse ir_flowchart_parse_fuel
  have hne : (("flowchart TB\n".toList ++ (a ++ ("-->".toList ++ b))).length == 0) = false := rfl
  rw [hlen]
  simp only [hne, Bool.false_eq_true, if_false, parse_header_flowchart_TB]
  have hbody := parse_body_single ((a ++ ("-->".toList ++ b)).length + 12) a b ha hb hab hk
    IRFlowchartDirection.TB (ir_flowchart IRFlowchartDirection.TB).state
  have hfc : ir_flowchart IRFlowchartDirection.TB
      = { state := (ir_flowchart IRFlowchartDirection.TB).state, children := [] } := rfl
  rw [hfc, hbody]
  refine ⟨_, rfl, ?_, ?_⟩
  · simp [ir_flowchart_finalize, finalize_child, ir_flowchart_register_node,
      ir_flowchart_register_edge, implicit_node_data a ha, implicit_node_data b hb,
      ir_flowchart, ir_flowchart_create_state]
  · simp [ir_flowchart_finalize, finalize_child, ir_flowchart_register_node,
      ir_flowchart_register_edge, implicit_node_data a ha, implicit_node_data b hb,
      ir_flowchart, ir_flowchart_create_state]

/-- The instance a = A, b = B of `parse_single_arrow`: the input
`flowchart TB`, newline, `A-->B`. -/
theorem parse_single_arrow_witness :
    ∃ fc : Flowchart,
      ir_flowchart_parse "flowchart TB\nA-->B".toList = some (some fc) ∧
      fc.state.nodes.map (fun n => (n.node_id, n.shape, n.label)) =
        [(some "A".toList, IRFlowchartShape.RECTANGLE, some "A".toList),
         (some "B".toList, IRFlowchartShape.RECTANGLE, some "B".toList)] ∧
      fc.state.edges.map (fun e => (e.from_id, e.to_id, e.type)) =
        [(some "A".toList, some "B".toList, IRFlowchartEdgeType.ARROW)] :=
  parse_single_arrow "A".toList "B".toList (by decide) (by decide) (by decide) (by decide)


/-! ## The component tree only grows -/

theorem node_exists_in_children_any (cs : List IRComponent) (id : List Char) :
    node_exists_in_children cs id = cs.any (fun c => node_exists_in_child c id) := by
  induction cs with
  | nil => simp [node_exists_in_children]
  | cons c cs ih => simp [node_exists_in_children, ih]

theorem node_exists_iff (cs : List IRComponent) (id : List Char) :
    node_exists_in_children cs id = true ↔ ∃ c ∈ cs, node_exists_in_child c id = true := by
  rw [node_exists_in_children_any, List.any_eq_true]

theorem node_exists_subgraph (d : IRFlowchartSubgraphData) (ch : List IRComponent)
    (id : List Char) :
    node_exists_in_child (IRComponent.FLOWCHART_SUBGRAPH d ch) id
      = (d.subgraph_id == some id || node_exists_in_children ch id) := by
  simp [node_exists_in_child]

theorem mem_set_cases {α : Type} (l : List α) (i : Nat) (y x : α) (h : x ∈ l.set i y) :
    x = y ∨ x ∈ l := by
  rcases List.mem_or_eq_of_mem_set h with h | h
  · exact Or.inr h
  · exact Or.inl h

theorem exists_mem_set {α : Type} (l : List α) (i : Nat) (y z x : α) (hi : l[i]? = some z)
    (h : x ∈ l) : x = z ∨ x ∈ l.set i y := by
  obtain ⟨j, hj, rfl⟩ := List.getElem_of_mem h
  by_cases e : i = j
  · subst e
    left
    rw [List.getElem?_eq_getElem hj] at hi
    exact Option.some.inj hi
  · right
    have : (l.set i y)[j]? = some l[j] := by
      rw [List.getElem?_set_ne e]
      exact List.getElem?_eq_getElem hj
    exact List.getElem?_mem this

theorem mem_set_self {α : Type} (l : List α) (i : Nat) (y z : α) (hi : l[i]? = some z) :
    y ∈ l.set i y := by
  have hlt : i < l.length := by
    by_contra hc
    rw [List.getElem?_eq_none (by omega)] at hi
    exact Option.noConfusion hi
  have : (l.set i y)[i]? = some y := by
    rw [List.getElem?_set_self hlt]
  exact List.getElem?_mem this

/-- Adding a child anywhere keeps every id that was in the tree. -/
theorem add_child_exists_mono (path : List Nat) (c : IRComponent) :
    ∀ (cs : List IRComponent) (id : List Char), node_exists_in_children cs id = true →
      node_exists_in_children (add_child_at path c cs) id = true := by
  induction path with
  | nil =>
    intro cs id h
    rw [node_exists_iff] at h ⊢
    obtain ⟨x, hx, hx2⟩ := h
    exact ⟨x, by simp [add_child_at, hx], hx2⟩
  | cons i path ih =>
    intro cs id h
    simp only [add_child_at]
    split
    · next d ch hget =>
      rw [node_exists_iff] at h ⊢
      obtain ⟨x, hx, hx2⟩ := h
      rcases exists_mem_set cs i (IRComponent.FLOWCHART_SUBGRAPH d (add_child_at path c ch)) _ x
        hget hx with e | e
      · subst e
        refine ⟨_, mem_set_self cs i _ _ hget, ?_⟩
        rw [node_exists_subgraph] at hx2 ⊢
        rw [Bool.or_eq_true] at hx2 ⊢
        rcases hx2 with h1 | h1
        · exact Or.inl h1
        · exact Or.inr (ih ch id h1)
      · exact ⟨x, e, hx2⟩
    · exact h

/-- A child added below a pointer that designates a component brings its ids
into the tree. -/
theorem add_child_exists_new (path : List Nat) (c : IRComponent) (id : List Char)
    (hc : node_exists_in_child c id = true) :
    ∀ (cs : List IRComponent), (children_at path cs).isSome = true →
      node_exists_in_children (add_child_at path c cs) id = true := by
  induction path with
  | nil =>
    intro cs _
    rw [node_exists_iff]
    exact ⟨c, by simp [add_child_at], hc⟩
  | cons i path ih =>
    intro cs hv
    simp only [children_at] at hv
    simp only [add_child_at]
    split
    · next d ch hget =>
      rw [hget] at hv
      rw [node_exists_iff]
      refine ⟨_, mem_set_self cs i _ _ hget, ?_⟩
      rw [node_exists_subgraph, Bool.or_eq_true]
      exact Or.inr (ih ch hv)
    · next hno =>
      exfalso
      split at hv
      · next d ch hget => exact hno d ch hget
      · simp at hv

/-- An id found among the children of a designated component is in the tree. -/
theorem exists_of_children_at (path : List Nat) (id : List Char) :
    ∀ (cs ch : List IRComponent), children_at path cs = some ch →
      node_exists_in_children ch id = true → node_exists_in_children cs id = true := by
  induction path with
  | nil =>
    intro cs ch h hx
    simp only [children_at] at h
    cases h
    exact hx
  | cons i path ih =>
    intro cs ch h hx
    simp only [children_at] at h
    split at h
    · next d ch1 hget =>
      rw [node_exists_iff]
      refine ⟨_, List.getElem?_mem hget, ?_⟩
      rw [node_exists_subgraph, Bool.or_eq_true]
      exact Or.inr (ih ch1 ch h hx)
    · cases h

theorem any_set_same {α : Type} (p : α → Bool) (l : List α) (i : Nat) (y z : α)
    (hi : l[i]? = some z) (hp : p y = p z) : (l.set i y).any p = l.any p := by
  induction l generalizing i with
  | nil => simp at hi
  | cons x xs ih =>
    cases i with
    | zero =>
      simp only [List.getElem?_cons_zero, Option.some.injEq] at hi
      subst hi
      simp [hp]
    | succ j =>
      simp only [List.getElem?_cons_succ] at hi
      simp [ih j hi]

/-- A pointer that designates a component still does after a child is added
anywhere. -/
theorem add_child_valid_mono (path : List Nat) (c : IRComponent) :
    ∀ (q : List Nat) (cs : List IRComponent), (children_at q cs).isSome = true →
      (children_at q (add_child_at path c cs)).isSome = true := by
  induction path with
  | nil =>
    intro q cs h
    cases q with
    | nil => simp [children_at]
    | cons j q =>
      simp only [children_at, add_child_at] at h ⊢
      split at h
      · next d ch hget =>
        have hlt : j < cs.length := by
          by_contra hc
          rw [List.getElem?_eq_none (by omega)] at hget
          exact Option.noConfusion hget
        rw [List.getElem?_append_left hlt, hget]
        exact h
      · simp at h
  | cons i path ih =>
    intro q cs h
    simp only [add_child_at]
    split
    · next d ch hget =>
      cases q with
      | nil => simp [children_at]
      | cons j q =>
        simp only [children_at] at h ⊢
        by_cases e : i = j
        · subst e
          have hlt : i < cs.length := by
            by_contra hc
            rw [List.getElem?_eq_none (by omega)] at hget
            exact Option.noConfusion hget
          rw [List.getElem?_set_self hlt]
          rw [hget] at h
          exact ih q ch h
        · rw [List.getElem?_set_ne e]
          exact h
    · exact h

/-- The pointer of a subgraph added as last child of a designated component
designates it, and it has no children yet. -/
theorem add_subgraph_pointer (d : IRFlowchartSubgraphData) (path : List Nat) :
    ∀ (cs ch : List IRComponent), children_at path cs = some ch →
      children_at (path ++ [ch.length])
        (add_child_at path (IRComponent.FLOWCHART_SUBGRAPH d []) cs) = some [] := by
  induction path with
  | nil =>
    intro cs ch h
    simp only [children_at] at h
    cases h
    simp [children_at, add_child_at]
  | cons i path ih =>
    intro cs ch h
    simp only [children_at] at h
    split at h
    · next d2 ch2 hget =>
      have hlt : i < cs.length := by
        by_contra hc
        rw [List.getElem?_eq_none (by omega)] at hget
        exact Option.noConfusion hget
      simp only [add_child_at, hget, List.cons_append, children_at, List.getElem?_set_self hlt]
      exact ih ch2 ch h
    · cases h

theorem add_child_edges (path : List Nat) (c : IRComponent) (cs : List IRComponent)
    (e : IRFlowchartEdgeData)
    (h : IRComponent.FLOWCHART_EDGE e ∈ add_child_at path c cs) :
    IRComponent.FLOWCHART_EDGE e ∈ cs ∨ (path = [] ∧ c = IRComponent.FLOWCHART_EDGE e) := by
  cases path with
  | nil =>
    simp only [add_child_at, List.mem_append, List.mem_singleton] at h
    rcases h with h | h
    · exact Or.inl h
    · exact Or.inr ⟨rfl, h.symm⟩
  | cons i path =>
    simp only [add_child_at] at h
    split at h
    · rcases mem_set_cases _ _ _ _ h with h1 | h1
      · cases h1
      · exact Or.inl h1
    · exact Or.inl h

theorem set_direction_exists (path : List Nat) (dir : IRFlowchartDirection) :
    ∀ (cs : List IRComponent) (id : List Char),
      node_exists_in_children (set_direction_at path dir cs) id
        = node_exists_in_children cs id := by
  induction path with
  | nil => intro cs id; rfl
  | cons i path ih =>
    intro cs id
    simp only [set_direction_at]
    split
    · next d ch hget =>
      split
      · rw [node_exists_in_children_any, node_exists_in_children_any]
        exact any_set_same _ cs i _ _ hget (by simp [node_exists_subgraph])
      · rw [node_exists_in_children_any, node_exists_in_children_any]
        exact any_set_same _ cs i _ _ hget (by simp [node_exists_subgraph, ih])
    · rfl

theorem set_direction_valid (path : List Nat) (dir : IRFlowchartDirection) :
    ∀ (q : List Nat) (cs : List IRComponent), (children_at q cs).isSome = true →
      (children_at q (set_direction_at path dir cs)).isSome = true := by
  induction path with
  | nil => intro q cs h; exact h
  | cons i path ih =>
    intro q cs h
    simp only [set_direction_at]
    split
    · next d ch hget =>
      have hlt : i < cs.length := by
        by_contra hc
        rw [List.getElem?_eq_none (by omega)] at hget
        exact Option.noConfusion hget
      cases q with
      | nil => simp [children_at]
      | cons j q =>
        simp only [children_at] at h
        by_cases e : i = j
        · subst e
          rw [hget] at h
          split
          · simp only [children_at, List.getElem?_set_self hlt]
            exact h
          · simp only [children_at, List.getElem?_set_self hlt]
            exact ih q ch h
        · split
          · simp only [children_at, List.getElem?_set_ne e]
            exact h
          · simp only [children_at, List.getElem?_set_ne e]
            exact h
    · exact h

theorem set_direction_edges (path : List Nat) (dir : IRFlowchartDirection)
    (cs : List IRComponent) (e : IRFlowchartEdgeData)
    (h : IRComponent.FLOWCHART_EDGE e ∈ set_direction_at path dir cs) :
    IRComponent.FLOWCHART_EDGE e ∈ cs := by
  cases path with
  | nil => exact h
  | cons i path =>
    simp only [set_direction_at] at h
    split at h
    · split at h
      · rcases mem_set_cases _ _ _ _ h with h1 | h1
        · cases h1
        · exact h1
      · rcases mem_set_cases _ _ _ _ h with h1 | h1
        · cases h1
        · exact h1
    · exact h

/-! ## The parser keeps every edge resolved -/

theorem tree_grows_refl (cs : List IRComponent) : tree_grows cs cs :=
  ⟨fun _ h => h, fun _ h => h⟩

theorem tree_grows_trans {a b c : List IRComponent} (h1 : tree_grows a b) (h2 : tree_grows b c) :
    tree_grows a c :=
  ⟨fun id h => h2.1 id (h1.1 id h), fun q h => h2.2 q (h1.2 q h)⟩

theorem add_child_grows (path : List Nat) (c : IRComponent) (cs : List IRComponent) :
    tree_grows cs (add_child_at path c cs) :=
  ⟨fun id h => add_child_exists_mono path c cs id h, fun q h => add_child_valid_mono path c q cs h⟩

theorem edge_resolves_mono {cs cs1 : List IRComponent} (h : tree_grows cs cs1)
    (e : IRFlowchartEdgeData) (he : edge_resolves cs e) : edge_resolves cs1 e := by
  obtain ⟨f, t, h1, h2, h3, h4⟩ := he
  exact ⟨f, t, h1, h2, h.1 f h3, h.1 t h4⟩

/-- The invariant passes to a state whose tree has grown, whose root edges are
old or resolved, whose stack pointers are old or designate a component, and
whose edge registry is empty. -/
theorem parser_inv_step (p p1 : FlowchartParser) (hinv : parser_inv p)
    (hg : tree_grows p.flowchart.children p1.flowchart.children)
    (he : ∀ e, IRComponent.FLOWCHART_EDGE e ∈ p1.flowchart.children →
      IRComponent.FLOWCHART_EDGE e ∈ p.flowchart.children ∨
        edge_resolves p1.flowchart.children e)
    (hs : ∀ ptr ∈ p1.subgraph_stack, ptr ∈ p.subgraph_stack ∨
      (children_at ptr p1.flowchart.children).isSome = true)
    (hst : p1.flowchart.state.edges = []) : parser_inv p1 := by
  obtain ⟨i1, i2, _⟩ := hinv
  refine ⟨?_, ?_, hst⟩
  · intro e hm
    rcases he e hm with h | h
    · exact edge_resolves_mono hg e (i1 e h)
    · exact h
  · intro ptr hm
    rcases hs ptr hm with h | h
    · exact hg.2 ptr (i2 ptr h)
    · exact h

theorem current_valid (p : FlowchartParser) (hinv : parser_inv p) (ptr : List Nat)
    (h : parser_current_subgraph p = some ptr) :
    (children_at ptr p.flowchart.children).isSome = true := by
  apply hinv.2.1
  unfold parser_current_subgraph at h
  exact List.mem_of_getLast?_eq_some h

theorem add_to_current_inv (p : FlowchartParser) (c : IRComponent) (hinv : parser_inv p)
    (hc : ∀ e, c ≠ IRComponent.FLOWCHART_EDGE e) :
    parser_inv (add_to_current p c) ∧
      tree_grows p.flowchart.children (add_to_current p c).flowchart.children ∧
      (add_to_current p c).subgraph_stack = p.subgraph_stack ∧
      ∀ id, node_exists_in_child c id = true →
        node_exists_in_children (add_to_current p c).flowchart.children id = true := by
  have key : ∀ ptr : List Nat, (children_at ptr p.flowchart.children).isSome = true →
      parser_inv { p with flowchart := ir_add_child p.flowchart ptr c } ∧
      tree_grows p.flowchart.children (add_child_at ptr c p.flowchart.children) ∧
      ∀ id, node_exists_in_child c id = true →
        node_exists_in_children (add_child_at ptr c p.flowchart.children) id = true := by
    intro ptr hv
    have hg := add_child_grows ptr c p.flowchart.children
    refine ⟨?_, hg, fun id hid => add_child_exists_new ptr c id hid _ hv⟩
    apply parser_inv_step p _ hinv hg
    · intro e hm
      rcases add_child_edges ptr c _ e hm with h | ⟨_, h⟩
      · exact Or.inl h
      · exact absurd h (hc e)
    · intro q hq; exact Or.inl hq
    · exact hinv.2.2
  unfold add_to_current
  cases hcur : parser_current_subgraph p with
  | none =>
    obtain ⟨a, b, c1⟩ := key [] rfl
    exact ⟨a, b, rfl, c1⟩
  | some ptr =>
    obtain ⟨a, b, c1⟩ := key ptr (current_valid p hinv ptr hcur)
    exact ⟨a, b, rfl, c1⟩

theorem node_already_exists_sound (p : FlowchartParser) (hinv : parser_inv p) (id : List Char)
    (h : node_already_exists p id = true) :
    node_exists_in_children p.flowchart.children id = true := by
  unfold node_already_exists at h
  dsimp only at h
  cases hcur : parser_current_subgraph p with
  | none => rw [hcur] at h; exact h
  | some ptr =>
    rw [hcur] at h
    dsimp only at h
    split at h
    · next hnot =>
      have hv := current_valid p hinv ptr hcur
      cases hch : children_at ptr p.flowchart.children with
      | none => rw [hch] at hv; exact absurd hv (by simp)
      | some ch =>
        rw [hch] at h
        exact exists_of_children_at ptr id _ ch hch h
    · exact h

theorem node_component_exists (id : List Char) (shape : IRFlowchartShape)
    (label : Option (List Char)) (hid : c_str id = id) :
    node_exists_in_child (ir_flowchart_node (some id) shape label) id = true := by
  simp [ir_flowchart_node, ir_flowchart_node_data_create, node_exists_in_child, strdup, hid]

theorem node_component_not_edge (id : Option (List Char)) (shape : IRFlowchartShape)
    (label : Option (List Char)) (e : IRFlowchartEdgeData) :
    ir_flowchart_node id shape label ≠ IRComponent.FLOWCHART_EDGE e := by
  simp [ir_flowchart_node]

theorem ensure_implicit_node_inv (p : FlowchartParser) (id : List Char) (hinv : parser_inv p)
    (hid : c_str id = id) :
    parser_inv (ensure_implicit_node p id) ∧
      tree_grows p.flowchart.children (ensure_implicit_node p id).flowchart.children ∧
      (ensure_implicit_node p id).subgraph_stack = p.subgraph_stack ∧
      node_exists_in_children (ensure_implicit_node p id).flowchart.children id = true := by
  unfold ensure_implicit_node
  split
  · next h => exact ⟨hinv, tree_grows_refl _, rfl, node_already_exists_sound p hinv id h⟩
  · obtain ⟨a, b, c, d⟩ := add_to_current_inv p
      (ir_flowchart_node (some id) IRFlowchartShape.RECTANGLE (some id)) hinv
      (node_component_not_edge _ _ _)
    exact ⟨a, b, c, d id (node_component_exists id _ _ hid)⟩

theorem parse_node_definition_inv (p : FlowchartParser) (id : List Char) (hinv : parser_inv p)
    (hid : c_str id = id) :
    parser_inv (parse_node_definition p id) ∧
      tree_grows p.flowchart.children (parse_node_definition p id).flowchart.children ∧
      (parse_node_definition p id).subgraph_stack = p.subgraph_stack ∧
      node_exists_in_children (parse_node_definition p id).flowchart.children id = true := by
  unfold parse_node_definition
  dsimp only
  have hinv1 : parser_inv { p with rest := (parse_shape (skip_whitespace p.rest)).2.2 } := hinv
  split
  · next h => exact ⟨hinv1, tree_grows_refl _, rfl, node_already_exists_sound _ hinv1 id h⟩
  · obtain ⟨a, b, c, d⟩ := add_to_current_inv
      { p with rest := (parse_shape (skip_whitespace p.rest)).2.2 }
      (ir_flowchart_node (some id) (parse_shape (skip_whitespace p.rest)).1
        (some (match (parse_shape (skip_whitespace p.rest)).2.1 with
          | some l => l
          | none => c_str id))) hinv1 (node_component_not_edge _ _ _)
    exact ⟨a, b, c, d id (node_component_exists id _ _ hid)⟩

theorem takeWhile_all (p : Char → Bool) (l : List Char) : (l.takeWhile p).all p = true := by
  induction l with
  | nil => rfl
  | cons c cs ih =>
    by_cases h : p c = true
    · rw [List.takeWhile_cons_of_pos h]
      simp [h, ih]
    · rw [List.takeWhile_cons_of_neg h]
      rfl

/-- What `parse_identifier` returns is an identifier. -/
theorem parse_identifier_is_identifier (r id : List Char)
    (h : (parse_identifier r).1 = some id) : is_identifier id = true := by
  unfold parse_identifier at h
  dsimp only at h
  split at h
  · cases h
  · next c cs _ =>
    split at h
    · next hc =>
      simp only [Option.some.injEq] at h
      subst h
      simp only [is_identifier, hc, Bool.true_and]
      exact takeWhile_all _ cs
    · cases h

theorem parse_identifier_c_str (r id : List Char) (h : (parse_identifier r).1 = some id) :
    c_str id = id :=
  c_str_identifier id (parse_identifier_is_identifier r id h)

theorem add_edge_inv (p : FlowchartParser) (from_id to_id : List Char)
    (type : IRFlowchartEdgeType) (label : Option (List Char)) (hinv : parser_inv p)
    (hfrom : node_exists_in_children p.flowchart.children from_id = true)
    (hf : c_str from_id = from_id) (ht : c_str to_id = to_id) :
    parser_inv (add_edge p from_id to_id type label) ∧
      tree_grows p.flowchart.children (add_edge p from_id to_id type label).flowchart.children ∧
      (add_edge p from_id to_id type label).subgraph_stack = p.subgraph_stack ∧
      node_exists_in_children (add_edge p from_id to_id type label).flowchart.children to_id
        = true := by
  obtain ⟨a, b, c, d⟩ := ensure_implicit_node_inv p to_id hinv ht
  have hg := add_child_grows []
    (IRComponent.FLOWCHART_EDGE
      (match label with
       | some l => ir_flowchart_edge_set_label
          { ir_flowchart_edge_data_create (some from_id) (some to_id) with type := type } (some l)
       | none => { ir_flowchart_edge_data_create (some from_id) (some to_id) with type := type }))
    (ensure_implicit_node p to_id).flowchart.children
  unfold add_edge
  dsimp only
  refine ⟨?_, tree_grows_trans b hg, c, hg.1 to_id d⟩
  apply parser_inv_step (ensure_implicit_node p to_id) _ a hg
  · intro e hm
    rcases add_child_edges [] _ _ e hm with h | ⟨_, h⟩
    · exact Or.inl h
    · right
      refine ⟨from_id, to_id, ?_, ?_, hg.1 _ (b.1 _ hfrom), hg.1 _ d⟩
      · cases label <;>
          · simp only [IRComponent.FLOWCHART_EDGE.injEq] at h
            subst h
            simp [ir_flowchart_edge_set_label, ir_flowchart_edge_data_create, strdup, hf]
      · cases label <;>
          · simp only [IRComponent.FLOWCHART_EDGE.injEq] at h
            subst h
            simp [ir_flowchart_edge_set_label, ir_flowchart_edge_data_create, strdup, ht]
  · intro q hq; exact Or.inl hq
  · exact a.2.2

theorem parse_target_definition_inv (p : FlowchartParser) (id : List Char)
    (hinv : parser_inv p) (hid : c_str id = id) :
    parser_inv (parse_target_definition p id) ∧
      tree_grows p.flowchart.children (parse_target_definition p id).flowchart.children ∧
      (parse_target_definition p id).subgraph_stack = p.subgraph_stack := by
  unfold parse_target_definition
  dsimp only
  split
  · obtain ⟨a, b, c, _⟩ := parse_node_definition_inv
      { p with rest := skip_whitespace p.rest } id hinv hid
    exact ⟨a, b, c⟩
  · exact ⟨hinv, tree_grows_refl _, rfl⟩

theorem parse_edge_inv : ∀ (fuel : Nat) (p p1 : FlowchartParser) (from_id : List Char),
    parse_edge fuel p from_id = some p1 → parser_inv p →
    node_exists_in_children p.flowchart.children from_id = true → c_str from_id = from_id →
    parser_inv p1 := by
  intro fuel
  induction fuel with
  | zero => intro p p1 _ h; simp [parse_edge] at h
  | succ fuel ih =>
    intro p p1 from_id h hinv hfrom hf
    simp only [parse_edge] at h
    cases hop : parse_edge_operator (skip_whitespace p.rest) with
    | none =>
      rw [hop] at h
      simp only [Option.some.injEq] at h
      subst h
      exact hinv
    | some op =>
      rw [hop] at h
      dsimp only at h
      cases hid : (parse_identifier (skip_whitespace
          (parse_pipe_label op.2.1 (skip_whitespace op.2.2)).2)).1 with
      | none =>
        rw [hid] at h
        simp only [Option.some.injEq] at h
        subst h
        exact hinv
      | some to_id =>
        rw [hid] at h
        dsimp only at h
        have ht := parse_identifier_c_str _ _ hid
        obtain ⟨a1, _, _, a4⟩ := add_edge_inv
          { p with rest := (parse_identifier (skip_whitespace
            (parse_pipe_label op.2.1 (skip_whitespace op.2.2)).2)).2 }
          from_id to_id op.1 (parse_pipe_label op.2.1 (skip_whitespace op.2.2)).1
          hinv hfrom hf ht
        obtain ⟨b1, b2, _⟩ := parse_target_definition_inv _ to_id a1 ht
        split at h
        · exact ih _ p1 to_id h b1 (b2.1 _ a4) ht
        · simp only [Option.some.injEq] at h
          subst h
          exact b1

theorem open_subgraph_inv (p : FlowchartParser) (subgraph_id title : Option (List Char))
    (hinv : parser_inv p) :
    parser_inv (open_subgraph p subgraph_id title) ∧
      (children_at (next_child_pointer p)
        (open_subgraph p subgraph_id title).flowchart.children).isSome = true := by
  have hvalid : (children_at ((parser_current_subgraph p).getD []) p.flowchart.children).isSome
      = true := by
    cases hcur : parser_current_subgraph p with
    | none => rfl
    | some ptr => exact current_valid p hinv ptr hcur
  have hptr : ∀ d : IRFlowchartSubgraphData,
      (children_at (next_child_pointer p)
        (add_child_at ((parser_current_subgraph p).getD [])
          (IRComponent.FLOWCHART_SUBGRAPH d []) p.flowchart.children)).isSome = true := by
    intro d
    unfold next_child_pointer
    dsimp only
    cases hch : children_at ((parser_current_subgraph p).getD []) p.flowchart.children with
    | none => rw [hch] at hvalid; exact absurd hvalid (by simp)
    | some ch =>
      rw [Option.getD_some, add_subgraph_pointer d _ _ ch hch]
      rfl
  unfold open_subgraph
  dsimp only
  refine ⟨?_, hptr _⟩
  apply parser_inv_step p _ hinv (add_child_grows _ _ _)
  · intro e hm
    rcases add_child_edges _ _ _ e hm with h | ⟨_, h⟩
    · exact Or.inl h
    · cases h
  · intro q hq
    simp only [parser_push_subgraph, List.mem_append, List.mem_singleton] at hq
    rcases hq with hq | hq
    · exact Or.inl hq
    · right
      rw [hq]
      exact hptr _
  · exact hinv.2.2

theorem set_subgraph_direction_inv (p : FlowchartParser) (ptr : List Nat)
    (dir : IRFlowchartDirection) (hinv : parser_inv p) :
    parser_inv (set_subgraph_direction p ptr dir) := by
  unfold set_subgraph_direction
  apply parser_inv_step p _ hinv
  · exact ⟨fun id h => by rw [set_direction_exists]; exact h,
      fun q h => set_direction_valid ptr dir q _ h⟩
  · intro e hm
    exact Or.inl (set_direction_edges ptr dir _ e hm)
  · intro q hq; exact Or.inl hq
  · exact hinv.2.2

/-- The invariant does not depend on the cursor. -/
theorem parser_inv_congr (p q : FlowchartParser) (hf : q.flowchart = p.flowchart)
    (hs : q.subgraph_stack = p.subgraph_stack) (h : parser_inv p) : parser_inv q := by
  unfold parser_inv at h ⊢
  rw [hf, hs]
  exact h

theorem parse_subgraph_inv (p : FlowchartParser) (hinv : parser_inv p) :
    parser_inv (parse_subgraph p) := by
  unfold parse_subgraph
  lift_lets
  intro idr tr subgraph p1 r1 m
  have a : parser_inv p1 := (open_subgraph_inv { p with rest := tr.2 } idr.1 tr.1 hinv).1
  clear_value m r1 p1 subgraph tr idr
  split
  · exact set_subgraph_direction_inv _ _ _ (parser_inv_congr p1 _ rfl rfl a)
  · exact parser_inv_congr p1 _ rfl rfl a

theorem parser_pop_subgraph_inv (p : FlowchartParser) (hinv : parser_inv p) :
    parser_inv (parser_pop_subgraph p) := by
  refine parser_inv_step p (parser_pop_subgraph p) hinv (tree_grows_refl _) ?_ ?_ hinv.2.2
  · intro e hm; exact Or.inl hm
  · intro q hq
    exact Or.inl (List.dropLast_subset _ hq)

theorem set_found_node_inv (p : FlowchartParser) (id : List Char)
    (f : IRFlowchartNodeData → IRFlowchartNodeData) (hinv : parser_inv p) :
    parser_inv (set_found_node p id f) := hinv

theorem apply_ite_inv (c : Prop) [Decidable c] (a b : FlowchartParser) (ha : parser_inv a)
    (hb : parser_inv b) : parser_inv (if c then a else b) := by
  split
  · exact ha
  · exact hb

theorem parse_style_property_inv (p : FlowchartParser) (id : List Char) (hinv : parser_inv p) :
    parser_inv (parse_style_property p id) := by
  unfold parse_style_property
  lift_lets
  intros
  apply apply_ite_inv
  · apply parser_inv_congr _ _ rfl rfl
    apply apply_ite_inv
    · exact set_found_node_inv _ _ _ (parser_inv_congr p _ rfl rfl hinv)
    · apply apply_ite_inv
      · exact set_found_node_inv _ _ _ (parser_inv_congr p _ rfl rfl hinv)
      · apply apply_ite_inv
        · exact set_found_node_inv _ _ _ (parser_inv_congr p _ rfl rfl hinv)
        · exact parser_inv_congr p _ rfl rfl hinv
  · apply apply_ite_inv
    · exact set_found_node_inv _ _ _ (parser_inv_congr p _ rfl rfl hinv)
    · apply apply_ite_inv
      · exact set_found_node_inv _ _ _ (parser_inv_congr p _ rfl rfl hinv)
      · apply apply_ite_inv
        · exact set_found_node_inv _ _ _ (parser_inv_congr p _ rfl rfl hinv)
        · exact parser_inv_congr p _ rfl rfl hinv

theorem parse_style_loop_inv : ∀ (fuel : Nat) (p p1 : FlowchartParser) (id : List Char),
    parse_style_loop fuel p id = some p1 → parser_inv p → parser_inv p1 := by
  intro fuel
  induction fuel with
  | zero => intro p p1 _ h; simp [parse_style_loop] at h
  | succ fuel ih =>
    intro p p1 id h hinv
    simp only [parse_style_loop] at h
    split at h
    · simp only [Option.some.injEq] at h
      subst h
      exact hinv
    · exact ih _ p1 id h (parse_style_property_inv p id hinv)

theorem parse_style_inv (p p1 : FlowchartParser) (h : parse_style p = some p1)
    (hinv : parser_inv p) : parser_inv p1 := by
  unfold parse_style at h
  dsimp only at h
  split at h
  · simp only [Option.some.injEq] at h
    subst h
    exact hinv
  · exact parse_style_loop_inv _ _ p1 _ h hinv

theorem parse_node_statement_inv (p p1 : FlowchartParser)
    (h : parse_node_statement p = some p1) (hinv : parser_inv p) : parser_inv p1 := by
  unfold parse_node_statement at h
  dsimp only at h
  cases hid : (parse_identifier p.rest).1 with
  | none =>
    rw [hid] at h
    simp only [Option.some.injEq] at h
    subst h
    exact hinv
  | some id =>
    rw [hid] at h
    dsimp only at h
    have hc := parse_identifier_c_str _ _ hid
    split at h
    · obtain ⟨a, _, _, d⟩ := parse_node_definition_inv
        { p with rest := skip_whitespace (parse_identifier p.rest).2 } id hinv hc
      split at h
      · exact parse_edge_inv _ _ p1 id h a d hc
      · simp only [Option.some.injEq] at h
        subst h
        exact a
    · split at h
      · obtain ⟨a, _, _, d⟩ := ensure_implicit_node_inv
          { p with rest := skip_whitespace (parse_identifier p.rest).2 } id hinv hc
        exact parse_edge_inv _ _ p1 id h a d hc
      · split at h
        · obtain ⟨a, _, _, _⟩ := ensure_implicit_node_inv
            { p with rest := skip_whitespace (parse_identifier p.rest).2 } id hinv hc
          simp only [Option.some.injEq] at h
          subst h
          exact a
        · simp only [Option.some.injEq] at h
          subst h
          exact hinv

theorem parse_line_inv (p p1 : FlowchartParser) (h : parse_line p = some p1)
    (hinv : parser_inv p) : parser_inv p1 := by
  unfold parse_line at h
  dsimp only at h
  have done : ∀ q : FlowchartParser, some q = some p1 → parser_inv q → parser_inv p1 := by
    intro q e hq
    simp only [Option.some.injEq] at e
    subst e
    exact hq
  have same : ∀ r : List Char, parser_inv { p with rest := r } :=
    fun r => parser_inv_congr p _ rfl rfl hinv
  split at h
  · exact done _ h (same _)
  · split at h
    · exact done _ h (same _)
    · split at h
      · exact done _ h (parse_subgraph_inv _ (same _))
      · split at h
        · exact done _ h (parser_pop_subgraph_inv _ (same _))
        · split at h
          · exact parse_style_inv _ p1 h (same _)
          · split at h
            · exact done _ h (same _)
            · split at h
              · exact done _ h (same _)
              · split at h
                · exact done _ h (same _)
                · exact parse_node_statement_inv _ p1 h (same _)

theorem parse_body_inv : ∀ (fuel : Nat) (p p1 : FlowchartParser),
    parse_body fuel p = some p1 → parser_inv p → parser_inv p1 := by
  intro fuel
  induction fuel with
  | zero => intro p p1 h; simp [parse_body] at h
  | succ fuel ih =>
    intro p p1 h hinv
    simp only [parse_body] at h
    split at h
    · simp only [Option.some.injEq] at h
      subst h
      exact hinv
    · split at h
      · cases hl : parse_line { p with rest := skip_whitespace_and_newlines p.rest } with
        | none => rw [hl] at h; cases h
        | some p2 =>
          rw [hl] at h
          dsimp only at h
          exact ih _ p1 h (parse_line_inv _ p2 hl hinv)
      · exact ih _ p1 h hinv

theorem option_beq_iff_mem (o : Option (List Char)) (id : List Char) :
    (o == some id) = true ↔ id ∈ o.toList := by
  cases o with
  | none => simp
  | some x =>
    simp only [beq_iff_eq, Option.some.injEq, Option.toList_some, List.mem_singleton]
    exact eq_comm

mutual
theorem node_exists_iff_mem_ids : ∀ (cs : List IRComponent) (id : List Char),
    node_exists_in_children cs id = true ↔ id ∈ tree_ids cs
  | [], id => by simp [node_exists_in_children, tree_ids]
  | c :: cs, id => by
    rw [node_exists_in_children, tree_ids, Bool.or_eq_true, List.mem_append,
      node_exists_in_child_iff_mem_ids c id, node_exists_iff_mem_ids cs id]
theorem node_exists_in_child_iff_mem_ids : ∀ (c : IRComponent) (id : List Char),
    node_exists_in_child c id = true ↔ id ∈ component_ids c
  | IRComponent.FLOWCHART_NODE d, id => by
    rw [node_exists_in_child, component_ids]
    exact option_beq_iff_mem _ _
  | IRComponent.FLOWCHART_EDGE _, id => by simp [node_exists_in_child, component_ids]
  | IRComponent.FLOWCHART_SUBGRAPH d ch, id => by
    rw [node_exists_in_child, component_ids, Bool.or_eq_true, List.mem_append,
      node_exists_iff_mem_ids ch id, option_beq_iff_mem]
end

theorem finalize_fold (cs : List IRComponent) :
    ∀ f : Flowchart, (cs.foldl finalize_child f).children = f.children ∧
      ∀ e ∈ (cs.foldl finalize_child f).state.edges,
        e ∈ f.state.edges ∨ IRComponent.FLOWCHART_EDGE e ∈ cs := by
  induction cs with
  | nil => intro f; exact ⟨rfl, fun e h => Or.inl h⟩
  | cons c cs ih =>
    intro f
    simp only [List.foldl_cons]
    obtain ⟨a, b⟩ := ih (finalize_child f c)
    have hc : (finalize_child f c).children = f.children := by
      cases c <;> rfl
    refine ⟨a.trans hc, ?_⟩
    intro e he
    rcases b e he with h | h
    · cases c with
      | FLOWCHART_NODE d => exact Or.inl h
      | FLOWCHART_SUBGRAPH d ch => exact Or.inl h
      | FLOWCHART_EDGE d =>
        simp only [finalize_child, ir_flowchart_register_edge, List.mem_append,
          List.mem_singleton] at h
        rcases h with h | h
        · exact Or.inl h
        · right; rw [h]; exact List.mem_cons_self _ _
    · exact Or.inr (List.mem_cons_of_mem _ h)

theorem finalize_edges (f : Flowchart) (h0 : f.state.edges = []) :
    (ir_flowchart_finalize f).children = f.children ∧
      ∀ e ∈ (ir_flowchart_finalize f).state.edges, IRComponent.FLOWCHART_EDGE e ∈ f.children := by
  obtain ⟨a, b⟩ := finalize_fold f.children f
  refine ⟨a, ?_⟩
  intro e he
  rcases b e he with h | h
  · rw [h0] at h; cases h
  · exact h

theorem initial_parser_inv (r : List Char) (d : IRFlowchartDirection) :
    parser_inv { rest := r, direction := d, flowchart := ir_flowchart d, subgraph_stack := [] } := by
  refine ⟨?_, ?_, rfl⟩
  · intro e h; cases h
  · intro q h; cases h

/-- C1 as amended: after `ir_flowchart_parse` succeeds on any input, every edge
of the final edge registry has a `from_id` and a `to_id`, and each is the id of
a node component or of a subgraph component of the flowchart's component
tree. -/
theorem edge_ends_are_ids_of_the_tree (source : List Char) (fc : Flowchart)
    (h : ir_flowchart_parse source = some (some fc)) :
    ∀ e ∈ fc.state.edges, ∃ f t, e.from_id = some f ∧ e.to_id = some t ∧
      f ∈ tree_ids fc.children ∧ t ∈ tree_ids fc.children := by
  unfold ir_flowchart_parse ir_flowchart_parse_fuel at h
  split at h
  · cases h
  · split at h
    · cases h
    · next hd _ =>
      split at h
      · cases h
      · next p hp =>
        simp only [Option.some.injEq] at h
        subst h
        have hinv := parse_body_inv _ _ p hp (initial_parser_inv hd.2 hd.1)
        obtain ⟨a, b⟩ := finalize_edges p.flowchart hinv.2.2
        intro e he
        obtain ⟨f, t, h1, h2, h3, h4⟩ := hinv.1 e (b e he)
        rw [a]
        exact ⟨f, t, h1, h2, (node_exists_iff_mem_ids _ f).mp h3,
          (node_exists_iff_mem_ids _ t).mp h4⟩

/-- The amended C1 at the input `flowchart TB / subgraph s1 / direction TB / end /
A-->s1`, whose edge ends at the subgraph s1. -/
theorem edge_ends_are_ids_of_the_tree_witness :
    ∃ fc : Flowchart,
      ir_flowchart_parse "flowchart TB\nsubgraph s1\ndirection TB\nend\nA-->s1".toList
        = some (some fc) ∧
      ∀ e ∈ fc.state.edges, ∃ f t, e.from_id = some f ∧ e.to_id = some t ∧
        f ∈ tree_ids fc.children ∧ t ∈ tree_ids fc.children :=
  ⟨_, rfl, edge_ends_are_ids_of_the_tree
    "flowchart TB\nsubgraph s1\ndirection TB\nend\nA-->s1".toList _ rfl⟩

/-- C1 as stated fails: parsing `flowchart TB / subgraph s1 / direction TB / end /
A-->s1` registers the node A, the subgraph s1 and the edge A to s1, and no
registered node has the id s1 of the edge's target; every node of the tree is
registered here. -/
theorem edge_to_subgraph_has_no_node :
    ∃ fc : Flowchart,
      ir_flowchart_parse "flowchart TB\nsubgraph s1\ndirection TB\nend\nA-->s1".toList
        = some (some fc) ∧
      fc.state.nodes = tree_nodes fc.children ∧
      fc.state.nodes.map (fun n => n.node_id) = [some "A".toList] ∧
      fc.state.subgraphs.map (fun sg => sg.subgraph_id) = [some "s1".toList] ∧
      fc.state.edges.map (fun e => (e.from_id, e.to_id)) =
        [(some "A".toList, some "s1".toList)] ∧
      ∃ e ∈ fc.state.edges, ¬ ∃ n ∈ fc.state.nodes, n.node_id = e.to_id := by
  refine ⟨_, rfl, ?_, ?_, ?_, ?_, ?_⟩
  · decide!
  · decide!
  · decide!
  · decide!
  · decide!

/-! ## The phases of the layout -/

theorem compute_layout_nodes (metrics : Option IRFontMetrics) (flowchart : Flowchart)
    (aw ah : ℚ) :
    (compute_layout metrics flowchart aw ah).state.nodes =
      (layout_placed metrics flowchart).nodes.map (fun node =>
        { node with x := layout_move (layout_scale metrics flowchart aw ah) node.x,
                    y := layout_move (layout_scale metrics flowchart aw ah) node.y }) := rfl

theorem compute_layout_edges (metrics : Option IRFontMetrics) (flowchart : Flowchart)
    (aw ah : ℚ) :
    (compute_layout metrics flowchart aw ah).state.edges =
      (layout_routed metrics flowchart).map
        (transform_edge_path (layout_move (layout_scale metrics flowchart aw ah))) := rfl

theorem compute_layout_subgraphs (metrics : Option IRFontMetrics) (flowchart : Flowchart)
    (aw ah : ℚ) :
    (compute_layout metrics flowchart aw ah).state.subgraphs =
      flowchart.state.subgraphs.map
        (compute_subgraph_bound (compute_layout metrics flowchart aw ah).state.nodes) := rfl

/-! ## The sizing phase -/

/-- Sizing changes the width and the height of a node and nothing else. -/
theorem compute_node_size_eq (metrics : Option IRFontMetrics) (font_size : ℚ)
    (node : IRFlowchartNodeData) :
    compute_node_size metrics font_size node =
      { node with width := (compute_node_size metrics font_size node).width,
                  height := (compute_node_size metrics font_size node).height } := by
  unfold compute_node_size
  dsimp only
  split <;> rfl

theorem compute_node_size_bounds (metrics : Option IRFontMetrics) (font_size : ℚ)
    (node : IRFlowchartNodeData) :
    40 ≤ (compute_node_size metrics font_size node).width ∧
    24 ≤ (compute_node_size metrics font_size node).height ∧
    ((node.shape = IRFlowchartShape.CIRCLE ∨ node.shape = IRFlowchartShape.DIAMOND) →
      (compute_node_size metrics font_size node).width =
        (compute_node_size metrics font_size node).height) := by
  unfold compute_node_size
  dsimp only
  split
  · refine ⟨?_, ?_, fun _ => rfl⟩
    · exact le_max_of_le_left (le_max_left _ _)
    · exact le_max_of_le_right (le_max_left _ _)
  · next h =>
    refine ⟨le_max_left _ _, le_max_left _ _, fun hs => absurd hs h⟩

/-! ## The positioning phase -/

theorem node_direction_top (state : IRFlowchartState) (node : IRFlowchartNodeData)
    (h : node.subgraph_id = none) : node_direction state node = state.direction := by
  unfold node_direction
  rw [h]
  split <;> rfl

theorem position_node_spec (state : IRFlowchartState) (node_layer : List Int)
    (ns rs W H : ℚ) (acc : Positioning) (i : Nat) (node : IRFlowchartNodeData)
    (h : acc.nodes.get? i = some node) :
    ∃ (x y : ℚ) (pos : Nat),
      (position_node state node_layer ns rs W H acc i).nodes =
        acc.nodes.set i { node with x := x, y := y } ∧
      (position_node state node_layer ns rs W H acc i).total_primary_size =
        max acc.total_primary_size
          (if is_horizontal state.direction then x + node.width else y + node.height) ∧
      (position_node state node_layer ns rs W H acc i).total_secondary_size =
        max acc.total_secondary_size
          (if is_horizontal state.direction then y + node.height else x + node.width) ∧
      (is_horizontal (node_direction state node) = true →
        x = primary_coord (is_reversed (node_direction state node)) (max_layer_of node_layer)
              (node_layer.getD i (-1)) (W + rs) + (W - node.width) / 2 ∧
        y = (((max_nodes_in_layer node_layer : Int) -
              (nodes_in_this_layer acc.nodes node_layer node (node_layer.getD i (-1)) : Int) : Int) : ℚ)
              * (H + ns) / 2 + (pos : ℚ) * (H + ns) + (H - node.height) / 2) ∧
      (is_horizontal (node_direction state node) = false →
        y = primary_coord (is_reversed (node_direction state node)) (max_layer_of node_layer)
              (node_layer.getD i (-1)) (H + rs) + (H - node.height) / 2 ∧
        x = (((max_nodes_in_layer node_layer : Int) -
              (nodes_in_this_layer acc.nodes node_layer node (node_layer.getD i (-1)) : Int) : Int) : ℚ)
              * (W + ns) / 2 + (pos : ℚ) * (W + ns) + (W - node.width) / 2) := by
  unfold position_node
  rw [h]
  dsimp only
  by_cases hh : is_horizontal (node_direction state node) = true
  · simp only [hh, if_true]
    refine ⟨_, _, ?pos, rfl, rfl, rfl, ?a, ?b⟩
    case a =>
      intro _
      refine ⟨?_, ?_⟩
      · unfold primary_coord
        split <;> rfl
      · unfold nodes_in_this_layer
        exact rfl
    case b =>
      intro hc
      simp at hc
  · simp only [Bool.not_eq_true] at hh
    simp only [hh, Bool.false_eq_true, if_false]
    refine ⟨_, _, ?pos, rfl, rfl, rfl, ?a, ?b⟩
    case b =>
      intro _
      refine ⟨?_, ?_⟩
      · unfold primary_coord
        split <;> rfl
      · unfold nodes_in_this_layer
        exact rfl
    case a =>
      intro hc
      simp at hc

theorem assign_layers_ok (state : IRFlowchartState) :
    (assign_layers state).node_layer.length = state.nodes.length ∧
    ∀ i, i < state.nodes.length → 0 ≤ (assign_layers state).node_layer.getD i (-1) := by
  have h0 := initial_layering_ok state
  have hk : state.nodes.length - processed_count (initial_layering state)
      ≤ state.nodes.length * 2 := by omega
  obtain ⟨ok, cnt⟩ := loop_done state _ _ h0 hk
  refine ⟨ok.1, ?_⟩
  intro i hi
  have hall : ∀ b ∈ (assign_layers state).processed, true = b := by
    apply List.count_eq_length.mp
    have : processed_count (assign_layers state) = state.nodes.length := cnt
    simp only [processed_count] at this
    rw [this]
    exact ok.2.1.symm
  have hlen : i < (assign_layers state).processed.length := by
    have : (assign_layers state).processed.length = state.nodes.length := ok.2.1
    omega
  have hp : (assign_layers state).processed.getD i false = true := by
    rw [List.getD_eq_getElem _ _ hlen]
    exact (hall _ (List.getElem_mem hlen)).symm
  exact ok.2.2 i hp

theorem foldl_max_ge {α : Type} [LinearOrder α] (l : List α) (a : α) :
    a ≤ l.foldl max a ∧ ∀ x ∈ l, x ≤ l.foldl max a := by
  induction l generalizing a with
  | nil => simp
  | cons b bs ih =>
    simp only [List.foldl_cons, List.mem_cons]
    obtain ⟨h1, h2⟩ := ih (max a b)
    refine ⟨le_trans (le_max_left _ _) h1, ?_⟩
    rintro x (rfl | hx)
    · exact le_trans (le_max_right _ _) h1
    · exact h2 x hx

theorem max_layer_of_nonneg (l : List Int) : 0 ≤ max_layer_of l := (foldl_max_ge l 0).1

theorem le_max_layer_of (l : List Int) (i : Nat) (h : i < l.length) :
    l.getD i (-1) ≤ max_layer_of l := by
  rw [List.getD_eq_getElem _ _ h]
  exact (foldl_max_ge l 0).2 _ (List.getElem_mem h)

theorem foldl_max_map_ge {α : Type} (f : α → Nat) (xs : List α) (a : Nat) :
    a ≤ xs.foldl (fun m l => max m (f l)) a ∧
      ∀ x ∈ xs, f x ≤ xs.foldl (fun m l => max m (f l)) a := by
  induction xs generalizing a with
  | nil => simp
  | cons b bs ih =>
    simp only [List.foldl_cons, List.mem_cons]
    obtain ⟨h1, h2⟩ := ih (max a (f b))
    refine ⟨le_trans (le_max_left _ _) h1, ?_⟩
    rintro x (rfl | hx)
    · exact le_trans (le_max_right _ _) h1
    · exact h2 x hx

theorem range_map_getD (l : List Int) : (List.range l.length).map (fun j => l.getD j (-1)) = l := by
  apply List.ext_getElem
  · simp
  · intro n h1 h2
    simp [List.getD_eq_getElem?_getD, h2]

theorem count_layer_eq (l : List Int) (layer : Int) :
    ((List.range l.length).filter (fun j => l.getD j (-1) == layer)).length = l.count layer := by
  rw [← List.countP_eq_length_filter]
  conv_rhs => rw [← range_map_getD l]
  rw [List.count, List.countP_map]
  rfl

theorem nodes_in_this_layer_le (nodes : List IRFlowchartNodeData) (node_layer : List Int)
    (node : IRFlowchartNodeData) (layer : Int) (hlen : nodes.length = node_layer.length)
    (h0 : 0 ≤ layer) (h1 : layer ≤ max_layer_of node_layer) :
    nodes_in_this_layer nodes node_layer node layer ≤ max_nodes_in_layer node_layer := by
  have a : nodes_in_this_layer nodes node_layer node layer ≤ node_layer.count layer := by
    rw [← count_layer_eq, nodes_in_this_layer, hlen, ← List.countP_eq_length_filter,
      ← List.countP_eq_length_filter]
    apply List.countP_mono_left
    intro j _ hj
    simp only [Bool.and_eq_true] at hj
    exact hj.1
  have b : node_layer.count layer ≤ max_nodes_in_layer node_layer := by
    unfold max_nodes_in_layer nodes_per_layer
    refine (foldl_max_map_ge (fun l : Int => node_layer.count l) _ 0).2 layer ?_
    simp only [List.bind_eq_flatMap, List.mem_flatMap, List.mem_range, List.pure_def, List.mem_singleton]
    exact ⟨layer.toNat, by omega, (Int.toNat_of_nonneg h0).symm⟩
  exact le_trans a b

theorem primary_coord_nonneg (r : Bool) (maxl layer : Int) (slot : ℚ) (h0 : 0 ≤ layer)
    (h1 : layer ≤ maxl) (hs : 0 ≤ slot) : 0 ≤ primary_coord r maxl layer slot := by
  unfold primary_coord
  split
  · apply mul_nonneg _ hs
    have : (0 : Int) ≤ maxl - layer := by omega
    exact_mod_cast this
  · apply mul_nonneg _ hs
    exact_mod_cast h0

theorem position_node_ok (state : IRFlowchartState) (node_layer : List Int)
    (ns rs W H : ℚ) (acc : Positioning) (i : Nat) (node : IRFlowchartNodeData)
    (h : acc.nodes.get? i = some node) (hlen : acc.nodes.length = node_layer.length)
    (hl0 : 0 ≤ node_layer.getD i (-1)) (hi : i < node_layer.length)
    (hns : 0 < ns) (hrs : 0 < rs) (hw : 0 < node.width ∧ node.width ≤ W)
    (hh : 0 < node.height ∧ node.height ≤ H) :
    ∃ x y : ℚ,
      (position_node state node_layer ns rs W H acc i).nodes =
        acc.nodes.set i { node with x := x, y := y } ∧
      (position_node state node_layer ns rs W H acc i).total_primary_size =
        max acc.total_primary_size
          (if is_horizontal state.direction then x + node.width else y + node.height) ∧
      (position_node state node_layer ns rs W H acc i).total_secondary_size =
        max acc.total_secondary_size
          (if is_horizontal state.direction then y + node.height else x + node.width) ∧
      placed_ok state node_layer rs W H i node x y := by
  obtain ⟨x, y, pos, e1, e2, e3, fh, fv⟩ :=
    position_node_spec state node_layer ns rs W H acc i node h
  refine ⟨x, y, e1, e2, e3, ?_⟩
  have hmax := le_max_layer_of node_layer i hi
  have hslack : (0 : ℚ) ≤ (((max_nodes_in_layer node_layer : Int) -
      (nodes_in_this_layer acc.nodes node_layer node (node_layer.getD i (-1)) : Int) : Int) : ℚ) := by
    have := nodes_in_this_layer_le acc.nodes node_layer node _ hlen hl0 hmax
    have h2 : (0 : Int) ≤ (max_nodes_in_layer node_layer : Int) -
        (nodes_in_this_layer acc.nodes node_layer node (node_layer.getD i (-1)) : Int) := by omega
    exact_mod_cast h2
  have hpos : (0 : ℚ) ≤ (pos : ℚ) := by exact_mod_cast Nat.zero_le pos
  have hW : 0 < W := lt_of_lt_of_le hw.1 hw.2
  have hH : 0 < H := lt_of_lt_of_le hh.1 hh.2
  have pw := fun r => primary_coord_nonneg r (max_layer_of node_layer) (node_layer.getD i (-1))
    (W + rs) hl0 hmax (by linarith)
  have ph := fun r => primary_coord_nonneg r (max_layer_of node_layer) (node_layer.getD i (-1))
    (H + rs) hl0 hmax (by linarith)
  have sec : ∀ S s : ℚ, 0 < S → s ≤ S →
      0 ≤ (((max_nodes_in_layer node_layer : Int) -
      (nodes_in_this_layer acc.nodes node_layer node (node_layer.getD i (-1)) : Int) : Int) : ℚ)
        * (S + ns) / 2 + (pos : ℚ) * (S + ns) + (S - s) / 2 := by
    intro S s hS hs
    have a1 : 0 ≤ (((max_nodes_in_layer node_layer : Int) -
      (nodes_in_this_layer acc.nodes node_layer node (node_layer.getD i (-1)) : Int) : Int) : ℚ)
        * (S + ns) / 2 := by
      apply div_nonneg (mul_nonneg hslack (by linarith)) (by norm_num)
    have a2 : 0 ≤ (pos : ℚ) * (S + ns) := mul_nonneg hpos (by linarith)
    linarith
  have coords : 0 ≤ x ∧ 0 ≤ y := by
    by_cases hd : is_horizontal (node_direction state node) = true
    · obtain ⟨ex, ey⟩ := fh hd
      refine ⟨?_, ?_⟩
      · rw [ex]
        have := pw (is_reversed (node_direction state node))
        linarith
      · rw [ey]
        exact sec H node.height hH hh.2
    · simp only [Bool.not_eq_true] at hd
      obtain ⟨ey, ex⟩ := fv hd
      refine ⟨?_, ?_⟩
      · rw [ex]
        exact sec W node.width hW hw.2
      · rw [ey]
        have := ph (is_reversed (node_direction state node))
        linarith
  refine ⟨coords.1, coords.2, ?_⟩
  intro hsub
  rw [node_direction_top state node hsub] at fh fv
  exact ⟨fun hd => (fh hd).1, fun hd => (fv hd).1⟩

theorem position_fold (state : IRFlowchartState) (node_layer : List Int) (ns rs W H : ℚ)
    (hlen : node_layer.length = state.nodes.length)
    (hl0 : ∀ i, i < state.nodes.length → 0 ≤ node_layer.getD i (-1))
    (hns : 0 < ns) (hrs : 0 < rs)
    (hsz : ∀ node ∈ state.nodes,
      (0 < node.width ∧ node.width ≤ W) ∧ (0 < node.height ∧ node.height ≤ H))
    (acc0 : Positioning) (h0 : acc0.nodes = state.nodes)
    (ht : 0 ≤ acc0.total_primary_size ∧ 0 ≤ acc0.total_secondary_size) :
    ∀ k, k ≤ state.nodes.length →
      ((List.range k).foldl (position_node state node_layer ns rs W H) acc0).nodes.length
        = state.nodes.length ∧
      (∀ j, k ≤ j →
        ((List.range k).foldl (position_node state node_layer ns rs W H) acc0).nodes.get? j
          = state.nodes.get? j) ∧
      (∀ j node, j < k → state.nodes.get? j = some node → ∃ x y : ℚ,
        ((List.range k).foldl (position_node state node_layer ns rs W H) acc0).nodes.get? j
          = some { node with x := x, y := y } ∧
        placed_ok state node_layer rs W H j node x y) ∧
      0 ≤ ((List.range k).foldl (position_node state node_layer ns rs W H) acc0).total_primary_size ∧
      0 ≤ ((List.range k).foldl (position_node state node_layer ns rs W H) acc0).total_secondary_size ∧
      (0 < k →
        0 < ((List.range k).foldl (position_node state node_layer ns rs W H)
          acc0).total_primary_size ∧
        0 < ((List.range k).foldl (position_node state node_layer ns rs W H)
          acc0).total_secondary_size) := by
  intro k
  induction k with
  | zero =>
    intro _
    simp only [List.range_zero, List.foldl_nil]
    refine ⟨by rw [h0], fun j _ => by rw [h0], fun j node hj => by omega, ht.1, ht.2,
      fun h => by omega⟩
  | succ k ih =>
    intro hk
    obtain ⟨a1, a2, a3, a4, a5, _⟩ := ih (by omega)
    rw [List.range_succ, List.foldl_append]
    simp only [List.foldl_cons, List.foldl_nil]
    generalize (List.range k).foldl (position_node state node_layer ns rs W H) acc0 = acc
      at a1 a2 a3 a4 a5 ⊢
    have hkn : k < state.nodes.length := by omega
    have hnode : state.nodes.get? k = some (state.nodes.get ⟨k, hkn⟩) := List.get?_eq_get hkn
    have hacc : acc.nodes.get? k = some (state.nodes.get ⟨k, hkn⟩) := by rw [a2 k (le_refl _), hnode]
    have hmem := hsz _ (List.get_mem state.nodes k hkn)
    obtain ⟨x, y, e1, e2, e3, ok⟩ := position_node_ok state node_layer ns rs W H acc k _ hacc
      (by rw [a1, hlen]) (hl0 k hkn) (by omega) hns hrs hmem.1 hmem.2
    refine ⟨by rw [e1, List.length_set, a1], ?_, ?_, ?_, ?_, ?_⟩
    · intro j hj
      rw [e1, List.get?_eq_getElem?, List.getElem?_set_ne (by omega), ← List.get?_eq_getElem?]
      exact a2 j (by omega)
    · intro j node hj hn
      by_cases hjk : j = k
      · subst hjk
        rw [hnode] at hn
        cases hn
        refine ⟨x, y, ?_, ok⟩
        rw [e1, List.get?_eq_getElem?, List.getElem?_set_self (by rw [a1]; exact hkn)]
      · obtain ⟨x1, y1, b1, b2⟩ := a3 j node (by omega) hn
        refine ⟨x1, y1, ?_, b2⟩
        rw [e1, List.get?_eq_getElem?, List.getElem?_set_ne (by omega), ← List.get?_eq_getElem?]
        exact b1
    · rw [e2]; exact le_max_of_le_left a4
    · rw [e3]; exact le_max_of_le_left a5
    · intro _
      have px : 0 < x + (state.nodes.get ⟨k, hkn⟩).width := by linarith [ok.1, hmem.1.1]
      have py : 0 < y + (state.nodes.get ⟨k, hkn⟩).height := by linarith [ok.2.1, hmem.2.1]
      rw [e2, e3]
      refine ⟨lt_max_of_lt_right ?_, lt_max_of_lt_right ?_⟩
      · split
        · exact px
        · exact py
      · split
        · exact py
        · exact px

theorem foldl_max_field_ge {α : Type} (f : α → ℚ) (xs : List α) (a : ℚ) :
    a ≤ xs.foldl (fun m x => max m (f x)) a ∧
      ∀ x ∈ xs, f x ≤ xs.foldl (fun m x => max m (f x)) a := by
  induction xs generalizing a with
  | nil => simp
  | cons b bs ih =>
    simp only [List.foldl_cons, List.mem_cons]
    obtain ⟨h1, h2⟩ := ih (max a (f b))
    refine ⟨le_trans (le_max_left _ _) h1, ?_⟩
    rintro x (rfl | hx)
    · exact le_trans (le_max_right _ _) h1
    · exact h2 x hx

theorem layout_spacing_pos (state : IRFlowchartState) :
    0 < layout_node_spacing state ∧ 0 < layout_rank_spacing state := by
  unfold layout_node_spacing layout_rank_spacing FLOWCHART_NODE_SPACING FLOWCHART_RANK_SPACING
  constructor
  · split
    · next h => exact h
    · norm_num
  · split
    · next h => exact h
    · norm_num

theorem layout_sized_nodes (metrics : Option IRFontMetrics) (f : Flowchart) :
    (layout_sized metrics f).nodes =
      f.state.nodes.map (compute_node_size metrics (layout_font_size f)) := rfl

/-- After positioning, node `j` is the sized node `j` with new coordinates, which
are not negative and follow the layer of the node; the extents are positive
when there is a node. -/
theorem layout_placed_spec (metrics : Option IRFontMetrics) (f : Flowchart) :
    (layout_placed metrics f).nodes.length = f.state.nodes.length ∧
    (∀ j node, f.state.nodes.get? j = some node → ∃ x y : ℚ,
      (layout_placed metrics f).nodes.get? j =
        some { compute_node_size metrics (layout_font_size f) node with x := x, y := y } ∧
      placed_ok (layout_sized metrics f) (layout_layers metrics f)
        (layout_rank_spacing f.state) (max_node_width (layout_sized metrics f).nodes)
        (max_node_height (layout_sized metrics f).nodes) j
        (compute_node_size metrics (layout_font_size f) node) x y) ∧
    0 ≤ (layout_placed metrics f).total_primary_size ∧
    0 ≤ (layout_placed metrics f).total_secondary_size ∧
    (f.state.nodes ≠ [] →
      0 < (layout_placed metrics f).total_primary_size ∧
      0 < (layout_placed metrics f).total_secondary_size) := by
  have hlay := assign_layers_ok (layout_sized metrics f)
  have hsp := layout_spacing_pos f.state
  have hn : (layout_sized metrics f).nodes.length = f.state.nodes.length := by
    rw [layout_sized_nodes, List.length_map]
  have hsz : ∀ node ∈ (layout_sized metrics f).nodes,
      (0 < node.width ∧ node.width ≤ max_node_width (layout_sized metrics f).nodes) ∧
      (0 < node.height ∧ node.height ≤ max_node_height (layout_sized metrics f).nodes) := by
    intro node hmem
    have hb : 40 ≤ node.width ∧ 24 ≤ node.height := by
      rw [layout_sized_nodes, List.mem_map] at hmem
      obtain ⟨n0, _, rfl⟩ := hmem
      have := compute_node_size_bounds metrics (layout_font_size f) n0
      exact ⟨this.1, this.2.1⟩
    refine ⟨⟨by linarith [hb.1], ?_⟩, ⟨by linarith [hb.2], ?_⟩⟩
    · exact (foldl_max_field_ge (fun n : IRFlowchartNodeData => n.width) _ _).2 node hmem
    · exact (foldl_max_field_ge (fun n : IRFlowchartNodeData => n.height) _ _).2 node hmem
  have key := position_fold (layout_sized metrics f) (layout_layers metrics f)
    (layout_node_spacing f.state) (layout_rank_spacing f.state)
    (max_node_width (layout_sized metrics f).nodes) (max_node_height (layout_sized metrics f).nodes)
    hlay.1 hlay.2 hsp.1 hsp.2 hsz
    { nodes := (layout_sized metrics f).nodes
      layer_position := List.replicate ((max_layer_of (layout_layers metrics f)).toNat + 1) 0 }
    rfl ⟨le_refl _, le_refl _⟩ (layout_sized metrics f).nodes.length (le_refl _)
  have e : (layout_placed metrics f) =
      (List.range (layout_sized metrics f).nodes.length).foldl
        (position_node (layout_sized metrics f) (layout_layers metrics f)
          (layout_node_spacing f.state) (layout_rank_spacing f.state)
          (max_node_width (layout_sized metrics f).nodes)
          (max_node_height (layout_sized metrics f).nodes))
        { nodes := (layout_sized metrics f).nodes
          layer_position := List.replicate ((max_layer_of (layout_layers metrics f)).toNat + 1) 0 } :=
    rfl
  rw [← e] at key
  obtain ⟨k1, _, k3, k4, k5, k6⟩ := key
  refine ⟨by rw [k1, hn], ?_, k4, k5, ?_⟩
  · intro j node hj
    have hlt : j < f.state.nodes.length := by
      rw [List.get?_eq_getElem?] at hj
      exact (List.getElem?_eq_some_iff.mp hj).1
    have hs : (layout_sized metrics f).nodes.get? j =
        some (compute_node_size metrics (layout_font_size f) node) := by
      rw [layout_sized_nodes, List.get?_eq_getElem?, List.getElem?_map,
        ← List.get?_eq_getElem?, hj]
      rfl
    exact k3 j _ (by rw [hn]; exact hlt) hs
  · intro hne
    apply k6
    rw [hn]
    exact List.length_pos.mpr hne

/-! ## The viewport fit -/

theorem fit_axis_le_one (n a : ℚ) (hn : 40 ≤ n) :
    (if n > a ∧ a > 0 then (a - 20 * 2) / (n - 20 * 2) else 1) ≤ 1 := by
  split
  · next h =>
    rcases eq_or_lt_of_le hn with e | hlt
    · rw [← e]; norm_num
    · rw [div_le_one (by linarith)]
      linarith [h.1]
  · exact le_refl _

theorem clamp_bounds (sx sy : ℚ) (hx : sx ≤ 1) :
    3 / 5 ≤ (if min sx sy < 3 / 5 then 3 / 5 else min sx sy) ∧
    (if min sx sy < 3 / 5 then 3 / 5 else min sx sy) ≤ 1 := by
  by_cases h : min sx sy < 3 / 5
  · rw [if_pos h]; norm_num
  · rw [if_neg h]
    exact ⟨not_lt.mp h, le_trans (min_le_left _ _) hx⟩

theorem fit_scale_bounds (nw nh aw ah : ℚ) (hw : 40 ≤ nw) :
    3 / 5 ≤ fit_scale nw nh aw ah ∧ fit_scale nw nh aw ah ≤ 1 ∧
    (nw ≤ aw → nh ≤ ah → fit_scale nw nh aw ah = 1) := by
  have hx := fit_axis_le_one nw aw hw
  have b := clamp_bounds _ (if nh > ah ∧ ah > 0 then (ah - 20 * 2) / (nh - 20 * 2) else 1) hx
  refine ⟨b.1, b.2, ?_⟩
  intro h1 h2
  have c1 : ¬ (nw > aw ∧ aw > 0) := fun h => absurd h.1 (not_lt.mpr h1)
  have c2 : ¬ (nh > ah ∧ ah > 0) := fun h => absurd h.1 (not_lt.mpr h2)
  unfold fit_scale
  simp only [c1, c2, if_false, min_self]
  norm_num

theorem layout_natural_ge (metrics : Option IRFontMetrics) (f : Flowchart) :
    40 ≤ layout_natural_width metrics f ∧ 40 ≤ layout_natural_height metrics f ∧
    (f.state.nodes ≠ [] →
      40 < layout_natural_width metrics f ∧ 40 < layout_natural_height metrics f) := by
  obtain ⟨_, _, a, b, c⟩ := layout_placed_spec metrics f
  unfold layout_natural_width layout_natural_height
  refine ⟨?_, ?_, fun hne => ⟨?_, ?_⟩⟩
  · split <;> linarith
  · split <;> linarith
  · obtain ⟨c1, c2⟩ := c hne
    split <;> linarith
  · obtain ⟨c1, c2⟩ := c hne
    split <;> linarith

theorem layout_scale_bounds (metrics : Option IRFontMetrics) (f : Flowchart) (aw ah : ℚ) :
    3 / 5 ≤ layout_scale metrics f aw ah ∧ layout_scale metrics f aw ah ≤ 1 ∧
    (layout_natural_width metrics f ≤ aw → layout_natural_height metrics f ≤ ah →
      layout_scale metrics f aw ah = 1) := by
  obtain ⟨a, b, _⟩ := layout_natural_ge metrics f
  exact fit_scale_bounds _ _ aw ah a

theorem layout_move_eq (metrics : Option IRFontMetrics) (f : Flowchart) (aw ah : ℚ) :
    layout_move (layout_scale metrics f aw ah) = fun v => 20 + v * layout_scale metrics f aw ah := by
  unfold layout_move
  split
  · rfl
  · next h =>
    have h1 := (layout_scale_bounds metrics f aw ah).2.1
    have e : layout_scale metrics f aw ah = 1 := le_antisymm h1 (not_lt.mp h)
    rw [e]
    funext v
    ring

theorem ir_layout_not_cached (metrics : Option IRFontMetrics) (f : Flowchart) (aw ah : ℚ)
    (hc : f.state.layout_computed = false) (hn : f.state.nodes ≠ []) :
    ir_layout_compute_flowchart metrics f aw ah = compute_layout metrics f aw ah := by
  unfold ir_layout_compute_flowchart
  have hl : ¬ f.state.nodes.length = 0 := fun h => hn (List.length_eq_zero.mp h)
  simp only [hc, hl, Bool.false_eq_true, false_and, if_false]

theorem ir_layout_no_nodes (metrics : Option IRFontMetrics) (f : Flowchart) (aw ah : ℚ)
    (hc : f.state.layout_computed = false) (hn : f.state.nodes = []) :
    ir_layout_compute_flowchart metrics f aw ah =
      { f with state := { f.state with
          layout_computed := true, computed_width := aw, computed_height := ah } } := by
  unfold ir_layout_compute_flowchart
  simp only [hc, hn, Bool.false_eq_true, false_and, if_false, List.length_nil, if_true]

/-- The nodes after the whole layout: node `j` is the sized node `j` at the
position `20 + scale * (placed position)`. -/
theorem layout_result_nodes (metrics : Option IRFontMetrics) (f : Flowchart) (aw ah : ℚ)
    (hc : f.state.layout_computed = false) :
    (ir_layout_compute_flowchart metrics f aw ah).state.nodes =
      (layout_placed metrics f).nodes.map (fun node =>
        { node with x := 20 + node.x * layout_scale metrics f aw ah,
                    y := 20 + node.y * layout_scale metrics f aw ah }) := by
  by_cases hn : f.state.nodes = []
  · rw [ir_layout_no_nodes metrics f aw ah hc hn]
    have := (layout_placed_spec metrics f).1
    rw [hn, List.length_nil, List.length_eq_zero] at this
    rw [this]
    exact hn
  · rw [ir_layout_not_cached metrics f aw ah hc hn, compute_layout_nodes, layout_move_eq]

theorem layout_result_get (metrics : Option IRFontMetrics) (f : Flowchart) (aw ah : ℚ)
    (hc : f.state.layout_computed = false) (j : Nat) (node : IRFlowchartNodeData)
    (hj : f.state.nodes.get? j = some node) :
    ∃ x y : ℚ,
      (ir_layout_compute_flowchart metrics f aw ah).state.nodes.get? j =
        some { compute_node_size metrics (layout_font_size f) node with
          x := 20 + x * layout_scale metrics f aw ah,
          y := 20 + y * layout_scale metrics f aw ah } ∧
      placed_ok (layout_sized metrics f) (layout_layers metrics f)
        (layout_rank_spacing f.state) (max_node_width (layout_sized metrics f).nodes)
        (max_node_height (layout_sized metrics f).nodes) j
        (compute_node_size metrics (layout_font_size f) node) x y := by
  obtain ⟨x, y, e, ok⟩ := (layout_placed_spec metrics f).2.1 j node hj
  refine ⟨x, y, ?_, ok⟩
  rw [layout_result_nodes metrics f aw ah hc, List.get?_eq_getElem?, List.getElem?_map,
    ← List.get?_eq_getElem?, e]
  rfl

theorem layout_result_length (metrics : Option IRFontMetrics) (f : Flowchart) (aw ah : ℚ)
    (hc : f.state.layout_computed = false) :
    (ir_layout_compute_flowchart metrics f aw ah).state.nodes.length = f.state.nodes.length := by
  rw [layout_result_nodes metrics f aw ah hc, List.length_map]
  exact (layout_placed_spec metrics f).1

theorem layout_result_edges (metrics : Option IRFontMetrics) (f : Flowchart) (aw ah : ℚ)
    (hc : f.state.layout_computed = false) (hn : f.state.nodes ≠ []) :
    (ir_layout_compute_flowchart metrics f aw ah).state.edges =
      (layout_routed metrics f).map
        (transform_edge_path (fun v => 20 + v * layout_scale metrics f aw ah)) := by
  rw [ir_layout_not_cached metrics f aw ah hc hn, compute_layout_edges, layout_move_eq]

theorem layout_placed_sizes (metrics : Option IRFontMetrics) (f : Flowchart) :
    (layout_placed metrics f).nodes.map (fun node => (node.width, node.height)) =
      f.state.nodes.map (fun node =>
        ((compute_node_size metrics (layout_font_size f) node).width,
         (compute_node_size metrics (layout_font_size f) node).height)) := by
  apply List.ext_get?
  intro j
  simp only [List.get?_eq_getElem?, List.getElem?_map]
  cases hj : f.state.nodes[j]? with
  | none =>
    have : (layout_placed metrics f).nodes[j]? = none := by
      rw [List.getElem?_eq_none_iff] at hj ⊢
      rw [(layout_placed_spec metrics f).1]
      exact hj
    rw [this]
    rfl
  | some node =>
    obtain ⟨x, y, e, _⟩ := (layout_placed_spec metrics f).2.1 j node
      (by rw [List.get?_eq_getElem?]; exact hj)
    rw [List.get?_eq_getElem?] at e
    rw [e]
    rfl

/-- C11 (the code at a failing input): `flowchart TB / A-->B` laid out in a
viewport of 100 x 100 is scaled by 0.6; the final centres of A and B are
(201/5, 192/5) and (201/5, 2112/25), but the path of the edge A to B is
(803/25, 776/25), (803/25, 1928/25): the scaled centres of the unscaled layout,
not the centres of the final rectangles, whose sizes are not scaled.  In a
viewport of 800 x 600, where nothing is scaled, the path joins the two centres
(201/5, 192/5) and (201/5, 576/5). -/
theorem scaled_edge_path_misses_node_centres :
    ∃ small large : Flowchart,
      parse_and_layout "flowchart TB\nA-->B".toList 100 100 = some small ∧
      small.state.nodes.map (fun n => (n.node_id, n.x + n.width / 2, n.y + n.height / 2)) =
        [(some "A".toList, 201 / 5, 192 / 5), (some "B".toList, 201 / 5, 2112 / 25)] ∧
      small.state.edges.map (fun e => (e.from_id, e.to_id, e.path_point_count, e.path_points)) =
        [(some "A".toList, some "B".toList, 2, some [803 / 25, 776 / 25, 803 / 25, 1928 / 25])] ∧
      parse_and_layout "flowchart TB\nA-->B".toList 800 600 = some large ∧
      large.state.nodes.map (fun n => (n.node_id, n.x + n.width / 2, n.y + n.height / 2)) =
        [(some "A".toList, 201 / 5, 192 / 5), (some "B".toList, 201 / 5, 576 / 5)] ∧
      large.state.edges.map (fun e => (e.from_id, e.to_id, e.path_point_count, e.path_points)) =
        [(some "A".toList, some "B".toList, 2, some [201 / 5, 192 / 5, 201 / 5, 576 / 5])] := by
  refine ⟨_, _, rfl, ?_, ?_, rfl, ?_, ?_⟩
  · decide!
  · decide!
  · decide!
  · decide!

/-- C12: for every flowchart with at least one registered node and every
viewport, the scale of the viewport fit lies between 0.6 and 1 and is 1 when the
natural width and height both fit; the natural sizes exceed the outer padding of
2 x 20, so the scale is never a quotient by zero; and the final position of
every node is `20 + scale * (position before the fit)`. -/
theorem viewport_scale_bounds (metrics : Option IRFontMetrics) (flowchart : Flowchart)
    (hn : flowchart.state.nodes ≠ []) (available_width available_height : ℚ) :
    3 / 5 ≤ layout_scale metrics flowchart available_width available_height ∧
    layout_scale metrics flowchart available_width available_height ≤ 1 ∧
    (layout_natural_width metrics flowchart ≤ available_width →
      layout_natural_height metrics flowchart ≤ available_height →
      layout_scale metrics flowchart available_width available_height = 1) ∧
    40 < layout_natural_width metrics flowchart ∧
    40 < layout_natural_height metrics flowchart ∧
    (compute_layout metrics flowchart available_width available_height).state.nodes =
      (layout_placed metrics flowchart).nodes.map (fun node =>
        { node with
          x := 20 + node.x * layout_scale metrics flowchart available_width available_height,
          y := 20 + node.y * layout_scale metrics flowchart available_width available_height }) := by
  obtain ⟨a, b, c⟩ := layout_scale_bounds metrics flowchart available_width available_height
  obtain ⟨d, e⟩ := (layout_natural_ge metrics flowchart).2.2 hn
  refine ⟨a, b, c, d, e, ?_⟩
  rw [compute_layout_nodes, layout_move_eq]

theorem viewport_scale_bounds_witness :
    3 / 5 ≤ layout_scale none sample_flowchart 100 (-5) ∧
    layout_scale none sample_flowchart 100 (-5) ≤ 1 ∧
    (layout_natural_width none sample_flowchart ≤ 100 →
      layout_natural_height none sample_flowchart ≤ -5 →
      layout_scale none sample_flowchart 100 (-5) = 1) ∧
    40 < layout_natural_width none sample_flowchart ∧
    40 < layout_natural_height none sample_flowchart ∧
    (compute_layout none sample_flowchart 100 (-5)).state.nodes =
      (layout_placed none sample_flowchart).nodes.map (fun node =>
        { node with
          x := 20 + node.x * layout_scale none sample_flowchart 100 (-5),
          y := 20 + node.y * layout_scale none sample_flowchart 100 (-5) }) :=
  viewport_scale_bounds none sample_flowchart (List.cons_ne_nil _ _) 100 (-5)

/-- C13: for every flowchart whose layout is not yet computed and every
viewport, the nodes after `ir_layout_compute_flowchart` are the nodes of the
positioning phase, which does not depend on the viewport, moved to
`20 + scale * position` and otherwise unchanged; their widths and heights are
those of the sizing phase, hence the same for any two viewports; and with at
least one node, every edge is the routed edge with each coordinate `v` of its
path points replaced by `20 + scale * v`. -/
theorem viewport_fit_moves_positions_only (metrics : Option IRFontMetrics)
    (flowchart : Flowchart) (hc : flowchart.state.layout_computed = false)
    (available_width available_height : ℚ) :
    (ir_layout_compute_flowchart metrics flowchart available_width available_height).state.nodes =
      (layout_placed metrics flowchart).nodes.map (fun node =>
        { node with
          x := 20 + node.x * layout_scale metrics flowchart available_width available_height,
          y := 20 + node.y * layout_scale metrics flowchart available_width available_height }) ∧
    (ir_layout_compute_flowchart metrics flowchart available_width
        available_height).state.nodes.map (fun node => (node.width, node.height)) =
      flowchart.state.nodes.map (fun node =>
        ((compute_node_size metrics (layout_font_size flowchart) node).width,
         (compute_node_size metrics (layout_font_size flowchart) node).height)) ∧
    (∀ other_width other_height : ℚ,
      (ir_layout_compute_flowchart metrics flowchart available_width
          available_height).state.nodes.map (fun node => (node.width, node.height)) =
        (ir_layout_compute_flowchart metrics flowchart other_width
          other_height).state.nodes.map (fun node => (node.width, node.height))) ∧
    (flowchart.state.nodes ≠ [] →
      (ir_layout_compute_flowchart metrics flowchart available_width
          available_height).state.edges =
        (layout_routed metrics flowchart).map (transform_edge_path (fun v =>
          20 + v * layout_scale metrics flowchart available_width available_height))) := by
  have sizes : ∀ w h : ℚ,
      (ir_layout_compute_flowchart metrics flowchart w h).state.nodes.map
          (fun node => (node.width, node.height)) =
        flowchart.state.nodes.map (fun node =>
          ((compute_node_size metrics (layout_font_size flowchart) node).width,
           (compute_node_size metrics (layout_font_size flowchart) node).height)) := by
    intro w h
    rw [layout_result_nodes metrics flowchart w h hc, List.map_map,
      ← layout_placed_sizes metrics flowchart]
    rfl
  refine ⟨layout_result_nodes metrics flowchart _ _ hc, sizes _ _, ?_, ?_⟩
  · intro w h
    rw [sizes, sizes]
  · intro hn
    exact layout_result_edges metrics flowchart _ _ hc hn

theorem viewport_fit_moves_positions_only_witness :
    (ir_layout_compute_flowchart none sample_flowchart 100 100).state.nodes =
      (layout_placed none sample_flowchart).nodes.map (fun node =>
        { node with
          x := 20 + node.x * layout_scale none sample_flowchart 100 100,
          y := 20 + node.y * layout_scale none sample_flowchart 100 100 }) ∧
    (ir_layout_compute_flowchart none sample_flowchart 100
        100).state.nodes.map (fun node => (node.width, node.height)) =
      sample_flowchart.state.nodes.map (fun node =>
        ((compute_node_size none (layout_font_size sample_flowchart) node).width,
         (compute_node_size none (layout_font_size sample_flowchart) node).height)) ∧
    (∀ other_width other_height : ℚ,
      (ir_layout_compute_flowchart none sample_flowchart 100
          100).state.nodes.map (fun node => (node.width, node.height)) =
        (ir_layout_compute_flowchart none sample_flowchart other_width
          other_height).state.nodes.map (fun node => (node.width, node.height))) ∧
    (sample_flowchart.state.nodes ≠ [] →
      (ir_layout_compute_flowchart none sample_flowchart 100 100).state.edges =
        (layout_routed none sample_flowchart).map (transform_edge_path (fun v =>
          20 + v * layout_scale none sample_flowchart 100 100))) :=
  viewport_fit_moves_positions_only none sample_flowchart rfl 100 100

theorem size_ok_of_sized (metrics : Option IRFontMetrics) (font_size : ℚ)
    (node : IRFlowchartNodeData) : size_ok (compute_node_size metrics font_size node) := by
  have h := compute_node_size_bounds metrics font_size node
  refine ⟨h.1, h.2.1, ?_⟩
  intro hs
  apply h.2.2
  rw [compute_node_size_eq] at hs
  exact hs

/-- C14: for every flowchart, font metrics and font size, every node after the
sizing phase has width at least 40 and height at least 24, and width equal to
height when it is a circle or a diamond; when the layout is not yet computed,
the same holds for every node after `ir_layout_compute_flowchart`, for every
viewport. -/
theorem node_sizes_floor_and_square (metrics : Option IRFontMetrics) (flowchart : Flowchart)
    (hc : flowchart.state.layout_computed = false) (font_size : ℚ)
    (available_width available_height : ℚ) :
    (∀ node ∈ (compute_flowchart_node_sizes metrics flowchart.state font_size).nodes,
      size_ok node) ∧
    (∀ node ∈ (ir_layout_compute_flowchart metrics flowchart available_width
      available_height).state.nodes, size_ok node) := by
  constructor
  · intro node hmem
    simp only [compute_flowchart_node_sizes, List.mem_map] at hmem
    obtain ⟨n0, _, rfl⟩ := hmem
    exact size_ok_of_sized metrics font_size n0
  · intro node hmem
    obtain ⟨j, hj⟩ := List.get?_of_mem hmem
    have hlt : j < flowchart.state.nodes.length := by
      rw [← layout_result_length metrics flowchart available_width available_height hc]
      rw [List.get?_eq_getElem?] at hj
      exact (List.getElem?_eq_some_iff.mp hj).1
    obtain ⟨x, y, e, _⟩ := layout_result_get metrics flowchart available_width available_height hc
      j _ (List.get?_eq_get hlt)
    rw [hj] at e
    cases e
    exact size_ok_of_sized metrics (layout_font_size flowchart) _

theorem node_sizes_floor_and_square_witness :
    (∀ node ∈ (compute_flowchart_node_sizes none sample_flowchart.state 14).nodes,
      size_ok node) ∧
    (∀ node ∈ (ir_layout_compute_flowchart none sample_flowchart 100 100).state.nodes,
      size_ok node) :=
  node_sizes_floor_and_square none sample_flowchart rfl 14 100 100

/-! ## The boxes of the subgraphs -/

theorem foldl_min_spec {α : Type} (f : α → ℚ) (ms : List α) (a : ℚ) :
    ms.foldl (fun a m => if f m < a then f m else a) a ≤ a ∧
    (∀ m ∈ ms, ms.foldl (fun a m => if f m < a then f m else a) a ≤ f m) ∧
    (ms.foldl (fun a m => if f m < a then f m else a) a = a ∨
      ∃ m ∈ ms, f m = ms.foldl (fun a m => if f m < a then f m else a) a) := by
  induction ms generalizing a with
  | nil => simp
  | cons b bs ih =>
    simp only [List.foldl_cons, List.mem_cons]
    obtain ⟨h1, h2, h3⟩ := ih (if f b < a then f b else a)
    have hle : (if f b < a then f b else a) ≤ a ∧ (if f b < a then f b else a) ≤ f b := by
      split
      · next h => exact ⟨le_of_lt h, le_refl _⟩
      · next h => exact ⟨le_refl _, not_lt.mp h⟩
    refine ⟨le_trans h1 hle.1, ?_, ?_⟩
    · rintro m (rfl | hm)
      · exact le_trans h1 hle.2
      · exact h2 m hm
    · rcases h3 with e | ⟨m, hm, e⟩
      · by_cases hb : f b < a
        · right
          refine ⟨b, Or.inl rfl, ?_⟩
          rw [e, if_pos hb]
        · left
          rw [e, if_neg hb]
      · exact Or.inr ⟨m, Or.inr hm, e⟩

theorem foldl_max_spec {α : Type} (f : α → ℚ) (ms : List α) (a : ℚ) :
    a ≤ ms.foldl (fun a m => if f m > a then f m else a) a ∧
    (∀ m ∈ ms, f m ≤ ms.foldl (fun a m => if f m > a then f m else a) a) ∧
    (ms.foldl (fun a m => if f m > a then f m else a) a = a ∨
      ∃ m ∈ ms, f m = ms.foldl (fun a m => if f m > a then f m else a) a) := by
  induction ms generalizing a with
  | nil => simp
  | cons b bs ih =>
    simp only [List.foldl_cons, List.mem_cons]
    obtain ⟨h1, h2, h3⟩ := ih (if f b > a then f b else a)
    have hle : a ≤ (if f b > a then f b else a) ∧ f b ≤ (if f b > a then f b else a) := by
      split
      · next h => exact ⟨le_of_lt h, le_refl _⟩
      · next h => exact ⟨le_refl _, not_lt.mp h⟩
    refine ⟨le_trans hle.1 h1, ?_, ?_⟩
    · rintro m (rfl | hm)
      · exact le_trans hle.2 h1
      · exact h2 m hm
    · rcases h3 with e | ⟨m, hm, e⟩
      · by_cases hb : f b > a
        · right
          refine ⟨b, Or.inl rfl, ?_⟩
          rw [e, if_pos hb]
        · left
          rw [e, if_neg hb]
      · exact Or.inr ⟨m, Or.inr hm, e⟩

theorem min_over_members {α : Type} (f : α → ℚ) (m : α) (ms : List α) :
    (∀ k ∈ m :: ms, ms.foldl (fun a k => if f k < a then f k else a) (f m) ≤ f k) ∧
    ∃ k ∈ m :: ms, f k = ms.foldl (fun a k => if f k < a then f k else a) (f m) := by
  obtain ⟨h1, h2, h3⟩ := foldl_min_spec f ms (f m)
  refine ⟨?_, ?_⟩
  · intro k hk
    rcases List.mem_cons.mp hk with rfl | hk
    · exact h1
    · exact h2 k hk
  · rcases h3 with e | ⟨k, hk, e⟩
    · exact ⟨m, List.mem_cons_self _ _, e.symm⟩
    · exact ⟨k, List.mem_cons_of_mem _ hk, e⟩

theorem max_over_members {α : Type} (f : α → ℚ) (m : α) (ms : List α) :
    (∀ k ∈ m :: ms, f k ≤ ms.foldl (fun a k => if f k > a then f k else a) (f m)) ∧
    ∃ k ∈ m :: ms, f k = ms.foldl (fun a k => if f k > a then f k else a) (f m) := by
  obtain ⟨h1, h2, h3⟩ := foldl_max_spec f ms (f m)
  refine ⟨?_, ?_⟩
  · intro k hk
    rcases List.mem_cons.mp hk with rfl | hk
    · exact h1
    · exact h2 k hk
  · rcases h3 with e | ⟨k, hk, e⟩
    · exact ⟨m, List.mem_cons_self _ _, e.symm⟩
    · exact ⟨k, List.mem_cons_of_mem _ hk, e⟩

theorem compute_subgraph_bound_id (nodes : List IRFlowchartNodeData)
    (sg : IRFlowchartSubgraphData) :
    (compute_subgraph_bound nodes sg).subgraph_id = sg.subgraph_id := by
  unfold compute_subgraph_bound
  split
  · rfl
  · split <;> rfl

theorem compute_subgraph_bound_box (nodes : List IRFlowchartNodeData)
    (sg : IRFlowchartSubgraphData) (sid : List Char) (hid : sg.subgraph_id = some sid)
    (hm : nodes.filter (fun node => node.subgraph_id == some sid) ≠ []) :
    is_padded_union_box (nodes.filter (fun node => node.subgraph_id == some sid))
      (compute_subgraph_bound nodes sg).x (compute_subgraph_bound nodes sg).y
      (compute_subgraph_bound nodes sg).width (compute_subgraph_bound nodes sg).height := by
  unfold compute_subgraph_bound
  rw [hid]
  dsimp only
  cases hf : nodes.filter (fun node => node.subgraph_id == some sid) with
  | nil => exact absurd hf hm
  | cons m ms =>
    dsimp only
    refine ⟨_, _, _, _, min_over_members (fun k : IRFlowchartNodeData => k.x) m ms,
      min_over_members (fun k : IRFlowchartNodeData => k.y) m ms,
      max_over_members (fun k : IRFlowchartNodeData => k.x + k.width) m ms,
      max_over_members (fun k : IRFlowchartNodeData => k.y + k.height) m ms, ?_, ?_, ?_, ?_⟩
    · rfl
    · simp only [FLOWCHART_SUBGRAPH_PADDING, FLOWCHART_SUBGRAPH_TITLE_HEIGHT]; ring
    · simp only [FLOWCHART_SUBGRAPH_PADDING]; ring
    · simp only [FLOWCHART_SUBGRAPH_PADDING, FLOWCHART_SUBGRAPH_TITLE_HEIGHT]; ring

theorem padded_union_box_contains (members : List IRFlowchartNodeData)
    (sg : IRFlowchartSubgraphData)
    (h : is_padded_union_box members sg.x sg.y sg.width sg.height) :
    ∀ m ∈ members, node_inside m sg := by
  obtain ⟨l, t, r, b, ⟨hl, _⟩, ⟨ht, _⟩, ⟨hr, _⟩, ⟨hb, _⟩, ex, ey, ew, eh⟩ := h
  intro m hm
  have := hl m hm
  have := ht m hm
  have := hr m hm
  have := hb m hm
  unfold node_inside
  rw [ex, ey, ew, eh]
  refine ⟨by linarith, by linarith, by linarith, by linarith⟩

/-- C15: for every flowchart whose layout is not yet computed and every
viewport, every subgraph with an id that has at least one registered node with
this id as its `subgraph_id` gets, after `ir_layout_compute_flowchart`, the
union bounding box of the final rectangles of those nodes, widened by 40 on the
left, on the right and at the bottom and by 70 at the top; every such node lies
inside the box. -/
theorem subgraph_box_is_padded_union (metrics : Option IRFontMetrics) (flowchart : Flowchart)
    (hc : flowchart.state.layout_computed = false) (available_width available_height : ℚ)
    (sg : IRFlowchartSubgraphData) (sid : List Char)
    (hsg : sg ∈ (ir_layout_compute_flowchart metrics flowchart available_width
      available_height).state.subgraphs)
    (hid : sg.subgraph_id = some sid)
    (hm : (ir_layout_compute_flowchart metrics flowchart available_width
      available_height).state.nodes.filter (fun node => node.subgraph_id == some sid) ≠ []) :
    is_padded_union_box
      ((ir_layout_compute_flowchart metrics flowchart available_width
        available_height).state.nodes.filter (fun node => node.subgraph_id == some sid))
      sg.x sg.y sg.width sg.height ∧
    ∀ m ∈ (ir_layout_compute_flowchart metrics flowchart available_width
        available_height).state.nodes.filter (fun node => node.subgraph_id == some sid),
      node_inside m sg := by
  have hn : flowchart.state.nodes ≠ [] := by
    intro h0
    apply hm
    have := layout_result_length metrics flowchart available_width available_height hc
    rw [h0, List.length_nil, List.length_eq_zero] at this
    rw [this]
    rfl
  rw [ir_layout_not_cached metrics flowchart _ _ hc hn] at hsg hm ⊢
  rw [compute_layout_subgraphs, List.mem_map] at hsg
  obtain ⟨sg0, _, rfl⟩ := hsg
  rw [compute_subgraph_bound_id] at hid
  have box := compute_subgraph_bound_box _ sg0 sid hid hm
  exact ⟨box, padded_union_box_contains _ _ box⟩

theorem subgraph_box_is_padded_union_witness :
    ∃ sg ∈ (ir_layout_compute_flowchart none sample_flowchart 100 100).state.subgraphs,
      sg.subgraph_id = some "s".toList ∧
      (sg.x, sg.y, sg.width, sg.height) = (-20, -1067 / 25, 972 / 5, 7743 / 25) ∧
      is_padded_union_box
        ((ir_layout_compute_flowchart none sample_flowchart 100 100).state.nodes.filter
          (fun node => node.subgraph_id == some "s".toList))
        sg.x sg.y sg.width sg.height ∧
      ∀ m ∈ (ir_layout_compute_flowchart none sample_flowchart 100 100).state.nodes.filter
          (fun node => node.subgraph_id == some "s".toList),
        node_inside m sg := by
  refine ⟨_, List.mem_cons_self _ _, rfl, by decide!, ?_⟩
  exact subgraph_box_is_padded_union none sample_flowchart rfl 100 100 _ "s".toList
    (List.mem_cons_self _ _) rfl (by decide!)

/-! ## Layers and coordinates -/

theorem primary_forward_lt (Li Lj : Int) (D rs hi hj : ℚ) (hl : Li < Lj) (hrs : 0 < rs)
    (h0 : 0 < hi) (h2 : 0 < hj) (h1 : hj ≤ D) :
    (Li : ℚ) * (D + rs) + (D - hi) / 2 < (Lj : ℚ) * (D + rs) + (D - hj) / 2 := by
  have hD : 0 ≤ D + rs := by linarith
  have hc : (Li : ℚ) + 1 ≤ (Lj : ℚ) := by exact_mod_cast hl
  have : ((Li : ℚ) + 1) * (D + rs) ≤ (Lj : ℚ) * (D + rs) := mul_le_mul_of_nonneg_right hc hD
  linarith

theorem primary_coord_lt (maxl Li Lj : Int) (D rs hi hj : ℚ) (hl : Li < Lj) (hrs : 0 < rs)
    (hi0 : 0 < hi) (hj0 : 0 < hj) (hiD : hi ≤ D) (hjD : hj ≤ D) :
    primary_coord false maxl Li (D + rs) + (D - hi) / 2 <
      primary_coord false maxl Lj (D + rs) + (D - hj) / 2 ∧
    primary_coord true maxl Lj (D + rs) + (D - hj) / 2 <
      primary_coord true maxl Li (D + rs) + (D - hi) / 2 := by
  unfold primary_coord
  simp only [Bool.false_eq_true, if_false, if_true]
  refine ⟨primary_forward_lt Li Lj D rs hi hj hl hrs hi0 hj0 hjD, ?_⟩
  have := primary_forward_lt (maxl - Lj) (maxl - Li) D rs hj hi (by omega) hrs hj0 hi0 hiD
  exact this

theorem sized_in_slot (metrics : Option IRFontMetrics) (f : Flowchart) (j : Nat)
    (node : IRFlowchartNodeData) (hj : f.state.nodes.get? j = some node) :
    0 < (compute_node_size metrics (layout_font_size f) node).width ∧
    (compute_node_size metrics (layout_font_size f) node).width ≤
      max_node_width (layout_sized metrics f).nodes ∧
    0 < (compute_node_size metrics (layout_font_size f) node).height ∧
    (compute_node_size metrics (layout_font_size f) node).height ≤
      max_node_height (layout_sized metrics f).nodes := by
  have hmem : compute_node_size metrics (layout_font_size f) node ∈ (layout_sized metrics f).nodes := by
    rw [layout_sized_nodes]
    exact List.mem_map_of_mem _ (List.get?_mem hj)
  have hb := compute_node_size_bounds metrics (layout_font_size f) node
  refine ⟨by linarith [hb.1], ?_, by linarith [hb.2.1], ?_⟩
  · exact (foldl_max_field_ge (fun n : IRFlowchartNodeData => n.width) _ _).2 _ hmem
  · exact (foldl_max_field_ge (fun n : IRFlowchartNodeData => n.height) _ _).2 _ hmem

/-- For two nodes outside every subgraph, the node of the lower layer comes
first along the primary axis of the flowchart direction. -/
theorem layer_order (metrics : Option IRFontMetrics) (f : Flowchart)
    (hc : f.state.layout_computed = false) (aw ah : ℚ) (i j : Nat)
    (ni nj u v : IRFlowchartNodeData)
    (hi : f.state.nodes.get? i = some ni) (hj : f.state.nodes.get? j = some nj)
    (si : ni.subgraph_id = none) (sj : nj.subgraph_id = none)
    (hu : (ir_layout_compute_flowchart metrics f aw ah).state.nodes.get? i = some u)
    (hv : (ir_layout_compute_flowchart metrics f aw ah).state.nodes.get? j = some v)
    (hl : (layout_layers metrics f).getD i (-1) < (layout_layers metrics f).getD j (-1)) :
    (f.state.direction = IRFlowchartDirection.TB → u.y < v.y) ∧
    (f.state.direction = IRFlowchartDirection.LR → u.x < v.x) ∧
    (f.state.direction = IRFlowchartDirection.BT → v.y < u.y) ∧
    (f.state.direction = IRFlowchartDirection.RL → v.x < u.x) := by
  obtain ⟨xi, yi, ei, oki⟩ := layout_result_get metrics f aw ah hc i ni hi
  obtain ⟨xj, yj, ej, okj⟩ := layout_result_get metrics f aw ah hc j nj hj
  rw [hu] at ei
  rw [hv] at ej
  cases ei
  cases ej
  have s0 : 0 < layout_scale metrics f aw ah := by
    have := (layout_scale_bounds metrics f aw ah).1
    linarith
  have hrs := (layout_spacing_pos f.state).2
  obtain ⟨wi0, wiD, hi0, hiD⟩ := sized_in_slot metrics f i ni hi
  obtain ⟨wj0, wjD, hj0, hjD⟩ := sized_in_slot metrics f j nj hj
  have si1 : (compute_node_size metrics (layout_font_size f) ni).subgraph_id = none := by
    rw [compute_node_size_eq]; exact si
  have sj1 : (compute_node_size metrics (layout_font_size f) nj).subgraph_id = none := by
    rw [compute_node_size_eq]; exact sj
  obtain ⟨fxi, fyi⟩ := oki.2.2 si1
  obtain ⟨fxj, fyj⟩ := okj.2.2 sj1
  have hdir : (layout_sized metrics f).direction = f.state.direction := rfl
  rw [hdir] at fxi fyi fxj fyj
  have cw := primary_coord_lt (max_layer_of (layout_layers metrics f)) _ _
    (max_node_width (layout_sized metrics f).nodes) (layout_rank_spacing f.state) _ _
    hl hrs wi0 wj0 wiD wjD
  have ch := primary_coord_lt (max_layer_of (layout_layers metrics f)) _ _
    (max_node_height (layout_sized metrics f).nodes) (layout_rank_spacing f.state) _ _
    hl hrs hi0 hj0 hiD hjD
  have mono : ∀ a b : ℚ, a < b →
      20 + a * layout_scale metrics f aw ah < 20 + b * layout_scale metrics f aw ah := by
    intro a b hab
    have := mul_lt_mul_of_pos_right hab s0
    linarith
  refine ⟨?_, ?_, ?_, ?_⟩
  · intro hd
    rw [hd] at fyi fyj
    show 20 + yi * _ < 20 + yj * _
    apply mono
    rw [fyi rfl, fyj rfl]
    exact ch.1
  · intro hd
    rw [hd] at fxi fxj
    show 20 + xi * _ < 20 + xj * _
    apply mono
    rw [fxi rfl, fxj rfl]
    exact cw.1
  · intro hd
    rw [hd] at fyi fyj
    show 20 + yj * _ < 20 + yi * _
    apply mono
    rw [fyi rfl, fyj rfl]
    exact ch.2
  · intro hd
    rw [hd] at fxi fxj
    show 20 + xj * _ < 20 + xi * _
    apply mono
    rw [fxi rfl, fxj rfl]
    exact cw.2

theorem layout_result_ids (metrics : Option IRFontMetrics) (f : Flowchart) (aw ah : ℚ)
    (hc : f.state.layout_computed = false) :
    (ir_layout_compute_flowchart metrics f aw ah).state.nodes.map (fun n => n.node_id) =
      f.state.nodes.map (fun n => n.node_id) := by
  apply List.ext_get?
  intro j
  simp only [List.get?_eq_getElem?, List.getElem?_map]
  cases hj : f.state.nodes[j]? with
  | none =>
    have : (ir_layout_compute_flowchart metrics f aw ah).state.nodes[j]? = none := by
      rw [List.getElem?_eq_none_iff] at hj ⊢
      rw [layout_result_length metrics f aw ah hc]
      exact hj
    rw [this]
  | some node =>
    obtain ⟨x, y, e, _⟩ := layout_result_get metrics f aw ah hc j node
      (by rw [List.get?_eq_getElem?]; exact hj)
    rw [List.get?_eq_getElem?] at e
    rw [e]
    simp only [Option.map_some']
    rw [compute_node_size_eq]

/-- C16: for every flowchart (layout not yet computed) whose registered nodes
have no subgraph id, every viewport and any two registered nodes `u`, `v` with
layer(u) < layer(v), the final coordinates satisfy y_u < y_v for direction TB,
x_u < x_v for LR, y_u > y_v for BT and x_u > x_v for RL; in particular, for
every viewport, `flowchart TB / A-->B` puts A at a smaller y than B, and
`flowchart LR / A-->B-->C` gives A, B, C increasing x. -/
theorem lower_layer_comes_first :
    (∀ (metrics : Option IRFontMetrics) (flowchart : Flowchart)
        (available_width available_height : ℚ) (i j : Nat) (u v : IRFlowchartNodeData),
      flowchart.state.layout_computed = false →
      (∀ node ∈ flowchart.state.nodes, node.subgraph_id = none) →
      (ir_layout_compute_flowchart metrics flowchart available_width
        available_height).state.nodes.get? i = some u →
      (ir_layout_compute_flowchart metrics flowchart available_width
        available_height).state.nodes.get? j = some v →
      (layout_layers metrics flowchart).getD i (-1) < (layout_layers metrics flowchart).getD j (-1) →
      (flowchart.state.direction = IRFlowchartDirection.TB → u.y < v.y) ∧
      (flowchart.state.direction = IRFlowchartDirection.LR → u.x < v.x) ∧
      (flowchart.state.direction = IRFlowchartDirection.BT → v.y < u.y) ∧
      (flowchart.state.direction = IRFlowchartDirection.RL → v.x < u.x)) ∧
    (∀ available_width available_height : ℚ, ∃ (laid : Flowchart) (a b : IRFlowchartNodeData),
      parse_and_layout "flowchart TB\nA-->B".toList available_width available_height = some laid ∧
      laid.state.nodes = [a, b] ∧ a.node_id = some "A".toList ∧ b.node_id = some "B".toList ∧
      a.y < b.y) ∧
    (∀ available_width available_height : ℚ,
      ∃ (laid : Flowchart) (a b c : IRFlowchartNodeData),
      parse_and_layout "flowchart LR\nA-->B-->C".toList available_width available_height
        = some laid ∧
      laid.state.nodes = [a, b, c] ∧ a.node_id = some "A".toList ∧ b.node_id = some "B".toList ∧
      c.node_id = some "C".toList ∧ a.x < b.x ∧ b.x < c.x) := by
  have gen : ∀ (metrics : Option IRFontMetrics) (flowchart : Flowchart)
      (available_width available_height : ℚ) (i j : Nat) (u v : IRFlowchartNodeData),
      flowchart.state.layout_computed = false →
      (∀ node ∈ flowchart.state.nodes, node.subgraph_id = none) →
      (ir_layout_compute_flowchart metrics flowchart available_width
        available_height).state.nodes.get? i = some u →
      (ir_layout_compute_flowchart metrics flowchart available_width
        available_height).state.nodes.get? j = some v →
      (layout_layers metrics flowchart).getD i (-1) < (layout_layers metrics flowchart).getD j (-1) →
      (flowchart.state.direction = IRFlowchartDirection.TB → u.y < v.y) ∧
      (flowchart.state.direction = IRFlowchartDirection.LR → u.x < v.x) ∧
      (flowchart.state.direction = IRFlowchartDirection.BT → v.y < u.y) ∧
      (flowchart.state.direction = IRFlowchartDirection.RL → v.x < u.x) := by
    intro metrics f aw ah i j u v hc hs hu hv hl
    have hlen := layout_result_length metrics f aw ah hc
    have hi : i < f.state.nodes.length := by
      rw [← hlen]
      rw [List.get?_eq_getElem?] at hu
      exact (List.getElem?_eq_some_iff.mp hu).1
    have hj : j < f.state.nodes.length := by
      rw [← hlen]
      rw [List.get?_eq_getElem?] at hv
      exact (List.getElem?_eq_some_iff.mp hv).1
    exact layer_order metrics f hc aw ah i j _ _ u v (List.get?_eq_get hi) (List.get?_eq_get hj)
      (hs _ (List.get_mem _ _ _)) (hs _ (List.get_mem _ _ _)) hu hv hl
  refine ⟨gen, ?_, ?_⟩
  · have ex : ∃ fc : Flowchart,
        ir_flowchart_parse "flowchart TB\nA-->B".toList = some (some fc) ∧
        fc.state.layout_computed = false ∧
        fc.state.direction = IRFlowchartDirection.TB ∧
        (∀ node ∈ fc.state.nodes, node.subgraph_id = none) ∧
        fc.state.nodes.map (fun n => n.node_id) = [some "A".toList, some "B".toList] ∧
        layout_layers none fc = [0, 1] := by
      refine ⟨_, rfl, ?_, ?_, ?_, ?_, ?_⟩
      · decide!
      · decide!
      · decide!
      · decide!
      · decide!
    obtain ⟨fc, hp, hc, hd, hs, hids, hl⟩ := ex
    intro aw ah
    have e : parse_and_layout "flowchart TB\nA-->B".toList aw ah =
        some (ir_layout_compute_flowchart none fc aw ah) := by
      unfold parse_and_layout
      rw [hp]
    have hr := layout_result_ids none fc aw ah hc
    rw [hids] at hr
    cases hn : (ir_layout_compute_flowchart none fc aw ah).state.nodes with
    | nil => rw [hn] at hr; simp at hr
    | cons a t =>
      cases t with
      | nil => rw [hn] at hr; simp at hr
      | cons b t =>
        cases t with
        | cons c t => rw [hn] at hr; simp at hr
        | nil =>
          rw [hn] at hr
          simp only [List.map_cons, List.map_nil, List.cons.injEq, and_true] at hr
          refine ⟨_, a, b, e, hn, hr.1, hr.2, ?_⟩
          refine (gen none fc aw ah 0 1 a b hc hs (by rw [hn]; rfl) (by rw [hn]; rfl) ?_).1 hd
          rw [hl]
          decide
  · have ex : ∃ fc : Flowchart,
        ir_flowchart_parse "flowchart LR\nA-->B-->C".toList = some (some fc) ∧
        fc.state.layout_computed = false ∧
        fc.state.direction = IRFlowchartDirection.LR ∧
        (∀ node ∈ fc.state.nodes, node.subgraph_id = none) ∧
        fc.state.nodes.map (fun n => n.node_id) =
          [some "A".toList, some "B".toList, some "C".toList] ∧
        layout_layers none fc = [0, 1, 2] := by
      refine ⟨_, rfl, ?_, ?_, ?_, ?_, ?_⟩
      · decide!
      · decide!
      · decide!
      · decide!
      · decide!
    obtain ⟨fc, hp, hc, hd, hs, hids, hl⟩ := ex
    intro aw ah
    have e : parse_and_layout "flowchart LR\nA-->B-->C".toList aw ah =
        some (ir_layout_compute_flowchart none fc aw ah) := by
      unfold parse_and_layout
      rw [hp]
    have hr := layout_result_ids none fc aw ah hc
    rw [hids] at hr
    cases hn : (ir_layout_compute_flowchart none fc aw ah).state.nodes with
    | nil => rw [hn] at hr; simp at hr
    | cons a t =>
      cases t with
      | nil => rw [hn] at hr; simp at hr
      | cons b t =>
        cases t with
        | nil => rw [hn] at hr; simp at hr
        | cons c t =>
          cases t with
          | cons d t => rw [hn] at hr; simp at hr
          | nil =>
            rw [hn] at hr
            simp only [List.map_cons, List.map_nil, List.cons.injEq, and_true] at hr
            refine ⟨_, a, b, c, e, hn, hr.1, hr.2.1, hr.2.2, ?_, ?_⟩
            · refine (gen none fc aw ah 0 1 a b hc hs (by rw [hn]; rfl) (by rw [hn]; rfl)
                ?_).2.1 hd
              rw [hl]
              decide
            · refine (gen none fc aw ah 1 2 b c hc hs (by rw [hn]; rfl) (by rw [hn]; rfl)
                ?_).2.1 hd
              rw [hl]
              decide

/-- The general part at the flowchart of direction BT with the edge A to B, in a
viewport of 300 x 200: B, of layer 1, is above A, of layer 0. -/
theorem lower_layer_comes_first_witness :
    ∃ a b : IRFlowchartNodeData,
      (ir_layout_compute_flowchart none plain_flowchart 300 200).state.nodes = [a, b] ∧
      b.y < a.y := by
  refine ⟨_, _, rfl, ?_⟩
  exact (lower_layer_comes_first.1 none plain_flowchart 300 200 0 1 _ _ rfl (by decide!) rfl rfl
    (by decide!)).2.2.1 rfl

/-! ## Lines that change nothing -/

theorem parse_body_fuel_succ : ∀ (fuel : Nat) (p r : FlowchartParser),
    parse_body fuel p = some r → parse_body (fuel + 1) p = some r := by
  intro fuel
  induction fuel with
  | zero => intro p r h; simp [parse_body] at h
  | succ n ih =>
    intro p r h
    rw [parse_body] at h ⊢
    split
    · next he => rw [if_pos he] at h; exact h
    · next he =>
      rw [if_neg he] at h
      dsimp only at h ⊢
      split
      · next hr =>
        rw [if_pos hr] at h
        cases hl : parse_line { p with rest := skip_whitespace_and_newlines p.rest } with
        | none => rw [hl] at h; simp at h
        | some p1 =>
          rw [hl] at h
          exact ih _ _ h
      · next hr =>
        rw [if_neg hr] at h
        exact ih _ _ h

theorem parse_body_fuel_le (fuel fuel1 : Nat) (p r : FlowchartParser)
    (h : parse_body fuel p = some r) (hle : fuel ≤ fuel1) : parse_body fuel1 p = some r := by
  induction fuel1 with
  | zero =>
    have : fuel = 0 := by omega
    subst this
    exact h
  | succ n ih =>
    by_cases e : fuel = n + 1
    · subst e; exact h
    · exact parse_body_fuel_succ n p r (ih (by omega))

/-- Any two bounds above the length of the text left give the same result. -/
theorem parse_body_fuel_indep (f1 f2 : Nat) (p : FlowchartParser) (h1 : p.rest.length < f1)
    (h2 : p.rest.length < f2) : parse_body f1 p = parse_body f2 p := by
  obtain ⟨r, hr⟩ := parse_body_total (p.rest.length + 1) p (by omega)
  rw [parse_body_fuel_le _ f1 p r hr (by omega), parse_body_fuel_le _ f2 p r hr (by omega)]

/-- A newline at the cursor of the main loop is stepped over. -/
theorem parse_body_newline (fuel : Nat) (p r : FlowchartParser) (after : List Char)
    (h : parse_body fuel { p with rest := after } = some r) :
    parse_body (fuel + 1) { p with rest := '\n' :: after } = some r := by
  cases fuel with
  | zero => simp [parse_body] at h
  | succ n =>
    have e : skip_whitespace_and_newlines ('\n' :: after) = skip_whitespace_and_newlines after := rfl
    rw [parse_body] at h ⊢
    have hne : is_at_end ({ p with rest := '\n' :: after } : FlowchartParser).rest = false := rfl
    rw [if_neg (by rw [hne]; simp)]
    dsimp only at h ⊢
    rw [e]
    by_cases ha : is_at_end after = true
    · rw [if_pos ha] at h
      have hnil : after = [] := by
        cases after with
        | nil => rfl
        | cons c cs => simp [is_at_end] at ha
      subst hnil
      have e2 : skip_whitespace_and_newlines ([] : List Char) = [] := rfl
      rw [e2]
      have : (!is_at_end ([] : List Char)) = false := rfl
      rw [if_neg (by rw [this]; simp)]
      rw [← h]
      rw [parse_body]
      rfl
    · rw [if_neg ha] at h
      split
      · next hr =>
        rw [if_pos hr] at h
        cases hl : parse_line { p with rest := skip_whitespace_and_newlines after } with
        | none => rw [hl] at h; simp at h
        | some p1 => rw [hl] at h; exact parse_body_fuel_succ _ _ _ h
      · next hr =>
        rw [if_neg hr] at h
        exact parse_body_fuel_succ _ _ _ h

theorem tolower_not_alpha (c : Char) (h : isalpha c = false) : tolower c = c := by
  unfold tolower
  have : isupper c = false := by
    unfold isalpha at h
    simp only [Bool.or_eq_false_iff] at h
    exact h.1
  rw [this]
  rfl

/-- No statement keyword is matched where the next character is not a letter. -/
theorem keyword_needs_letter (c : Char) (rest : List Char) (h : isalpha c = false)
    (kw : List Char) (hkw : kw ∈ statement_keywords) :
    (match_case_insensitive (c :: rest) kw).1 = false := by
  rw [match_case_insensitive_fst]
  have ne : ∀ k : Char, isalpha k = true → (k == tolower c) = false := by
    intro k hk
    rw [tolower_not_alpha c h]
    apply beq_false_of_ne
    intro e
    rw [e, h] at hk
    exact absurd hk (by simp)
  simp only [statement_keywords, List.mem_cons, List.mem_singleton, List.not_mem_nil, or_false] at hkw
  rcases hkw with rfl | rfl | rfl | rfl | rfl | rfl <;>
    simp only [begins_with_ci, String.toList, List.map_cons, List.isPrefixOf] <;>
    rw [ne _ (by decide)] <;> rfl

theorem skip_blanks (bl : List Char) (c : Char) (rest : List Char)
    (hbl : bl.all is_blank = true) (hc : is_blank c = false) (hn : c ≠ '\n') (hp : c ≠ '%') :
    skip_whitespace_and_newlines (bl ++ c :: rest) = c :: rest := by
  unfold skip_whitespace_and_newlines
  induction bl with
  | nil =>
    simp only [List.nil_append, skip_whitespace_and_newlines_loop]
    unfold is_blank at hc
    simp only [Bool.or_eq_false_iff, beq_eq_false_iff_ne, ne_eq] at hc
    have e1 : ¬ ((c == ' ' || c == '\t') = true) := by simp [hc.1.1, hc.1.2]
    have e2 : ¬ ((c == '\n') = true) := by simp [hn]
    have e3 : ¬ ((c == '\r') = true) := by simp [hc.2]
    have e4 : ¬ ((c == '%' && peek rest == '%') = true) := by simp [hp]
    rw [if_neg e1, if_neg e2, if_neg e3, if_neg e4]
  | cons b bs ih =>
    simp only [List.all_cons, Bool.and_eq_true] at hbl
    have hb := hbl.1
    unfold is_blank at hb
    simp only [List.cons_append, skip_whitespace_and_newlines_loop]
    by_cases e1 : (b == ' ' || b == '\t') = true
    · rw [if_pos e1]; exact ih hbl.2
    · rw [if_neg e1]
      by_cases e2 : (b == '\n') = true
      · rw [if_pos e2]; exact ih hbl.2
      · rw [if_neg e2]
        have e3 : (b == '\r') = true := by
          simp only [Bool.or_eq_true] at hb e1
          rcases hb with h | h
          · exact absurd h e1
          · exact h
        rw [if_pos e3]; exact ih hbl.2

theorem skip_to_eol_line (line tail : List Char) (hl : '\n' ∉ line)
    (ht : tail = [] ∨ ∃ after, tail = '\n' :: after) : skip_to_eol (line ++ tail) = tail := by
  unfold skip_to_eol
  have hall : line.all (fun c => c != '\n') = true := by
    rw [List.all_eq_true]
    intro c hc
    simp only [bne_iff_ne, ne_eq]
    intro e
    exact hl (e ▸ hc)
  rw [dropWhile_append_all _ _ _ hall]
  rcases ht with rfl | ⟨after, rfl⟩
  · rfl
  · rfl

/-- The statement on a line that opens with a character that is no letter, no
underscore and no `%` changes nothing: the cursor moves to the end of the line. -/
theorem parse_line_unparseable (p : FlowchartParser) (c : Char) (rest : List Char)
    (hb : is_blank c = false) (hn : c ≠ '\n')
    (hc : (isalpha c || c == '_' || c == '%') = false) :
    parse_line { p with rest := c :: rest } = some { p with rest := skip_to_eol (c :: rest) } := by
  simp only [Bool.or_eq_false_iff, beq_eq_false_iff_ne, ne_eq] at hc
  obtain ⟨⟨ha, hu⟩, hp⟩ := hc
  unfold is_blank at hb
  simp only [Bool.or_eq_false_iff, beq_eq_false_iff_ne, ne_eq] at hb
  have hsw : skip_whitespace (c :: rest) = c :: rest := by
    unfold skip_whitespace
    rw [List.dropWhile_cons_of_neg]
    simp [hb.1.1, hb.1.2]
  have k := fun kw hkw => keyword_needs_letter c rest ha kw hkw
  have hid : parse_identifier (c :: rest) = (none, c :: rest) := by
    unfold parse_identifier
    rw [hsw]
    have : ¬ ((isalpha c || c == '_') = true) := by simp [ha, hu]
    dsimp only
    rw [if_neg this]
  unfold parse_line
  simp only [hsw]
  have e1 : ¬ ((is_at_end (c :: rest) || peek (c :: rest) == '\n') = true) := by
    simp [is_at_end, peek, hn]
  have e2 : ¬ ((peek (c :: rest) == '%') = true) := by simp [peek, hp]
  rw [if_neg e1, if_neg e2, if_neg (by rw [k _ (by simp [statement_keywords])]; simp),
    if_neg (by rw [k _ (by simp [statement_keywords])]; simp),
    if_neg (by rw [k _ (by simp [statement_keywords])]; simp),
    if_neg (by rw [k _ (by simp [statement_keywords])]; simp),
    if_neg (by rw [k _ (by simp [statement_keywords])]; simp),
    if_neg (by rw [k _ (by simp [statement_keywords])]; simp)]
  unfold parse_node_statement
  simp only [hid]

/-- One turn of the main loop over a statement that only moves the cursor. -/
theorem parse_body_line_noop (fuel : Nat) (p : FlowchartParser) (text r1 tail : List Char)
    (c : Char) (cs : List Char)
    (hs : skip_whitespace_and_newlines text = c :: cs)
    (hl : parse_line { p with rest := c :: cs } = some { p with rest := r1 })
    (he : skip_to_eol r1 = tail) :
    parse_body (fuel + 1) { p with rest := text } = parse_body fuel { p with rest := tail } := by
  have hne : text ≠ [] := by
    intro e
    rw [e] at hs
    exact absurd hs (by simp [skip_whitespace_and_newlines, skip_whitespace_and_newlines_loop])
  rw [parse_body]
  have e1 : ¬ (is_at_end ({ p with rest := text } : FlowchartParser).rest = true) := by
    cases text with
    | nil => exact absurd rfl hne
    | cons a as => simp [is_at_end]
  rw [if_neg e1]
  dsimp only
  rw [hs]
  have e2 : (!is_at_end (c :: cs)) = true := rfl
  rw [if_pos e2, hl]
  dsimp only
  rw [he]

theorem parse_line_end (p : FlowchartParser) (t : List Char) (hs : p.subgraph_stack = []) :
    parse_line { p with rest := "end".toList ++ t } = some { p with rest := t } := by
  have hsw : skip_whitespace ("end".toList ++ t) = "end".toList ++ t := rfl
  have m1 : (match_case_insensitive ("end".toList ++ t) "subgraph".toList).1 = false := by
    rw [match_case_insensitive_fst]
    rfl
  have m2 : match_case_insensitive ("end".toList ++ t) "end".toList = (true, t) := by
    unfold match_case_insensitive
    have hlen : ¬ (("end".toList ++ t).length < "end".toList.length) := by
      simp only [List.length_append]
      omega
    rw [if_neg hlen]
    have : strncasecmp_eq ("end".toList ++ t) "end".toList = true := rfl
    rw [if_pos this]
    rfl
  unfold parse_line
  simp only [hsw]
  have e1 : ¬ ((is_at_end ("end".toList ++ t) || peek ("end".toList ++ t) == '\n') = true) := by
    have : (is_at_end ("end".toList ++ t) || peek ("end".toList ++ t) == '\n') = false := rfl
    rw [this]
    simp
  have e2 : ¬ ((peek ("end".toList ++ t) == '%') = true) := by
    have : (peek ("end".toList ++ t) == '%') = false := rfl
    rw [this]
    simp
  rw [if_neg e1, if_neg e2, if_neg (by rw [m1]; simp), m2]
  simp only [if_true]
  unfold parser_pop_subgraph
  simp only [hs, List.dropLast_nil]

theorem parse_body_at_end (fuel : Nat) (p : FlowchartParser) :
    parse_body (fuel + 1) { p with rest := [] } = some { p with rest := [] } := by
  rw [parse_body]
  rfl

/-- A line that only moves the cursor to its end is as if it were absent. -/
theorem parse_body_skips (p : FlowchartParser) (text line_rest after : List Char) (c : Char)
    (cs : List Char)
    (hs : skip_whitespace_and_newlines (text ++ '\n' :: after) = c :: cs)
    (hl : parse_line { p with rest := c :: cs } = some { p with rest := line_rest ++ '\n' :: after })
    (hn : '\n' ∉ line_rest) (hlen : 0 < text.length)
    (f1 f2 : Nat) (h1 : after.length < f1) (h2 : (text ++ '\n' :: after).length < f2) :
    ∃ r, parse_body f1 { p with rest := after } = some r ∧
      parse_body f2 { p with rest := text ++ '\n' :: after } = some r := by
  obtain ⟨r, hr⟩ := parse_body_total f1 { p with rest := after } h1
  refine ⟨r, hr, ?_⟩
  have hr0 : parse_body (after.length + 1) { p with rest := after } = some r := by
    rw [parse_body_fuel_indep (after.length + 1) f1 { p with rest := after } (by simp) h1]
    exact hr
  have step1 := parse_body_newline _ p r after hr0
  have step2 := parse_body_line_noop (after.length + 1 + 1) p (text ++ '\n' :: after)
    (line_rest ++ '\n' :: after) ('\n' :: after) c cs hs hl
    (skip_to_eol_line line_rest _ hn (Or.inr ⟨after, rfl⟩))
  rw [step1] at step2
  apply parse_body_fuel_le _ f2 _ r step2
  simp only [List.length_append, List.length_cons] at h2
  omega

/-- C17: for every parser state with no open subgraph, the statement `end`
returns the state it was given, only the cursor moved past the word: the stack
stays empty and the graph is unchanged; what follows the line is then parsed as
if the line were absent; and parsing `flowchart TB / end / A-->B` returns the
very flowchart that parsing `flowchart TB / A-->B` returns, with the nodes A and
B and the single edge A to B. -/
theorem end_without_open_subgraph (p : FlowchartParser) (hs : p.subgraph_stack = [])
    (t : List Char) :
    parse_line { p with rest := "end".toList ++ t } = some { p with rest := t } ∧
    (∀ (junk after : List Char) (f1 f2 : Nat), '\n' ∉ junk → after.length < f1 →
      ("end".toList ++ junk ++ '\n' :: after).length < f2 →
      ∃ r, parse_body f1 { p with rest := after } = some r ∧
        parse_body f2 { p with rest := "end".toList ++ junk ++ '\n' :: after } = some r) ∧
    (∃ fc : Flowchart,
      ir_flowchart_parse "flowchart TB\nend\nA-->B".toList = some (some fc) ∧
      ir_flowchart_parse "flowchart TB\nA-->B".toList = some (some fc) ∧
      fc.state.nodes.map (fun n => (n.node_id, n.shape, n.label)) =
        [(some "A".toList, IRFlowchartShape.RECTANGLE, some "A".toList),
         (some "B".toList, IRFlowchartShape.RECTANGLE, some "B".toList)] ∧
      fc.state.edges.map (fun e => (e.from_id, e.to_id, e.type)) =
        [(some "A".toList, some "B".toList, IRFlowchartEdgeType.ARROW)] ∧
      fc.state.subgraphs = []) := by
  refine ⟨parse_line_end p t hs, ?_, ?_⟩
  · intro junk after f1 f2 hj h1 h2
    have hs1 : skip_whitespace_and_newlines ("end".toList ++ junk ++ '\n' :: after) =
        'e' :: ("nd".toList ++ junk ++ '\n' :: after) := rfl
    have hl := parse_line_end p (junk ++ '\n' :: after) hs
    have hl1 : parse_line { p with rest := 'e' :: ("nd".toList ++ junk ++ '\n' :: after) } =
        some { p with rest := junk ++ '\n' :: after } := by
      have e : 'e' :: ("nd".toList ++ junk ++ '\n' :: after) =
          "end".toList ++ (junk ++ '\n' :: after) := by simp
      rw [e]
      exact hl
    exact parse_body_skips p ("end".toList ++ junk) junk after 'e' _ hs1 hl1 hj
      (by simp) f1 f2 h1 h2
  · refine ⟨_, rfl, rfl, ?_, ?_, ?_⟩
    · decide!
    · decide!
    · decide!

theorem end_without_open_subgraph_witness :
    parse_line
        { ({ rest := [], flowchart := ir_flowchart IRFlowchartDirection.TB } : FlowchartParser) with
          rest := "end".toList ++ "\nA-->B".toList } =
      some
        { ({ rest := [], flowchart := ir_flowchart IRFlowchartDirection.TB } : FlowchartParser) with
          rest := "\nA-->B".toList } :=
  (end_without_open_subgraph { rest := [], flowchart := ir_flowchart IRFlowchartDirection.TB } rfl
    "\nA-->B".toList).1

/-- C18 as stated fails: a bracket text runs over line ends, so the line `1`
between `A[x` and `y]` is part of the label of A, and removing it gives another
label; and the line directly after a `subgraph` header is dropped whatever it
holds, so removing the unparseable line `123` after `subgraph s1` makes the
parser drop `A-->B` instead. -/
theorem line_inside_label_is_kept :
    ∃ fc1 fc2 fc3 fc4 : Flowchart,
      ir_flowchart_parse "flowchart TB\nA[x\n1\ny]".toList = some (some fc1) ∧
      ir_flowchart_parse "flowchart TB\nA[x\ny]".toList = some (some fc2) ∧
      fc1.state.nodes.map (fun n => (n.node_id, n.label)) =
        [(some "A".toList, some "x\n1\ny".toList)] ∧
      fc2.state.nodes.map (fun n => (n.node_id, n.label)) =
        [(some "A".toList, some "x\ny".toList)] ∧
      ir_flowchart_parse "flowchart TB\nsubgraph s1\n123\nA-->B\nend".toList = some (some fc3) ∧
      ir_flowchart_parse "flowchart TB\nsubgraph s1\nA-->B\nend".toList = some (some fc4) ∧
      (tree_nodes fc3.children).map (fun n => n.node_id) = [some "A".toList, some "B".toList] ∧
      tree_nodes fc4.children = [] := by
  refine ⟨_, _, _, _, rfl, rfl, ?_, ?_, rfl, rfl, ?_, ?_⟩
  · decide!
  · decide!
  · decide!
  · decide!

/-- C18, amended: when the main loop of the parser, in any state, stands at the
start of an unparseable line, the statement changes nothing but the cursor,
which the loop then moves to the end of the line; the text after the line is
parsed to the same result as if the line were absent, whatever bounds (large
enough) are given to the loop; so an unparseable first body line after the
header `flowchart TB` does not change the flowchart returned. -/
theorem unparseable_line_is_skipped (p : FlowchartParser) (line after : List Char)
    (h : unparseable_line line) (f1 f2 : Nat) (h1 : after.length < f1)
    (h2 : (line ++ '\n' :: after).length < f2) :
    (∃ r1, parse_line { p with rest := skip_whitespace_and_newlines (line ++ '\n' :: after) } =
        some { p with rest := r1 } ∧ skip_to_eol r1 = '\n' :: after) ∧
    (∃ r, parse_body f1 { p with rest := after } = some r ∧
      parse_body f2 { p with rest := line ++ '\n' :: after } = some r) ∧
    (∀ f, line.length < f → parse_body f { p with rest := line } = some { p with rest := [] }) ∧
    ir_flowchart_parse ("flowchart TB\n".toList ++ (line ++ '\n' :: after)) =
      ir_flowchart_parse ("flowchart TB\n".toList ++ after) := by
  obtain ⟨hnl, bl, c, cs, rfl, hbl, hc, hcl⟩ := h
  have hcn : c ≠ '\n' := by
    intro e
    apply hnl
    rw [e]
    simp
  have hcp : c ≠ '%' := by
    intro e
    rw [e] at hcl
    simp at hcl
  have hcs : '\n' ∉ c :: cs := fun hm => hnl (List.mem_append_right _ hm)
  have hskip : ∀ tail : List Char, skip_whitespace_and_newlines ((bl ++ c :: cs) ++ tail) =
      c :: (cs ++ tail) := by
    intro tail
    have e : (bl ++ c :: cs) ++ tail = bl ++ c :: (cs ++ tail) := by simp
    rw [e]
    exact skip_blanks bl c _ hbl hc hcn hcp
  have hline : ∀ (q : FlowchartParser) (tail : List Char),
      parse_line { q with rest := c :: (cs ++ tail) } =
        some { q with rest := skip_to_eol (c :: (cs ++ tail)) } :=
    fun q tail => parse_line_unparseable q c _ hc hcn hcl
  have heol : ∀ tail : List Char, (tail = [] ∨ ∃ a, tail = '\n' :: a) →
      skip_to_eol (c :: (cs ++ tail)) = tail := by
    intro tail ht
    exact skip_to_eol_line (c :: cs) tail hcs ht
  have heol2 : ∀ tail : List Char, (tail = [] ∨ ∃ a, tail = '\n' :: a) →
      skip_to_eol tail = tail := by
    intro tail ht
    exact skip_to_eol_line [] tail (by simp) ht
  have body : ∀ (q : FlowchartParser) (g1 g2 : Nat), after.length < g1 →
      ((bl ++ c :: cs) ++ '\n' :: after).length < g2 →
      ∃ r, parse_body g1 { q with rest := after } = some r ∧
        parse_body g2 { q with rest := (bl ++ c :: cs) ++ '\n' :: after } = some r := by
    intro q g1 g2 hg1 hg2
    have hl := hline q ('\n' :: after)
    rw [heol _ (Or.inr ⟨after, rfl⟩)] at hl
    have hl1 : parse_line { q with rest := c :: (cs ++ '\n' :: after) } =
        some { q with rest := [] ++ '\n' :: after } := hl
    exact parse_body_skips q (bl ++ c :: cs) [] after c _ (hskip _) hl1 (by simp) (by simp)
      g1 g2 hg1 hg2
  refine ⟨?_, body p f1 f2 h1 h2, ?_, ?_⟩
  · rw [hskip]
    refine ⟨_, hline p _, ?_⟩
    rw [heol _ (Or.inr ⟨after, rfl⟩)]
    exact heol2 _ (Or.inr ⟨after, rfl⟩)
  · intro f hf
    obtain ⟨g, rfl⟩ : ∃ g, f = g + 2 := by
      have : 1 ≤ (bl ++ c :: cs).length := by
        simp only [List.length_append, List.length_cons]
        omega
      exact ⟨f - 2, by omega⟩
    have hl := hline p []
    rw [heol _ (Or.inl rfl)] at hl
    have e := hskip []
    simp only [List.append_nil] at e hl
    rw [parse_body_line_noop (g + 1) p (bl ++ c :: cs) [] [] c cs e hl rfl]
    exact parse_body_at_end g p
  · unfold ir_flowchart_parse ir_flowchart_parse_fuel
    have n1 : (("flowchart TB\n".toList ++ ((bl ++ c :: cs) ++ '\n' :: after)).length == 0)
        = false := rfl
    have n2 : (("flowchart TB\n".toList ++ after).length == 0) = false := rfl
    rw [n1, n2, parse_header_flowchart_TB, parse_header_flowchart_TB]
    simp only [Bool.false_eq_true, if_false]
    obtain ⟨r, hr1, hr2⟩ := body
      { rest := [], direction := IRFlowchartDirection.TB,
        flowchart := ir_flowchart IRFlowchartDirection.TB, subgraph_stack := [] }
      (after.length + 1) (((bl ++ c :: cs) ++ '\n' :: after).length + 1) (by omega) (by omega)
    have a1 := parse_body_newline _ _ r _ hr1
    have a2 := parse_body_newline _ _ r _ hr2
    have h13 : "flowchart TB\n".toList.length = 13 := rfl
    have b1 := parse_body_fuel_le _ (("flowchart TB\n".toList ++ after).length + 1) _ r a1
      (by simp only [List.length_append, List.length_cons] at h13 ⊢; omega)
    have b2 := parse_body_fuel_le _
      (("flowchart TB\n".toList ++ ((bl ++ c :: cs) ++ '\n' :: after)).length + 1) _ r a2
      (by simp only [List.length_append, List.length_cons] at h13 ⊢; omega)
    rw [b1, b2]

theorem unparseable_line_is_skipped_witness :
    ∃ fc : Flowchart,
      ir_flowchart_parse "flowchart TB\nA-->B".toList = some (some fc) ∧
      ir_flowchart_parse ("flowchart TB\n".toList ++ ("  123 garbage".toList ++ '\n' :: "A-->B".toList))
        = some (some fc) ∧
      fc.state.nodes.map (fun n => n.node_id) = [some "A".toList, some "B".toList] :=
  ⟨_, rfl,
    (unparseable_line_is_skipped
      { rest := [], flowchart := ir_flowchart IRFlowchartDirection.TB }
      "  123 garbage".toList "A-->B".toList
      ⟨by decide, "  ".toList, '1', "23 garbage".toList, rfl, rfl, rfl, rfl⟩
      6 20 (by decide) (by decide)).2.2.2.trans rfl,
    by decide!⟩

/-! ## The elementary steps of the parser -/

theorem tree_steps_refl (cs : List IRComponent) : tree_steps cs cs := Relation.ReflTransGen.refl

theorem tree_steps_trans {a b c : List IRComponent} (h1 : tree_steps a b) (h2 : tree_steps b c) :
    tree_steps a c := Relation.ReflTransGen.trans h1 h2

theorem tree_steps_one {a b : List IRComponent} (h : tree_step a b) : tree_steps a b :=
  Relation.ReflTransGen.single h

theorem node_already_exists_false (p : FlowchartParser) (id : List Char)
    (h : node_already_exists p id = false) :
    node_exists_in_children p.flowchart.children id = false := by
  unfold node_already_exists at h
  dsimp only at h
  cases hc : parser_current_subgraph p with
  | none => rw [hc] at h; exact h
  | some cur =>
    rw [hc] at h
    dsimp only at h
    cases hf : node_exists_in_children p.flowchart.children id with
    | false => rfl
    | true => rw [hf] at h; simp at h

theorem add_to_current_children (p : FlowchartParser) (c : IRComponent) :
    (add_to_current p c).flowchart.children =
      add_child_at ((parser_current_subgraph p).getD []) c p.flowchart.children := by
  unfold add_to_current
  cases parser_current_subgraph p <;> rfl

theorem ensure_implicit_node_steps (p : FlowchartParser) (id : List Char) (hid : c_str id = id) :
    tree_steps p.flowchart.children (ensure_implicit_node p id).flowchart.children := by
  unfold ensure_implicit_node
  cases h : node_already_exists p id with
  | true => simp only [if_true]; exact tree_steps_refl _
  | false =>
    simp only [Bool.false_eq_true, if_false]
    rw [add_to_current_children]
    exact tree_steps_one (tree_step.add_node _ id _ _ _ (node_already_exists_false p id h) hid)

theorem parse_node_definition_steps (p : FlowchartParser) (id : List Char) (hid : c_str id = id) :
    tree_steps p.flowchart.children (parse_node_definition p id).flowchart.children := by
  unfold parse_node_definition
  dsimp only
  cases h : node_already_exists { p with rest := (parse_shape (skip_whitespace p.rest)).2.2 } id with
  | true => simp only [if_true]; exact tree_steps_refl _
  | false =>
    simp only [Bool.false_eq_true, if_false]
    rw [add_to_current_children]
    exact tree_steps_one (tree_step.add_node _ id _ _ _ (node_already_exists_false _ id h) hid)

theorem add_edge_steps (p : FlowchartParser) (from_id to_id : List Char)
    (type : IRFlowchartEdgeType) (label : Option (List Char)) (ht : c_str to_id = to_id) :
    tree_steps p.flowchart.children (add_edge p from_id to_id type label).flowchart.children := by
  unfold add_edge
  dsimp only
  exact tree_steps_trans (ensure_implicit_node_steps p to_id ht)
    (tree_steps_one (tree_step.add_edge _ _))

theorem parse_target_definition_steps (p : FlowchartParser) (id : List Char)
    (hid : c_str id = id) :
    tree_steps p.flowchart.children (parse_target_definition p id).flowchart.children := by
  unfold parse_target_definition
  dsimp only
  split
  · exact parse_node_definition_steps { p with rest := skip_whitespace p.rest } id hid
  · exact tree_steps_refl _

theorem parse_edge_steps : ∀ (fuel : Nat) (p p1 : FlowchartParser) (from_id : List Char),
    parse_edge fuel p from_id = some p1 →
    tree_steps p.flowchart.children p1.flowchart.children := by
  intro fuel
  induction fuel with
  | zero => intro p p1 f h; simp [parse_edge] at h
  | succ n ih =>
    intro p p1 from_id h
    rw [parse_edge] at h
    dsimp only at h
    cases hop : parse_edge_operator (skip_whitespace p.rest) with
    | none =>
      rw [hop] at h
      simp only [Option.some.injEq] at h
      rw [← h]
      exact tree_steps_refl _
    | some op =>
      rw [hop] at h
      dsimp only at h
      cases hid : (parse_identifier
          (skip_whitespace (parse_pipe_label op.2.1 (skip_whitespace op.2.2)).2)).1 with
      | none =>
        rw [hid] at h
        simp only [Option.some.injEq] at h
        rw [← h]
        exact tree_steps_refl _
      | some to_id =>
        rw [hid] at h
        dsimp only at h
        have hc := parse_identifier_c_str _ _ hid
        have s1 := add_edge_steps
          { p with rest := (parse_identifier
            (skip_whitespace (parse_pipe_label op.2.1 (skip_whitespace op.2.2)).2)).2 }
          from_id to_id op.1 (parse_pipe_label op.2.1 (skip_whitespace op.2.2)).1 hc
        have s2 := parse_target_definition_steps (add_edge
          { p with rest := (parse_identifier
            (skip_whitespace (parse_pipe_label op.2.1 (skip_whitespace op.2.2)).2)).2 }
          from_id to_id op.1 (parse_pipe_label op.2.1 (skip_whitespace op.2.2)).1) to_id hc
        have s12 := tree_steps_trans s1 s2
        split at h
        · have s3 := ih _ _ _ h
          exact tree_steps_trans s12 s3
        · simp only [Option.some.injEq] at h
          rw [← h]
          exact s12

theorem open_subgraph_steps (p : FlowchartParser) (subgraph_id title : Option (List Char)) :
    tree_steps p.flowchart.children (open_subgraph p subgraph_id title).flowchart.children := by
  unfold open_subgraph
  dsimp only
  exact tree_steps_one (tree_step.add_subgraph _ _ _)

theorem set_subgraph_direction_steps (p : FlowchartParser) (ptr : List Nat)
    (dir : IRFlowchartDirection) :
    tree_steps p.flowchart.children (set_subgraph_direction p ptr dir).flowchart.children :=
  tree_steps_one (tree_step.set_direction _ _ _)

theorem parse_subgraph_steps (p : FlowchartParser) :
    tree_steps p.flowchart.children (parse_subgraph p).flowchart.children := by
  unfold parse_subgraph
  lift_lets
  intro idr tr subgraph p1 r1 m
  have a : tree_steps p.flowchart.children p1.flowchart.children :=
    open_subgraph_steps { p with rest := tr.2 } idr.1 tr.1
  clear_value m r1 p1 subgraph tr idr
  split
  · exact tree_steps_trans a (set_subgraph_direction_steps { p1 with rest := _ } _ _)
  · exact a

theorem ite_children (c : Prop) [Decidable c] (a b : FlowchartParser) (cs : List IRComponent)
    (ha : a.flowchart.children = cs) (hb : b.flowchart.children = cs) :
    (if c then a else b).flowchart.children = cs := by
  split
  · exact ha
  · exact hb

theorem parse_style_property_children (p : FlowchartParser) (id : List Char) :
    (parse_style_property p id).flowchart.children = p.flowchart.children := by
  unfold parse_style_property
  lift_lets
  intros
  apply ite_children
  · apply ite_children
    · rfl
    · apply ite_children
      · rfl
      · apply ite_children
        · rfl
        · rfl
  · apply ite_children
    · rfl
    · apply ite_children
      · rfl
      · apply ite_children
        · rfl
        · rfl

theorem parse_style_loop_children : ∀ (fuel : Nat) (p p1 : FlowchartParser) (id : List Char),
    parse_style_loop fuel p id = some p1 → p1.flowchart.children = p.flowchart.children := by
  intro fuel
  induction fuel with
  | zero => intro p p1 _ h; simp [parse_style_loop] at h
  | succ fuel ih =>
    intro p p1 id h
    simp only [parse_style_loop] at h
    split at h
    · simp only [Option.some.injEq] at h
      subst h
      rfl
    · rw [ih _ p1 id h, parse_style_property_children]

theorem parse_style_children (p p1 : FlowchartParser) (h : parse_style p = some p1) :
    p1.flowchart.children = p.flowchart.children := by
  unfold parse_style at h
  dsimp only at h
  split at h
  · simp only [Option.some.injEq] at h
    subst h
    rfl
  · have e := parse_style_loop_children _ _ p1 _ h
    exact e

theorem parse_node_statement_steps (p p1 : FlowchartParser)
    (h : parse_node_statement p = some p1) :
    tree_steps p.flowchart.children p1.flowchart.children := by
  unfold parse_node_statement at h
  dsimp only at h
  cases hid : (parse_identifier p.rest).1 with
  | none =>
    rw [hid] at h
    simp only [Option.some.injEq] at h
    subst h
    exact tree_steps_refl _
  | some id =>
    rw [hid] at h
    dsimp only at h
    have hc := parse_identifier_c_str _ _ hid
    split at h
    · have a := parse_node_definition_steps
        { p with rest := skip_whitespace (parse_identifier p.rest).2 } id hc
      split at h
      · have b := parse_edge_steps _ _ p1 id h
        exact tree_steps_trans a b
      · simp only [Option.some.injEq] at h
        subst h
        exact a
    · split at h
      · have a := ensure_implicit_node_steps
          { p with rest := skip_whitespace (parse_identifier p.rest).2 } id hc
        have b := parse_edge_steps _ _ p1 id h
        exact tree_steps_trans a b
      · split at h
        · have a := ensure_implicit_node_steps
            { p with rest := skip_whitespace (parse_identifier p.rest).2 } id hc
          simp only [Option.some.injEq] at h
          subst h
          exact a
        · simp only [Option.some.injEq] at h
          subst h
          exact tree_steps_refl _

theorem parse_line_steps (p p1 : FlowchartParser) (h : parse_line p = some p1) :
    tree_steps p.flowchart.children p1.flowchart.children := by
  unfold parse_line at h
  dsimp only at h
  have done : ∀ q : FlowchartParser, some q = some p1 →
      tree_steps p.flowchart.children q.flowchart.children →
      tree_steps p.flowchart.children p1.flowchart.children := by
    intro q e hq
    simp only [Option.some.injEq] at e
    subst e
    exact hq
  split at h
  · exact done _ h (tree_steps_refl _)
  · split at h
    · exact done _ h (tree_steps_refl _)
    · split at h
      · have a := parse_subgraph_steps
          { p with rest := (match_case_insensitive (skip_whitespace p.rest) "subgraph".toList).2 }
        exact done _ h a
      · split at h
        · exact done _ h (tree_steps_refl _)
        · split at h
          · have e := parse_style_children _ p1 h
            have e1 : p1.flowchart.children = p.flowchart.children := e
            rw [e1]
            exact tree_steps_refl _
          · split at h
            · exact done _ h (tree_steps_refl _)
            · split at h
              · exact done _ h (tree_steps_refl _)
              · split at h
                · exact done _ h (tree_steps_refl _)
                · have a := parse_node_statement_steps _ p1 h
                  exact a

theorem parse_body_steps : ∀ (fuel : Nat) (p p1 : FlowchartParser),
    parse_body fuel p = some p1 → tree_steps p.flowchart.children p1.flowchart.children := by
  intro fuel
  induction fuel with
  | zero => intro p p1 h; simp [parse_body] at h
  | succ fuel ih =>
    intro p p1 h
    simp only [parse_body] at h
    split at h
    · simp only [Option.some.injEq] at h
      subst h
      exact tree_steps_refl _
    · split at h
      · cases hl : parse_line { p with rest := skip_whitespace_and_newlines p.rest } with
        | none => rw [hl] at h; cases h
        | some p2 =>
          rw [hl] at h
          dsimp only at h
          have a := parse_line_steps _ p2 hl
          have b := ih _ p1 h
          exact tree_steps_trans a b
      · have b := ih _ p1 h
        exact b

theorem tree_nodes_cons (c : IRComponent) (cs : List IRComponent) :
    tree_nodes (c :: cs) = component_nodes c ++ tree_nodes cs := by
  rw [tree_nodes]

theorem tree_nodes_append (a b : List IRComponent) :
    tree_nodes (a ++ b) = tree_nodes a ++ tree_nodes b := by
  induction a with
  | nil => simp [tree_nodes]
  | cons c cs ih => rw [List.cons_append, tree_nodes_cons, tree_nodes_cons, ih, List.append_assoc]

theorem tree_nodes_set_perm (y x : IRComponent) (extra : List IRFlowchartNodeData)
    (hy : List.Perm (component_nodes y) (component_nodes x ++ extra)) :
    ∀ (cs : List IRComponent) (i : Nat), cs[i]? = some x →
      List.Perm (tree_nodes (cs.set i y)) (tree_nodes cs ++ extra) := by
  intro cs
  induction cs with
  | nil => intro i h; simp at h
  | cons a as ih =>
    intro i h
    cases i with
    | zero =>
      simp only [List.getElem?_cons_zero, Option.some.injEq] at h
      subst h
      rw [List.set_cons_zero, tree_nodes_cons, tree_nodes_cons]
      have := hy.append_right (tree_nodes as)
      refine this.trans ?_
      rw [List.append_assoc, List.append_assoc]
      exact List.Perm.append_left _ List.perm_append_comm
    | succ j =>
      simp only [List.getElem?_cons_succ] at h
      rw [List.set_cons_succ, tree_nodes_cons, tree_nodes_cons, List.append_assoc]
      exact List.Perm.append_left _ (ih j h)

theorem set_same {α : Type} (l : List α) (i : Nat) (x : α) (h : l[i]? = some x) :
    l.set i x = l := by
  induction l generalizing i with
  | nil => rfl
  | cons a as ih =>
    cases i with
    | zero =>
      simp only [List.getElem?_cons_zero, Option.some.injEq] at h
      rw [List.set_cons_zero, h]
    | succ j =>
      simp only [List.getElem?_cons_succ] at h
      rw [List.set_cons_succ, ih j h]

/-- Adding a child adds its nodes to the nodes of the tree, or changes nothing
when the pointer designates no component. -/
theorem add_child_nodes (c : IRComponent) : ∀ (path : List Nat) (cs : List IRComponent),
    List.Perm (tree_nodes (add_child_at path c cs)) (tree_nodes cs ++ component_nodes c) ∨
      add_child_at path c cs = cs := by
  intro path
  induction path with
  | nil =>
    intro cs
    left
    rw [add_child_at, tree_nodes_append, tree_nodes_cons]
    simp [tree_nodes]
  | cons i path ih =>
    intro cs
    rw [add_child_at]
    cases hi : cs[i]? with
    | none => right; rfl
    | some x =>
      cases x with
      | FLOWCHART_NODE d => right; rfl
      | FLOWCHART_EDGE d => right; rfl
      | FLOWCHART_SUBGRAPH d ch =>
        dsimp only
        rcases ih ch with hp | he
        · left
          apply tree_nodes_set_perm _ (IRComponent.FLOWCHART_SUBGRAPH d ch) _ _ cs i hi
          rw [component_nodes, component_nodes]
          exact hp
        · right
          rw [he]
          exact set_same cs i _ hi

theorem set_direction_nodes (dir : IRFlowchartDirection) :
    ∀ (path : List Nat) (cs : List IRComponent),
      List.Perm (tree_nodes (set_direction_at path dir cs)) (tree_nodes cs) := by
  intro path
  induction path with
  | nil => intro cs; rw [set_direction_at]
  | cons i path ih =>
    intro cs
    rw [set_direction_at]
    cases hi : cs[i]? with
    | none => exact List.Perm.refl _
    | some x =>
      cases x with
      | FLOWCHART_NODE d => exact List.Perm.refl _
      | FLOWCHART_EDGE d => exact List.Perm.refl _
      | FLOWCHART_SUBGRAPH d ch =>
        dsimp only
        cases path with
        | nil =>
          dsimp only
          have := tree_nodes_set_perm (IRComponent.FLOWCHART_SUBGRAPH { d with direction := dir } ch)
            (IRComponent.FLOWCHART_SUBGRAPH d ch) [] (by rw [component_nodes, component_nodes]; simp)
            cs i hi
          simpa using this
        | cons j rest =>
          dsimp only
          have := tree_nodes_set_perm
            (IRComponent.FLOWCHART_SUBGRAPH d (set_direction_at (j :: rest) dir ch))
            (IRComponent.FLOWCHART_SUBGRAPH d ch) []
            (by rw [component_nodes, component_nodes]; simpa using ih ch) cs i hi
          simpa using this

/-- What an elementary step does to the nodes of the tree: they stay as they
are, or one node with an id that the tree did not hold is added. -/
theorem tree_step_nodes (cs cs1 : List IRComponent) (h : tree_step cs cs1) :
    List.Perm (tree_nodes cs1) (tree_nodes cs) ∨
    ∃ (id : List Char) (d : IRFlowchartNodeData), d.node_id = some id ∧
      node_exists_in_children cs id = false ∧
      List.Perm (tree_nodes cs1) (tree_nodes cs ++ [d]) := by
  cases h with
  | add_node path id shape label _ hnew hid =>
    rcases add_child_nodes (ir_flowchart_node (some id) shape label) path cs with hp | he
    · right
      refine ⟨id, ir_flowchart_node_data_create (some id) shape label, ?_, hnew, hp⟩
      simp only [ir_flowchart_node_data_create, strdup, Option.map_some', hid]
    · left
      rw [he]
  | add_edge e _ =>
    left
    rcases add_child_nodes (IRComponent.FLOWCHART_EDGE e) [] cs with hp | he
    · simpa [component_nodes] using hp
    · rw [he]
  | add_subgraph path d _ =>
    left
    rcases add_child_nodes (IRComponent.FLOWCHART_SUBGRAPH d []) path cs with hp | he
    · simpa [component_nodes, tree_nodes] using hp
    · rw [he]
  | set_direction path dir _ =>
    left
    exact set_direction_nodes dir path cs

mutual
theorem node_id_mem_tree_ids : ∀ (cs : List IRComponent) (d : IRFlowchartNodeData)
    (id : List Char), d ∈ tree_nodes cs → d.node_id = some id → id ∈ tree_ids cs
  | [], d, id, h, _ => by simp [tree_nodes] at h
  | c :: cs, d, id, h, hid => by
    rw [tree_nodes, List.mem_append] at h
    rw [tree_ids, List.mem_append]
    rcases h with h | h
    · exact Or.inl (node_id_mem_component_ids c d id h hid)
    · exact Or.inr (node_id_mem_tree_ids cs d id h hid)
theorem node_id_mem_component_ids : ∀ (c : IRComponent) (d : IRFlowchartNodeData)
    (id : List Char), d ∈ component_nodes c → d.node_id = some id → id ∈ component_ids c
  | IRComponent.FLOWCHART_NODE d0, d, id, h, hid => by
    rw [component_nodes, List.mem_singleton] at h
    rw [component_ids, ← h, hid]
    simp
  | IRComponent.FLOWCHART_EDGE _, d, id, h, _ => by simp [component_nodes] at h
  | IRComponent.FLOWCHART_SUBGRAPH d0 ch, d, id, h, hid => by
    rw [component_nodes] at h
    rw [component_ids, List.mem_append]
    exact Or.inr (node_id_mem_tree_ids ch d id h hid)
end

theorem tree_step_kept (cs cs1 : List IRComponent) (h : tree_step cs cs1) :
    (∀ d ∈ tree_nodes cs, d ∈ tree_nodes cs1) ∧
    ((tree_node_ids cs).Nodup → (tree_node_ids cs1).Nodup) := by
  rcases tree_step_nodes cs cs1 h with hp | ⟨id, d, hd, hnew, hp⟩
  · refine ⟨fun d hd => hp.symm.subset hd, fun hn => ?_⟩
    unfold tree_node_ids at hn ⊢
    exact (hp.map _).nodup_iff.mpr hn
  · refine ⟨fun d0 hd0 => hp.symm.subset (List.mem_append_left _ hd0), fun hn => ?_⟩
    unfold tree_node_ids at hn ⊢
    apply (hp.map _).nodup_iff.mpr
    rw [List.map_append, List.map_cons, List.map_nil]
    apply List.Nodup.append hn (List.nodup_singleton _)
    intro x hx1 hx2
    rw [List.mem_singleton] at hx2
    rw [hx2, hd, List.mem_map] at hx1
    obtain ⟨d1, hd1, e1⟩ := hx1
    have := (node_exists_iff_mem_ids cs id).mpr (node_id_mem_tree_ids cs d1 id hd1 e1)
    rw [hnew] at this
    exact absurd this (by simp)

theorem tree_steps_kept (cs cs1 : List IRComponent) (h : tree_steps cs cs1) :
    (∀ d ∈ tree_nodes cs, d ∈ tree_nodes cs1) ∧
    ((tree_node_ids cs).Nodup → (tree_node_ids cs1).Nodup) := by
  induction h with
  | refl => exact ⟨fun d hd => hd, fun hn => hn⟩
  | tail _ hstep ih =>
    obtain ⟨a, b⟩ := tree_step_kept _ _ hstep
    exact ⟨fun d hd => a d (ih.1 d hd), fun hn => b (ih.2 hn)⟩

/-- C19: after parsing any input, the node components of the component tree, at
any depth, have pairwise different ids; every statement of the parser, and so
the whole body loop, keeps the ids different and keeps every node record of the
tree as it is, so the node with a given id stays the one of its first
definition; `A[First]` followed on a later line by `A(Second)` leaves the single
rectangle A labelled First. -/
theorem node_ids_are_unique :
    (∀ (source : List Char) (fc : Flowchart), ir_flowchart_parse source = some (some fc) →
      (tree_node_ids fc.children).Nodup) ∧
    (∀ p p1 : FlowchartParser, parse_line p = some p1 →
      (tree_node_ids p.flowchart.children).Nodup →
      (tree_node_ids p1.flowchart.children).Nodup ∧
      ∀ d ∈ tree_nodes p.flowchart.children, d ∈ tree_nodes p1.flowchart.children ∧
        ∀ d1 ∈ tree_nodes p1.flowchart.children, d1.node_id = d.node_id → d1 = d) ∧
    (∀ (fuel : Nat) (p p1 : FlowchartParser), parse_body fuel p = some p1 →
      (tree_node_ids p.flowchart.children).Nodup →
      (tree_node_ids p1.flowchart.children).Nodup ∧
      ∀ d ∈ tree_nodes p.flowchart.children, d ∈ tree_nodes p1.flowchart.children ∧
        ∀ d1 ∈ tree_nodes p1.flowchart.children, d1.node_id = d.node_id → d1 = d) ∧
    (∃ fc : Flowchart,
      ir_flowchart_parse "flowchart TB\nA[First]\nA(Second)".toList = some (some fc) ∧
      (tree_nodes fc.children).map (fun n => (n.node_id, n.shape, n.label)) =
        [(some "A".toList, IRFlowchartShape.RECTANGLE, some "First".toList)] ∧
      fc.state.nodes.map (fun n => (n.node_id, n.shape, n.label)) =
        [(some "A".toList, IRFlowchartShape.RECTANGLE, some "First".toList)]) := by
  have kept : ∀ cs cs1 : List IRComponent, tree_steps cs cs1 → (tree_node_ids cs).Nodup →
      (tree_node_ids cs1).Nodup ∧
      ∀ d ∈ tree_nodes cs, d ∈ tree_nodes cs1 ∧
        ∀ d1 ∈ tree_nodes cs1, d1.node_id = d.node_id → d1 = d := by
    intro cs cs1 hs hn
    obtain ⟨a, b⟩ := tree_steps_kept cs cs1 hs
    refine ⟨b hn, fun d hd => ⟨a d hd, fun d1 hd1 e => ?_⟩⟩
    exact List.inj_on_of_nodup_map (b hn) hd1 (a d hd) e
  refine ⟨?_, ?_, ?_, ?_⟩
  · intro source fc h
    unfold ir_flowchart_parse ir_flowchart_parse_fuel at h
    split at h
    · cases h
    · split at h
      · cases h
      · next hd _ =>
        split at h
        · cases h
        · next p hp =>
          simp only [Option.some.injEq] at h
          subst h
          have hs := parse_body_steps _ _ p hp
          have e : (ir_flowchart_finalize p.flowchart).children = p.flowchart.children :=
            (finalize_fold p.flowchart.children p.flowchart).1
          rw [e]
          exact (tree_steps_kept _ _ hs).2 List.nodup_nil
  · intro p p1 h hn
    exact kept _ _ (parse_line_steps p p1 h) hn
  · intro fuel p p1 h hn
    exact kept _ _ (parse_body_steps fuel p p1 h) hn
  · refine ⟨_, rfl, ?_, ?_⟩
    · decide!
    · decide!

/-- The first part at `flowchart TB / A-->B / B-->A / A[x]`: the tree holds the
nodes A and B, once each. -/
theorem node_ids_are_unique_witness :
    ∃ fc : Flowchart,
      ir_flowchart_parse "flowchart TB\nA-->B\nB-->A\nA[x]".toList = some (some fc) ∧
      (tree_node_ids fc.children).Nodup ∧
      tree_node_ids fc.children = [some "A".toList, some "B".toList] :=
  ⟨_, rfl, node_ids_are_unique.1 "flowchart TB\nA-->B\nB-->A\nA[x]".toList _ rfl, by decide!⟩

/-! ## The shape forms -/

theorem label_char_ne (c d : Char) (h : is_label_char c = true)
    (hd : is_label_char d = false) : c ≠ d := by
  intro e
  rw [e, hd] at h
  exact absurd h (by simp)

theorem label_text_cases (t : List Char) (h : is_label_text t = true) :
    ∃ a as, t = a :: as ∧ t.all is_label_char = true ∧ is_label_char a = true ∧
      isspace a = false ∧ isspace (t.getLastD 'x') = false := by
  unfold is_label_text at h
  simp only [Bool.and_eq_true, Bool.not_eq_true'] at h
  obtain ⟨⟨⟨h1, h2⟩, h3⟩, h4⟩ := h
  cases t with
  | nil => simp at h1
  | cons a as =>
    refine ⟨a, as, rfl, h2, ?_, ?_, h4⟩
    · simp only [List.all_cons, Bool.and_eq_true] at h2
      exact h2.1
    · simpa using h3

theorem bracket_scan_plain (o c : Char) (hoc : (c == o) = false) (tail : List Char) :
    ∀ t : List Char, (∀ x ∈ t, (x == o) = false ∧ (x == c) = false) →
      bracket_scan o c 1 (t ++ c :: tail) = (t, c :: tail) := by
  intro t
  induction t with
  | nil =>
    intro _
    simp only [List.nil_append, bracket_scan, hoc, Bool.false_eq_true, if_false, beq_self_eq_true,
      if_true]
    rfl
  | cons x xs ih =>
    intro h
    obtain ⟨h1, h2⟩ := h x (List.mem_cons_self _ _)
    have := ih (fun y hy => h y (List.mem_cons_of_mem _ hy))
    rw [List.cons_append, bracket_scan]
    simp only [h1, h2, Bool.false_eq_true, if_false, this]
    rfl

theorem trim_end_plain (t : List Char) (h : isspace (t.getLastD 'x') = false) (hne : t ≠ []) :
    trim_end t = t := by
  unfold trim_end
  have hr : t.reverse ≠ [] := by simpa using hne
  cases hrev : t.reverse with
  | nil => exact absurd hrev hr
  | cons z zs =>
    have hz : t.getLastD 'x' = z := by
      have : t = (z :: zs).reverse := by rw [← hrev, List.reverse_reverse]
      rw [this]
      simp
    rw [hz] at h
    rw [List.dropWhile_cons_of_neg (by simp [h]), ← hrev, List.reverse_reverse]

theorem c_str_plain (t : List Char) (h : t.all is_label_char = true) : c_str t = t := by
  unfold c_str
  rw [List.takeWhile_eq_self_iff]
  intro x hx
  have := List.all_eq_true.mp h x hx
  unfold is_label_char at this
  simp only [Bool.and_eq_true] at this
  exact this.2

theorem process_html_plain : ∀ (n : Nat) (t : List Char), t.length ≤ n →
    t.all is_label_char = true → process_html_loop n t = t := by
  intro n
  induction n with
  | zero =>
    intro t hn _
    have : t = [] := List.length_eq_zero.mp (by omega)
    subst this
    rfl
  | succ n ih =>
    intro t hn h
    cases t with
    | nil => rfl
    | cons x xs =>
      simp only [List.all_cons, Bool.and_eq_true] at h
      have hx : (x == '<') = false := by
        apply beq_false_of_ne
        exact label_char_ne x '<' h.1 (by decide)
      simp only [process_html_loop, hx, Bool.false_eq_true, if_false]
      rw [ih xs (by simpa using hn) h.2]

/-- The bracket text `o t c` with a label text `t` is read as `t`, and the
cursor is left after the closing bracket. -/
theorem parse_text_in_brackets_plain (o c : Char) (hoc : (c == o) = false)
    (ho : is_label_char o = false) (hc : is_label_char c = false) (t tail : List Char)
    (ht : is_label_text t = true) :
    parse_text_in_brackets (o :: (t ++ c :: tail)) o c = (some t, tail) := by
  obtain ⟨a, as, hta, hall, ha, hsp, hlast⟩ := label_text_cases t ht
  have hne : t ≠ [] := by rw [hta]; simp
  have hscan := bracket_scan_plain o c hoc tail t (by
    intro x hx
    have hxl := List.all_eq_true.mp hall x hx
    exact ⟨beq_false_of_ne (label_char_ne x o hxl ho), beq_false_of_ne (label_char_ne x c hxl hc)⟩)
  unfold parse_text_in_brackets
  have hp : ¬ ((peek (o :: (t ++ c :: tail)) != o) = true) := by simp [peek]
  rw [if_neg hp]
  have hadv : advance (o :: (t ++ c :: tail)) = t ++ c :: tail := rfl
  dsimp only
  rw [hadv, hscan]
  have hpc : (peek (c :: tail) == c) = true := by simp [peek]
  simp only [hpc, if_true]
  rw [trim_end_plain t hlast hne, c_str_plain t hall]
  have hdw : t.dropWhile isspace = t := by
    rw [hta, List.dropWhile_cons_of_neg (by simp [hsp])]
  rw [hdw]
  unfold process_html_in_text
  rw [process_html_plain _ t (le_refl _) hall]
  rfl

theorem label_head_ne (t tail : List Char) (ht : is_label_text t = true) (d : Char)
    (hd : is_label_char d = false) : (peek (t ++ tail) == d) = false := by
  obtain ⟨a, as, hta, _, ha, _, _⟩ := label_text_cases t ht
  rw [hta]
  exact beq_false_of_ne (label_char_ne a d ha hd)

theorem label_all_ne (t : List Char) (ht : is_label_text t = true) (p : Char → Bool)
    (hp : ∀ x, is_label_char x = true → p x = true) : t.all p = true := by
  obtain ⟨_, _, _, hall, _, _, _⟩ := label_text_cases t ht
  rw [List.all_eq_true] at hall ⊢
  exact fun x hx => hp x (hall x hx)

/-- Each of the eleven shape forms around a label text `t` is read as its shape
with the label `t`, and the cursor is left after the form. -/
theorem parse_shape_form (t tail : List Char) (ht : is_label_text t = true)
    (form : List Char × List Char × IRFlowchartShape) (hf : form ∈ shape_forms) :
    parse_shape (form.1 ++ (t ++ (form.2.1 ++ tail))) = (form.2.2, some t, tail) := by
  have hd := fun (tl : List Char) (d : Char) (h : is_label_char d = false) =>
    label_head_ne t tl ht d h
  have b1 := fun tl => parse_text_in_brackets_plain '[' ']' (by decide) (by decide) (by decide) t tl ht
  have b2 := fun tl => parse_text_in_brackets_plain '(' ')' (by decide) (by decide) (by decide) t tl ht
  have b3 := fun tl => parse_text_in_brackets_plain '{' '}' (by decide) (by decide) (by decide) t tl ht
  simp only [shape_forms, List.mem_cons, List.mem_singleton, List.not_mem_nil, or_false] at hf
  rcases hf with rfl | rfl | rfl | rfl | rfl | rfl | rfl | rfl | rfl | rfl | rfl
  · -- [t]
    have e : "[".toList ++ (t ++ ("]".toList ++ tail)) = '[' :: (t ++ ']' :: tail) := rfl
    rw [e]
    unfold parse_shape
    have c2 : peek_next ('[' :: (t ++ ']' :: tail)) = peek (t ++ ']' :: tail) := rfl
    have c1 : peek ('[' :: (t ++ ']' :: tail)) = '[' := rfl
    simp only [c1, c2, hd _ '[' (by decide), hd _ '(' (by decide), hd _ '/' (by decide), b1,
      beq_self_eq_true, if_true, Bool.false_eq_true, if_false]
  · -- (t)
    have e : "(".toList ++ (t ++ (")".toList ++ tail)) = '(' :: (t ++ ')' :: tail) := rfl
    rw [e]
    unfold parse_shape
    have c2 : peek_next ('(' :: (t ++ ')' :: tail)) = peek (t ++ ')' :: tail) := rfl
    have c1 : peek ('(' :: (t ++ ')' :: tail)) = '(' := rfl
    have k1 : ('(' == '[') = false := by decide
    simp only [c1, c2, k1, hd _ '[' (by decide), hd _ '(' (by decide), b2,
      beq_self_eq_true, if_true, Bool.false_eq_true, if_false]
  · -- ([t])
    have e : "([".toList ++ (t ++ ("])".toList ++ tail)) = '(' :: '[' :: (t ++ ']' :: ')' :: tail) :=
      rfl
    rw [e]
    unfold parse_shape
    have c2 : peek_next ('(' :: '[' :: (t ++ ']' :: ')' :: tail)) = '[' := rfl
    have c1 : peek ('(' :: '[' :: (t ++ ']' :: ')' :: tail)) = '(' := rfl
    have a1 : advance ('(' :: '[' :: (t ++ ']' :: ')' :: tail)) = '[' :: (t ++ ']' :: ')' :: tail) :=
      rfl
    have k1 : ('(' == '[') = false := by decide
    have k2 : ('[' == '(') = false := by decide
    have k3 : (peek (')' :: tail) == ')') = true := rfl
    have k4 : advance (')' :: tail) = tail := rfl
    simp only [c1, c2, a1, k1, k2, k3, k4, b1, beq_self_eq_true, if_true, Bool.false_eq_true,
      if_false]
  · -- {t}
    have e : "\x7b".toList ++ (t ++ ("\x7d".toList ++ tail)) = '{' :: (t ++ '}' :: tail) := rfl
    rw [e]
    unfold parse_shape
    have c2 : peek_next ('{' :: (t ++ '}' :: tail)) = peek (t ++ '}' :: tail) := rfl
    have c1 : peek ('{' :: (t ++ '}' :: tail)) = '{' := rfl
    have k1 : ('{' == '[') = false := by decide
    have k2 : ('{' == '(') = false := by decide
    simp only [c1, c2, k1, k2, hd _ '{' (by decide), b3,
      beq_self_eq_true, if_true, Bool.false_eq_true, if_false]
  · -- ((t))
    have e : "((".toList ++ (t ++ ("))".toList ++ tail)) = '(' :: '(' :: (t ++ ')' :: ')' :: tail) :=
      rfl
    rw [e]
    unfold parse_shape
    have c2 : peek_next ('(' :: '(' :: (t ++ ')' :: ')' :: tail)) = '(' := rfl
    have c1 : peek ('(' :: '(' :: (t ++ ')' :: ')' :: tail)) = '(' := rfl
    have a1 : advance ('(' :: '(' :: (t ++ ')' :: ')' :: tail)) = '(' :: (t ++ ')' :: ')' :: tail) :=
      rfl
    have k1 : ('(' == '[') = false := by decide
    have k3 : (peek (')' :: tail) == ')') = true := rfl
    have k4 : advance (')' :: tail) = tail := rfl
    simp only [c1, c2, a1, k1, k3, k4, b2, beq_self_eq_true, if_true, Bool.false_eq_true,
      if_false]
  · -- {{t}}
    have e : "\x7b\x7b".toList ++ (t ++ ("\x7d\x7d".toList ++ tail)) = '{' :: '{' :: (t ++ '}' :: '}' :: tail) :=
      rfl
    rw [e]
    unfold parse_shape
    have c2 : peek_next ('{' :: '{' :: (t ++ '}' :: '}' :: tail)) = '{' := rfl
    have c1 : peek ('{' :: '{' :: (t ++ '}' :: '}' :: tail)) = '{' := rfl
    have a1 : advance ('{' :: '{' :: (t ++ '}' :: '}' :: tail)) = '{' :: (t ++ '}' :: '}' :: tail) :=
      rfl
    have k1 : ('{' == '[') = false := by decide
    have k2 : ('{' == '(') = false := by decide
    have k3 : (peek ('}' :: tail) == '}') = true := rfl
    have k4 : advance ('}' :: tail) = tail := rfl
    simp only [c1, c2, a1, k1, k2, k3, k4, b3, beq_self_eq_true, if_true, Bool.false_eq_true,
      if_false]
  · -- [/t/]
    have e : "[/".toList ++ (t ++ ("/]".toList ++ tail)) = '[' :: '/' :: (t ++ '/' :: ']' :: tail) :=
      rfl
    rw [e]
    unfold parse_shape
    have c2 : peek_next ('[' :: '/' :: (t ++ '/' :: ']' :: tail)) = '/' := rfl
    have c1 : peek ('[' :: '/' :: (t ++ '/' :: ']' :: tail)) = '[' := rfl
    have a1 : advance (advance ('[' :: '/' :: (t ++ '/' :: ']' :: tail))) =
        t ++ '/' :: ']' :: tail := rfl
    have hall := label_all_ne t ht (fun d => d != '/' && d != '\\') (by
      intro x hx
      simp only [Bool.and_eq_true, bne_iff_ne, ne_eq]
      exact ⟨label_char_ne x '/' hx (by decide), label_char_ne x '\\' hx (by decide)⟩)
    have tw : (t ++ '/' :: ']' :: tail).takeWhile (fun d => d != '/' && d != '\\') = t := by
      rw [takeWhile_append_all _ _ _ hall]
      simp
    have dw : (t ++ '/' :: ']' :: tail).dropWhile (fun d => d != '/' && d != '\\') =
        '/' :: ']' :: tail := by
      rw [dropWhile_append_all _ _ _ hall]
      rfl
    have k1 : ('/' == '[') = false := by decide
    have k2 : ('/' == '(') = false := by decide
    have k3 : (peek ('/' :: ']' :: tail) == '/') = true := rfl
    have k4 : advance ('/' :: ']' :: tail) = ']' :: tail := rfl
    have k5 : (peek (']' :: tail) == ']') = true := rfl
    have k6 : advance (']' :: tail) = tail := rfl
    simp only [c1, c2, a1, tw, dw, k1, k2, k3, k4, k5, k6, beq_self_eq_true, if_true,
      Bool.false_eq_true, if_false, Bool.true_or]
  · -- [/t\]
    have e : "[/".toList ++ (t ++ ("\\]".toList ++ tail)) =
        '[' :: '/' :: (t ++ '\\' :: ']' :: tail) := rfl
    rw [e]
    unfold parse_shape
    have c2 : peek_next ('[' :: '/' :: (t ++ '\\' :: ']' :: tail)) = '/' := rfl
    have c1 : peek ('[' :: '/' :: (t ++ '\\' :: ']' :: tail)) = '[' := rfl
    have a1 : advance (advance ('[' :: '/' :: (t ++ '\\' :: ']' :: tail))) =
        t ++ '\\' :: ']' :: tail := rfl
    have hall := label_all_ne t ht (fun d => d != '/' && d != '\\') (by
      intro x hx
      simp only [Bool.and_eq_true, bne_iff_ne, ne_eq]
      exact ⟨label_char_ne x '/' hx (by decide), label_char_ne x '\\' hx (by decide)⟩)
    have tw : (t ++ '\\' :: ']' :: tail).takeWhile (fun d => d != '/' && d != '\\') = t := by
      rw [takeWhile_append_all _ _ _ hall]
      simp
    have dw : (t ++ '\\' :: ']' :: tail).dropWhile (fun d => d != '/' && d != '\\') =
        '\\' :: ']' :: tail := by
      rw [dropWhile_append_all _ _ _ hall]
      rfl
    have k1 : ('/' == '[') = false := by decide
    have k2 : ('/' == '(') = false := by decide
    have k3 : (peek ('\\' :: ']' :: tail) == '/') = false := rfl
    have k3b : (peek ('\\' :: ']' :: tail) == '\\') = true := rfl
    have k4 : advance ('\\' :: ']' :: tail) = ']' :: tail := rfl
    have k5 : (peek (']' :: tail) == ']') = true := rfl
    have k6 : advance (']' :: tail) = tail := rfl
    simp only [c1, c2, a1, tw, dw, k1, k2, k3, k3b, k4, k5, k6, beq_self_eq_true, if_true,
      Bool.false_eq_true, if_false, Bool.or_true, Bool.false_or]
  · -- [(t)]
    have e : "[(".toList ++ (t ++ (")]".toList ++ tail)) = '[' :: '(' :: (t ++ ')' :: ']' :: tail) :=
      rfl
    rw [e]
    unfold parse_shape
    have c2 : peek_next ('[' :: '(' :: (t ++ ')' :: ']' :: tail)) = '(' := rfl
    have c1 : peek ('[' :: '(' :: (t ++ ')' :: ']' :: tail)) = '[' := rfl
    have a1 : advance ('[' :: '(' :: (t ++ ')' :: ']' :: tail)) = '(' :: (t ++ ')' :: ']' :: tail) :=
      rfl
    have k1 : ('(' == '[') = false := by decide
    have k3 : (peek (']' :: tail) == ']') = true := rfl
    have k4 : advance (']' :: tail) = tail := rfl
    simp only [c1, c2, a1, k1, k3, k4, b2, beq_self_eq_true, if_true, Bool.false_eq_true,
      if_false]
  · -- [[t]]
    have e : "[[".toList ++ (t ++ ("]]".toList ++ tail)) = '[' :: '[' :: (t ++ ']' :: ']' :: tail) :=
      rfl
    rw [e]
    unfold parse_shape
    have c2 : peek_next ('[' :: '[' :: (t ++ ']' :: ']' :: tail)) = '[' := rfl
    have c1 : peek ('[' :: '[' :: (t ++ ']' :: ']' :: tail)) = '[' := rfl
    have a1 : advance ('[' :: '[' :: (t ++ ']' :: ']' :: tail)) = '[' :: (t ++ ']' :: ']' :: tail) :=
      rfl
    have k3 : (peek (']' :: tail) == ']') = true := rfl
    have k4 : advance (']' :: tail) = tail := rfl
    simp only [c1, c2, a1, k3, k4, b1, beq_self_eq_true, if_true]
  · -- >t]
    have e : ">".toList ++ (t ++ ("]".toList ++ tail)) = '>' :: (t ++ ']' :: tail) := rfl
    rw [e]
    unfold parse_shape
    have c1 : peek ('>' :: (t ++ ']' :: tail)) = '>' := rfl
    have a1 : advance ('>' :: (t ++ ']' :: tail)) = t ++ ']' :: tail := rfl
    have hall := label_all_ne t ht (fun d => d != ']') (by
      intro x hx
      simp only [bne_iff_ne, ne_eq]
      exact label_char_ne x ']' hx (by decide))
    have tw : (t ++ ']' :: tail).takeWhile (fun d => d != ']') = t := by
      rw [takeWhile_append_all _ _ _ hall]
      simp
    have dw : (t ++ ']' :: tail).dropWhile (fun d => d != ']') = ']' :: tail := by
      rw [dropWhile_append_all _ _ _ hall]
      rfl
    have k1 : ('>' == '[') = false := by decide
    have k2 : ('>' == '(') = false := by decide
    have k2b : ('>' == '{') = false := by decide
    have k3 : (peek (']' :: tail) == ']') = true := rfl
    have k4 : advance (']' :: tail) = tail := rfl
    simp only [c1, a1, tw, dw, k1, k2, k2b, k3, k4, beq_self_eq_true, if_true,
      Bool.false_eq_true, if_false]

theorem add_to_current_with_rest (p : FlowchartParser) (r : List Char) (c : IRComponent) :
    add_to_current { p with rest := r } c = { add_to_current p c with rest := r } := by
  unfold add_to_current
  have e : parser_current_subgraph { p with rest := r } = parser_current_subgraph p := rfl
  rw [e]
  cases parser_current_subgraph p <;> rfl

theorem shape_form_opens (form : List Char × List Char × IRFlowchartShape)
    (hf : form ∈ shape_forms) :
    ∃ o os, form.1 = o :: os ∧ is_shape_open o = true ∧ (isalnum o || o == '_') = false ∧
      (o == ' ' || o == '\t') = false ∧
      ∀ kw ∈ statement_keywords, tolower o ∉ kw.map tolower := by
  simp only [shape_forms, List.mem_cons, List.mem_singleton, List.not_mem_nil, or_false] at hf
  rcases hf with rfl | rfl | rfl | rfl | rfl | rfl | rfl | rfl | rfl | rfl | rfl <;>
    exact ⟨_, _, rfl, by decide, by decide, by decide, by decide⟩

/-- The node that a definition of `id` with the label text `t` creates. -/
theorem defined_node_data (id t : List Char) (shape : IRFlowchartShape)
    (hid : is_identifier id = true) (ht : is_label_text t = true) :
    ir_flowchart_node (some id) shape (some t) =
      IRComponent.FLOWCHART_NODE
        { node_id := some id, shape := shape, label := some t,
          fill_color := 0xFFFFFFFF, stroke_color := 0x000000FF, stroke_width := 1 } := by
  obtain ⟨_, _, _, hall, _, _, _⟩ := label_text_cases t ht
  simp [ir_flowchart_node, ir_flowchart_node_data_create, strdup, c_str_identifier id hid,
    c_str_plain t hall]

theorem parse_node_definition_form (p : FlowchartParser) (id t tail : List Char)
    (hnew : node_already_exists p id = false) (ht : is_label_text t = true)
    (form : List Char × List Char × IRFlowchartShape) (hf : form ∈ shape_forms) :
    parse_node_definition { p with rest := form.1 ++ (t ++ (form.2.1 ++ tail)) } id =
      { add_to_current p (ir_flowchart_node (some id) form.2.2 (some t)) with rest := tail } := by
  obtain ⟨o, os, ho, _, _, hsp, _⟩ := shape_form_opens form hf
  have hsw : skip_whitespace (form.1 ++ (t ++ (form.2.1 ++ tail))) =
      form.1 ++ (t ++ (form.2.1 ++ tail)) := by
    rw [ho]
    unfold skip_whitespace
    rw [List.cons_append, List.dropWhile_cons_of_neg (by rw [hsp]; simp)]
  unfold parse_node_definition
  dsimp only
  rw [hsw, parse_shape_form t tail ht form hf]
  dsimp only
  have e : node_already_exists { p with rest := tail } id = node_already_exists p id := rfl
  rw [e, hnew]
  simp only [Bool.false_eq_true, if_false]
  exact add_to_current_with_rest p tail _

/-- C20: for every parser state, every identifier `id` that opens with no
statement keyword and that `node_exists_in_children` finds neither in the tree
nor in the open subgraph, and every label text `t`, each of the eleven forms
`id[t]`, `id(t)`, `id([t])`, `id{t}`, `id((t))`, `id{{t}}`, `id[/t/]`, `id[/t\]`,
`id[(t)]`, `id[[t]]`, `id>t]` at the start of a line is parsed without reaching
an edge (what follows the form does not open one) as the creation of one node
of the shape of the form, with label `t`, in the open subgraph or at the root;
the cursor is left after the form, past the blanks that follow it. -/
theorem shape_form_defines_node (p : FlowchartParser) (id t tail : List Char)
    (hid : is_identifier id = true)
    (hk : ∀ kw ∈ statement_keywords, begins_with_ci kw id = false)
    (hnew : node_already_exists p id = false) (ht : is_label_text t = true)
    (htail : is_edge_start (peek (skip_whitespace tail)) = false)
    (form : List Char × List Char × IRFlowchartShape) (hf : form ∈ shape_forms) :
    parse_node_definition { p with rest := form.1 ++ (t ++ (form.2.1 ++ tail)) } id =
      { add_to_current p
          (IRComponent.FLOWCHART_NODE
            { node_id := some id, shape := form.2.2, label := some t,
              fill_color := 0xFFFFFFFF, stroke_color := 0x000000FF, stroke_width := 1 })
        with rest := tail } ∧
    parse_line { p with rest := id ++ (form.1 ++ (t ++ (form.2.1 ++ tail))) } =
      some
        { add_to_current p
            (IRComponent.FLOWCHART_NODE
              { node_id := some id, shape := form.2.2, label := some t,
                fill_color := 0xFFFFFFFF, stroke_color := 0x000000FF, stroke_width := 1 })
          with rest := skip_whitespace tail } := by
  have hdef := parse_node_definition_form p id t tail hnew ht form hf
  rw [defined_node_data id t form.2.2 hid ht] at hdef
  refine ⟨hdef, ?_⟩
  obtain ⟨o, os, ho, hopen, hoid, hsp, hkw⟩ := shape_form_opens form hf
  obtain ⟨c, cs, hae, hc, hcs⟩ := is_identifier_cons id hid
  have hrest : form.1 ++ (t ++ (form.2.1 ++ tail)) = o :: (os ++ (t ++ (form.2.1 ++ tail))) := by
    rw [ho]; rfl
  have sw : skip_whitespace (id ++ (form.1 ++ (t ++ (form.2.1 ++ tail)))) =
      id ++ (form.1 ++ (t ++ (form.2.1 ++ tail))) := by
    rw [hae]; exact skip_whitespace_start c _ hc
  have hpeek : peek (id ++ (form.1 ++ (t ++ (form.2.1 ++ tail)))) = c := by rw [hae]; rfl
  have hend : is_at_end (id ++ (form.1 ++ (t ++ (form.2.1 ++ tail)))) = false := by rw [hae]; rfl
  have hnl : (c == '\n') = false := by
    simpa using identifier_start_ne c '\n' hc (by decide)
  have hpc : (c == '%') = false := by
    simpa using identifier_start_ne c '%' hc (by decide)
  have kw : ∀ k ∈ statement_keywords,
      (match_case_insensitive (id ++ (form.1 ++ (t ++ (form.2.1 ++ tail)))) k).1 = false := by
    intro k hkm
    rw [hrest]
    exact keyword_not_matched id _ k o (hk k hkm) (hkw k hkm)
  have k1 := kw "subgraph".toList (by decide)
  have k2 := kw "end".toList (by decide)
  have k3 := kw "style".toList (by decide)
  have k4 := kw "classDef".toList (by decide)
  have k5 := kw "class".toList (by decide)
  have k6 := kw "linkStyle".toList (by decide)
  have hidr : parse_identifier (id ++ (form.1 ++ (t ++ (form.2.1 ++ tail)))) =
      (some id, form.1 ++ (t ++ (form.2.1 ++ tail))) := by
    apply parse_identifier_append id _ hid
    right
    exact ⟨o, _, hrest, hoid⟩
  have e0 : skip_whitespace (form.1 ++ (t ++ (form.2.1 ++ tail))) =
      form.1 ++ (t ++ (form.2.1 ++ tail)) := by
    rw [hrest]
    unfold skip_whitespace
    rw [List.dropWhile_cons_of_neg (by rw [hsp]; simp)]
  have e1 : peek (form.1 ++ (t ++ (form.2.1 ++ tail))) = o := by rw [hrest]; rfl
  unfold parse_line
  simp only [sw, hpeek, hend, hnl, hpc, k1, k2, k3, k4, k5, k6, Bool.or_self,
    Bool.false_eq_true, if_false]
  unfold parse_node_statement
  simp only [hidr, e0, e1, hopen, if_true]
  have hdef2 : parse_node_definition
      { ({ p with rest := id ++ (form.1 ++ (t ++ (form.2.1 ++ tail))) } : FlowchartParser) with
        rest := form.1 ++ (t ++ (form.2.1 ++ tail)) } id =
      { add_to_current p
          (IRComponent.FLOWCHART_NODE
            { node_id := some id, shape := form.2.2, label := some t,
              fill_color := 0xFFFFFFFF, stroke_color := 0x000000FF, stroke_width := 1 })
        with rest := tail } := hdef
  rw [hdef2]
  simp only [htail, Bool.false_eq_true, if_false]

/-- C20 at the stadium form `A([Start here])` on the first body line. -/
theorem shape_form_defines_node_witness :
    parse_line
        { rest := "A([Start here])".toList, flowchart := ir_flowchart IRFlowchartDirection.TB } =
      some
        { rest := []
          flowchart :=
            { ir_flowchart IRFlowchartDirection.TB with
              children :=
                [IRComponent.FLOWCHART_NODE
                  { node_id := some "A".toList, shape := IRFlowchartShape.STADIUM,
                    label := some "Start here".toList,
                    fill_color := 0xFFFFFFFF, stroke_color := 0x000000FF, stroke_width := 1 }] } } :=
  (shape_form_defines_node { rest := [], flowchart := ir_flowchart IRFlowchartDirection.TB }
    "A".toList "Start here".toList [] (by decide) (by decide) rfl (by decide) rfl
    ("([".toList, "])".toList, IRFlowchartShape.STADIUM) (by decide)).2

/-! ## The text of a label -/

theorem tolower_upper_islower : ∀ n, n < 91 → 65 ≤ n → islower (Char.ofNat (n + 32)) = true := by
  decide

/-- Only a letter has a letter as its lower case. -/
theorem tolower_eq_symbol (c s : Char) (hs : isalpha s = false) (h : tolower c = s) : c = s := by
  unfold tolower at h
  split at h
  · next hu =>
    exfalso
    simp only [isupper, Bool.and_eq_true, decide_eq_true_eq] at hu
    have := tolower_upper_islower c.toNat (by omega) hu.1
    rw [h] at this
    simp [isalpha, this] at hs
  · exact h

theorem strncasecmp_eq_map (src str : List Char) :
    strncasecmp_eq src str = (str.map tolower).isPrefixOf (src.map tolower) := by
  unfold strncasecmp_eq
  rw [List.map_take]
  have := isPrefixOf_take (str.map tolower) (src.map tolower)
  simpa using this

/-- A text that ends with `d` and holds no other `d` is a prefix only of what
holds the same text up to its first `d`. -/
theorem prefix_stop_eq (d : Char) : ∀ (pat x y : List Char), d ∉ pat → d ∉ x →
    (pat ++ [d]).isPrefixOf (x ++ d :: y) = true → x = pat := by
  intro pat
  induction pat with
  | nil =>
    intro x y _ hx h
    cases x with
    | nil => rfl
    | cons a xs =>
      simp only [List.nil_append, List.cons_append, List.isPrefixOf, Bool.and_eq_true,
        beq_iff_eq] at h
      exact absurd (List.mem_cons_self _ _) (h.1 ▸ hx)
  | cons p ps ih =>
    intro x y hp hx h
    cases x with
    | nil =>
      simp only [List.nil_append, List.cons_append, List.isPrefixOf, Bool.and_eq_true,
        beq_iff_eq] at h
      exact absurd (List.mem_cons_self _ _) (h.1 ▸ hp)
    | cons a xs =>
      simp only [List.cons_append, List.isPrefixOf, Bool.and_eq_true, beq_iff_eq] at h
      rw [h.1, ih xs y (fun m => hp (List.mem_cons_of_mem _ m))
        (fun m => hx (List.mem_cons_of_mem _ m)) h.2]

theorem lower_spellings :
    "<br/>".toList.map tolower = ['<', 'b', 'r', '/', '>'] ∧
    "<br>".toList.map tolower = ['<', 'b', 'r', '>'] ∧
    "<br />".toList.map tolower = ['<', 'b', 'r', ' ', '/', '>'] := by decide

/-- A tag that is no line break fails the three comparisons of `process_html_loop`. -/
theorem tag_is_no_line_break (inner rest : List Char) (h1 : '>' ∉ inner)
    (h2 : ('<' :: (inner ++ ['>'])).map tolower ∉ line_break_spellings) :
    strncasecmp_eq ('<' :: (inner ++ '>' :: rest)) "<br/>".toList = false ∧
    strncasecmp_eq ('<' :: (inner ++ '>' :: rest)) "<br>".toList = false ∧
    strncasecmp_eq ('<' :: (inner ++ '>' :: rest)) "<br />".toList = false := by
  have hin : '>' ∉ '<' :: inner.map tolower := by
    intro hm
    simp only [List.mem_cons, List.mem_map] at hm
    rcases hm with hm | ⟨c, hc, e⟩
    · exact absurd hm (by decide)
    · rw [tolower_eq_symbol c '>' (by decide) e] at hc
      exact h1 hc
  have key : ∀ pat : List Char, '>' ∉ pat →
      (pat ++ ['>']).isPrefixOf (('<' :: (inner ++ '>' :: rest)).map tolower) = true →
      ('<' :: (inner ++ ['>'])).map tolower = pat ++ ['>'] := by
    intro pat hp h
    have e : ('<' :: (inner ++ '>' :: rest)).map tolower
        = ('<' :: inner.map tolower) ++ '>' :: rest.map tolower := by
      simp only [List.map_cons, List.map_append, List.cons_append]
      rfl
    rw [e] at h
    have := prefix_stop_eq '>' pat _ _ hp hin h
    simp only [List.map_cons, List.map_append, List.map_nil]
    rw [← this]
    rfl
  obtain ⟨l1, l2, l3⟩ := lower_spellings
  refine ⟨?_, ?_, ?_⟩
  · rw [strncasecmp_eq_map, l1, Bool.eq_false_iff]
    intro h
    apply h2
    rw [key ['<', 'b', 'r', '/'] (by decide) h]
    decide
  · rw [strncasecmp_eq_map, l2, Bool.eq_false_iff]
    intro h
    apply h2
    rw [key ['<', 'b', 'r'] (by decide) h]
    decide
  · rw [strncasecmp_eq_map, l3, Bool.eq_false_iff]
    intro h
    apply h2
    rw [key ['<', 'b', 'r', ' ', '/'] (by decide) h]
    decide

theorem dropWhile_to_stop (d : Char) (x y : List Char) (hx : d ∉ x) :
    (x ++ d :: y).dropWhile (fun c => c != d) = d :: y := by
  induction x with
  | nil => simp
  | cons a xs ih =>
    have : a ≠ d := fun e => hx (e ▸ List.mem_cons_self _ _)
    rw [List.cons_append, List.dropWhile_cons_of_pos (by simpa using this)]
    exact ih (fun m => hx (List.mem_cons_of_mem _ m))

/-- One turn of `process_html_loop` on a line break, in each spelling. -/
theorem process_html_line_break (s : List Char) (h : s.map tolower ∈ line_break_spellings)
    (n : Nat) (rest : List Char) :
    1 ≤ s.length ∧
      process_html_loop (n + 1) (s ++ rest) = '\n' :: process_html_loop n rest := by
  obtain ⟨l1, l2, l3⟩ := lower_spellings
  simp only [line_break_spellings, List.mem_cons, List.mem_singleton, List.not_mem_nil,
    or_false] at h
  rcases h with h | h | h
  · change s.map tolower = ['<', 'b', 'r', '/', '>'] at h
    rcases s with _ | ⟨a, _ | ⟨b, _ | ⟨c, _ | ⟨d, _ | ⟨e, _ | ⟨f, s⟩⟩⟩⟩⟩⟩ <;>
      simp only [List.map_cons, List.map_nil, List.cons.injEq, and_true, reduceCtorEq,
        and_false, false_and] at h
    obtain ⟨ha, hb, hc, hd, he⟩ := h
    have ea := tolower_eq_symbol a '<' (by decide) ha
    subst ea
    have t1 : strncasecmp_eq ('<' :: b :: c :: d :: e :: rest) "<br/>".toList = true := by
      rw [strncasecmp_eq_map, l1]
      simp [List.isPrefixOf, ha, hb, hc, hd, he]
    refine ⟨by simp, ?_⟩
    show process_html_loop (n + 1) ('<' :: b :: c :: d :: e :: rest) = _
    rw [process_html_loop]
    simp only [beq_self_eq_true, if_true, t1]
    rfl
  · change s.map tolower = ['<', 'b', 'r', '>'] at h
    rcases s with _ | ⟨a, _ | ⟨b, _ | ⟨c, _ | ⟨d, _ | ⟨e, s⟩⟩⟩⟩⟩ <;>
      simp only [List.map_cons, List.map_nil, List.cons.injEq, and_true, reduceCtorEq,
        and_false, false_and] at h
    obtain ⟨ha, hb, hc, hd⟩ := h
    have ea := tolower_eq_symbol a '<' (by decide) ha
    subst ea
    have t1 : strncasecmp_eq ('<' :: b :: c :: d :: rest) "<br/>".toList = false := by
      rw [strncasecmp_eq_map, l1]
      simp [List.isPrefixOf, ha, hb, hc, hd]
    have t2 : strncasecmp_eq ('<' :: b :: c :: d :: rest) "<br>".toList = true := by
      rw [strncasecmp_eq_map, l2]
      simp [List.isPrefixOf, ha, hb, hc, hd]
    refine ⟨by simp, ?_⟩
    show process_html_loop (n + 1) ('<' :: b :: c :: d :: rest) = _
    rw [process_html_loop]
    simp only [beq_self_eq_true, if_true, t1, t2, Bool.false_eq_true, if_false]
    rfl
  · change s.map tolower = ['<', 'b', 'r', ' ', '/', '>'] at h
    rcases s with _ | ⟨a, _ | ⟨b, _ | ⟨c, _ | ⟨d, _ | ⟨e, _ | ⟨f, _ | ⟨g, s⟩⟩⟩⟩⟩⟩⟩ <;>
      simp only [List.map_cons, List.map_nil, List.cons.injEq, and_true, reduceCtorEq,
        and_false, false_and] at h
    obtain ⟨ha, hb, hc, hd, he, hf⟩ := h
    have ea := tolower_eq_symbol a '<' (by decide) ha
    subst ea
    have t1 : strncasecmp_eq ('<' :: b :: c :: d :: e :: f :: rest) "<br/>".toList = false := by
      rw [strncasecmp_eq_map, l1]
      simp [List.isPrefixOf, ha, hb, hc, hd, he, hf]
    have t2 : strncasecmp_eq ('<' :: b :: c :: d :: e :: f :: rest) "<br>".toList = false := by
      rw [strncasecmp_eq_map, l2]
      simp [List.isPrefixOf, ha, hb, hc, hd, he, hf]
    have t3 : strncasecmp_eq ('<' :: b :: c :: d :: e :: f :: rest) "<br />".toList = true := by
      rw [strncasecmp_eq_map, l3]
      simp [List.isPrefixOf, ha, hb, hc, hd, he, hf]
    refine ⟨by simp, ?_⟩
    show process_html_loop (n + 1) ('<' :: b :: c :: d :: e :: f :: rest) = _
    rw [process_html_loop]
    simp only [beq_self_eq_true, if_true, t1, t2, t3, Bool.false_eq_true, if_false]
    rfl

/-- One turn of `process_html_loop` on each kind of piece. -/
theorem process_html_piece (piece : LabelPiece) (n : Nat) (rest : List Char) :
    1 ≤ piece.written.length ∧
    process_html_loop (n + 1) (piece.written ++ rest) =
      piece.normalized ++ process_html_loop n rest := by
  cases piece with
  | plain c h =>
    simp [LabelPiece.written, LabelPiece.normalized, process_html_loop, h]
  | line_break s h =>
    exact process_html_line_break s h n rest
  | tag inner h1 h2 =>
    obtain ⟨t1, t2, t3⟩ := tag_is_no_line_break inner rest h1 h2
    have e : LabelPiece.written (LabelPiece.tag inner h1 h2) ++ rest
        = '<' :: (inner ++ '>' :: rest) := by
      simp [LabelPiece.written]
    have hd : ('<' :: (inner ++ '>' :: rest)).dropWhile (fun d => d != '>') = '>' :: rest := by
      have := dropWhile_to_stop '>' ('<' :: inner) rest (by
        intro hm
        simp only [List.mem_cons] at hm
        rcases hm with hm | hm
        · exact absurd hm (by decide)
        · exact h1 hm)
      simpa using this
    refine ⟨by simp [LabelPiece.written], ?_⟩
    rw [e, process_html_loop]
    simp only [beq_self_eq_true, if_true, t1, t2, t3, Bool.false_eq_true, if_false, hd,
      List.tail_cons, LabelPiece.normalized, List.nil_append]

/-- The loop of `process_html_in_text` on a text made of pieces, with any bound
that is at least the length of the text. -/
theorem process_html_pieces : ∀ (pieces : List LabelPiece) (n : Nat),
    (pieces.flatMap LabelPiece.written).length ≤ n →
    process_html_loop n (pieces.flatMap LabelPiece.written) =
      pieces.flatMap LabelPiece.normalized := by
  intro pieces
  induction pieces with
  | nil => intro n _; cases n <;> simp [process_html_loop]
  | cons piece pieces ih =>
    intro n hn
    obtain ⟨h1, h2⟩ := process_html_piece piece (n - 1) (pieces.flatMap LabelPiece.written)
    simp only [List.flatMap_cons, List.length_append] at hn ⊢
    have e : n = (n - 1) + 1 := by omega
    rw [e, h2, ih (n - 1) (by omega)]

theorem process_html_in_text_pieces (pieces : List LabelPiece) :
    process_html_in_text (pieces.flatMap LabelPiece.written) =
      pieces.flatMap LabelPiece.normalized :=
  process_html_pieces pieces _ (Nat.le_refl _)

/-- C21 (the code at failing inputs): `process_html_in_text` turns every text
made of plain characters, line breaks `<br>`, `<br/>`, `<br />` (in any letter
case) and other tags into the text with one newline for each line break and
without the other tags; so the eight shape forms whose text is read by
`parse_text_in_brackets` give the label a, newline, b, newline, c, newline, de
for the text `a<br/>b<BR>c<Br />d<b>e</b>`, and a nested bracket of the same
kind does not end the label.  But the forms `[/t/]`, `[/t\]` and `>t]` copy
their text as it is written: the label of `a<br>b<i>c` is `a<br>b<i>c`, not a,
newline, bc. -/
theorem raw_shape_forms_keep_html :
    (∀ pieces : List LabelPiece,
      process_html_in_text (pieces.flatMap LabelPiece.written) =
        pieces.flatMap LabelPiece.normalized) ∧
    bracket_text_forms.map
        (fun form => parsed_labels form.1 "a<br/>b<BR>c<Br />d<b>e</b>".toList form.2.1) =
      bracket_text_forms.map (fun form => [(form.2.2, some "a\nb\nc\nde".toList)]) ∧
    parsed_labels "[".toList "x[y]z".toList "]".toList =
      [(IRFlowchartShape.RECTANGLE, some "x[y]z".toList)] ∧
    parsed_labels "((".toList "x(y)z".toList "))".toList =
      [(IRFlowchartShape.CIRCLE, some "x(y)z".toList)] ∧
    raw_text_forms.map (fun form => parsed_labels form.1 "a<br>b<i>c".toList form.2.1) =
      raw_text_forms.map (fun form => [(form.2.2, some "a<br>b<i>c".toList)]) := by
  refine ⟨process_html_in_text_pieces, ?_, ?_, ?_, ?_⟩
  · decide!
  · decide!
  · decide!
  · decide!

/-! ## Edges stay at the root -/

theorem tree_edges_cons (c : IRComponent) (cs : List IRComponent) :
    tree_edges (c :: cs) = component_edges c ++ tree_edges cs := by
  simp [tree_edges]

theorem tree_edges_append (a b : List IRComponent) :
    tree_edges (a ++ b) = tree_edges a ++ tree_edges b := by
  induction a with
  | nil => simp [tree_edges]
  | cons c cs ih => simp [tree_edges_cons, ih]

theorem tree_edges_set (y x : IRComponent) (h : component_edges y = component_edges x) :
    ∀ (l : List IRComponent) (i : Nat), l[i]? = some x → tree_edges (l.set i y) = tree_edges l := by
  intro l
  induction l with
  | nil => intro i hi; simp at hi
  | cons c cs ih =>
    intro i hi
    cases i with
    | zero =>
      simp only [List.getElem?_cons_zero, Option.some.injEq] at hi
      subst hi
      simp [tree_edges_cons, h]
    | succ i =>
      simp only [List.getElem?_cons_succ] at hi
      simp [tree_edges_cons, ih i hi]

theorem root_edges_set (y x : IRComponent) (h : edge_record y = edge_record x) :
    ∀ (l : List IRComponent) (i : Nat), l[i]? = some x → root_edges (l.set i y) = root_edges l := by
  intro l
  induction l with
  | nil => intro i hi; simp at hi
  | cons c cs ih =>
    intro i hi
    cases i with
    | zero =>
      simp only [List.getElem?_cons_zero, Option.some.injEq] at hi
      subst hi
      simp [root_edges, List.filterMap_cons, h]
    | succ i =>
      simp only [List.getElem?_cons_succ] at hi
      have := ih i hi
      simp only [root_edges] at this ⊢
      simp [List.filterMap_cons, this]

/-- Adding a component that holds no edge leaves the edges of the tree as they are. -/
theorem add_child_tree_edges (c : IRComponent) (hc : component_edges c = []) :
    ∀ (path : List Nat) (cs : List IRComponent),
      tree_edges (add_child_at path c cs) = tree_edges cs := by
  intro path
  induction path with
  | nil => intro cs; simp [add_child_at, tree_edges_append, tree_edges_cons, hc, tree_edges]
  | cons i path ih =>
    intro cs
    simp only [add_child_at]
    split
    · next d ch hi =>
      apply tree_edges_set _ _ _ cs i hi
      simp [component_edges, ih ch]
    · rfl

theorem set_direction_tree_edges (dir : IRFlowchartDirection) :
    ∀ (path : List Nat) (cs : List IRComponent),
      tree_edges (set_direction_at path dir cs) = tree_edges cs := by
  intro path
  induction path with
  | nil => intro cs; rfl
  | cons i path ih =>
    intro cs
    simp only [set_direction_at]
    split
    · next d ch hi =>
      split
      · apply tree_edges_set _ _ _ cs i hi
        simp [component_edges]
      · next j q =>
        apply tree_edges_set _ _ _ cs i hi
        simp [component_edges, ih ch]
    · rfl

/-- What an elementary step does to the edges: no subgraph gets one, and the
edges at the root stay as they are or get one more at their end. -/
theorem tree_step_edges (cs cs1 : List IRComponent) (h : tree_step cs cs1) :
    (edges_at_root cs → edges_at_root cs1) ∧
      (root_edges cs1 = root_edges cs ∨ ∃ e, root_edges cs1 = root_edges cs ++ [e]) := by
  have below : ∀ (c : IRComponent) (path : List Nat) (cs : List IRComponent),
      component_edges c = [] → edge_record c = none →
      (edges_at_root cs → edges_at_root (add_child_at path c cs)) ∧
        root_edges (add_child_at path c cs) = root_edges cs := by
    intro c path cs hc hr
    cases path with
    | nil =>
      constructor
      · intro inv d ch hm
        simp only [add_child_at, List.mem_append, List.mem_singleton] at hm
        rcases hm with hm | hm
        · exact inv d ch hm
        · rw [← hm] at hc
          simpa [component_edges] using hc
      · simp [add_child_at, root_edges, List.filterMap_append, hr]
    | cons i path =>
      simp only [add_child_at]
      split
      · next d0 ch0 hi =>
        constructor
        · intro inv d ch hm
          rcases mem_set_cases _ _ _ _ hm with hm | hm
          · cases hm
            rw [add_child_tree_edges c hc]
            exact inv d0 ch0 (List.getElem?_mem hi)
          · exact inv d ch hm
        · exact root_edges_set _ (IRComponent.FLOWCHART_SUBGRAPH d0 ch0) (by rfl) cs i hi
      · exact ⟨fun inv => inv, rfl⟩
  cases h with
  | add_node path id shape label hnew hid =>
    obtain ⟨a, b⟩ := below (ir_flowchart_node (some id) shape label) path cs rfl rfl
    exact ⟨a, Or.inl b⟩
  | add_subgraph path d =>
    obtain ⟨a, b⟩ := below (IRComponent.FLOWCHART_SUBGRAPH d []) path cs
      (by simp [component_edges, tree_edges]) rfl
    exact ⟨a, Or.inl b⟩
  | add_edge e =>
    constructor
    · intro inv d ch hm
      simp only [add_child_at, List.mem_append, List.mem_singleton] at hm
      rcases hm with hm | hm
      · exact inv d ch hm
      · cases hm
    · right
      exact ⟨e, by simp [add_child_at, root_edges, List.filterMap_append, edge_record]⟩
  | set_direction path dir =>
    cases path with
    | nil => exact ⟨fun inv => inv, Or.inl rfl⟩
    | cons i path =>
      simp only [set_direction_at]
      split
      · next d0 ch0 hi =>
        split
        · constructor
          · intro inv d ch hm
            rcases mem_set_cases _ _ _ _ hm with hm | hm
            · cases hm
              exact inv d0 ch0 (List.getElem?_mem hi)
            · exact inv d ch hm
          · exact Or.inl (root_edges_set _ (IRComponent.FLOWCHART_SUBGRAPH d0 ch0) (by rfl) cs i hi)
        · next j q =>
          constructor
          · intro inv d ch hm
            rcases mem_set_cases _ _ _ _ hm with hm | hm
            · cases hm
              rw [set_direction_tree_edges]
              exact inv d0 ch0 (List.getElem?_mem hi)
            · exact inv d ch hm
          · exact Or.inl (root_edges_set _ (IRComponent.FLOWCHART_SUBGRAPH d0 ch0) (by rfl) cs i hi)
      · exact ⟨fun inv => inv, Or.inl rfl⟩

theorem tree_steps_edges (cs cs1 : List IRComponent) (h : tree_steps cs cs1) :
    (edges_at_root cs → edges_at_root cs1) ∧ ∃ new, root_edges cs1 = root_edges cs ++ new := by
  induction h with
  | refl => exact ⟨fun inv => inv, [], by simp⟩
  | tail _ hstep ih =>
    obtain ⟨a, new, b⟩ := ih
    obtain ⟨c, d⟩ := tree_step_edges _ _ hstep
    refine ⟨fun inv => c (a inv), ?_⟩
    rcases d with d | ⟨e, d⟩
    · exact ⟨new, by rw [d, b]⟩
    · exact ⟨new ++ [e], by rw [d, b, List.append_assoc]⟩

/-- With no edge inside a subgraph, the edges of the tree are those at the root. -/
theorem tree_edges_eq_root (cs : List IRComponent) (h : edges_at_root cs) :
    tree_edges cs = root_edges cs := by
  induction cs with
  | nil => simp [tree_edges, root_edges]
  | cons c cs ih =>
    have ih1 := ih (fun d ch hm => h d ch (List.mem_cons_of_mem _ hm))
    rw [tree_edges_cons, ih1]
    cases c with
    | FLOWCHART_NODE d => simp [component_edges, root_edges, List.filterMap_cons, edge_record]
    | FLOWCHART_EDGE e => simp [component_edges, root_edges, List.filterMap_cons, edge_record]
    | FLOWCHART_SUBGRAPH d ch =>
      have := h d ch (List.mem_cons_self _ _)
      simp [component_edges, root_edges, List.filterMap_cons, edge_record, this]

/-- The edge registry after the loop of `ir_flowchart_finalize`. -/
theorem finalize_fold_edges (cs : List IRComponent) :
    ∀ f : Flowchart, (cs.foldl finalize_child f).state.edges = f.state.edges ++ root_edges cs := by
  induction cs with
  | nil => intro f; simp [root_edges]
  | cons c cs ih =>
    intro f
    simp only [List.foldl_cons]
    rw [ih]
    cases c with
    | FLOWCHART_NODE d =>
      simp [finalize_child, ir_flowchart_register_node, root_edges, List.filterMap_cons, edge_record]
    | FLOWCHART_EDGE e =>
      simp [finalize_child, ir_flowchart_register_edge, root_edges, List.filterMap_cons, edge_record]
    | FLOWCHART_SUBGRAPH d ch =>
      simp [finalize_child, ir_flowchart_register_subgraph, root_edges, List.filterMap_cons,
        edge_record]

theorem finalize_edge_registry (f : Flowchart) :
    (ir_flowchart_finalize f).state.edges = f.state.edges ++ root_edges f.children := by
  unfold ir_flowchart_finalize
  exact finalize_fold_edges f.children f

theorem parse_result_of_map {α : Type} (source : List Char) (f : Flowchart → α) (v : α)
    (h : (ir_flowchart_parse source).map (fun o => o.map f) = some (some v)) :
    ∃ fc, ir_flowchart_parse source = some (some fc) ∧ f fc = v := by
  cases hp : ir_flowchart_parse source with
  | none => rw [hp] at h; cases h
  | some o =>
    cases o with
    | none => rw [hp] at h; cases h
    | some fc =>
      rw [hp] at h
      simp only [Option.map_some', Option.some.injEq] at h
      exact ⟨fc, rfl, h⟩

theorem parse_value_of_map {α : Type} (source : List Char) (f : Flowchart → α) (v : α)
    (h : (ir_flowchart_parse source).map (fun o => o.map f) = some (some v)) (fc : Flowchart)
    (hp : ir_flowchart_parse source = some (some fc)) : f fc = v := by
  rw [hp] at h
  simpa using h

/-- C25: every statement of the parser leaves the subgraphs of the tree without
any edge component, at any depth, and only appends to the edges that are direct
children of the root; so after parsing any input no subgraph holds an edge, and
the edge registry is the list of the edge components of the root, which is the
list of all edge components of the tree, each once, in the order in which they
were added.  In the example the edge A to B is written inside the subgraph s2
inside s1, where its two end nodes are, and B to C inside s1: the root holds the
subgraph s1 and the three edges. -/
theorem edges_are_children_of_the_root :
    (∀ p p1 : FlowchartParser, parse_line p = some p1 →
      (edges_at_root p.flowchart.children → edges_at_root p1.flowchart.children) ∧
      ∃ new, root_edges p1.flowchart.children = root_edges p.flowchart.children ++ new) ∧
    (∀ (source : List Char) (fc : Flowchart), ir_flowchart_parse source = some (some fc) →
      edges_at_root fc.children ∧ fc.state.edges = root_edges fc.children ∧
      fc.state.edges = tree_edges fc.children) ∧
    (∃ fc : Flowchart,
      ir_flowchart_parse
        "flowchart TB\nsubgraph s1\ndirection LR\nsubgraph s2\ndirection LR\nA-->B\nend\nB-->C\nend\nC-->A".toList
        = some (some fc) ∧
      (root_edges fc.children).map (fun e => (e.from_id, e.to_id)) =
        [(some "A".toList, some "B".toList), (some "B".toList, some "C".toList),
         (some "C".toList, some "A".toList)] ∧
      fc.children.length = 4 ∧
      (tree_nodes fc.children).map (fun n => n.node_id) =
        [some "A".toList, some "B".toList, some "C".toList] ∧
      (tree_subgraphs fc.children).map (fun sg => sg.subgraph_id) =
        [some "s1".toList, some "s2".toList] ∧
      fc.state.edges.map (fun e => (e.from_id, e.to_id)) =
        [(some "A".toList, some "B".toList), (some "B".toList, some "C".toList),
         (some "C".toList, some "A".toList)]) := by
  refine ⟨?_, ?_, ?_⟩
  · intro p p1 h
    exact tree_steps_edges _ _ (parse_line_steps p p1 h)
  · intro source fc h
    unfold ir_flowchart_parse ir_flowchart_parse_fuel at h
    split at h
    · cases h
    · split at h
      · cases h
      · next hd _ =>
        split at h
        · cases h
        · next p hp =>
          simp only [Option.some.injEq] at h
          subst h
          have hs := parse_body_steps _ _ p hp
          have hinv := parse_body_inv _ _ p hp (initial_parser_inv hd.2 hd.1)
          have e : (ir_flowchart_finalize p.flowchart).children = p.flowchart.children :=
            (finalize_fold p.flowchart.children p.flowchart).1
          have inv : edges_at_root p.flowchart.children :=
            (tree_steps_edges _ _ hs).1 (fun d ch hm => by cases hm)
          have reg := finalize_edge_registry p.flowchart
          rw [hinv.2.2, List.nil_append] at reg
          rw [e]
          exact ⟨inv, reg, reg.trans (tree_edges_eq_root _ inv).symm⟩
  · obtain ⟨fc, hp, hv⟩ := parse_result_of_map
      "flowchart TB\nsubgraph s1\ndirection LR\nsubgraph s2\ndirection LR\nA-->B\nend\nB-->C\nend\nC-->A".toList
      (fun fc => (root_edges fc.children).map (fun e => (e.from_id, e.to_id)))
      [(some "A".toList, some "B".toList), (some "B".toList, some "C".toList),
        (some "C".toList, some "A".toList)] (by decide!)
    refine ⟨fc, hp, hv, ?_, ?_, ?_, ?_⟩
    · exact parse_value_of_map _ (fun fc => fc.children.length) 4 (by decide!) fc hp
    · exact parse_value_of_map _ (fun fc => (tree_nodes fc.children).map (fun n => n.node_id))
        [some "A".toList, some "B".toList, some "C".toList] (by decide!) fc hp
    · exact parse_value_of_map _ (fun fc => (tree_subgraphs fc.children).map (fun n => n.subgraph_id))
        [some "s1".toList, some "s2".toList] (by decide!) fc hp
    · exact parse_value_of_map _ (fun fc => fc.state.edges.map (fun e => (e.from_id, e.to_id)))
        [(some "A".toList, some "B".toList), (some "B".toList, some "C".toList),
          (some "C".toList, some "A".toList)] (by decide!) fc hp

/-- The second part of C25 at `flowchart TB / subgraph s1 / direction LR / A-->B /
end`: the edge A to B, written inside s1, is a child of the root and the only
entry of the edge registry. -/
theorem edges_are_children_of_the_root_witness :
    ∃ fc : Flowchart,
      ir_flowchart_parse "flowchart TB\nsubgraph s1\ndirection LR\nA-->B\nend".toList
        = some (some fc) ∧
      edges_at_root fc.children ∧ fc.state.edges = root_edges fc.children ∧
      fc.state.edges = tree_edges fc.children ∧
      fc.state.edges.map (fun e => (e.from_id, e.to_id)) =
        [(some "A".toList, some "B".toList)] := by
  obtain ⟨a, b, c⟩ := edges_are_children_of_the_root.2.1
    "flowchart TB\nsubgraph s1\ndirection LR\nA-->B\nend".toList _ rfl
  exact ⟨_, rfl, a, b, c, by decide!⟩

/-! ## Edge statements -/

theorem skip_whitespace_blanks (sp x : List Char) (h : is_blanks sp = true) :
    skip_whitespace (sp ++ x) = skip_whitespace x :=
  dropWhile_append_all _ sp x h

theorem skip_whitespace_idem (x : List Char) :
    skip_whitespace (skip_whitespace x) = skip_whitespace x := by
  unfold skip_whitespace
  exact List.dropWhile_idempotent _ _

theorem parse_target_definition_none (p : FlowchartParser) (id : List Char)
    (h : is_shape_open (peek (skip_whitespace p.rest)) = false) :
    parse_target_definition p id = { p with rest := skip_whitespace p.rest } := by
  unfold parse_target_definition
  dsimp only
  rw [if_neg (by rw [h]; simp)]

/-- Each operator is read as itself, whatever follows it. -/
theorem parse_edge_operator_op (op : List Char × IRFlowchartEdgeType) (hop : op ∈ edge_operators)
    (x : List Char) :
    skip_whitespace (op.1 ++ x) = op.1 ++ x ∧
      parse_edge_operator (op.1 ++ x) = some (op.2, none, x) ∧
      is_edge_start (peek (op.1 ++ x)) = true ∧ is_shape_open (peek (op.1 ++ x)) = false ∧
      ends_identifier (op.1 ++ x) ∧ 3 ≤ op.1.length := by
  simp only [edge_operators, List.mem_cons, List.mem_singleton, List.not_mem_nil, or_false] at hop
  rcases hop with rfl | rfl | rfl | rfl | rfl | rfl
  · refine ⟨rfl, ?_, rfl, rfl, Or.inr ⟨_, _, rfl, by decide⟩, by decide⟩
    unfold parse_edge_operator
    rw [match_succeeds]
    rfl
  · refine ⟨rfl, ?_, rfl, rfl, Or.inr ⟨_, _, rfl, by decide⟩, by decide⟩
    unfold parse_edge_operator
    rw [match_fails ("-.->".toList ++ x) "<-->".toList rfl, match_succeeds]
    rfl
  · refine ⟨rfl, ?_, rfl, rfl, Or.inr ⟨_, _, rfl, by decide⟩, by decide⟩
    unfold parse_edge_operator
    rw [match_fails ("-..->".toList ++ x) "<-->".toList rfl,
      match_fails ("-..->".toList ++ x) "-.->".toList rfl, match_succeeds]
    rfl
  · refine ⟨rfl, ?_, rfl, rfl, Or.inr ⟨_, _, rfl, by decide⟩, by decide⟩
    unfold parse_edge_operator
    rw [match_fails ("==>".toList ++ x) "<-->".toList rfl,
      match_fails ("==>".toList ++ x) "-.->".toList rfl,
      match_fails ("==>".toList ++ x) "-..->".toList rfl, match_succeeds]
    rfl
  · refine ⟨rfl, ?_, rfl, rfl, Or.inr ⟨_, _, rfl, by decide⟩, by decide⟩
    exact parse_edge_operator_arrow x
  · refine ⟨rfl, ?_, rfl, rfl, Or.inr ⟨_, _, rfl, by decide⟩, by decide⟩
    unfold parse_edge_operator
    rw [match_fails ("---".toList ++ x) "<-->".toList rfl,
      match_fails ("---".toList ++ x) "-.->".toList rfl,
      match_fails ("---".toList ++ x) "-..->".toList rfl,
      match_fails ("---".toList ++ x) "==>".toList rfl,
      match_fails ("---".toList ++ x) "-->".toList rfl, match_succeeds]
    rfl

theorem takeWhile_to_stop (d : Char) (x y : List Char) (hx : d ∉ x) :
    (x ++ d :: y).takeWhile (fun c => c != d) = x := by
  induction x with
  | nil => simp
  | cons a xs ih =>
    have : a ≠ d := fun e => hx (e ▸ List.mem_cons_self _ _)
    rw [List.cons_append, List.takeWhile_cons_of_pos (by simpa using this)]
    rw [ih (fun m => hx (List.mem_cons_of_mem _ m))]

/-- The label `|label|` after an operator, then the target identifier. -/
theorem parse_pipe_label_text (label : Option (List Char)) (after b tail : List Char)
    (hl : is_pipe_label label = true) (h2 : is_blanks after = true)
    (hb : is_identifier b = true) (ht : ends_identifier tail) :
    ∃ r, parse_pipe_label none (skip_whitespace (pipe_text label ++ (after ++ (b ++ tail))))
        = (label, r) ∧
      parse_identifier (skip_whitespace r) = (some b, tail) := by
  obtain ⟨c, cs, hbe, hc, hcs⟩ := is_identifier_cons b hb
  have hsb : skip_whitespace (after ++ (b ++ tail)) = b ++ tail := by
    rw [skip_whitespace_blanks _ _ h2, hbe]
    exact skip_whitespace_start c _ hc
  have hid : parse_identifier (b ++ tail) = (some b, tail) := parse_identifier_append b tail hb ht
  cases label with
  | none =>
    refine ⟨b ++ tail, ?_, ?_⟩
    · simp only [pipe_text, List.nil_append, hsb]
      unfold parse_pipe_label
      have : (peek (b ++ tail) == '|') = false := by
        rw [hbe]
        simpa [peek] using identifier_start_ne c '|' hc (by decide)
      simp only [this, Bool.false_eq_true, if_false]
    · have : skip_whitespace (b ++ tail) = b ++ tail := by
        rw [hbe]; exact skip_whitespace_start c _ hc
      rw [this, hid]
  | some l =>
    have hl1 : '|' ∉ l := by
      simp only [is_pipe_label, Bool.and_eq_true, Bool.not_eq_true', List.contains_eq_any_beq,
        List.any_eq_false, beq_iff_eq] at hl
      intro hm
      exact hl.1 _ hm rfl
    refine ⟨after ++ (b ++ tail), ?_, ?_⟩
    · have e : skip_whitespace (pipe_text (some l) ++ (after ++ (b ++ tail)))
          = '|' :: (l ++ '|' :: (after ++ (b ++ tail))) := by
        simp only [pipe_text, List.cons_append, List.append_assoc, List.singleton_append]
        exact List.dropWhile_cons_of_neg (by decide)
      rw [e]
      unfold parse_pipe_label
      have hp : (peek ('|' :: (l ++ '|' :: (after ++ (b ++ tail)))) == '|') = true := rfl
      have ha : advance ('|' :: (l ++ '|' :: (after ++ (b ++ tail))))
          = l ++ '|' :: (after ++ (b ++ tail)) := rfl
      simp only [hp, if_true, ha, takeWhile_to_stop '|' l _ hl1, dropWhile_to_stop '|' l _ hl1]
      rfl
    · rw [hsb, hid]

theorem ensure_implicit_node_with_rest (p : FlowchartParser) (r id : List Char) :
    ensure_implicit_node { p with rest := r } id = { ensure_implicit_node p id with rest := r } := by
  unfold ensure_implicit_node
  have e : node_already_exists { p with rest := r } id = node_already_exists p id := rfl
  rw [e]
  split
  · rfl
  · exact add_to_current_with_rest p r _

theorem add_edge_with_rest (p : FlowchartParser) (r a b : List Char) (t : IRFlowchartEdgeType)
    (l : Option (List Char)) :
    add_edge { p with rest := r } a b t l = { add_edge p a b t l with rest := r } := by
  unfold add_edge
  dsimp only
  rw [ensure_implicit_node_with_rest]

/-- One link of an edge statement: the operator, an optional `|label|` and the
target identifier, followed by no shape. -/
theorem parse_edge_link (n : Nat) (p : FlowchartParser) (from_id before after b tail : List Char)
    (op : List Char × IRFlowchartEdgeType) (hop : op ∈ edge_operators)
    (label : Option (List Char)) (h1 : is_blanks before = true) (h2 : is_blanks after = true)
    (hl : is_pipe_label label = true) (hb : is_identifier b = true) (ht : ends_identifier tail)
    (hs : is_shape_open (peek (skip_whitespace tail)) = false) :
    parse_edge (n + 1)
        { p with rest := before ++ (op.1 ++ (pipe_text label ++ (after ++ (b ++ tail)))) } from_id =
      if is_edge_start (peek (skip_whitespace tail)) then
        parse_edge n { add_edge p from_id b op.2 label with rest := skip_whitespace tail } b
      else some { add_edge p from_id b op.2 label with rest := skip_whitespace tail } := by
  obtain ⟨e1, e2, _⟩ := parse_edge_operator_op op hop (pipe_text label ++ (after ++ (b ++ tail)))
  obtain ⟨r, hr1, hr2⟩ := parse_pipe_label_text label after b tail hl h2 hb ht
  rw [parse_edge]
  dsimp only
  rw [skip_whitespace_blanks _ _ h1, e1, e2]
  dsimp only
  rw [hr1]
  dsimp only
  rw [hr2]
  dsimp only
  rw [add_edge_with_rest, parse_target_definition_none _ _ hs]
  dsimp only
  rw [skip_whitespace_idem]

theorem link_ok_cases (l : ChainLink) (h : l.ok = true) :
    is_blanks l.before = true ∧ l.operator ∈ edge_operators ∧ is_pipe_label l.label = true ∧
      is_blanks l.after = true ∧ is_identifier l.id = true := by
  unfold ChainLink.ok at h
  simp only [Bool.and_eq_true, decide_eq_true_eq] at h
  exact ⟨h.1.1.1.1, h.1.1.1.2, h.1.1.2, h.1.2, h.2⟩

theorem c_str_pipe_label (l : List Char) (h : is_pipe_label (some l) = true) : c_str l = l := by
  unfold c_str
  rw [List.takeWhile_eq_self_iff]
  intro x hx
  simp only [is_pipe_label, Bool.and_eq_true, Bool.not_eq_true', List.contains_eq_any_beq,
    List.any_eq_false, beq_iff_eq] at h
  have := h.2 x hx
  simp only [bne_iff_ne, ne_eq]
  exact fun e => this e.symm

/-- The edge at the root, and before it the target node, that `add_edge` adds
when no subgraph is open and the target is new. -/
theorem add_edge_root_new (r : List Char) (d : IRFlowchartDirection) (f : Flowchart)
    (from_id b : List Char) (type : IRFlowchartEdgeType) (label : Option (List Char))
    (hnew : node_exists_in_children f.children b = false) (hf : is_identifier from_id = true)
    (hb : is_identifier b = true) (hl : is_pipe_label label = true) :
    add_edge { rest := r, direction := d, flowchart := f, subgraph_stack := [] }
        from_id b type label =
      { rest := r, direction := d,
        flowchart := { f with children := f.children ++
          [IRComponent.FLOWCHART_NODE (implicit_node b),
           IRComponent.FLOWCHART_EDGE (parsed_edge from_id b type label)] },
        subgraph_stack := [] } := by
  unfold add_edge ensure_implicit_node
  simp only [node_already_exists_root, hnew, Bool.false_eq_true, if_false, add_to_current_root,
    ir_add_child, add_child_at, implicit_node_data b hb]
  cases label with
  | none =>
    simp [parsed_edge, implicit_node, ir_flowchart_edge_data_create, strdup,
      c_str_identifier from_id hf, c_str_identifier b hb]
  | some l =>
    simp [parsed_edge, implicit_node, ir_flowchart_edge_data_create, ir_flowchart_edge_set_label,
      strdup, c_str_identifier from_id hf, c_str_identifier b hb, c_str_pipe_label l hl]

theorem node_exists_append (a b : List IRComponent) (id : List Char) :
    node_exists_in_children (a ++ b) id =
      (node_exists_in_children a id || node_exists_in_children b id) := by
  simp [node_exists_in_children_any, List.any_append]

/-- What follows a target identifier in a chain: the next link or the end of the line. -/
theorem chain_text_head (links : List ChainLink) (tail : List Char)
    (hok : ∀ l ∈ links, l.ok = true) (ht : tail = [] ∨ ∃ t, tail = '\n' :: t) :
    ends_identifier (chain_text links ++ tail) ∧
      is_shape_open (peek (skip_whitespace (chain_text links ++ tail))) = false ∧
      (links = [] → skip_whitespace (chain_text links ++ tail) = tail ∧
        is_edge_start (peek (skip_whitespace (chain_text links ++ tail))) = false) ∧
      (∀ l ls, links = l :: ls →
        skip_whitespace (chain_text links ++ tail) =
          l.operator.1 ++ (pipe_text l.label ++ (l.after ++ (l.id ++ (chain_text ls ++ tail)))) ∧
        is_edge_start (peek (skip_whitespace (chain_text links ++ tail))) = true ∧
        ∃ c rest, chain_text links ++ tail = c :: rest ∧ (c = ' ' ∨ c = '\t' ∨ c = '-' ∨ c = '=' ∨ c = '<')) := by
  cases links with
  | nil =>
    simp only [chain_text, List.nil_append]
    rcases ht with rfl | ⟨t, rfl⟩
    · exact ⟨Or.inl rfl, rfl, fun _ => ⟨rfl, rfl⟩, fun l ls h => absurd h.symm (List.cons_ne_nil _ _)⟩
    · exact ⟨Or.inr ⟨_, _, rfl, by decide⟩, rfl, fun _ => ⟨rfl, rfl⟩, fun l ls h => absurd h.symm (List.cons_ne_nil _ _)⟩
  | cons l ls =>
    obtain ⟨h1, hop, hl, h2, hb⟩ := link_ok_cases l (hok l (List.mem_cons_self _ _))
    have e : chain_text (l :: ls) ++ tail =
        l.before ++ (l.operator.1 ++ (pipe_text l.label ++ (l.after ++ (l.id ++ (chain_text ls ++ tail))))) := by
      simp only [chain_text, ChainLink.written, List.append_assoc]
    obtain ⟨e1, _, e3, e4, e5, e6⟩ := parse_edge_operator_op l.operator hop
      (pipe_text l.label ++ (l.after ++ (l.id ++ (chain_text ls ++ tail))))
    have hsw : skip_whitespace (chain_text (l :: ls) ++ tail) =
        l.operator.1 ++ (pipe_text l.label ++ (l.after ++ (l.id ++ (chain_text ls ++ tail)))) := by
      rw [e, skip_whitespace_blanks _ _ h1, e1]
    have hhead : ∃ c rest, chain_text (l :: ls) ++ tail = c :: rest ∧
        (c = ' ' ∨ c = '\t' ∨ c = '-' ∨ c = '=' ∨ c = '<') := by
      rw [e]
      cases hbef : l.before with
      | nil =>
        simp only [List.nil_append]
        simp only [edge_operators, List.mem_cons, List.mem_singleton, List.not_mem_nil,
          or_false] at hop
        rcases hop with h | h | h | h | h | h <;> rw [h] <;>
          exact ⟨_, _, rfl, by simp⟩
      | cons c cs =>
        rw [hbef] at h1
        simp only [is_blanks, List.all_cons, Bool.and_eq_true, Bool.or_eq_true, beq_iff_eq] at h1
        refine ⟨c, _, rfl, ?_⟩
        rcases h1.1 with h | h
        · exact Or.inl h
        · exact Or.inr (Or.inl h)
    refine ⟨?_, ?_, fun h => absurd h (List.cons_ne_nil _ _), ?_⟩
    · obtain ⟨c, rest, hc, hcc⟩ := hhead
      rw [hc]
      refine Or.inr ⟨c, rest, rfl, ?_⟩
      rcases hcc with rfl | rfl | rfl | rfl | rfl <;> decide
    · rw [hsw]; exact e4
    · intro l1 ls1 h
      cases h
      exact ⟨hsw, by rw [hsw]; exact e3, hhead⟩

/-- The links of a chain, read by `parse_edge` when no subgraph is open and the
targets are new and pairwise different. -/
theorem parse_chain : ∀ (links : List ChainLink) (n : Nat) (d : IRFlowchartDirection)
    (f : Flowchart) (from_id tail : List Char),
    is_identifier from_id = true → (∀ l ∈ links, l.ok = true) →
    (links.map (fun l => l.id)).Nodup →
    (∀ l ∈ links, node_exists_in_children f.children l.id = false) →
    links.length ≤ n → (tail = [] ∨ ∃ t, tail = '\n' :: t) →
    (if is_edge_start (peek (skip_whitespace (chain_text links ++ tail))) then
        parse_edge n { rest := skip_whitespace (chain_text links ++ tail), direction := d,
                       flowchart := f, subgraph_stack := [] } from_id
      else some { rest := skip_whitespace (chain_text links ++ tail), direction := d,
                  flowchart := f, subgraph_stack := [] }) =
      some { rest := tail, direction := d,
             flowchart := { f with children := f.children ++ chain_components from_id links },
             subgraph_stack := [] } := by
  intro links
  induction links with
  | nil =>
    intro n d f from_id tail _ _ _ _ _ ht
    obtain ⟨_, _, h3, _⟩ := chain_text_head [] tail (fun l h => by cases h) ht
    obtain ⟨e1, e2⟩ := h3 rfl
    rw [if_neg (by rw [e2]; simp), e1]
    simp [chain_components]
  | cons l ls ih =>
    intro n d f from_id tail hfrom hok hnd hnew hn ht
    obtain ⟨h1, hop, hl, h2, hb⟩ := link_ok_cases l (hok l (List.mem_cons_self _ _))
    obtain ⟨_, _, _, h4⟩ := chain_text_head (l :: ls) tail hok ht
    obtain ⟨e1, e2, _⟩ := h4 l ls rfl
    have hok2 : ∀ x ∈ ls, x.ok = true := fun x hx => hok x (List.mem_cons_of_mem _ hx)
    obtain ⟨t1, t2, _, _⟩ := chain_text_head ls tail hok2 ht
    rw [if_pos e2, e1]
    obtain ⟨m, rfl⟩ : ∃ m, n = m + 1 := ⟨n - 1, by simp only [List.length_cons] at hn; omega⟩
    have hlink := parse_edge_link m
      { rest := [], direction := d, flowchart := f, subgraph_stack := [] } from_id [] l.after l.id
      (chain_text ls ++ tail) l.operator hop l.label rfl h2 hl hb t1 t2
    simp only [List.nil_append] at hlink
    rw [hlink, add_edge_root_new _ d f from_id l.id l.operator.2 l.label
      (hnew l (List.mem_cons_self _ _)) hfrom hb hl]
    simp only [List.map_cons, List.nodup_cons, List.mem_map, not_exists, not_and] at hnd
    have hnew2 : ∀ x ∈ ls, node_exists_in_children
        (f.children ++ [IRComponent.FLOWCHART_NODE (implicit_node l.id),
          IRComponent.FLOWCHART_EDGE (parsed_edge from_id l.id l.operator.2 l.label)]) x.id
          = false := by
      intro x hx
      rw [node_exists_append, hnew x (List.mem_cons_of_mem _ hx)]
      have : ¬ l.id = x.id := fun e => hnd.1 x hx e.symm
      simp [node_exists_in_children, node_exists_in_child, implicit_node, this]
    have := ih m d
      { f with children := f.children ++ [IRComponent.FLOWCHART_NODE (implicit_node l.id),
          IRComponent.FLOWCHART_EDGE (parsed_edge from_id l.id l.operator.2 l.label)] }
      l.id tail hb hok2 hnd.2 hnew2 (by simp only [List.length_cons] at hn; omega) ht
    rw [this]
    simp [chain_components, List.append_assoc]

theorem chain_text_length (links : List ChainLink) (hok : ∀ l ∈ links, l.ok = true) :
    links.length ≤ (chain_text links).length := by
  induction links with
  | nil => simp
  | cons l ls ih =>
    obtain ⟨_, hop, _, _, _⟩ := link_ok_cases l (hok l (List.mem_cons_self _ _))
    obtain ⟨_, _, _, _, _, h6⟩ := parse_edge_operator_op l.operator hop []
    have := ih (fun x hx => hok x (List.mem_cons_of_mem _ hx))
    simp only [chain_text, ChainLink.written, List.length_append, List.length_cons]
    omega

theorem implicit_node_eq (a : List Char) (ha : is_identifier a = true) :
    ir_flowchart_node (some a) IRFlowchartShape.RECTANGLE (some a) =
      IRComponent.FLOWCHART_NODE (implicit_node a) :=
  implicit_node_data a ha

/-- A chain statement on a line of its own, read by `parse_line` when no
subgraph is open and the identifiers are new and pairwise different. -/
theorem parse_line_chain (n0 : List Char) (links : List ChainLink) (d : IRFlowchartDirection)
    (f : Flowchart) (tail : List Char) (h0 : is_identifier n0 = true)
    (hk : ∀ kw ∈ statement_keywords, begins_with_ci kw n0 = false)
    (hne : links ≠ []) (hok : ∀ l ∈ links, l.ok = true)
    (hnd : (n0 :: links.map (fun l => l.id)).Nodup)
    (hnew0 : node_exists_in_children f.children n0 = false)
    (hnew : ∀ l ∈ links, node_exists_in_children f.children l.id = false)
    (ht : tail = [] ∨ ∃ t, tail = '\n' :: t) :
    parse_line { rest := n0 ++ (chain_text links ++ tail), direction := d, flowchart := f,
                 subgraph_stack := [] } =
      some { rest := tail, direction := d,
             flowchart := { f with children := f.children ++
               IRComponent.FLOWCHART_NODE (implicit_node n0) :: chain_components n0 links },
             subgraph_stack := [] } := by
  obtain ⟨l, ls, rfl⟩ := List.exists_cons_of_ne_nil hne
  obtain ⟨c, cs, hae, hc, hcs⟩ := is_identifier_cons n0 h0
  obtain ⟨t1, t2, _, t4⟩ := chain_text_head (l :: ls) tail hok ht
  obtain ⟨e1, e2, x, xs, hx, hxc⟩ := t4 l ls rfl
  have sw : skip_whitespace (n0 ++ (chain_text (l :: ls) ++ tail)) =
      n0 ++ (chain_text (l :: ls) ++ tail) := by
    rw [hae]; exact skip_whitespace_start c _ hc
  have hpeek : peek (n0 ++ (chain_text (l :: ls) ++ tail)) = c := by rw [hae]; rfl
  have hend : is_at_end (n0 ++ (chain_text (l :: ls) ++ tail)) = false := by rw [hae]; rfl
  have hnl : (c == '\n') = false := by
    simpa using identifier_start_ne c '\n' hc (by decide)
  have hpc : (c == '%') = false := by
    simpa using identifier_start_ne c '%' hc (by decide)
  have kw : ∀ k ∈ statement_keywords,
      (match_case_insensitive (n0 ++ (chain_text (l :: ls) ++ tail)) k).1 = false := by
    intro k hkm
    rw [hx]
    have hd : tolower x ∉ k.map tolower := by
      rcases hxc with rfl | rfl | rfl | rfl | rfl <;> revert k <;> decide
    exact keyword_not_matched n0 _ k x (hk k hkm) hd
  have k1 := kw "subgraph".toList (by decide)
  have k2 := kw "end".toList (by decide)
  have k3 := kw "style".toList (by decide)
  have k4 := kw "classDef".toList (by decide)
  have k5 := kw "class".toList (by decide)
  have k6 := kw "linkStyle".toList (by decide)
  have hid : parse_identifier (n0 ++ (chain_text (l :: ls) ++ tail)) =
      (some n0, chain_text (l :: ls) ++ tail) := parse_identifier_append n0 _ h0 t1
  unfold parse_line
  simp only [sw, hpeek, hend, hnl, hpc, k1, k2, k3, k4, k5, k6, Bool.or_self,
    Bool.false_eq_true, if_false]
  unfold parse_node_statement
  simp only [hid, t2, e2, Bool.false_eq_true, if_false, if_true]
  simp only [ensure_implicit_node, node_already_exists_root, hnew0, Bool.false_eq_true, if_false,
    add_to_current_root, implicit_node_eq n0 h0]
  simp only [List.nodup_cons, List.mem_map, not_exists, not_and] at hnd
  have hnew2 : ∀ y ∈ l :: ls, node_exists_in_children
      (f.children ++ [IRComponent.FLOWCHART_NODE (implicit_node n0)]) y.id = false := by
    intro y hy
    rw [node_exists_append, hnew y hy]
    have : ¬ n0 = y.id := fun e => hnd.1 y hy e.symm
    simp [node_exists_in_children, node_exists_in_child, implicit_node, this]
  have hlen : (l :: ls).length ≤ (skip_whitespace (chain_text (l :: ls) ++ tail)).length + 1 := by
    rw [e1]
    have h1 := chain_text_length ls (fun y hy => hok y (List.mem_cons_of_mem _ hy))
    simp only [List.length_append, List.length_cons]
    omega
  have := parse_chain (l :: ls) ((skip_whitespace (chain_text (l :: ls) ++ tail)).length + 1) d
    { f with children := f.children ++ [IRComponent.FLOWCHART_NODE (implicit_node n0)] }
    n0 tail h0 hok hnd.2 hnew2 hlen ht
  rw [if_pos e2] at this
  rw [this]
  simp [List.append_assoc]

theorem finalize_fold_nodes (cs : List IRComponent) :
    ∀ f : Flowchart, (cs.foldl finalize_child f).state.nodes = f.state.nodes ++ root_nodes cs := by
  induction cs with
  | nil => intro f; simp [root_nodes]
  | cons c cs ih =>
    intro f
    simp only [List.foldl_cons]
    rw [ih]
    cases c with
    | FLOWCHART_NODE d =>
      simp [finalize_child, ir_flowchart_register_node, root_nodes, List.filterMap_cons, node_record]
    | FLOWCHART_EDGE e =>
      simp [finalize_child, ir_flowchart_register_edge, root_nodes, List.filterMap_cons, node_record]
    | FLOWCHART_SUBGRAPH d ch =>
      simp [finalize_child, ir_flowchart_register_subgraph, root_nodes, List.filterMap_cons,
        node_record]

theorem finalize_children (f : Flowchart) : (ir_flowchart_finalize f).children = f.children :=
  (finalize_fold f.children f).1

theorem finalize_node_registry (f : Flowchart) :
    (ir_flowchart_finalize f).state.nodes = f.state.nodes ++ root_nodes f.children := by
  unfold ir_flowchart_finalize
  exact finalize_fold_nodes f.children f

theorem chain_components_registries (from_id : List Char) (links : List ChainLink) :
    root_nodes (chain_components from_id links) = links.map (fun l => implicit_node l.id) ∧
      root_edges (chain_components from_id links) = chain_edges from_id links := by
  induction links generalizing from_id with
  | nil => exact ⟨rfl, rfl⟩
  | cons l ls ih =>
    obtain ⟨a, b⟩ := ih l.id
    simp only [root_nodes, root_edges] at a b ⊢
    simp [chain_components, chain_edges, List.filterMap_cons, node_record, edge_record, a, b]

/-- The main loop on a text whose first statement is the last one and is read
to the end of the text. -/
theorem parse_body_last_line (fuel : Nat) (p p1 : FlowchartParser) (stmt : List Char)
    (hs : skip_whitespace_and_newlines p.rest = stmt) (hne : is_at_end stmt = false)
    (hl : parse_line { p with rest := stmt } = some p1) (h1 : p1.rest = []) :
    parse_body (fuel + 2) p = some p1 := by
  have hp : ¬ (is_at_end p.rest = true) := by
    intro h
    have : p.rest = [] := by simpa [is_at_end] using h
    rw [this] at hs
    rw [← hs] at hne
    exact absurd hne (by simp [skip_whitespace_and_newlines, skip_whitespace_and_newlines_loop,
      is_at_end])
  rw [parse_body, if_neg hp]
  dsimp only
  rw [hs, if_pos (by rw [hne]; rfl), hl]
  dsimp only
  rw [parse_body, h1]
  have : is_at_end ({ p1 with rest := skip_to_eol [] } : FlowchartParser).rest = true := rfl
  rw [if_pos this]
  obtain ⟨r, d, f, st⟩ := p1
  simp only at h1
  subst h1
  rfl

/-- A chain statement as the only line of the body. -/
theorem parse_chain_flowchart (n0 : List Char) (links : List ChainLink)
    (h0 : is_identifier n0 = true)
    (hk : ∀ kw ∈ statement_keywords, begins_with_ci kw n0 = false)
    (hne : links ≠ []) (hok : ∀ l ∈ links, l.ok = true)
    (hnd : (n0 :: links.map (fun l => l.id)).Nodup) :
    ∃ fc : Flowchart,
      ir_flowchart_parse ("flowchart TB\n".toList ++ (n0 ++ chain_text links)) = some (some fc) ∧
      fc.children = IRComponent.FLOWCHART_NODE (implicit_node n0) :: chain_components n0 links ∧
      fc.state.nodes = implicit_node n0 :: links.map (fun l => implicit_node l.id) ∧
      fc.state.edges = chain_edges n0 links := by
  obtain ⟨c, cs, hae, hc, hcs⟩ := is_identifier_cons n0 h0
  have hline := parse_line_chain n0 links IRFlowchartDirection.TB
    (ir_flowchart IRFlowchartDirection.TB) [] h0 hk hne hok hnd rfl (fun _ _ => rfl) (Or.inl rfl)
  simp only [List.append_nil] at hline
  have e1 : skip_whitespace_and_newlines ('\n' :: (n0 ++ chain_text links))
      = n0 ++ chain_text links := by
    have : skip_whitespace_and_newlines ('\n' :: (n0 ++ chain_text links))
        = skip_whitespace_and_newlines (n0 ++ chain_text links) := rfl
    rw [this, hae]
    exact skip_whitespace_and_newlines_start c _ hc
  have hend : is_at_end (n0 ++ chain_text links) = false := by rw [hae]; rfl
  have hlen : ("flowchart TB\n".toList ++ (n0 ++ chain_text links)).length + 1
      = (n0 ++ chain_text links).length + 12 + 2 := by
    simp only [List.length_append]
    have : "flowchart TB\n".toList.length = 13 := rfl
    omega
  have hne0 : (("flowchart TB\n".toList ++ (n0 ++ chain_text links)).length == 0) = false := rfl
  unfold ir_flowchart_parse ir_flowchart_parse_fuel
  rw [hlen]
  simp only [hne0, Bool.false_eq_true, if_false, parse_header_flowchart_TB]
  have hbody := parse_body_last_line ((n0 ++ chain_text links).length + 12)
    { rest := '\n' :: (n0 ++ chain_text links), direction := IRFlowchartDirection.TB,
      flowchart := ir_flowchart IRFlowchartDirection.TB, subgraph_stack := [] } _
    (n0 ++ chain_text links) e1 hend hline rfl
  rw [hbody]
  refine ⟨_, rfl, ?_, ?_, ?_⟩
  · rw [finalize_children]
    rfl
  · rw [finalize_node_registry]
    have := (chain_components_registries n0 links).1
    simp only [root_nodes] at this ⊢
    simp [ir_flowchart, ir_flowchart_create_state, List.filterMap_cons, node_record, this]
  · rw [finalize_edge_registry]
    have := (chain_components_registries n0 links).2
    simp only [root_edges] at this ⊢
    simp [ir_flowchart, ir_flowchart_create_state, List.filterMap_cons, edge_record, this]

/-- C22: each of the operators `<-->`, `-.->`, `-..->`, `==>`, `-->`, `---` is
read as itself with its edge type and without a label, whatever follows it; and
for identifiers `a` and `b` that differ, `a` not beginning (in any letter case)
with a statement keyword, parsing `flowchart TB`, newline, `a OP b` (with any
spaces or tabs, or none, around the operator) yields exactly the nodes a and b,
both rectangles labelled with their id, and exactly one edge, from a to b, of
the type of the operator, without label. -/
theorem edge_operator_gives_type (a b before after : List Char)
    (op : List Char × IRFlowchartEdgeType) (hop : op ∈ edge_operators)
    (ha : is_identifier a = true) (hb : is_identifier b = true) (hab : a ≠ b)
    (hk : ∀ kw ∈ statement_keywords, begins_with_ci kw a = false)
    (h1 : is_blanks before = true) (h2 : is_blanks after = true) :
    (∀ rest, parse_edge_operator (op.1 ++ rest) = some (op.2, none, rest)) ∧
    ∃ fc : Flowchart,
      ir_flowchart_parse ("flowchart TB\n".toList ++ (a ++ (before ++ (op.1 ++ (after ++ b)))))
        = some (some fc) ∧
      fc.state.nodes = [implicit_node a, implicit_node b] ∧
      fc.state.edges = [parsed_edge a b op.2 none] := by
  refine ⟨fun rest => (parse_edge_operator_op op hop rest).2.1, ?_⟩
  have hok : ∀ l ∈ [({ before := before, operator := op, label := none, after := after, id := b } :
      ChainLink)], l.ok = true := by
    intro l hl
    simp only [List.mem_singleton] at hl
    subst hl
    simp [ChainLink.ok, h1, h2, hb, hop, is_pipe_label]
  obtain ⟨fc, hp, _, hn, he⟩ := parse_chain_flowchart a
    [{ before := before, operator := op, label := none, after := after, id := b }] ha hk
    (by simp) hok (by simp [hab])
  have e : chain_text
      [({ before := before, operator := op, label := none, after := after, id := b } : ChainLink)]
      = before ++ (op.1 ++ (after ++ b)) := by
    simp [chain_text, ChainLink.written, pipe_text]
  rw [e] at hp
  exact ⟨fc, hp, hn, he⟩

/-- C22 at `flowchart TB / A <--> B`: one bidirectional edge from A to B. -/
theorem edge_operator_gives_type_witness :
    (∀ rest, parse_edge_operator ("<-->".toList ++ rest) =
        some (IRFlowchartEdgeType.BIDIRECTIONAL, none, rest)) ∧
    ∃ fc : Flowchart,
      ir_flowchart_parse "flowchart TB\nA <--> B".toList = some (some fc) ∧
      fc.state.nodes = [implicit_node "A".toList, implicit_node "B".toList] ∧
      fc.state.edges =
        [parsed_edge "A".toList "B".toList IRFlowchartEdgeType.BIDIRECTIONAL none] :=
  edge_operator_gives_type "A".toList "B".toList " ".toList " ".toList
    ("<-->".toList, IRFlowchartEdgeType.BIDIRECTIONAL) (by decide) (by decide) (by decide)
    (by decide) (by decide) (by decide) (by decide)

/-- C24: for a chain `n0 OP n1 OP ... OP nk` on one line (k at least 1, every
operator being `-->` or another edge operator, with or without a `|label|`
directly after it and with any spaces or tabs around it) of identifiers that are
pairwise different, `n0` not beginning with a statement keyword, parsing
`flowchart TB`, newline and the chain yields exactly the nodes n0, ..., nk in
this order and exactly k edges in source order, the i-th from n(i-1) to n(i) with
the label written after the i-th operator and none when there is none.  The
chain of Scenario 2 gives two edges, only the second labelled yes. -/
theorem chain_gives_edges_in_order (n0 : List Char) (links : List ChainLink)
    (h0 : is_identifier n0 = true)
    (hk : ∀ kw ∈ statement_keywords, begins_with_ci kw n0 = false)
    (hne : links ≠ []) (hok : ∀ l ∈ links, l.ok = true)
    (hnd : (n0 :: links.map (fun l => l.id)).Nodup) :
    (∃ fc : Flowchart,
      ir_flowchart_parse ("flowchart TB\n".toList ++ (n0 ++ chain_text links)) = some (some fc) ∧
      fc.state.nodes = implicit_node n0 :: links.map (fun l => implicit_node l.id) ∧
      fc.state.edges = chain_edges n0 links ∧
      fc.state.edges.length = links.length ∧
      fc.state.edges.map (fun e => e.label) = links.map (fun l => l.label)) ∧
    ∃ fc : Flowchart,
      ir_flowchart_parse "flowchart LR\nA[Start]-->B{Decision}-->|yes|C((End))".toList
        = some (some fc) ∧
      fc.state.nodes.map (fun n => n.node_id) =
        [some "A".toList, some "B".toList, some "C".toList] ∧
      fc.state.edges.map (fun e => (e.from_id, e.to_id, e.type, e.label)) =
        [(some "A".toList, some "B".toList, IRFlowchartEdgeType.ARROW, none),
         (some "B".toList, some "C".toList, IRFlowchartEdgeType.ARROW, some "yes".toList)] := by
  have hlab : ∀ (ls : List ChainLink) (f : List Char),
      (chain_edges f ls).map (fun e => e.label) = ls.map (fun l => l.label) ∧
        (chain_edges f ls).length = ls.length := by
    intro ls
    induction ls with
    | nil => intro f; exact ⟨rfl, rfl⟩
    | cons l ls ih =>
      intro f
      obtain ⟨a, b⟩ := ih l.id
      simp [chain_edges, parsed_edge, a, b]
  constructor
  · obtain ⟨fc, hp, _, hn, he⟩ := parse_chain_flowchart n0 links h0 hk hne hok hnd
    refine ⟨fc, hp, hn, he, ?_, ?_⟩
    · rw [he]; exact (hlab links n0).2
    · rw [he]; exact (hlab links n0).1
  · refine ⟨_, rfl, ?_, ?_⟩
    · decide!
    · decide!

/-- C24 at `flowchart TB / A --> B -->|no| C`: the nodes A, B, C and the edges A
to B without label and B to C labelled no. -/
theorem chain_gives_edges_in_order_witness :
    ∃ fc : Flowchart,
      ir_flowchart_parse "flowchart TB\nA --> B -->|no| C".toList = some (some fc) ∧
      fc.state.nodes =
        [implicit_node "A".toList, implicit_node "B".toList, implicit_node "C".toList] ∧
      fc.state.edges =
        [parsed_edge "A".toList "B".toList IRFlowchartEdgeType.ARROW none,
         parsed_edge "B".toList "C".toList IRFlowchartEdgeType.ARROW (some "no".toList)] ∧
      fc.state.edges.length = 2 ∧
      fc.state.edges.map (fun e => e.label) = [none, some "no".toList] :=
  (chain_gives_edges_in_order "A".toList
    [{ before := " ".toList, operator := ("-->".toList, IRFlowchartEdgeType.ARROW), label := none,
       after := " ".toList, id := "B".toList },
     { before := " ".toList, operator := ("-->".toList, IRFlowchartEdgeType.ARROW),
       label := some "no".toList, after := " ".toList, id := "C".toList }]
    (by decide) (by decide) (by simp) (by decide) (by decide)).1

/-! ## The inline label of an edge -/

/-- The label loop runs up to the arrow and steps over it. -/
theorem edge_label_scan_to_arrow (rest : List Char) : ∀ u : List Char,
    u.all (fun c => c != '-' && c != '\n') = true →
    edge_label_scan (u ++ ("-->".toList ++ rest)) = (u ++ "-->".toList, rest) := by
  intro u
  induction u with
  | nil =>
    intro _
    show edge_label_scan ('-' :: ('-' :: '>' :: rest)) = _
    rw [edge_label_scan]
    have : match_ ('-' :: ('-' :: '>' :: rest)) "-->".toList = (true, rest) :=
      match_succeeds "-->".toList rest
    simp only [this, if_true]
    rfl
  | cons c cs ih =>
    intro h
    simp only [List.all_cons, Bool.and_eq_true, bne_iff_ne, ne_eq] at h
    obtain ⟨⟨h1, h2⟩, h3⟩ := h
    have hc : ('-' == c) = false := by
      simpa using fun e : '-' = c => h1 e.symm
    have m1 : match_ (c :: (cs ++ ("-->".toList ++ rest))) "-->".toList
        = (false, c :: (cs ++ ("-->".toList ++ rest))) :=
      match_fails _ _ (by simp [strncmp_eq, List.isPrefixOf, hc])
    have m2 : match_ (c :: (cs ++ ("-->".toList ++ rest))) "--->".toList
        = (false, c :: (cs ++ ("-->".toList ++ rest))) :=
      match_fails _ _ (by simp [strncmp_eq, List.isPrefixOf, hc])
    have m3 : strncmp_eq (c :: (cs ++ ("-->".toList ++ rest))) "-->".toList = false := by
      simp [strncmp_eq, List.isPrefixOf, hc]
    have hnl : (c == '\n') = false := by simpa using h2
    rw [List.cons_append, edge_label_scan]
    simp only [m1, m2, m3, hnl, Bool.false_eq_true, if_false]
    rw [ih (by simpa [List.all_eq_true] using h3)]
    rfl

/-- The inline label that `parse_edge` reads ends with the arrow. -/
theorem parse_edge_operator_inline (t sp1 sp2 rest : List Char) (ht : is_inline_label t = true)
    (h1 : is_blanks sp1 = true) (h2 : is_blanks sp2 = true) :
    parse_edge_operator ("--".toList ++ (sp1 ++ (t ++ (sp2 ++ ("-->".toList ++ rest))))) =
      some (IRFlowchartEdgeType.ARROW, some (t ++ (sp2 ++ "-->".toList)),
        (match_ (skip_whitespace rest) "-->".toList).2) := by
  simp only [is_inline_label, Bool.and_eq_true, Bool.not_eq_true'] at ht
  obtain ⟨⟨hne, hall⟩, hhead⟩ := ht
  obtain ⟨a, as, rfl⟩ : ∃ a as, t = a :: as := by
    cases t with
    | nil => simp at hne
    | cons a as => exact ⟨a, as, rfl⟩
  have ha : a ≠ ' ' ∧ a ≠ '\t' ∧ a ≠ '=' ∧ a ≠ '.' ∧ a ≠ '>' := by
    simp only [List.headD_cons, List.contains_eq_any_beq, List.any_eq_false, beq_iff_eq] at hhead
    exact ⟨hhead ' ' (by decide), hhead '\t' (by decide), hhead '=' (by decide),
      hhead '.' (by decide), hhead '>' (by decide)⟩
  have hall2 := hall
  simp only [List.all_cons, Bool.and_eq_true, bne_iff_ne, ne_eq] at hall2
  have ha2 : a ≠ '-' := hall2.1.1
  -- the character that follows `--`
  obtain ⟨x, xs, hx, hx1, hx2⟩ : ∃ x xs, sp1 ++ (a :: as ++ (sp2 ++ ("-->".toList ++ rest))) = x :: xs ∧
      x ≠ '>' ∧ x ≠ '-' := by
    cases sp1 with
    | nil => exact ⟨a, _, rfl, ha.2.2.2.2, ha2⟩
    | cons b bs =>
      refine ⟨b, _, rfl, ?_, ?_⟩ <;>
        · simp only [is_blanks, List.all_cons, Bool.and_eq_true, Bool.or_eq_true, beq_iff_eq] at h1
          rcases h1.1 with e | e <;> rw [e] <;> decide
  have hsw : skip_whitespace (sp1 ++ (a :: as ++ (sp2 ++ ("-->".toList ++ rest)))) =
      a :: as ++ (sp2 ++ ("-->".toList ++ rest)) := by
    rw [skip_whitespace_blanks _ _ h1]
    exact List.dropWhile_cons_of_neg (by simp [ha.1, ha.2.1])
  have hscan : edge_label_scan (a :: as ++ (sp2 ++ ("-->".toList ++ rest))) =
      (a :: as ++ (sp2 ++ "-->".toList), rest) := by
    have := edge_label_scan_to_arrow rest (a :: as ++ sp2) (by
      rw [List.all_append, hall]
      simp only [Bool.true_and]
      rw [List.all_eq_true]
      intro c hc
      have := List.all_eq_true.mp h2 c hc
      simp only [Bool.or_eq_true, beq_iff_eq] at this
      rcases this with e | e <;> rw [e] <;> decide)
    simpa only [List.append_assoc] using this
  have htrim : trim_end (a :: as ++ (sp2 ++ "-->".toList)) = a :: as ++ (sp2 ++ "-->".toList) := by
    apply trim_end_plain
    · have : (a :: as ++ (sp2 ++ "-->".toList)) = (a :: as ++ (sp2 ++ "--".toList)) ++ ['>'] := by
        simp
      rw [this, List.getLastD_concat]
      decide
    · simp
  unfold parse_edge_operator
  rw [hx]
  have f1 := match_fails ("--".toList ++ x :: xs) "<-->".toList rfl
  have f2 := match_fails ("--".toList ++ x :: xs) "-.->".toList rfl
  have f3 := match_fails ("--".toList ++ x :: xs) "-..->".toList rfl
  have f4 := match_fails ("--".toList ++ x :: xs) "==>".toList rfl
  have f5 := match_fails ("--".toList ++ x :: xs) "-->".toList (by
    simp only [strncmp_eq, String.toList, List.cons_append, List.nil_append, List.isPrefixOf]
    simp
    exact fun e => hx1 e.symm)
  have f6 := match_fails ("--".toList ++ x :: xs) "---".toList (by
    simp only [strncmp_eq, String.toList, List.cons_append, List.nil_append, List.isPrefixOf]
    simp
    exact fun e => hx2 e.symm)
  have f7 := match_succeeds "--".toList (x :: xs)
  simp only [f1, f2, f3, f4, f5, f6, f7, Bool.false_eq_true, if_false, if_true]
  rw [← hx, hsw]
  have hp : (peek (a :: as ++ (sp2 ++ ("-->".toList ++ rest))) != '-' &&
      peek (a :: as ++ (sp2 ++ ("-->".toList ++ rest))) != '=' &&
      peek (a :: as ++ (sp2 ++ ("-->".toList ++ rest))) != '.') = true := by
    simp [peek, ha2, ha.2.2.1, ha.2.2.2.1]
  rw [if_pos hp]
  simp only [hscan, htrim]
  simp

/-- C23 (the code at failing inputs): for every inline label text `t` (not
empty, without dash or newline, not opening with a blank, `=`, `.` or `>`), the
label that `parse_edge` reads from `-- t -->` is `t` followed by the blanks and
the arrow `-->`: the loop condition consumes the arrow before the length of the
label is taken.  So `flowchart TB / A -- yes --> B` yields one arrow edge from A
to B whose label is `yes -->`, not `yes`. -/
theorem inline_label_includes_arrow :
    (∀ t sp1 sp2 rest : List Char, is_inline_label t = true → is_blanks sp1 = true →
      is_blanks sp2 = true →
      parse_edge_operator ("--".toList ++ (sp1 ++ (t ++ (sp2 ++ ("-->".toList ++ rest))))) =
        some (IRFlowchartEdgeType.ARROW, some (t ++ (sp2 ++ "-->".toList)),
          (match_ (skip_whitespace rest) "-->".toList).2)) ∧
    ∃ fc : Flowchart,
      ir_flowchart_parse "flowchart TB\nA -- yes --> B".toList = some (some fc) ∧
      fc.state.nodes.map (fun n => n.node_id) = [some "A".toList, some "B".toList] ∧
      fc.state.edges.map (fun e => (e.from_id, e.to_id, e.type, e.label)) =
        [(some "A".toList, some "B".toList, IRFlowchartEdgeType.ARROW,
          some "yes -->".toList)] := by
  refine ⟨fun t sp1 sp2 rest ht h1 h2 => parse_edge_operator_inline t sp1 sp2 rest ht h1 h2, ?_⟩
  refine ⟨_, rfl, ?_, ?_⟩
  · decide!
  · decide!

/-! ## Style lines -/

theorem add_to_current_state (p : FlowchartParser) (c : IRComponent) :
    (add_to_current p c).flowchart.state = p.flowchart.state := by
  unfold add_to_current
  split <;> rfl

theorem ensure_implicit_node_state (p : FlowchartParser) (id : List Char) :
    (ensure_implicit_node p id).flowchart.state = p.flowchart.state := by
  unfold ensure_implicit_node
  split
  · rfl
  · exact add_to_current_state _ _

theorem parse_node_definition_state (p : FlowchartParser) (id : List Char) :
    (parse_node_definition p id).flowchart.state = p.flowchart.state := by
  unfold parse_node_definition
  dsimp only
  split
  · rfl
  · exact add_to_current_state _ _

theorem add_edge_state (p : FlowchartParser) (a b : List Char) (t : IRFlowchartEdgeType)
    (l : Option (List Char)) : (add_edge p a b t l).flowchart.state = p.flowchart.state := by
  unfold add_edge
  dsimp only
  exact ensure_implicit_node_state _ _

theorem parse_target_definition_state (p : FlowchartParser) (id : List Char) :
    (parse_target_definition p id).flowchart.state = p.flowchart.state := by
  unfold parse_target_definition
  dsimp only
  split
  · exact parse_node_definition_state _ _
  · rfl

theorem parse_edge_state : ∀ (fuel : Nat) (p p1 : FlowchartParser) (from_id : List Char),
    parse_edge fuel p from_id = some p1 → p1.flowchart.state = p.flowchart.state := by
  intro fuel
  induction fuel with
  | zero => intro p p1 f h; simp [parse_edge] at h
  | succ n ih =>
    intro p p1 from_id h
    rw [parse_edge] at h
    dsimp only at h
    cases hop : parse_edge_operator (skip_whitespace p.rest) with
    | none =>
      rw [hop] at h
      simp only [Option.some.injEq] at h
      rw [← h]
    | some op =>
      rw [hop] at h
      dsimp only at h
      cases hid : (parse_identifier
          (skip_whitespace (parse_pipe_label op.2.1 (skip_whitespace op.2.2)).2)).1 with
      | none =>
        rw [hid] at h
        simp only [Option.some.injEq] at h
        rw [← h]
      | some to_id =>
        rw [hid] at h
        dsimp only at h
        have s1 := add_edge_state
          { p with rest := (parse_identifier
            (skip_whitespace (parse_pipe_label op.2.1 (skip_whitespace op.2.2)).2)).2 }
          from_id to_id op.1 (parse_pipe_label op.2.1 (skip_whitespace op.2.2)).1
        have s2 := parse_target_definition_state (add_edge
          { p with rest := (parse_identifier
            (skip_whitespace (parse_pipe_label op.2.1 (skip_whitespace op.2.2)).2)).2 }
          from_id to_id op.1 (parse_pipe_label op.2.1 (skip_whitespace op.2.2)).1) to_id
        have s12 := s2.trans s1
        split at h
        · have s3 := ih _ _ _ h
          exact s3.trans s12
        · simp only [Option.some.injEq] at h
          rw [← h]
          exact s12

theorem parse_subgraph_state (p : FlowchartParser) :
    (parse_subgraph p).flowchart.state = p.flowchart.state := by
  unfold parse_subgraph
  lift_lets
  intro idr tr subgraph p1 r1 m
  have a : p1.flowchart.state = p.flowchart.state := rfl
  clear_value m r1 p1 subgraph tr idr
  split
  · exact a
  · exact a

theorem update_found_node_nil (f : IRFlowchartNodeData → IRFlowchartNodeData) (id : List Char) :
    update_found_node f id [] = [] := rfl

theorem ite_registry (c : Prop) [Decidable c] (a b : FlowchartParser)
    (ha : a.flowchart.state.nodes = []) (hb : b.flowchart.state.nodes = []) :
    (if c then a else b).flowchart.state.nodes = [] := by
  split
  · exact ha
  · exact hb

/-- While the node registry is empty a property of a `style` line changes nothing in it. -/
theorem parse_style_property_registry (p : FlowchartParser) (id : List Char)
    (h : p.flowchart.state.nodes = []) :
    (parse_style_property p id).flowchart.state.nodes = [] := by
  have hs : ∀ (r : List Char) (f : IRFlowchartNodeData → IRFlowchartNodeData),
      (set_found_node { p with rest := r } id f).flowchart.state.nodes = [] := by
    intro r f
    unfold set_found_node
    dsimp only
    rw [h]
    rfl
  unfold parse_style_property
  lift_lets
  intros
  apply ite_registry
  · apply ite_registry
    · exact hs _ _
    · apply ite_registry
      · exact hs _ _
      · apply ite_registry
        · exact hs _ _
        · exact h
  · apply ite_registry
    · exact hs _ _
    · apply ite_registry
      · exact hs _ _
      · apply ite_registry
        · exact hs _ _
        · exact h

theorem parse_style_loop_registry : ∀ (fuel : Nat) (p p1 : FlowchartParser) (id : List Char),
    parse_style_loop fuel p id = some p1 → p.flowchart.state.nodes = [] →
    p1.flowchart.state.nodes = [] := by
  intro fuel
  induction fuel with
  | zero => intro p p1 _ h; simp [parse_style_loop] at h
  | succ fuel ih =>
    intro p p1 id h h0
    simp only [parse_style_loop] at h
    split at h
    · simp only [Option.some.injEq] at h
      subst h
      exact h0
    · exact ih _ p1 id h (parse_style_property_registry p id h0)

theorem parse_style_registry (p p1 : FlowchartParser) (h : parse_style p = some p1)
    (h0 : p.flowchart.state.nodes = []) : p1.flowchart.state.nodes = [] := by
  unfold parse_style at h
  dsimp only at h
  split at h
  · simp only [Option.some.injEq] at h
    subst h
    exact h0
  · exact parse_style_loop_registry _ _ p1 _ h h0

theorem parse_node_statement_state (p p1 : FlowchartParser)
    (h : parse_node_statement p = some p1) : p1.flowchart.state = p.flowchart.state := by
  unfold parse_node_statement at h
  dsimp only at h
  cases hid : (parse_identifier p.rest).1 with
  | none =>
    rw [hid] at h
    simp only [Option.some.injEq] at h
    subst h
    rfl
  | some id =>
    rw [hid] at h
    dsimp only at h
    split at h
    · have a := parse_node_definition_state
        { p with rest := skip_whitespace (parse_identifier p.rest).2 } id
      split at h
      · have b := parse_edge_state _ _ p1 id h
        exact b.trans a
      · simp only [Option.some.injEq] at h
        subst h
        exact a
    · split at h
      · have a := ensure_implicit_node_state
          { p with rest := skip_whitespace (parse_identifier p.rest).2 } id
        have b := parse_edge_state _ _ p1 id h
        exact b.trans a
      · split at h
        · have a := ensure_implicit_node_state
            { p with rest := skip_whitespace (parse_identifier p.rest).2 } id
          simp only [Option.some.injEq] at h
          subst h
          exact a
        · simp only [Option.some.injEq] at h
          subst h
          rfl

/-- A statement leaves an empty node registry empty. -/
theorem parse_line_registry (p p1 : FlowchartParser) (h : parse_line p = some p1)
    (h0 : p.flowchart.state.nodes = []) : p1.flowchart.state.nodes = [] := by
  unfold parse_line at h
  dsimp only at h
  have done : ∀ q : FlowchartParser, some q = some p1 →
      q.flowchart.state.nodes = [] → p1.flowchart.state.nodes = [] := by
    intro q e hq
    simp only [Option.some.injEq] at e
    subst e
    exact hq
  split at h
  · exact done _ h h0
  · split at h
    · exact done _ h h0
    · split at h
      · have a := parse_subgraph_state
          { p with rest := (match_case_insensitive (skip_whitespace p.rest) "subgraph".toList).2 }
        exact done _ h (by rw [a]; exact h0)
      · split at h
        · exact done _ h h0
        · split at h
          · exact parse_style_registry _ p1 h h0
          · split at h
            · exact done _ h h0
            · split at h
              · exact done _ h h0
              · split at h
                · exact done _ h h0
                · have a := parse_node_statement_state _ p1 h
                  rw [a]
                  exact h0

theorem parse_body_registry : ∀ (fuel : Nat) (p p1 : FlowchartParser),
    parse_body fuel p = some p1 → p.flowchart.state.nodes = [] →
    p1.flowchart.state.nodes = [] := by
  intro fuel
  induction fuel with
  | zero => intro p p1 h; simp [parse_body] at h
  | succ fuel ih =>
    intro p p1 h h0
    simp only [parse_body] at h
    split at h
    · simp only [Option.some.injEq] at h
      subst h
      exact h0
    · split at h
      · cases hl : parse_line { p with rest := skip_whitespace_and_newlines p.rest } with
        | none => rw [hl] at h; cases h
        | some p2 =>
          rw [hl] at h
          dsimp only at h
          exact ih _ p1 h (parse_line_registry _ p2 hl h0)
      · exact ih _ p1 h h0

/-- Every node that an elementary step leaves in the tree was there before or
is a node as `ir_flowchart_node` creates it. -/
theorem tree_step_styles (cs cs1 : List IRComponent) (h : tree_step cs cs1)
    (h0 : ∀ n ∈ tree_nodes cs, has_default_style n) :
    ∀ n ∈ tree_nodes cs1, has_default_style n := by
  rcases tree_step_nodes cs cs1 h with hp | ⟨id, d, _, _, hp⟩
  · intro n hn
    exact h0 n (hp.mem_iff.mp hn)
  · cases h with
    | add_node path id2 shape label hnew hid =>
      rcases add_child_nodes (ir_flowchart_node (some id2) shape label) path cs with hq | he
      · intro n hn
        have := hq.mem_iff.mp hn
        simp only [List.mem_append, component_nodes, ir_flowchart_node, List.mem_singleton] at this
        rcases this with h1 | h1
        · exact h0 n h1
        · rw [h1]
          exact ⟨rfl, rfl, rfl⟩
      · rw [he]; exact h0
    | add_edge e =>
      intro n hn
      rcases add_child_nodes (IRComponent.FLOWCHART_EDGE e) [] cs with hq | he
      · have := hq.mem_iff.mp hn
        simp only [List.mem_append, component_nodes, List.not_mem_nil, or_false] at this
        exact h0 n this
      · rw [he] at hn; exact h0 n hn
    | add_subgraph path d2 =>
      intro n hn
      rcases add_child_nodes (IRComponent.FLOWCHART_SUBGRAPH d2 []) path cs with hq | he
      · have := hq.mem_iff.mp hn
        simp only [List.mem_append, component_nodes, tree_nodes, List.not_mem_nil, or_false] at this
        exact h0 n this
      · rw [he] at hn; exact h0 n hn
    | set_direction path dir =>
      intro n hn
      exact h0 n ((set_direction_nodes dir path cs).mem_iff.mp hn)

theorem tree_steps_styles (cs cs1 : List IRComponent) (h : tree_steps cs cs1)
    (h0 : ∀ n ∈ tree_nodes cs, has_default_style n) :
    ∀ n ∈ tree_nodes cs1, has_default_style n := by
  induction h with
  | refl => exact h0
  | tail _ hstep ih => exact tree_step_styles _ _ hstep ih

theorem root_nodes_sub_tree (cs : List IRComponent) :
    ∀ n ∈ root_nodes cs, n ∈ tree_nodes cs := by
  induction cs with
  | nil => intro n hn; simp [root_nodes] at hn
  | cons c cs ih =>
    intro n hn
    rw [tree_nodes_cons]
    simp only [root_nodes, List.filterMap_cons] at hn
    cases c with
    | FLOWCHART_NODE d =>
      simp only [node_record, List.mem_cons] at hn
      rcases hn with h | h
      · simp [component_nodes, h]
      · exact List.mem_append_right _ (ih n h)
    | FLOWCHART_EDGE e =>
      simp only [node_record] at hn
      exact List.mem_append_right _ (ih n hn)
    | FLOWCHART_SUBGRAPH d ch =>
      simp only [node_record] at hn
      exact List.mem_append_right _ (ih n hn)

/-- C26 (the code at a failing input): `parse_style` looks the node up in the
node registry, which `ir_flowchart_finalize` fills only after the whole body is
parsed; every statement leaves the empty registry empty, so after parsing any
input every node, registered or in the tree, has the style that
`ir_flowchart_node_data_create` gave it.  Parsing `flowchart TB / A[x] /
style A fill:#ff0000` yields the node A with fill colour 0xFFFFFFFF, not
0xFF0000FF; the same `style` line read with the finalized flowchart, whose
registry holds A, does set 0xFF0000FF. -/
theorem style_line_changes_nothing :
    (∀ (source : List Char) (fc : Flowchart), ir_flowchart_parse source = some (some fc) →
      (∀ n ∈ fc.state.nodes, has_default_style n) ∧
      ∀ n ∈ tree_nodes fc.children, has_default_style n) ∧
    (∀ p p1 : FlowchartParser, parse_line p = some p1 → p.flowchart.state.nodes = [] →
      p1.flowchart.state.nodes = []) ∧
    ∃ fc : Flowchart,
      ir_flowchart_parse "flowchart TB\nA[x]\nstyle A fill:#ff0000".toList = some (some fc) ∧
      fc.state.nodes.map (fun n => (n.node_id, n.label, n.fill_color)) =
        [(some "A".toList, some "x".toList, 0xFFFFFFFF)] ∧
      (tree_nodes fc.children).map (fun n => (n.node_id, n.label, n.fill_color)) =
        [(some "A".toList, some "x".toList, 0xFFFFFFFF)] ∧
      (parse_line { rest := "style A fill:#ff0000".toList, flowchart := fc }).map
          (fun p => p.flowchart.state.nodes.map (fun n => (n.node_id, n.fill_color))) =
        some [(some "A".toList, 0xFF0000FF)] := by
  refine ⟨?_, parse_line_registry, ?_⟩
  · intro source fc h
    unfold ir_flowchart_parse ir_flowchart_parse_fuel at h
    split at h
    · cases h
    · split at h
      · cases h
      · next hd _ =>
        split at h
        · cases h
        · next p hp =>
          simp only [Option.some.injEq] at h
          subst h
          have hs := parse_body_steps _ _ p hp
          have hr := parse_body_registry _ _ p hp rfl
          have ht := tree_steps_styles _ _ hs (fun n hn => by cases hn)
          have e : (ir_flowchart_finalize p.flowchart).children = p.flowchart.children :=
            (finalize_fold p.flowchart.children p.flowchart).1
          refine ⟨?_, by rw [e]; exact ht⟩
          intro n hn
          rw [finalize_node_registry, hr, List.nil_append] at hn
          exact ht n (root_nodes_sub_tree _ n hn)
  · refine ⟨_, rfl, ?_, ?_, ?_⟩
    · decide!
    · decide!
    · decide!

/-! ## The direction of a subgraph -/

/-- A word in any letter case is matched, and the cursor moves past it. -/
theorem match_case_insensitive_word (w word tail : List Char) (h : spells w word = true) :
    match_case_insensitive (w ++ tail) word = (true, tail) := by
  simp only [spells, beq_iff_eq] at h
  have hlen : w.length = word.length := by
    have := congrArg List.length h
    simpa using this
  unfold match_case_insensitive
  rw [if_neg (by simp only [List.length_append]; omega)]
  have e1 : strncasecmp_eq (w ++ tail) word = true := by
    unfold strncasecmp_eq
    rw [← hlen, List.take_left' rfl, h]
    simp
  rw [e1]
  simp only [if_true, ← hlen, List.drop_left' rfl]

theorem direction_word_matched (w tail : List Char) (entry : List Char × IRFlowchartDirection)
    (he : entry ∈ direction_words) (h : spells w entry.1 = true) :
    match_direction (w ++ tail) = (some entry.2, tail) := by
  have cut : ∀ a b : Char, w.map tolower = [a, b] → ∃ c1 c2, w = [c1, c2] ∧ tolower c1 = a ∧
      tolower c2 = b := by
    intro a b hw
    rcases w with _ | ⟨c1, _ | ⟨c2, _ | ⟨c3, w⟩⟩⟩ <;>
      simp only [List.map_cons, List.map_nil, List.cons.injEq, and_true, reduceCtorEq,
        and_false, false_and] at hw
    exact ⟨c1, c2, rfl, hw.1, hw.2⟩
  have fails : ∀ (c1 c2 a b : Char) (word : List Char), tolower c1 = a → tolower c2 = b →
      ([a, b] == word.map tolower) = false → word.length = 2 →
      match_case_insensitive ([c1, c2] ++ tail) word = (false, [c1, c2] ++ tail) := by
    intro c1 c2 a b word h1 h2 hne hl
    unfold match_case_insensitive
    rw [if_neg (by simp only [List.length_append, List.length_cons, List.length_nil]; omega)]
    have : strncasecmp_eq ([c1, c2] ++ tail) word = false := by
      rw [strncasecmp_eq_map]
      rcases word with _ | ⟨x, _ | ⟨y, _ | ⟨z, word⟩⟩⟩ <;> simp at hl
      simp only [List.map_cons, List.map_nil, List.cons_append, List.nil_append, h1, h2,
        List.isPrefixOf, Bool.and_true] at hne ⊢
      simp only [beq_eq_false_iff_ne, ne_eq, List.cons.injEq, and_true, not_and] at hne
      rw [Bool.eq_false_iff]
      intro hh
      simp only [Bool.and_eq_true, beq_iff_eq] at hh
      exact hne hh.1.symm hh.2.symm
    rw [this]
    rfl
  simp only [direction_words, List.mem_cons, List.mem_singleton, List.not_mem_nil, or_false] at he
  simp only [spells, beq_iff_eq] at h
  rcases he with rfl | rfl | rfl | rfl | rfl
  · unfold match_direction
    rw [match_case_insensitive_word w "TB".toList tail (by simpa [spells] using h)]
    rfl
  · obtain ⟨c1, c2, rfl, h1, h2⟩ := cut 't' 'd' h
    unfold match_direction
    rw [fails c1 c2 't' 'd' "TB".toList h1 h2 (by decide) rfl]
    rw [match_case_insensitive_word [c1, c2] "TD".toList tail (by simpa [spells] using h)]
    rfl
  · obtain ⟨c1, c2, rfl, h1, h2⟩ := cut 'l' 'r' h
    unfold match_direction
    rw [fails c1 c2 'l' 'r' "TB".toList h1 h2 (by decide) rfl,
      fails c1 c2 'l' 'r' "TD".toList h1 h2 (by decide) rfl,
      match_case_insensitive_word [c1, c2] "LR".toList tail (by simpa [spells] using h)]
    rfl
  · obtain ⟨c1, c2, rfl, h1, h2⟩ := cut 'b' 't' h
    unfold match_direction
    rw [fails c1 c2 'b' 't' "TB".toList h1 h2 (by decide) rfl,
      fails c1 c2 'b' 't' "TD".toList h1 h2 (by decide) rfl,
      fails c1 c2 'b' 't' "LR".toList h1 h2 (by decide) rfl,
      match_case_insensitive_word [c1, c2] "BT".toList tail (by simpa [spells] using h)]
    rfl
  · obtain ⟨c1, c2, rfl, h1, h2⟩ := cut 'r' 'l' h
    unfold match_direction
    rw [fails c1 c2 'r' 'l' "TB".toList h1 h2 (by decide) rfl,
      fails c1 c2 'r' 'l' "TD".toList h1 h2 (by decide) rfl,
      fails c1 c2 'r' 'l' "LR".toList h1 h2 (by decide) rfl,
      fails c1 c2 'r' 'l' "BT".toList h1 h2 (by decide) rfl,
      match_case_insensitive_word [c1, c2] "RL".toList tail (by simpa [spells] using h)]
    rfl

theorem set_direction_at_step (i j : Nat) (q : List Nat) (dir : IRFlowchartDirection)
    (cs ch : List IRComponent) (d : IRFlowchartSubgraphData)
    (h : cs[i]? = some (IRComponent.FLOWCHART_SUBGRAPH d ch)) :
    set_direction_at (i :: j :: q) dir cs =
      cs.set i (IRComponent.FLOWCHART_SUBGRAPH d (set_direction_at (j :: q) dir ch)) := by
  rw [set_direction_at]
  simp only [h]

theorem subgraph_data_at_step (i j : Nat) (q : List Nat) (cs ch : List IRComponent)
    (d : IRFlowchartSubgraphData) (h : cs[i]? = some (IRComponent.FLOWCHART_SUBGRAPH d ch)) :
    subgraph_data_at (i :: j :: q) cs = subgraph_data_at (j :: q) ch := by
  rw [subgraph_data_at]
  simp only [h]

theorem append_one_cons (path : List Nat) (n : Nat) : ∃ j q, path ++ [n] = j :: q := by
  cases path with
  | nil => exact ⟨n, [], rfl⟩
  | cons j q => exact ⟨j, q ++ [n], rfl⟩

/-- Setting the direction of the subgraph just added under a parent gives the
tree in which the subgraph was added with that direction. -/
theorem set_direction_new_child (d : IRFlowchartSubgraphData) (dir : IRFlowchartDirection) :
    ∀ (parent : List Nat) (cs ch : List IRComponent), children_at parent cs = some ch →
      set_direction_at (parent ++ [ch.length]) dir
          (add_child_at parent (IRComponent.FLOWCHART_SUBGRAPH d []) cs) =
        add_child_at parent (IRComponent.FLOWCHART_SUBGRAPH { d with direction := dir } []) cs := by
  intro parent
  induction parent with
  | nil =>
    intro cs ch h
    simp only [children_at, Option.some.injEq] at h
    subst h
    simp [set_direction_at, add_child_at]
  | cons i path ih =>
    intro cs ch h
    simp only [children_at] at h
    split at h
    · next d2 ch2 hget =>
      have hlt : i < cs.length := by
        by_contra hc
        rw [List.getElem?_eq_none (by omega)] at hget
        exact Option.noConfusion hget
      have hih := ih ch2 ch h
      obtain ⟨j, q, e⟩ := append_one_cons path ch.length
      rw [e] at hih
      simp only [add_child_at, hget, List.cons_append]
      rw [e, set_direction_at_step i j q dir _ _ d2 (List.getElem?_set_self hlt), hih,
        List.set_set]
    · cases h

/-- The record of the subgraph just added under a parent. -/
theorem subgraph_data_new_child (d : IRFlowchartSubgraphData) :
    ∀ (parent : List Nat) (cs ch : List IRComponent), children_at parent cs = some ch →
      subgraph_data_at (parent ++ [ch.length])
          (add_child_at parent (IRComponent.FLOWCHART_SUBGRAPH d []) cs) = some d := by
  intro parent
  induction parent with
  | nil =>
    intro cs ch h
    simp only [children_at, Option.some.injEq] at h
    subst h
    simp [subgraph_data_at, add_child_at]
  | cons i path ih =>
    intro cs ch h
    simp only [children_at] at h
    split at h
    · next d2 ch2 hget =>
      have hlt : i < cs.length := by
        by_contra hc
        rw [List.getElem?_eq_none (by omega)] at hget
        exact Option.noConfusion hget
      have hih := ih ch2 ch h
      obtain ⟨j, q, e⟩ := append_one_cons path ch.length
      rw [e] at hih
      simp only [add_child_at, hget, List.cons_append]
      rw [e, subgraph_data_at_step i j q _ _ d2 (List.getElem?_set_self hlt), hih]
    · cases h

/-- Adding a child leaves the record of every subgraph of the tree as it is. -/
theorem add_child_keeps_subgraph_data (c : IRComponent) :
    ∀ (q parent : List Nat) (cs : List IRComponent) (d : IRFlowchartSubgraphData),
      subgraph_data_at q cs = some d → subgraph_data_at q (add_child_at parent c cs) = some d := by
  intro q
  induction q with
  | nil => intro parent cs d h; simp [subgraph_data_at] at h
  | cons j q ih =>
    intro parent cs d h
    cases parent with
    | nil =>
      simp only [subgraph_data_at] at h ⊢
      have hj : j < cs.length := by
        by_contra hc
        rw [List.getElem?_eq_none (by omega)] at h
        simp at h
      simp only [add_child_at, List.getElem?_append_left hj]
      exact h
    | cons i path =>
      simp only [add_child_at]
      split
      · next d2 ch2 hget =>
        by_cases e : i = j
        · subst e
          have hlt : i < cs.length := by
            by_contra hc
            rw [List.getElem?_eq_none (by omega)] at hget
            exact Option.noConfusion hget
          cases q with
          | nil =>
            simp only [subgraph_data_at, hget, List.getElem?_set_self hlt] at h ⊢
            exact h
          | cons k q2 =>
            rw [subgraph_data_at_step i k q2 _ _ d2 hget] at h
            rw [subgraph_data_at_step i k q2 _ _ d2 (List.getElem?_set_self hlt)]
            exact ih path ch2 d h
        · simp only [subgraph_data_at] at h ⊢
          rw [List.getElem?_set_ne e]
          exact h
      · exact h

theorem skip_whitespace_and_newlines_blanks (bl x : List Char) (h : is_blanks bl = true) :
    skip_whitespace_and_newlines (bl ++ x) = skip_whitespace_and_newlines x := by
  induction bl with
  | nil => rfl
  | cons c cs ih =>
    simp only [is_blanks, List.all_cons, Bool.and_eq_true] at h
    have := ih h.2
    unfold skip_whitespace_and_newlines at this ⊢
    rw [List.cons_append, skip_whitespace_and_newlines_loop]
    simp only [h.1, if_true]
    exact this

theorem spells_letter (c : Char) (cs word : List Char) (x : Char) (xs : List Char)
    (hw : word = x :: xs) (hx : isalpha x = true) (h : spells (c :: cs) word = true) :
    isalpha c = true := by
  subst hw
  simp only [spells, List.map_cons, beq_iff_eq, List.cons.injEq] at h
  by_contra hc
  have hc2 : isalpha c = false := by simpa using hc
  rw [tolower_not_alpha c hc2] at h
  have hx2 : isalpha (tolower x) = true := by
    unfold tolower
    split
    · next hu =>
      simp only [isupper, Bool.and_eq_true, decide_eq_true_eq] at hu
      have := tolower_upper_islower x.toNat (by omega) hu.1
      simp [isalpha, this]
    · exact hx
  rw [← h.1, hc2] at hx2
  exact absurd hx2 (by simp)

/-- What `open_subgraph` does: it adds an empty subgraph with the id under the
open subgraph (under the root when none is open) and pushes it on the stack. -/
theorem open_subgraph_spec (p : FlowchartParser) (sid title : Option (List Char)) :
    ∃ data : IRFlowchartSubgraphData,
      data.subgraph_id = strdup sid ∧ data.direction = IRFlowchartDirection.TB ∧
      open_subgraph p sid title =
        { rest := p.rest, direction := p.direction,
          flowchart := { p.flowchart with
            children := add_child_at ((parser_current_subgraph p).getD [])
              (IRComponent.FLOWCHART_SUBGRAPH data []) p.flowchart.children },
          subgraph_stack := p.subgraph_stack ++ [next_child_pointer p] } := by
  unfold open_subgraph
  refine ⟨_, ?_, ?_, rfl⟩
  · dsimp only
    split
    · split <;> rfl
    · rfl
  · dsimp only
    split
    · split <;> rfl
    · rfl

/-- C27: let `parse_subgraph` read a header (any id `sid` and title, read by
`parse_identifier` and `parse_subgraph_title`) that ends its line, and let the
next line be `direction D`, the keyword and the direction word `D` (TB, TD, LR,
BT or RL) in any letter case, with any spaces or tabs before them; every
subgraph on the stack being a component of the tree.  Then the tree is the
former tree with one more component, the new subgraph, whose direction is that
of `D` (top to bottom for TB and TD); the record of every subgraph of the former
tree is as before, and so are the state of the flowchart, which holds its
direction, and the direction kept by the parser. -/
theorem direction_line_sets_subgraph_direction (p : FlowchartParser)
    (sid title : Option (List Char)) (r eol indent keyword sp w tail : List Char)
    (entry : List Char × IRFlowchartDirection)
    (hid : parse_identifier (skip_whitespace p.rest) = (sid, r))
    (htitle : parse_subgraph_title (skip_whitespace r) =
      (title, eol ++ '\n' :: (indent ++ (keyword ++ (sp ++ (w ++ tail))))))
    (h1 : is_blanks eol = true) (h2 : is_blanks indent = true)
    (hkw : spells keyword "direction".toList = true) (h3 : is_blanks sp = true)
    (he : entry ∈ direction_words) (hw : spells w entry.1 = true)
    (hv : ∀ ptr, parser_current_subgraph p = some ptr →
      (children_at ptr p.flowchart.children).isSome = true) :
    ∃ data : IRFlowchartSubgraphData,
      data.subgraph_id = strdup sid ∧ data.direction = entry.2 ∧
      parse_subgraph p =
        { rest := tail, direction := p.direction,
          flowchart := { p.flowchart with
            children := add_child_at ((parser_current_subgraph p).getD [])
              (IRComponent.FLOWCHART_SUBGRAPH data []) p.flowchart.children },
          subgraph_stack := p.subgraph_stack ++ [next_child_pointer p] } ∧
      subgraph_data_at (next_child_pointer p) (parse_subgraph p).flowchart.children = some data ∧
      (∀ q d, subgraph_data_at q p.flowchart.children = some d →
        subgraph_data_at q (parse_subgraph p).flowchart.children = some d) ∧
      (parse_subgraph p).flowchart.state = p.flowchart.state ∧
      (parse_subgraph p).direction = p.direction := by
  obtain ⟨data0, hd1, hd2, hopen⟩ := open_subgraph_spec
    { p with rest := eol ++ '\n' :: (indent ++ (keyword ++ (sp ++ (w ++ tail)))) } sid title
  obtain ⟨kc, kcs, hk⟩ : ∃ kc kcs, keyword = kc :: kcs := by
    cases keyword with
    | nil => simp [spells] at hkw
    | cons a as => exact ⟨a, as, rfl⟩
  have hletter : isalpha kc = true :=
    spells_letter kc kcs "direction".toList 'd' "irection".toList rfl (by decide) (hk ▸ hkw)
  have hs : skip_whitespace_and_newlines
      (eol ++ '\n' :: (indent ++ (keyword ++ (sp ++ (w ++ tail))))) =
      keyword ++ (sp ++ (w ++ tail)) := by
    rw [skip_whitespace_and_newlines_blanks _ _ h1]
    have : skip_whitespace_and_newlines ('\n' :: (indent ++ (keyword ++ (sp ++ (w ++ tail)))))
        = skip_whitespace_and_newlines (indent ++ (keyword ++ (sp ++ (w ++ tail)))) := rfl
    rw [this, skip_whitespace_and_newlines_blanks _ _ h2, hk]
    exact skip_whitespace_and_newlines_start kc _ (by simp [hletter])
  have hm := match_case_insensitive_word keyword "direction".toList (sp ++ (w ++ tail)) hkw
  have hdir : parse_direction (sp ++ (w ++ tail)) = (entry.2, tail) := by
    unfold parse_direction
    rw [skip_whitespace_blanks _ _ h3]
    have hwc : ∃ c cs, w = c :: cs ∧ isalpha c = true := by
      simp only [direction_words, List.mem_cons, List.mem_singleton, List.not_mem_nil,
        or_false] at he
      cases w with
      | nil => rcases he with rfl | rfl | rfl | rfl | rfl <;> simp [spells] at hw
      | cons c cs =>
        refine ⟨c, cs, rfl, ?_⟩
        rcases he with rfl | rfl | rfl | rfl | rfl
        · exact spells_letter c cs _ 'T' "B".toList rfl (by decide) hw
        · exact spells_letter c cs _ 'T' "D".toList rfl (by decide) hw
        · exact spells_letter c cs _ 'L' "R".toList rfl (by decide) hw
        · exact spells_letter c cs _ 'B' "T".toList rfl (by decide) hw
        · exact spells_letter c cs _ 'R' "L".toList rfl (by decide) hw
    obtain ⟨c, cs, hwe, hc⟩ := hwc
    have : skip_whitespace (w ++ tail) = w ++ tail := by
      rw [hwe]
      exact skip_whitespace_start c _ (by simp [hc])
    rw [this, direction_word_matched w tail entry he hw]
    rfl
  have hparse : parse_subgraph p = set_subgraph_direction
      { open_subgraph
          { p with rest := eol ++ '\n' :: (indent ++ (keyword ++ (sp ++ (w ++ tail)))) } sid title
        with rest := tail } (next_child_pointer p) entry.2 := by
    unfold parse_subgraph
    simp only [hid, htitle, open_subgraph_rest, hs, hm, hdir, if_true]
  have hptr : ∃ ch, children_at ((parser_current_subgraph p).getD []) p.flowchart.children = some ch
      ∧ next_child_pointer p = (parser_current_subgraph p).getD [] ++ [ch.length] := by
    unfold next_child_pointer
    cases hcur : parser_current_subgraph p with
    | none => exact ⟨p.flowchart.children, rfl, rfl⟩
    | some ptr =>
      have := hv ptr hcur
      obtain ⟨ch, hch⟩ := Option.isSome_iff_exists.mp this
      refine ⟨ch, hch, ?_⟩
      simp only [Option.getD_some, hch]
  obtain ⟨ch, hch, hnext⟩ := hptr
  have hcur : parser_current_subgraph
      { p with rest := eol ++ '\n' :: (indent ++ (keyword ++ (sp ++ (w ++ tail)))) }
      = parser_current_subgraph p := rfl
  have hnp : next_child_pointer
      { p with rest := eol ++ '\n' :: (indent ++ (keyword ++ (sp ++ (w ++ tail)))) }
      = next_child_pointer p := rfl
  have hfinal : parse_subgraph p =
      { rest := tail, direction := p.direction,
        flowchart := { p.flowchart with
          children := add_child_at ((parser_current_subgraph p).getD [])
            (IRComponent.FLOWCHART_SUBGRAPH { data0 with direction := entry.2 } [])
            p.flowchart.children },
        subgraph_stack := p.subgraph_stack ++ [next_child_pointer p] } := by
    rw [hparse, hopen, hcur, hnp]
    unfold set_subgraph_direction
    dsimp only
    rw [hnext, set_direction_new_child data0 entry.2 _ _ ch hch]
  refine ⟨{ data0 with direction := entry.2 }, hd1, rfl, hfinal, ?_, ?_, ?_, ?_⟩
  · rw [hfinal]
    dsimp only
    rw [hnext]
    exact subgraph_data_new_child _ _ _ ch hch
  · intro q d hq
    rw [hfinal]
    exact add_child_keeps_subgraph_data _ q _ _ d hq
  · rw [hfinal]
  · rw [hfinal]

/-- C27 inside the open subgraph `outer` of direction BT, in a flowchart of
direction LR: after the header `subgraph inner` and the line `direction Rl` the
new subgraph `inner` has the direction RL, `outer` still has BT and the
flowchart LR; and parsing `flowchart LR / subgraph s1 [Group] / direction bt /
end` registers s1 with the direction BT in a flowchart of direction LR. -/
theorem direction_line_sets_subgraph_direction_witness :
    (∃ data : IRFlowchartSubgraphData,
      data.subgraph_id = some "inner".toList ∧ data.direction = IRFlowchartDirection.RL ∧
      parse_subgraph parser_in_subgraph =
        { rest := "\nA-->B".toList, direction := IRFlowchartDirection.LR,
          flowchart := { parser_in_subgraph.flowchart with
            children := add_child_at [0] (IRComponent.FLOWCHART_SUBGRAPH data [])
              parser_in_subgraph.flowchart.children },
          subgraph_stack := [[0], [0, 0]] } ∧
      subgraph_data_at [0, 0] (parse_subgraph parser_in_subgraph).flowchart.children = some data ∧
      (subgraph_data_at [0] (parse_subgraph parser_in_subgraph).flowchart.children).map
          (fun d => (d.subgraph_id, d.direction)) =
        some (some "outer".toList, IRFlowchartDirection.BT) ∧
      (parse_subgraph parser_in_subgraph).flowchart.state.direction = IRFlowchartDirection.LR) ∧
    ∃ fc : Flowchart,
      ir_flowchart_parse "flowchart LR\nsubgraph s1 [Group]\n  direction bt\nend".toList
        = some (some fc) ∧
      fc.state.direction = IRFlowchartDirection.LR ∧
      fc.state.subgraphs.map (fun sg => (sg.subgraph_id, sg.title, sg.direction)) =
        [(some "s1".toList, some "Group".toList, IRFlowchartDirection.BT)] := by
  constructor
  · obtain ⟨data, h1, h2, h3, h4, h5, h6, h7⟩ := direction_line_sets_subgraph_direction
      parser_in_subgraph (some "inner".toList) none "\ndirection Rl\nA-->B".toList [] [] "direction".toList
      " ".toList "Rl".toList "\nA-->B".toList ("RL".toList, IRFlowchartDirection.RL)
      rfl rfl (by decide) (by decide) (by decide) (by decide) (by decide) (by decide)
      (by
        intro ptr h
        have : ptr = [0] := by
          have e : parser_current_subgraph parser_in_subgraph = some [0] := rfl
          rw [e] at h
          exact (Option.some.inj h).symm
        subst this
        rfl)
    refine ⟨data, h1, h2, h3, h4, ?_, ?_⟩
    · have := h5 [0] _ (show subgraph_data_at [0] parser_in_subgraph.flowchart.children = some _ from rfl)
      rw [this]
      rfl
    · rw [h6]
      rfl
  · refine ⟨_, rfl, ?_, ?_⟩
    · decide!
    · decide!

/-! ## The layout of special flowcharts -/

/-- C28 (the code at failing inputs): the record that
`ir_flowchart_subgraph_data_create` makes has the direction TB, so a subgraph
without a `direction` line is the same record as one that declares TB.  In a
flowchart of direction LR, BT or RL whose subgraph `s` has the members A and B
and the edge A to B, laid out in 800 x 600, the members of the subgraph without
declared direction are placed top to bottom, A at (20, 20) and B below it at
(20, 484/5), whatever the direction of the flowchart; with the direction of the
flowchart declared they are placed along that direction. -/
theorem undeclared_subgraph_direction_is_top_down :
    (∀ sid title, (ir_flowchart_subgraph_data_create sid title).direction =
      IRFlowchartDirection.TB) ∧
    (∀ d, subgraph_flowchart d none = subgraph_flowchart d (some IRFlowchartDirection.TB)) ∧
    (∀ d, node_positions (ir_layout_compute_flowchart none (subgraph_flowchart d none) 800 600) =
      [(some "A".toList, 20, 20), (some "B".toList, 20, 484 / 5)]) ∧
    node_positions (ir_layout_compute_flowchart none
        (subgraph_flowchart IRFlowchartDirection.LR (some IRFlowchartDirection.LR)) 800 600) =
      [(some "A".toList, 20, 20), (some "B".toList, 502 / 5, 20)] ∧
    node_positions (ir_layout_compute_flowchart none
        (subgraph_flowchart IRFlowchartDirection.BT (some IRFlowchartDirection.BT)) 800 600) =
      [(some "A".toList, 20, 484 / 5), (some "B".toList, 20, 20)] ∧
    node_positions (ir_layout_compute_flowchart none
        (subgraph_flowchart IRFlowchartDirection.RL (some IRFlowchartDirection.RL)) 800 600) =
      [(some "A".toList, 502 / 5, 20), (some "B".toList, 20, 20)] := by
  refine ⟨fun _ _ => rfl, fun d => rfl, ?_, ?_, ?_, ?_⟩
  · intro d
    cases d <;> decide!
  · decide!
  · decide!
  · decide!

/-- C29 (the code at a failing input): for a flowchart without nodes
`ir_layout_compute_flowchart` leaves `content_width` and `content_height` as
they were: it returns before the statements that set them, and the branch that
would set 100 for an empty flowchart is never reached.  For the flowchart that
`ir_flowchart` creates, and for the one parsed from `flowchart TB`, the layout
is marked computed and the viewport is stored, but the content size is 0 x 0,
not 100 x 100. -/
theorem empty_layout_leaves_content_size :
    (∀ (metrics : Option IRFontMetrics) (flowchart : Flowchart) (aw ah : ℚ),
      (ir_layout_compute_flowchart metrics
          { flowchart with state := { flowchart.state with nodes := [] } } aw ah).state.content_width
        = flowchart.state.content_width ∧
      (ir_layout_compute_flowchart metrics
          { flowchart with state := { flowchart.state with nodes := [] } } aw ah).state.content_height
        = flowchart.state.content_height) ∧
    (∀ (d : IRFlowchartDirection) (aw ah : ℚ),
      (ir_layout_compute_flowchart none (ir_flowchart d) aw ah).state =
        { (ir_flowchart d).state with
          layout_computed := true, computed_width := aw, computed_height := ah } ∧
      (ir_layout_compute_flowchart none (ir_flowchart d) aw ah).state.content_width = 0 ∧
      (ir_layout_compute_flowchart none (ir_flowchart d) aw ah).state.content_height = 0) ∧
    ∃ fc : Flowchart,
      parse_and_layout "flowchart TB\n".toList 800 600 = some fc ∧
      fc.state.nodes = [] ∧ fc.state.layout_computed = true ∧
      fc.state.computed_width = 800 ∧ fc.state.computed_height = 600 ∧
      fc.state.content_width = 0 ∧ fc.state.content_height = 0 := by
  refine ⟨?_, ?_, ?_⟩
  · intro metrics flowchart aw ah
    unfold ir_layout_compute_flowchart
    dsimp only
    split
    · exact ⟨rfl, rfl⟩
    · simp only [List.length_nil, if_true]
      exact ⟨trivial, trivial⟩
  · intro d aw ah
    have h := ir_layout_no_nodes none (ir_flowchart d) aw ah rfl rfl
    rw [h]
    exact ⟨rfl, rfl, rfl⟩
  · refine ⟨_, rfl, ?_, ?_, ?_, ?_, ?_, ?_⟩ <;> decide!

/-- C30 (the code at a failing input): `ir_flowchart_register_node`,
`ir_flowchart_register_edge` and `ir_flowchart_register_subgraph` leave
`layout_computed` as it is; only `ir_flowchart_finalize` sets it to false.  So
when the node C is registered in a flowchart laid out in 800 x 600,
`layout_computed` stays true, the next layout with the same viewport returns the
flowchart as it is, and C keeps the width and height 0. -/
theorem register_keeps_layout_computed :
    (∀ (flowchart : Flowchart) (c : IRComponent),
      (ir_flowchart_register_node flowchart c).state.layout_computed =
        flowchart.state.layout_computed ∧
      (ir_flowchart_register_edge flowchart c).state.layout_computed =
        flowchart.state.layout_computed ∧
      (ir_flowchart_register_subgraph flowchart c).state.layout_computed =
        flowchart.state.layout_computed ∧
      (ir_flowchart_finalize flowchart).state.layout_computed = false) ∧
    ∃ laid changed : Flowchart,
      laid = ir_layout_compute_flowchart none plain_flowchart 800 600 ∧
      changed = ir_flowchart_register_node laid
        (ir_flowchart_node (some "C".toList) IRFlowchartShape.RECTANGLE (some "C".toList)) ∧
      laid.state.layout_computed = true ∧ changed.state.layout_computed = true ∧
      ir_layout_compute_flowchart none changed 800 600 = changed ∧
      changed.state.nodes.map (fun n => (n.node_id, n.width, n.height)) =
        [(some "A".toList, 202 / 5, 184 / 5), (some "B".toList, 202 / 5, 184 / 5),
         (some "C".toList, 0, 0)] := by
  constructor
  · intro flowchart c
    refine ⟨?_, ?_, ?_, rfl⟩
    · cases c <;> rfl
    · cases c <;> rfl
    · cases c <;> rfl
  · refine ⟨_, _, rfl, rfl, ?_, ?_, ?_, ?_⟩
    · decide!
    · decide!
    · unfold ir_layout_compute_flowchart
      dsimp only
      rw [if_pos]
      refine ⟨?_, ?_, ?_⟩ <;> decide!
    · decide!

/-! ## The layers are contiguous -/

theorem find_source_index_lt (state : IRFlowchartState) (from_id : Option (List Char)) (j : Nat)
    (h : find_source_index state from_id = some j) : j < state.nodes.length := by
  unfold find_source_index at h
  cases from_id with
  | none => cases h
  | some id =>
    dsimp only at h
    split at h
    · next hlt => cases h; exact hlt
    · cases h

/-- What the scan of the edges for one node returns: without an assigned
predecessor the pair `(-1, false)`, and otherwise the layer of one of the
assigned predecessors. -/
theorem scan_predecessors_source (state : IRFlowchartState) (node_layer : List Int)
    (node_id : List Char) :
    ((scan_predecessors state node_layer node_id).2 = false →
      (scan_predecessors state node_layer node_id).1 = -1) ∧
    ((scan_predecessors state node_layer node_id).2 = true →
      0 ≤ (scan_predecessors state node_layer node_id).1 ∧
      ∃ (edge : IRFlowchartEdgeData) (j : Nat), edge ∈ state.edges ∧
        edge.to_id = some node_id ∧ find_source_index state edge.from_id = some j ∧
        node_layer.getD j (-1) = (scan_predecessors state node_layer node_id).1) := by
  unfold scan_predecessors
  have key : ∀ (es : List IRFlowchartEdgeData) (acc : Int × Bool),
      (∀ e ∈ es, e ∈ state.edges) →
      ((acc.2 = false → acc.1 = -1) ∧
        (acc.2 = true → 0 ≤ acc.1 ∧
          ∃ (edge : IRFlowchartEdgeData) (j : Nat), edge ∈ state.edges ∧
            edge.to_id = some node_id ∧ find_source_index state edge.from_id = some j ∧
            node_layer.getD j (-1) = acc.1)) →
      (((es.foldl
        (fun acc edge =>
          if edge.to_id == some node_id then
            match find_source_index state edge.from_id with
            | some j =>
              if node_layer.getD j (-1) ≥ 0 then (max acc.1 (node_layer.getD j (-1)), true) else acc
            | none => acc
          else acc) acc).2 = false →
        (es.foldl
        (fun acc edge =>
          if edge.to_id == some node_id then
            match find_source_index state edge.from_id with
            | some j =>
              if node_layer.getD j (-1) ≥ 0 then (max acc.1 (node_layer.getD j (-1)), true) else acc
            | none => acc
          else acc) acc).1 = -1) ∧
       ((es.foldl
        (fun acc edge =>
          if edge.to_id == some node_id then
            match find_source_index state edge.from_id with
            | some j =>
              if node_layer.getD j (-1) ≥ 0 then (max acc.1 (node_layer.getD j (-1)), true) else acc
            | none => acc
          else acc) acc).2 = true →
        0 ≤ (es.foldl
        (fun acc edge =>
          if edge.to_id == some node_id then
            match find_source_index state edge.from_id with
            | some j =>
              if node_layer.getD j (-1) ≥ 0 then (max acc.1 (node_layer.getD j (-1)), true) else acc
            | none => acc
          else acc) acc).1 ∧
        ∃ (edge : IRFlowchartEdgeData) (j : Nat), edge ∈ state.edges ∧
          edge.to_id = some node_id ∧ find_source_index state edge.from_id = some j ∧
          node_layer.getD j (-1) = (es.foldl
        (fun acc edge =>
          if edge.to_id == some node_id then
            match find_source_index state edge.from_id with
            | some j =>
              if node_layer.getD j (-1) ≥ 0 then (max acc.1 (node_layer.getD j (-1)), true) else acc
            | none => acc
          else acc) acc).1)) := by
    intro es
    induction es with
    | nil => intro acc _ h; simpa using h
    | cons e es ih =>
      intro acc hs h
      simp only [List.foldl_cons]
      apply ih _ (fun x hx => hs x (List.mem_cons_of_mem _ hx))
      by_cases ht : (e.to_id == some node_id) = true
      · rw [if_pos ht]
        cases hj : find_source_index state e.from_id with
        | none => exact h
        | some j =>
          dsimp only
          by_cases hge : node_layer.getD j (-1) ≥ 0
          · rw [if_pos hge]
            have g2 : 0 ≤ max acc.1 (node_layer.getD j (-1)) ∧
                ∃ (edge : IRFlowchartEdgeData) (j1 : Nat), edge ∈ state.edges ∧
                  edge.to_id = some node_id ∧ find_source_index state edge.from_id = some j1 ∧
                  node_layer.getD j1 (-1) = max acc.1 (node_layer.getD j (-1)) := by
              refine ⟨le_max_of_le_right hge, ?_⟩
              by_cases hle : acc.1 ≤ node_layer.getD j (-1)
              · rw [max_eq_right hle]
                exact ⟨e, j, hs e (List.mem_cons_self _ _), by simpa using ht, hj, rfl⟩
              · rw [max_eq_left (by omega)]
                cases h2 : acc.2 with
                | false =>
                  have := h.1 h2
                  omega
                | true => exact (h.2 h2).2
            exact ⟨fun hc => Bool.noConfusion hc, fun _ => g2⟩
          · rw [if_neg hge]
            exact h
      · rw [if_neg ht]
        exact h
  exact key state.edges (-1, false) (fun e he => he)
    ⟨fun _ => rfl, fun hc => by cases hc⟩

/-- Giving a layer to a node that has none keeps the chain of the layers, when
the layer is 0 or one more than the layer of a node from which an edge arrives. -/
theorem set_layer_chained (state : IRFlowchartState) (l : Layering) (i : Nat) (v : Int)
    (mp : Bool) (hok : layering_ok state.nodes.length l) (hch : layering_chained state l)
    (hi : i < state.nodes.length) (hp : l.processed.getD i false = false)
    (hv : v = 0 ∨ (0 < v ∧ has_source_in_layer state l.node_layer i (v - 1))) :
    layering_chained state
      { node_layer := l.node_layer.set i v, processed := l.processed.set i true,
        made_progress := mp } := by
  obtain ⟨h1, h2, h3⟩ := hok
  obtain ⟨c1, c2⟩ := hch
  have hi0 : l.node_layer.getD i (-1) = -1 := c1 i hp
  have keep : ∀ j, j ≠ i → (l.node_layer.set i v).getD j (-1) = l.node_layer.getD j (-1) := by
    intro j hj
    simp only [List.getD_eq_getElem?_getD]
    rw [List.getElem?_set_ne (fun e => hj e.symm)]
  have at_i : (l.node_layer.set i v).getD i (-1) = v := by
    simp only [List.getD_eq_getElem?_getD]
    rw [List.getElem?_set_self (by omega)]
    rfl
  have moved : ∀ (t : Nat) (k : Int), 0 ≤ k → has_source_in_layer state l.node_layer t k →
      has_source_in_layer state (l.node_layer.set i v) t k := by
    rintro t k hk ⟨node, id, edge, j, q1, q2, q3, q4, q5, q6⟩
    refine ⟨node, id, edge, j, q1, q2, q3, q4, q5, ?_⟩
    rw [keep j (fun e => by subst e; omega)]
    exact q6
  refine ⟨?_, ?_⟩
  · intro j hj
    dsimp only at hj ⊢
    by_cases e : j = i
    · subst e
      simp only [List.getD_eq_getElem?_getD] at hj
      rw [List.getElem?_set_self (by omega)] at hj
      simp at hj
    · rw [keep j e]
      apply c1
      simp only [List.getD_eq_getElem?_getD] at hj ⊢
      rw [List.getElem?_set_ne (fun e2 => e e2.symm)] at hj
      exact hj
  · intro j k hj hk
    dsimp only at hj ⊢
    by_cases e : j = i
    · subst e
      rw [at_i] at hj
      subst hj
      rcases hv with h0 | ⟨_, hs⟩
      · omega
      · exact moved _ _ (by omega) hs
    · rw [keep j e] at hj
      exact moved _ _ (by omega) (c2 j k hj hk)

theorem sweep_node_chained (state : IRFlowchartState) (l : Layering) (i : Nat)
    (hi : i < state.nodes.length) (hok : layering_ok state.nodes.length l)
    (hch : layering_chained state l) :
    layering_chained state (layer_sweep_node state l i) := by
  unfold layer_sweep_node
  by_cases hp : l.processed.getD i false = true
  · rw [if_pos hp]; exact hch
  · rw [if_neg hp]
    cases hid : (state.nodes.get? i).bind (fun node => node.node_id) with
    | none => exact hch
    | some id =>
      dsimp only
      by_cases hr : (scan_predecessors state l.node_layer id).2 = true
      · rw [if_pos hr]
        obtain ⟨h0, edge, j, q1, q2, q3, q4⟩ := (scan_predecessors_source state l.node_layer id).2 hr
        apply set_layer_chained state l i _ true hok hch hi (Bool.eq_false_iff.mpr hp)
        right
        refine ⟨by omega, ?_⟩
        cases hn : state.nodes.get? i with
        | none => rw [hn] at hid; cases hid
        | some node =>
          rw [hn] at hid
          refine ⟨node, id, edge, j, hn, hid, q1, q2, q3, ?_⟩
          rw [q4]
          omega
      · rw [if_neg hr]; exact hch

theorem sweep_fold_chained (state : IRFlowchartState) (is : List Nat)
    (his : ∀ i ∈ is, i < state.nodes.length) (l : Layering)
    (hok : layering_ok state.nodes.length l) (hch : layering_chained state l) :
    layering_chained state (is.foldl (layer_sweep_node state) l) := by
  induction is generalizing l with
  | nil => exact hch
  | cons i is ih =>
    simp only [List.foldl_cons]
    have hi : i < state.nodes.length := his i (by simp)
    have his1 : ∀ j ∈ is, j < state.nodes.length := fun j hj => his j (by simp [hj])
    have ok1 : layering_ok state.nodes.length (layer_sweep_node state l i) :=
      (sweep_fold state state.nodes.length [i] (fun j hj => by simp at hj; omega) l hok).1
    exact ih his1 _ ok1 (sweep_node_chained state l i hi hok hch)

theorem force_first_chained (state : IRFlowchartState) (l : Layering)
    (hok : layering_ok state.nodes.length l) (hch : layering_chained state l) :
    layering_chained state (force_first_unprocessed l) := by
  unfold force_first_unprocessed
  dsimp only
  by_cases hlt : l.processed.findIdx (fun b => !b) < l.processed.length
  · simp only [hlt, if_true]
    have hi : l.processed.findIdx (fun b => !b) < state.nodes.length := by
      rw [← hok.2.1]; exact hlt
    have hp : l.processed.getD (l.processed.findIdx (fun b => !b)) false = false := by
      have : (fun b : Bool => !b) (l.processed[l.processed.findIdx (fun b => !b)]) = true :=
        List.findIdx_getElem
      simp [List.getD_eq_getElem?_getD, hlt] at this ⊢
      exact this
    exact set_layer_chained state l _ 0 true hok hch hi hp (Or.inl rfl)
  · simp only [hlt, if_false]
    exact hch

theorem turn_chained (state : IRFlowchartState) (l : Layering)
    (hok : layering_ok state.nodes.length l) (hch : layering_chained state l) :
    layering_chained state (layering_turn state l) := by
  have h0 : layering_ok state.nodes.length { l with made_progress := false } := hok
  have c0 : layering_chained state { l with made_progress := false } := hch
  have a := (sweep_fold state state.nodes.length (List.range state.nodes.length)
    (fun i hi => List.mem_range.mp hi) _ h0).1
  have b := sweep_fold_chained state (List.range state.nodes.length)
    (fun i hi => List.mem_range.mp hi) _ h0 c0
  unfold layering_turn
  dsimp only
  split
  · exact force_first_chained state _ a b
  · exact b

theorem loop_chained (state : IRFlowchartState) :
    ∀ (k : Nat) (l : Layering), layering_ok state.nodes.length l → layering_chained state l →
      layering_chained state (layering_loop state k l) := by
  intro k
  induction k with
  | zero => intro l _ h; exact h
  | succ k ih =>
    intro l hok hch
    simp only [layering_loop]
    have a := (turn_ok state l hok).1
    have b := turn_chained state l hok hch
    split
    · exact b
    · exact ih _ a b

theorem initial_layering_chained (state : IRFlowchartState) :
    layering_chained state (initial_layering state) := by
  have raw_ok : layering_ok state.nodes.length
      { node_layer := state.nodes.map (fun node => if is_start_node state node then 0 else -1),
        processed := state.nodes.map (fun node => is_start_node state node) } := by
    refine ⟨by simp, by simp, ?_⟩
    intro i hi
    simp only [List.getD_eq_getElem?_getD, List.getElem?_map] at hi ⊢
    cases hn : state.nodes[i]? with
    | none => simp [hn] at hi
    | some node =>
      simp only [hn, Option.map_some', Option.getD_some] at hi ⊢
      simp [hi]
  have raw : layering_chained state
      { node_layer := state.nodes.map (fun node => if is_start_node state node then 0 else -1),
        processed := state.nodes.map (fun node => is_start_node state node) } := by
    refine ⟨?_, ?_⟩
    · intro i hi
      simp only [List.getD_eq_getElem?_getD, List.getElem?_map] at hi ⊢
      cases hn : state.nodes[i]? with
      | none => simp
      | some node =>
        simp only [hn, Option.map_some', Option.getD_some] at hi ⊢
        simp [hi]
    · intro i k hk hpos
      exfalso
      simp only [List.getD_eq_getElem?_getD, List.getElem?_map] at hk
      cases hn : state.nodes[i]? with
      | none => simp [hn] at hk; omega
      | some node =>
        simp only [hn, Option.map_some', Option.getD_some] at hk
        split at hk <;> omega
  unfold initial_layering
  dsimp only
  split
  · next hc =>
    have hpos : 0 < state.nodes.length := by
      simp only [Bool.and_eq_true, decide_eq_true_eq] at hc
      exact hc.2
    have hnone : ∀ x ∈ state.nodes.map (fun node => if is_start_node state node then (0 : Int) else -1),
        ¬ (0 ≤ x) := by
      have := hc
      simp only [Bool.and_eq_true, Bool.not_eq_true', List.any_eq_false, decide_eq_true_eq] at this
      intro x hx
      have := this.1 x hx
      simpa using this
    have hp0 : (state.nodes.map (fun node => is_start_node state node)).getD 0 false = false := by
      simp only [List.getD_eq_getElem?_getD, List.getElem?_map]
      cases hn : state.nodes[0]? with
      | none => simp
      | some node =>
        simp only [Option.map_some', Option.getD_some]
        by_contra hs
        have hs1 : is_start_node state node = true := by simpa using hs
        have hm : (if is_start_node state node then (0 : Int) else -1) ∈
            state.nodes.map (fun node => if is_start_node state node then (0 : Int) else -1) :=
          List.mem_map_of_mem _ (List.getElem?_mem hn)
        have := hnone _ hm
        rw [if_pos hs1] at this
        omega
    exact set_layer_chained state _ 0 0 false raw_ok raw hpos hp0 (Or.inl rfl)
  · exact raw

theorem assign_layers_chained (state : IRFlowchartState) :
    layering_chained state (assign_layers state) :=
  loop_chained state _ _ (initial_layering_ok state) (initial_layering_chained state)

theorem foldl_max_mem (l : List Int) (a : Int) : l.foldl max a = a ∨ l.foldl max a ∈ l := by
  induction l generalizing a with
  | nil => left; rfl
  | cons b bs ih =>
    simp only [List.foldl_cons, List.mem_cons]
    rcases ih (max a b) with h | h
    · rw [h]
      rcases max_choice a b with e | e
      · left; exact e
      · right; left; exact e
    · right; right; exact h

/-- Below a layer that holds a node, every layer holds a node. -/
theorem layer_below (state : IRFlowchartState) :
    ∀ (m : Nat) (i : Nat), (assign_layers state).node_layer.getD i (-1) = (m : Int) →
      ∀ k : Nat, k ≤ m →
        ∃ j, j < state.nodes.length ∧ (assign_layers state).node_layer.getD j (-1) = (k : Int) := by
  have hlen := (assign_layers_ok state).1
  have inb : ∀ (i : Nat) (v : Int), (assign_layers state).node_layer.getD i (-1) = v → 0 ≤ v →
      i < state.nodes.length := by
    intro i v hv h0
    by_contra hc
    rw [List.getD_eq_default _ _ (by omega)] at hv
    omega
  intro m
  induction m with
  | zero =>
    intro i hi k hk
    have : k = 0 := by omega
    subst this
    exact ⟨i, inb i _ hi (by simp), hi⟩
  | succ m ih =>
    intro i hi k hk
    by_cases e : k = m + 1
    · subst e
      exact ⟨i, inb i _ hi (by positivity), hi⟩
    · obtain ⟨node, id, edge, j, _, _, _, _, _, q6⟩ :=
        (assign_layers_chained state).2 i _ hi (by positivity)
      have : (assign_layers state).node_layer.getD j (-1) = (m : Int) := by
        rw [q6]; push_cast; ring
      exact ih j this k (by omega)

theorem layers_all_used (state : IRFlowchartState) (hn : state.nodes ≠ []) :
    ∀ k : Nat, (k : Int) ≤ max_layer_of (assign_layers state).node_layer →
      ∃ j, j < state.nodes.length ∧ (assign_layers state).node_layer.getD j (-1) = (k : Int) := by
  obtain ⟨hlen, hge⟩ := assign_layers_ok state
  have hpos : 0 < state.nodes.length := List.length_pos.mpr hn
  have top : ∃ i, (assign_layers state).node_layer.getD i (-1) =
      ((max_layer_of (assign_layers state).node_layer).toNat : Int) := by
    have h0 := max_layer_of_nonneg (assign_layers state).node_layer
    rw [Int.toNat_of_nonneg h0]
    rcases foldl_max_mem (assign_layers state).node_layer 0 with h | h
    · have e : max_layer_of (assign_layers state).node_layer = 0 := h
      rw [e]
      have h1 := hge 0 hpos
      have h2 := le_max_layer_of (assign_layers state).node_layer 0 (by omega)
      exact ⟨0, by omega⟩
    · obtain ⟨i, hi, e⟩ := List.getElem_of_mem h
      refine ⟨i, ?_⟩
      rw [List.getD_eq_getElem _ _ hi]
      exact e
  obtain ⟨i, hi⟩ := top
  intro k hk
  exact layer_below state _ i hi k (by omega)

/-- C34: for every state with at least one node, after the layering every node
of a layer `k > 0` has an edge arriving from a node of layer `k - 1`; every
layer from 0 to `max_layer` holds a node; `max_layer` is at most
`node_count - 1`; and the layer of every node is an index inside the arrays of
`max_layer + 1` counters. -/
theorem layers_are_contiguous (state : IRFlowchartState) (hn : state.nodes ≠ []) :
    (∀ (i : Nat) (k : Int), (assign_layers state).node_layer.getD i (-1) = k → 0 < k →
      has_source_in_layer state (assign_layers state).node_layer i (k - 1)) ∧
    (∀ k : Int, 0 ≤ k → k ≤ max_layer_of (assign_layers state).node_layer →
      0 < nodes_per_layer (assign_layers state).node_layer k) ∧
    max_layer_of (assign_layers state).node_layer ≤ (state.nodes.length : Int) - 1 ∧
    (∀ i, i < state.nodes.length →
      0 ≤ (assign_layers state).node_layer.getD i (-1) ∧
      ((assign_layers state).node_layer.getD i (-1)).toNat <
        (max_layer_of (assign_layers state).node_layer).toNat + 1) := by
  obtain ⟨hlen, hge⟩ := assign_layers_ok state
  have used := layers_all_used state hn
  have h0 := max_layer_of_nonneg (assign_layers state).node_layer
  refine ⟨(assign_layers_chained state).2, ?_, ?_, ?_⟩
  · intro k hk0 hk
    obtain ⟨j, hj, e⟩ := used k.toNat (by rw [Int.toNat_of_nonneg hk0]; exact hk)
    rw [Int.toNat_of_nonneg hk0] at e
    unfold nodes_per_layer
    apply List.count_pos_iff.mpr
    rw [List.getD_eq_getElem _ _ (by omega)] at e
    rw [← e]
    exact List.getElem_mem _
  · have hall : ∀ k : Fin ((max_layer_of (assign_layers state).node_layer).toNat + 1),
        ∃ j : Fin state.nodes.length,
          (assign_layers state).node_layer.getD j (-1) = ((k : Nat) : Int) := by
      intro k
      obtain ⟨j, hj, e⟩ := used k (by have := k.2; omega)
      exact ⟨⟨j, hj⟩, e⟩
    choose f hf using hall
    have inj : Function.Injective f := by
      intro a b hab
      have ha := hf a
      have hb := hf b
      rw [hab] at ha
      rw [ha] at hb
      apply Fin.ext
      exact_mod_cast hb
    have := Fintype.card_le_of_injective f inj
    simp only [Fintype.card_fin] at this
    omega
  · intro i hi
    have a := hge i hi
    have b := le_max_layer_of (assign_layers state).node_layer i (by omega)
    exact ⟨a, by omega⟩

/-- The statement at the flowchart with the nodes A, B, C and the edges A to B
and B to C, whose layers are 0, 1, 2. -/
theorem layers_are_contiguous_witness :
    sample_flowchart.state.nodes ≠ [] ∧
    (assign_layers sample_flowchart.state).node_layer = [0, 1, 2] ∧
    (∀ (i : Nat) (k : Int),
      (assign_layers sample_flowchart.state).node_layer.getD i (-1) = k → 0 < k →
      has_source_in_layer sample_flowchart.state
        (assign_layers sample_flowchart.state).node_layer i (k - 1)) ∧
    (∀ k : Int, 0 ≤ k → k ≤ max_layer_of (assign_layers sample_flowchart.state).node_layer →
      0 < nodes_per_layer (assign_layers sample_flowchart.state).node_layer k) ∧
    max_layer_of (assign_layers sample_flowchart.state).node_layer ≤
      (sample_flowchart.state.nodes.length : Int) - 1 ∧
    (∀ i, i < sample_flowchart.state.nodes.length →
      0 ≤ (assign_layers sample_flowchart.state).node_layer.getD i (-1) ∧
      ((assign_layers sample_flowchart.state).node_layer.getD i (-1)).toNat <
        (max_layer_of (assign_layers sample_flowchart.state).node_layer).toNat + 1) :=
  ⟨by decide!, by decide!, layers_are_contiguous sample_flowchart.state (by decide!)⟩

/-! ## The slots of a flowchart without subgraph members -/

theorem node_in_directional_subgraph_top (state : IRFlowchartState) (node : IRFlowchartNodeData)
    (h : node.subgraph_id = none) : node_in_directional_subgraph state node = false := by
  unfold node_in_directional_subgraph
  rw [h]
  simp

/-- The body of the positioning loop for a node outside every subgraph. -/
theorem position_node_plain (state : IRFlowchartState) (node_layer : List Int)
    (ns rs W H : ℚ) (acc : Positioning) (i : Nat) (node : IRFlowchartNodeData)
    (h : acc.nodes.get? i = some node) (hs : node.subgraph_id = none) :
    (position_node state node_layer ns rs W H acc i).nodes =
      acc.nodes.set i
        { node with
          x := (plain_position state.direction node_layer ns rs W H (node_layer.getD i (-1))
            (nodes_in_this_layer acc.nodes node_layer node (node_layer.getD i (-1)))
            (acc.layer_position.getD (node_layer.getD i (-1)).toNat 0) node.width node.height).1
          y := (plain_position state.direction node_layer ns rs W H (node_layer.getD i (-1))
            (nodes_in_this_layer acc.nodes node_layer node (node_layer.getD i (-1)))
            (acc.layer_position.getD (node_layer.getD i (-1)).toNat 0) node.width node.height).2 } ∧
    (position_node state node_layer ns rs W H acc i).layer_position =
      acc.layer_position.set (node_layer.getD i (-1)).toNat
        (acc.layer_position.getD (node_layer.getD i (-1)).toNat 0 + 1) := by
  unfold position_node
  rw [h]
  dsimp only
  rw [node_in_directional_subgraph_top state node hs, node_direction_top state node hs]
  simp only [Bool.false_eq_true, if_false]
  refine ⟨?_, trivial⟩
  unfold plain_position nodes_in_this_layer primary_coord
  dsimp only
  by_cases hh : is_horizontal state.direction = true <;>
    by_cases hr : is_reversed state.direction = true <;> simp [hh, hr]

theorem nodes_in_this_layer_plain (nodes : List IRFlowchartNodeData) (node_layer : List Int)
    (node : IRFlowchartNodeData) (layer : Int) (hlen : nodes.length = node_layer.length)
    (hs : node.subgraph_id = none) (hall : ∀ other ∈ nodes, other.subgraph_id = none) :
    nodes_in_this_layer nodes node_layer node layer = node_layer.count layer := by
  rw [← count_layer_eq, nodes_in_this_layer, hlen]
  congr 1
  apply List.filter_congr
  intro j hj
  have hj1 : j < nodes.length := by rw [hlen]; exact List.mem_range.mp hj
  have e : nodes.get? j = some (nodes.get ⟨j, hj1⟩) := List.get?_eq_get hj1
  rw [e]
  have h2 : nodes[j].subgraph_id = none := hall _ (List.getElem_mem hj1)
  simp [same_subgraph, hs, h2]

theorem count_take_succ (l : List Int) (k : Nat) (hk : k < l.length) (v : Int) :
    (l.take (k + 1)).count v = (l.take k).count v + (if l.getD k (-1) = v then 1 else 0) := by
  rw [List.take_succ, List.count_append, List.getD_eq_getElem?_getD]
  rw [List.getElem?_eq_getElem hk]
  simp only [Option.toList_some, Option.getD_some, List.count_singleton]
  by_cases e : l[k] = v
  · simp [e]
  · simp [e]

/-- The positioning loop on a state none of whose nodes is in a subgraph: after
`k` turns the first `k` nodes are at the corners of the slot formulas, the other
nodes are untouched, and the counter of each layer is the number of the first
`k` nodes in that layer. -/
theorem position_fold_plain (state : IRFlowchartState) (node_layer : List Int) (ns rs W H : ℚ)
    (hlen : node_layer.length = state.nodes.length)
    (hl0 : ∀ i, i < state.nodes.length → 0 ≤ node_layer.getD i (-1))
    (hall : ∀ node ∈ state.nodes, node.subgraph_id = none) :
    ∀ k, k ≤ state.nodes.length →
      ((List.range k).foldl (position_node state node_layer ns rs W H)
        { nodes := state.nodes
          layer_position := List.replicate ((max_layer_of node_layer).toNat + 1) 0 }).nodes.length
        = state.nodes.length ∧
      (∀ j, k ≤ j →
        ((List.range k).foldl (position_node state node_layer ns rs W H)
          { nodes := state.nodes
            layer_position :=
              List.replicate ((max_layer_of node_layer).toNat + 1) 0 }).nodes.get? j
          = state.nodes.get? j) ∧
      (∀ j node, j < k → state.nodes.get? j = some node →
        ((List.range k).foldl (position_node state node_layer ns rs W H)
          { nodes := state.nodes
            layer_position :=
              List.replicate ((max_layer_of node_layer).toNat + 1) 0 }).nodes.get? j
          = some { node with
              x := (plain_position state.direction node_layer ns rs W H (node_layer.getD j (-1))
                (node_layer.count (node_layer.getD j (-1))) (rank_in_layer node_layer j)
                node.width node.height).1
              y := (plain_position state.direction node_layer ns rs W H (node_layer.getD j (-1))
                (node_layer.count (node_layer.getD j (-1))) (rank_in_layer node_layer j)
                node.width node.height).2 }) ∧
      (∀ L : Nat, L ≤ (max_layer_of node_layer).toNat →
        ((List.range k).foldl (position_node state node_layer ns rs W H)
          { nodes := state.nodes
            layer_position :=
              List.replicate ((max_layer_of node_layer).toNat + 1) 0 }).layer_position.getD L 0
          = (node_layer.take k).count (L : Int)) ∧
      ((List.range k).foldl (position_node state node_layer ns rs W H)
        { nodes := state.nodes
          layer_position :=
            List.replicate ((max_layer_of node_layer).toNat + 1) 0 }).layer_position.length
        = (max_layer_of node_layer).toNat + 1 := by
  intro k
  induction k with
  | zero =>
    intro _
    rw [List.range_zero, List.foldl_nil]
    refine ⟨rfl, fun j _ => rfl, fun j node hj => by omega, ?_, by simp⟩
    intro L hL
    simp [List.getD_eq_getElem?_getD]
  | succ k ih =>
    intro hk
    obtain ⟨a1, a2, a3, a4, a5⟩ := ih (by omega)
    rw [List.range_succ, List.foldl_append]
    simp only [List.foldl_cons, List.foldl_nil]
    generalize (List.range k).foldl (position_node state node_layer ns rs W H)
        { nodes := state.nodes
          layer_position := List.replicate ((max_layer_of node_layer).toNat + 1) 0 } = acc
      at a1 a2 a3 a4 a5 ⊢
    have hkn : k < state.nodes.length := by omega
    have hnode : state.nodes.get? k = some (state.nodes.get ⟨k, hkn⟩) := List.get?_eq_get hkn
    have hacc : acc.nodes.get? k = some (state.nodes.get ⟨k, hkn⟩) := by
      rw [a2 k (le_refl _), hnode]
    have hsub : (state.nodes.get ⟨k, hkn⟩).subgraph_id = none :=
      hall _ (List.get_mem state.nodes k hkn)
    have hacc_all : ∀ other ∈ acc.nodes, other.subgraph_id = none := by
      intro other hm
      obtain ⟨j, hj, e⟩ := List.getElem_of_mem hm
      have hj1 : j < state.nodes.length := by omega
      have hs := hall _ (List.getElem_mem hj1)
      by_cases hjk : j < k
      · have := a3 j _ hjk (List.get?_eq_getElem? _ _ ▸ List.getElem?_eq_getElem hj1)
        rw [List.get?_eq_getElem?, List.getElem?_eq_getElem hj, e] at this
        cases this
        exact hs
      · have := a2 j (by omega)
        rw [List.get?_eq_getElem?, List.get?_eq_getElem?, List.getElem?_eq_getElem hj,
          List.getElem?_eq_getElem hj1, e] at this
        cases this
        exact hs
    obtain ⟨e1, e2⟩ := position_node_plain state node_layer ns rs W H acc k _ hacc hsub
    have hcount := nodes_in_this_layer_plain acc.nodes node_layer (state.nodes.get ⟨k, hkn⟩)
      (node_layer.getD k (-1)) (by rw [a1, hlen]) hsub hacc_all
    have hlk0 := hl0 k hkn
    have hlkm := le_max_layer_of node_layer k (by omega)
    have hpos : acc.layer_position.getD (node_layer.getD k (-1)).toNat 0 =
        rank_in_layer node_layer k := by
      rw [a4 _ (by omega), Int.toNat_of_nonneg hlk0]
      rfl
    rw [hcount, hpos] at e1
    refine ⟨by rw [e1, List.length_set, a1], ?_, ?_, ?_, by rw [e2, List.length_set, a5]⟩
    · intro j hj
      rw [e1, List.get?_eq_getElem?, List.getElem?_set_ne (by omega), ← List.get?_eq_getElem?]
      exact a2 j (by omega)
    · intro j node hj hn
      by_cases hjk : j = k
      · subst hjk
        rw [hnode] at hn
        cases hn
        rw [e1, List.get?_eq_getElem?, List.getElem?_set_self (by rw [a1]; exact hkn)]
      · rw [e1, List.get?_eq_getElem?, List.getElem?_set_ne (by omega), ← List.get?_eq_getElem?]
        exact a3 j node (by omega) hn
    · intro L hL
      rw [e2, count_take_succ node_layer k (by omega)]
      by_cases hLk : L = (node_layer.getD k (-1)).toNat
      · have e : node_layer.getD k (-1) = (L : Int) := by omega
        rw [← hLk, List.getD_eq_getElem?_getD, List.getElem?_set_self (by rw [a5]; omega)]
        simp only [Option.getD_some, e, if_true]
        rw [a4 L hL]
      · have e : ¬ node_layer.getD k (-1) = (L : Int) := by omega
        rw [List.getD_eq_getElem?_getD, List.getElem?_set_ne (fun h => hLk h.symm),
          ← List.getD_eq_getElem?_getD, a4 L hL]
        simp only [e, if_false, Nat.add_zero]

theorem sized_subgraph_none (metrics : Option IRFontMetrics) (f : Flowchart)
    (hs : ∀ node ∈ f.state.nodes, node.subgraph_id = none) :
    ∀ node ∈ (layout_sized metrics f).nodes, node.subgraph_id = none := by
  intro node hm
  rw [layout_sized_nodes, List.mem_map] at hm
  obtain ⟨n0, h0, rfl⟩ := hm
  rw [compute_node_size_eq]
  exact hs n0 h0

/-- After the positioning phase of a flowchart none of whose nodes is in a
subgraph, node `j` is the sized node `j` at the corner of the slot formulas. -/
theorem layout_placed_plain (metrics : Option IRFontMetrics) (f : Flowchart)
    (hs : ∀ node ∈ f.state.nodes, node.subgraph_id = none) (j : Nat)
    (node : IRFlowchartNodeData) (hj : f.state.nodes.get? j = some node) :
    (layout_placed metrics f).nodes.get? j =
      some { compute_node_size metrics (layout_font_size f) node with
        x := (plain_position f.state.direction (layout_layers metrics f)
          (layout_node_spacing f.state) (layout_rank_spacing f.state)
          (max_node_width (layout_sized metrics f).nodes)
          (max_node_height (layout_sized metrics f).nodes)
          ((layout_layers metrics f).getD j (-1))
          ((layout_layers metrics f).count ((layout_layers metrics f).getD j (-1)))
          (rank_in_layer (layout_layers metrics f) j)
          (compute_node_size metrics (layout_font_size f) node).width
          (compute_node_size metrics (layout_font_size f) node).height).1
        y := (plain_position f.state.direction (layout_layers metrics f)
          (layout_node_spacing f.state) (layout_rank_spacing f.state)
          (max_node_width (layout_sized metrics f).nodes)
          (max_node_height (layout_sized metrics f).nodes)
          ((layout_layers metrics f).getD j (-1))
          ((layout_layers metrics f).count ((layout_layers metrics f).getD j (-1)))
          (rank_in_layer (layout_layers metrics f) j)
          (compute_node_size metrics (layout_font_size f) node).width
          (compute_node_size metrics (layout_font_size f) node).height).2 } := by
  have hlay := assign_layers_ok (layout_sized metrics f)
  have hn : (layout_sized metrics f).nodes.length = f.state.nodes.length := by
    rw [layout_sized_nodes, List.length_map]
  have key := position_fold_plain (layout_sized metrics f) (layout_layers metrics f)
    (layout_node_spacing f.state) (layout_rank_spacing f.state)
    (max_node_width (layout_sized metrics f).nodes) (max_node_height (layout_sized metrics f).nodes)
    hlay.1 hlay.2 (sized_subgraph_none metrics f hs)
    (layout_sized metrics f).nodes.length (le_refl _)
  have e : (layout_placed metrics f) =
      (List.range (layout_sized metrics f).nodes.length).foldl
        (position_node (layout_sized metrics f) (layout_layers metrics f)
          (layout_node_spacing f.state) (layout_rank_spacing f.state)
          (max_node_width (layout_sized metrics f).nodes)
          (max_node_height (layout_sized metrics f).nodes))
        { nodes := (layout_sized metrics f).nodes
          layer_position := List.replicate ((max_layer_of (layout_layers metrics f)).toNat + 1) 0 } :=
    rfl
  rw [← e] at key
  obtain ⟨_, _, k3, _, _⟩ := key
  have hlt : j < f.state.nodes.length := by
    rw [List.get?_eq_getElem?] at hj
    exact (List.getElem?_eq_some_iff.mp hj).1
  have hsz : (layout_sized metrics f).nodes.get? j =
      some (compute_node_size metrics (layout_font_size f) node) := by
    rw [layout_sized_nodes, List.get?_eq_getElem?, List.getElem?_map,
      ← List.get?_eq_getElem?, hj]
    rfl
  exact k3 j _ (by rw [hn]; exact hlt) hsz

/-- After the whole layout in a viewport that is at least as large as the
natural size, the corners are those of the slot formulas moved by the padding
of 20. -/
theorem layout_result_plain (metrics : Option IRFontMetrics) (f : Flowchart) (aw ah : ℚ)
    (hc : f.state.layout_computed = false)
    (hs : ∀ node ∈ f.state.nodes, node.subgraph_id = none)
    (hw : layout_natural_width metrics f ≤ aw) (hh : layout_natural_height metrics f ≤ ah)
    (j : Nat) (u : IRFlowchartNodeData)
    (hu : (ir_layout_compute_flowchart metrics f aw ah).state.nodes.get? j = some u) :
    ∃ node, f.state.nodes.get? j = some node ∧
      u.width = (compute_node_size metrics (layout_font_size f) node).width ∧
      u.height = (compute_node_size metrics (layout_font_size f) node).height ∧
      u.x = 20 + (plain_position f.state.direction (layout_layers metrics f)
          (layout_node_spacing f.state) (layout_rank_spacing f.state)
          (max_node_width (layout_sized metrics f).nodes)
          (max_node_height (layout_sized metrics f).nodes)
          ((layout_layers metrics f).getD j (-1))
          ((layout_layers metrics f).count ((layout_layers metrics f).getD j (-1)))
          (rank_in_layer (layout_layers metrics f) j) u.width u.height).1 ∧
      u.y = 20 + (plain_position f.state.direction (layout_layers metrics f)
          (layout_node_spacing f.state) (layout_rank_spacing f.state)
          (max_node_width (layout_sized metrics f).nodes)
          (max_node_height (layout_sized metrics f).nodes)
          ((layout_layers metrics f).getD j (-1))
          ((layout_layers metrics f).count ((layout_layers metrics f).getD j (-1)))
          (rank_in_layer (layout_layers metrics f) j) u.width u.height).2 := by
  have hlen := layout_result_length metrics f aw ah hc
  have hj : j < f.state.nodes.length := by
    rw [← hlen]
    rw [List.get?_eq_getElem?] at hu
    exact (List.getElem?_eq_some_iff.mp hu).1
  have hnode : f.state.nodes.get? j = some (f.state.nodes.get ⟨j, hj⟩) := List.get?_eq_get hj
  have hp := layout_placed_plain metrics f hs j _ hnode
  have hsc := (layout_scale_bounds metrics f aw ah).2.2 hw hh
  rw [layout_result_nodes metrics f aw ah hc, List.get?_eq_getElem?, List.getElem?_map,
    ← List.get?_eq_getElem?, hp, hsc] at hu
  simp only [Option.map_some', Option.some.injEq] at hu
  subst hu
  refine ⟨_, hnode, rfl, rfl, ?_, ?_⟩
  · dsimp only
    ring
  · dsimp only
    ring

theorem rank_in_layer_lt (l : List Int) (i j : Nat) (hij : i < j) (hj : j < l.length)
    (h : l.getD i (-1) = l.getD j (-1)) : rank_in_layer l i < rank_in_layer l j := by
  unfold rank_in_layer
  rw [← h]
  have hi : i < l.length := by omega
  have e : l.take j = l.take (i + 1) ++ (l.take j).drop (i + 1) := by
    have : l.take (i + 1) = (l.take j).take (i + 1) := by
      rw [List.take_take]
      congr 1
      omega
    rw [this, List.take_append_drop]
  rw [e, List.count_append, count_take_succ l i hi]
  simp only [if_true]
  omega

theorem foldl_max_field_mem {α : Type} (f : α → ℚ) (xs : List α) (a : ℚ) :
    xs.foldl (fun m x => max m (f x)) a = a ∨
      ∃ x ∈ xs, f x = xs.foldl (fun m x => max m (f x)) a := by
  induction xs generalizing a with
  | nil => left; rfl
  | cons b bs ih =>
    simp only [List.foldl_cons, List.mem_cons]
    rcases ih (max a (f b)) with h | ⟨x, hx, e⟩
    · rw [h]
      rcases max_choice a (f b) with e | e
      · left; exact e
      · right; exact ⟨b, Or.inl rfl, e.symm⟩
    · right; exact ⟨x, Or.inr hx, e⟩

theorem count_le_max_nodes_in_layer (node_layer : List Int) (layer : Int) (h0 : 0 ≤ layer)
    (h1 : layer ≤ max_layer_of node_layer) :
    nodes_per_layer node_layer layer ≤ max_nodes_in_layer node_layer := by
  unfold max_nodes_in_layer nodes_per_layer
  refine (foldl_max_map_ge (fun l : Int => node_layer.count l) _ 0).2 layer ?_
  simp only [List.bind_eq_flatMap, List.mem_flatMap, List.mem_range, List.pure_def, List.mem_singleton]
  exact ⟨layer.toNat, by omega, (Int.toNat_of_nonneg h0).symm⟩

/-- The slot size is the largest width and the largest height of the nodes of
the result. -/
theorem slot_size_is_largest (metrics : Option IRFontMetrics) (f : Flowchart) (aw ah : ℚ)
    (hc : f.state.layout_computed = false) (hn : f.state.nodes ≠ []) :
    (∀ v ∈ (ir_layout_compute_flowchart metrics f aw ah).state.nodes,
      v.width ≤ max_node_width (layout_sized metrics f).nodes ∧
      v.height ≤ max_node_height (layout_sized metrics f).nodes) ∧
    (∃ v ∈ (ir_layout_compute_flowchart metrics f aw ah).state.nodes,
      v.width = max_node_width (layout_sized metrics f).nodes) ∧
    (∃ v ∈ (ir_layout_compute_flowchart metrics f aw ah).state.nodes,
      v.height = max_node_height (layout_sized metrics f).nodes) := by
  have hlen := layout_result_length metrics f aw ah hc
  have at_index : ∀ j (hj : j < f.state.nodes.length),
      ∃ v ∈ (ir_layout_compute_flowchart metrics f aw ah).state.nodes,
        v.width = (compute_node_size metrics (layout_font_size f) (f.state.nodes.get ⟨j, hj⟩)).width ∧
        v.height =
          (compute_node_size metrics (layout_font_size f) (f.state.nodes.get ⟨j, hj⟩)).height := by
    intro j hj
    obtain ⟨x, y, e, _⟩ := layout_result_get metrics f aw ah hc j _ (List.get?_eq_get hj)
    exact ⟨_, List.get?_mem e, rfl, rfl⟩
  have of_sized : ∀ s ∈ (layout_sized metrics f).nodes,
      ∃ v ∈ (ir_layout_compute_flowchart metrics f aw ah).state.nodes,
        v.width = s.width ∧ v.height = s.height := by
    intro s hs
    rw [layout_sized_nodes, List.mem_map] at hs
    obtain ⟨n0, h0, rfl⟩ := hs
    obtain ⟨j, hj, e⟩ := List.getElem_of_mem h0
    obtain ⟨v, hv, e1, e2⟩ := at_index j hj
    refine ⟨v, hv, ?_, ?_⟩
    · rw [e1]; congr 2
    · rw [e2]; congr 2
  have bound : ∀ v ∈ (ir_layout_compute_flowchart metrics f aw ah).state.nodes,
      (40 ≤ v.width ∧ v.width ≤ max_node_width (layout_sized metrics f).nodes) ∧
      (24 ≤ v.height ∧ v.height ≤ max_node_height (layout_sized metrics f).nodes) := by
    intro v hv
    obtain ⟨j, hj, e⟩ := List.getElem_of_mem hv
    have hj1 : j < f.state.nodes.length := by omega
    obtain ⟨x, y, e2, _⟩ := layout_result_get metrics f aw ah hc j _ (List.get?_eq_get hj1)
    rw [List.get?_eq_getElem?, List.getElem?_eq_getElem hj, e] at e2
    cases e2
    have b := compute_node_size_bounds metrics (layout_font_size f) (f.state.nodes.get ⟨j, hj1⟩)
    obtain ⟨_, s2, _, s4⟩ := sized_in_slot metrics f j _ (List.get?_eq_get hj1)
    exact ⟨⟨b.1, s2⟩, ⟨b.2.1, s4⟩⟩
  have some_node : ∃ v, v ∈ (ir_layout_compute_flowchart metrics f aw ah).state.nodes := by
    have : 0 < f.state.nodes.length := List.length_pos.mpr hn
    obtain ⟨v, hv, _⟩ := at_index 0 this
    exact ⟨v, hv⟩
  refine ⟨fun v hv => ⟨(bound v hv).1.2, (bound v hv).2.2⟩, ?_, ?_⟩
  · rcases foldl_max_field_mem (fun n : IRFlowchartNodeData => n.width)
        (layout_sized metrics f).nodes FLOWCHART_NODE_MIN_WIDTH with h | ⟨s, hs, e⟩
    · obtain ⟨v, hv⟩ := some_node
      have b := (bound v hv).1
      have h1 : max_node_width (layout_sized metrics f).nodes = 40 := h
      exact ⟨v, hv, by rw [h1] at b ⊢; exact le_antisymm b.2 b.1⟩
    · obtain ⟨v, hv, e1, _⟩ := of_sized s hs
      exact ⟨v, hv, e1.trans e⟩
  · rcases foldl_max_field_mem (fun n : IRFlowchartNodeData => n.height)
        (layout_sized metrics f).nodes FLOWCHART_NODE_MIN_HEIGHT with h | ⟨s, hs, e⟩
    · obtain ⟨v, hv⟩ := some_node
      have b := (bound v hv).2
      have h1 : max_node_height (layout_sized metrics f).nodes = 24 := h
      exact ⟨v, hv, by rw [h1] at b ⊢; exact le_antisymm b.2 b.1⟩
    · obtain ⟨v, hv, _, e2⟩ := of_sized s hs
      exact ⟨v, hv, e2.trans e⟩

/-- The slot formulas in exact arithmetic, without the rounding of `float`: in a
flowchart of direction TB none of whose registered nodes is in a
subgraph, laid out (not from the cache) in a viewport at least as large as the
natural size, the registered node of index `i`, of layer `L`, has its centre at
x = 20 + (M - n)(W + s)/2 + k(W + s) + W/2 and y = 20 + L(H + r) + H/2, where
`n` is the number of nodes of layer `L`, `k` the number of nodes of layer `L`
registered before it, `M` the value of `max_nodes_in_layer`, `s` and `r` the
node and rank spacing, and `W`, `H` the largest width and height among the
nodes; so the middle of the nodes of each layer is at
x = 20 + (M - 1)(W + s)/2 + W/2 for every layer. -/
theorem top_down_slot_centres (metrics : Option IRFontMetrics) (flowchart : Flowchart)
    (available_width available_height : ℚ) (i : Nat) (u : IRFlowchartNodeData)
    (hc : flowchart.state.layout_computed = false)
    (hd : flowchart.state.direction = IRFlowchartDirection.TB)
    (hs : ∀ node ∈ flowchart.state.nodes, node.subgraph_id = none)
    (hw : layout_natural_width metrics flowchart ≤ available_width)
    (hh : layout_natural_height metrics flowchart ≤ available_height)
    (hu : (ir_layout_compute_flowchart metrics flowchart available_width
      available_height).state.nodes.get? i = some u) :
    u.x + u.width / 2 =
      20 + (((max_nodes_in_layer (layout_layers metrics flowchart) : Int) -
            (nodes_per_layer (layout_layers metrics flowchart)
              ((layout_layers metrics flowchart).getD i (-1)) : Int) : Int) : ℚ) *
          (max_node_width (layout_sized metrics flowchart).nodes +
            layout_node_spacing flowchart.state) / 2 +
        (rank_in_layer (layout_layers metrics flowchart) i : ℚ) *
          (max_node_width (layout_sized metrics flowchart).nodes +
            layout_node_spacing flowchart.state) +
        max_node_width (layout_sized metrics flowchart).nodes / 2 ∧
    u.y + u.height / 2 =
      20 + (((layout_layers metrics flowchart).getD i (-1) : Int) : ℚ) *
          (max_node_height (layout_sized metrics flowchart).nodes +
            layout_rank_spacing flowchart.state) +
        max_node_height (layout_sized metrics flowchart).nodes / 2 ∧
    u.x + u.width / 2 -
        ((rank_in_layer (layout_layers metrics flowchart) i : ℚ) -
          ((nodes_per_layer (layout_layers metrics flowchart)
            ((layout_layers metrics flowchart).getD i (-1)) : ℚ) - 1) / 2) *
          (max_node_width (layout_sized metrics flowchart).nodes +
            layout_node_spacing flowchart.state) =
      20 + ((max_nodes_in_layer (layout_layers metrics flowchart) : ℚ) - 1) *
          (max_node_width (layout_sized metrics flowchart).nodes +
            layout_node_spacing flowchart.state) / 2 +
        max_node_width (layout_sized metrics flowchart).nodes / 2 ∧
    nodes_per_layer (layout_layers metrics flowchart)
        ((layout_layers metrics flowchart).getD i (-1)) ≤
      max_nodes_in_layer (layout_layers metrics flowchart) ∧
    (∀ v ∈ (ir_layout_compute_flowchart metrics flowchart available_width
        available_height).state.nodes,
      v.width ≤ max_node_width (layout_sized metrics flowchart).nodes ∧
      v.height ≤ max_node_height (layout_sized metrics flowchart).nodes) ∧
    (∃ v ∈ (ir_layout_compute_flowchart metrics flowchart available_width
        available_height).state.nodes,
      v.width = max_node_width (layout_sized metrics flowchart).nodes) ∧
    (∃ v ∈ (ir_layout_compute_flowchart metrics flowchart available_width
        available_height).state.nodes,
      v.height = max_node_height (layout_sized metrics flowchart).nodes) ∧
    (ir_layout_compute_flowchart metrics flowchart available_width
      available_height).state.natural_width = layout_natural_width metrics flowchart ∧
    (ir_layout_compute_flowchart metrics flowchart available_width
      available_height).state.natural_height = layout_natural_height metrics flowchart := by
  have hlen := layout_result_length metrics flowchart available_width available_height hc
  have hi : i < flowchart.state.nodes.length := by
    rw [← hlen]
    rw [List.get?_eq_getElem?] at hu
    exact (List.getElem?_eq_some_iff.mp hu).1
  have hne : flowchart.state.nodes ≠ [] := by
    intro e
    rw [e] at hi
    simp at hi
  obtain ⟨node, hnode, ew, eh, ex, ey⟩ :=
    layout_result_plain metrics flowchart available_width available_height hc hs hw hh i u hu
  obtain ⟨g1, g2, g3⟩ :=
    slot_size_is_largest metrics flowchart available_width available_height hc hne
  have hlay := assign_layers_ok (layout_sized metrics flowchart)
  have hn : (layout_sized metrics flowchart).nodes.length = flowchart.state.nodes.length := by
    rw [layout_sized_nodes, List.length_map]
  have hcnt : nodes_per_layer (layout_layers metrics flowchart)
        ((layout_layers metrics flowchart).getD i (-1)) ≤
      max_nodes_in_layer (layout_layers metrics flowchart) := by
    have h0 : 0 ≤ (layout_layers metrics flowchart).getD i (-1) := hlay.2 i (by rw [hn]; exact hi)
    have h1 := le_max_layer_of (layout_layers metrics flowchart) i
      (by rw [show (layout_layers metrics flowchart).length = _ from hlay.1, hn]; exact hi)
    exact count_le_max_nodes_in_layer _ _ h0 h1
  unfold plain_position at ex ey
  rw [hd] at ex ey
  simp only [is_horizontal, is_reversed, primary_coord] at ex ey
  simp only [show (IRFlowchartDirection.TB == IRFlowchartDirection.LR) = false from rfl,
    show (IRFlowchartDirection.TB == IRFlowchartDirection.RL) = false from rfl,
    show (IRFlowchartDirection.TB == IRFlowchartDirection.BT) = false from rfl,
    Bool.or_self, Bool.false_eq_true, if_false] at ex ey
  have hnat : (ir_layout_compute_flowchart metrics flowchart available_width
      available_height).state.natural_width = layout_natural_width metrics flowchart ∧
    (ir_layout_compute_flowchart metrics flowchart available_width
      available_height).state.natural_height = layout_natural_height metrics flowchart := by
    rw [ir_layout_not_cached metrics flowchart available_width available_height hc hne]
    exact ⟨rfl, rfl⟩
  refine ⟨?_, ?_, ?_, hcnt, g1, g2, g3, hnat.1, hnat.2⟩
  · rw [ex]
    unfold nodes_per_layer
    ring
  · rw [ey]
    ring
  · rw [ex]
    unfold nodes_per_layer
    push_cast
    ring

/-- The statement at the node A of the flowchart of direction TB with the edges
A to B and A to C, in a viewport of 800 x 600: the natural size is 325.6 x
275.2, the layers are 0, 1, 1, and A, alone in its layer, has its centre in the
middle of the two slots of 132.8 x 97.6 of the layer of B and C. -/
theorem top_down_slot_centres_witness :
    (fork_flowchart IRFlowchartDirection.TB).state.layout_computed = false ∧
    (fork_flowchart IRFlowchartDirection.TB).state.direction = IRFlowchartDirection.TB ∧
    (∀ node ∈ (fork_flowchart IRFlowchartDirection.TB).state.nodes, node.subgraph_id = none) ∧
    layout_natural_width none (fork_flowchart IRFlowchartDirection.TB) ≤ 800 ∧
    layout_natural_height none (fork_flowchart IRFlowchartDirection.TB) ≤ 600 ∧
    layout_layers none (fork_flowchart IRFlowchartDirection.TB) = [0, 1, 1] ∧
    max_nodes_in_layer (layout_layers none (fork_flowchart IRFlowchartDirection.TB)) = 2 ∧
    max_node_width (layout_sized none (fork_flowchart IRFlowchartDirection.TB)).nodes = 664 / 5 ∧
    max_node_height (layout_sized none (fork_flowchart IRFlowchartDirection.TB)).nodes = 488 / 5 ∧
    ∃ u : IRFlowchartNodeData,
      (ir_layout_compute_flowchart none (fork_flowchart IRFlowchartDirection.TB)
        800 600).state.nodes.get? 0 = some u ∧
      u.x + u.width / 2 =
        20 + (((max_nodes_in_layer (layout_layers none (fork_flowchart IRFlowchartDirection.TB))
                : Int) -
              (nodes_per_layer (layout_layers none (fork_flowchart IRFlowchartDirection.TB))
                ((layout_layers none (fork_flowchart IRFlowchartDirection.TB)).getD 0 (-1))
                : Int) : Int) : ℚ) *
            (max_node_width (layout_sized none (fork_flowchart IRFlowchartDirection.TB)).nodes +
              layout_node_spacing (fork_flowchart IRFlowchartDirection.TB).state) / 2 +
          (rank_in_layer (layout_layers none (fork_flowchart IRFlowchartDirection.TB)) 0 : ℚ) *
            (max_node_width (layout_sized none (fork_flowchart IRFlowchartDirection.TB)).nodes +
              layout_node_spacing (fork_flowchart IRFlowchartDirection.TB).state) +
          max_node_width (layout_sized none (fork_flowchart IRFlowchartDirection.TB)).nodes / 2 ∧
      u.y + u.height / 2 =
        20 + (((layout_layers none (fork_flowchart IRFlowchartDirection.TB)).getD 0 (-1) : Int)
              : ℚ) *
            (max_node_height (layout_sized none (fork_flowchart IRFlowchartDirection.TB)).nodes +
              layout_rank_spacing (fork_flowchart IRFlowchartDirection.TB).state) +
          max_node_height (layout_sized none (fork_flowchart IRFlowchartDirection.TB)).nodes / 2 ∧
      u.x + u.width / 2 = 814 / 5 ∧ u.y + u.height / 2 = 344 / 5 := by
  have h := top_down_slot_centres none (fork_flowchart IRFlowchartDirection.TB) 800 600 0 _
    (by decide!) (by decide!) (by decide!) (by decide!) (by decide!) rfl
  exact ⟨by decide!, by decide!, by decide!, by decide!, by decide!, by decide!, by decide!,
    by decide!, by decide!, _, rfl, h.1, h.2.1, by decide!, by decide!⟩

/-! ## Node rectangles stay apart -/

theorem slot_gap (base a b S sp w1 w2 : ℚ) (hab : a + 1 ≤ b) (hS : 0 ≤ S + sp) (h1 : w1 ≤ S)
    (h2 : w2 ≤ S) :
    (base + a * (S + sp) + (S - w1) / 2) + w1 + sp ≤ base + b * (S + sp) + (S - w2) / 2 := by
  have := mul_le_mul_of_nonneg_right hab hS
  linarith

/-- Two slots of one layer: the node of the later slot begins at least the node
spacing after the end of the node of the earlier slot. -/
theorem plain_apart_in_layer (d : IRFlowchartDirection) (nl : List Int) (ns rs W H : ℚ)
    (L : Int) (n p q : Nat) (hpq : p < q) (wu hu wv hv : ℚ) (hns : 0 < ns)
    (hW : wu ≤ W ∧ wv ≤ W ∧ 0 ≤ W) (hH : hu ≤ H ∧ hv ≤ H ∧ 0 ≤ H) :
    (is_horizontal d = false →
      (plain_position d nl ns rs W H L n p wu hu).1 + wu + ns ≤
        (plain_position d nl ns rs W H L n q wv hv).1) ∧
    (is_horizontal d = true →
      (plain_position d nl ns rs W H L n p wu hu).2 + hu + ns ≤
        (plain_position d nl ns rs W H L n q wv hv).2) := by
  have hc : (p : ℚ) + 1 ≤ (q : ℚ) := by exact_mod_cast hpq
  unfold plain_position
  dsimp only
  refine ⟨fun hd => ?_, fun hd => ?_⟩
  · simp only [hd, Bool.false_eq_true, if_false]
    exact slot_gap _ _ _ W ns wu wv hc (by linarith [hW.2.2]) hW.1 hW.2.1
  · simp only [hd, if_true]
    exact slot_gap _ _ _ H ns hu hv hc (by linarith [hH.2.2]) hH.1 hH.2.1

/-- Two slots of different layers: along the axis of the layers one node begins
at least the rank spacing after the end of the other. -/
theorem plain_apart_across_layers (d : IRFlowchartDirection) (nl : List Int) (ns rs W H : ℚ)
    (L1 L2 : Int) (hl : L1 < L2) (n1 p1 n2 p2 : Nat) (wu hu wv hv : ℚ) (hrs : 0 < rs)
    (hW : wu ≤ W ∧ wv ≤ W ∧ 0 ≤ W) (hH : hu ≤ H ∧ hv ≤ H ∧ 0 ≤ H) :
    (is_horizontal d = false →
      (plain_position d nl ns rs W H L1 n1 p1 wu hu).2 + hu + rs ≤
          (plain_position d nl ns rs W H L2 n2 p2 wv hv).2 ∨
        (plain_position d nl ns rs W H L2 n2 p2 wv hv).2 + hv + rs ≤
          (plain_position d nl ns rs W H L1 n1 p1 wu hu).2) ∧
    (is_horizontal d = true →
      (plain_position d nl ns rs W H L1 n1 p1 wu hu).1 + wu + rs ≤
          (plain_position d nl ns rs W H L2 n2 p2 wv hv).1 ∨
        (plain_position d nl ns rs W H L2 n2 p2 wv hv).1 + wv + rs ≤
          (plain_position d nl ns rs W H L1 n1 p1 wu hu).1) := by
  have hc : (L1 : ℚ) + 1 ≤ (L2 : ℚ) := by exact_mod_cast hl
  have hr : (((max_layer_of nl - L2 : Int) : ℚ)) + 1 ≤ ((max_layer_of nl - L1 : Int) : ℚ) := by
    have : (max_layer_of nl - L2) + 1 ≤ max_layer_of nl - L1 := by omega
    exact_mod_cast this
  unfold plain_position primary_coord
  dsimp only
  refine ⟨fun hd => ?_, fun hd => ?_⟩
  · simp only [hd, Bool.false_eq_true, if_false]
    by_cases hrev : is_reversed d = true
    · simp only [hrev, if_true]
      right
      have := slot_gap 0 _ _ H rs hv hu hr (by linarith [hH.2.2]) hH.2.1 hH.1
      linarith
    · simp only [hrev, Bool.false_eq_true, if_false]
      left
      have := slot_gap 0 _ _ H rs hu hv hc (by linarith [hH.2.2]) hH.1 hH.2.1
      linarith
  · simp only [hd, if_true]
    by_cases hrev : is_reversed d = true
    · simp only [hrev, if_true]
      right
      have := slot_gap 0 _ _ W rs wv wu hr (by linarith [hW.2.2]) hW.2.1 hW.1
      linarith
    · simp only [hrev, Bool.false_eq_true, if_false]
      left
      have := slot_gap 0 _ _ W rs wu wv hc (by linarith [hW.2.2]) hW.1 hW.2.1
      linarith

theorem rectangles_apart_of_lt (metrics : Option IRFontMetrics) (f : Flowchart) (aw ah : ℚ)
    (i j : Nat) (u v : IRFlowchartNodeData)
    (hc : f.state.layout_computed = false)
    (hs : ∀ node ∈ f.state.nodes, node.subgraph_id = none)
    (hw : layout_natural_width metrics f ≤ aw) (hh : layout_natural_height metrics f ≤ ah)
    (hij : i < j)
    (hu : (ir_layout_compute_flowchart metrics f aw ah).state.nodes.get? i = some u)
    (hv : (ir_layout_compute_flowchart metrics f aw ah).state.nodes.get? j = some v) :
    ((layout_layers metrics f).getD i (-1) = (layout_layers metrics f).getD j (-1) →
      (is_horizontal f.state.direction = false →
        u.x + u.width + layout_node_spacing f.state ≤ v.x) ∧
      (is_horizontal f.state.direction = true →
        u.y + u.height + layout_node_spacing f.state ≤ v.y)) ∧
    ((layout_layers metrics f).getD i (-1) ≠ (layout_layers metrics f).getD j (-1) →
      (is_horizontal f.state.direction = false →
        u.y + u.height + layout_rank_spacing f.state ≤ v.y ∨
          v.y + v.height + layout_rank_spacing f.state ≤ u.y) ∧
      (is_horizontal f.state.direction = true →
        u.x + u.width + layout_rank_spacing f.state ≤ v.x ∨
          v.x + v.width + layout_rank_spacing f.state ≤ u.x)) := by
  obtain ⟨nu, hnu, ewu, ehu, exu, eyu⟩ := layout_result_plain metrics f aw ah hc hs hw hh i u hu
  obtain ⟨nv, hnv, ewv, ehv, exv, eyv⟩ := layout_result_plain metrics f aw ah hc hs hw hh j v hv
  obtain ⟨_, wu2, _, hu2⟩ := sized_in_slot metrics f i nu hnu
  obtain ⟨wv1, wv2, hv1, hv2⟩ := sized_in_slot metrics f j nv hnv
  rw [← ewu] at wu2
  rw [← ehu] at hu2
  rw [← ewv] at wv1 wv2
  rw [← ehv] at hv1 hv2
  have hW : u.width ≤ max_node_width (layout_sized metrics f).nodes ∧
      v.width ≤ max_node_width (layout_sized metrics f).nodes ∧
      0 ≤ max_node_width (layout_sized metrics f).nodes := ⟨wu2, wv2, by linarith⟩
  have hH : u.height ≤ max_node_height (layout_sized metrics f).nodes ∧
      v.height ≤ max_node_height (layout_sized metrics f).nodes ∧
      0 ≤ max_node_height (layout_sized metrics f).nodes := ⟨hu2, hv2, by linarith⟩
  have hsp := layout_spacing_pos f.state
  have hlay := assign_layers_ok (layout_sized metrics f)
  have hn : (layout_sized metrics f).nodes.length = f.state.nodes.length := by
    rw [layout_sized_nodes, List.length_map]
  have hj : j < (layout_layers metrics f).length := by
    have : j < f.state.nodes.length := by
      rw [List.get?_eq_getElem?] at hnv
      exact (List.getElem?_eq_some_iff.mp hnv).1
    rw [show (layout_layers metrics f).length = _ from hlay.1, hn]
    exact this
  refine ⟨fun hl => ?_, fun hl => ?_⟩
  · have hr := rank_in_layer_lt (layout_layers metrics f) i j hij hj hl
    rw [hl] at exu eyu
    obtain ⟨a, b⟩ := plain_apart_in_layer f.state.direction (layout_layers metrics f)
      (layout_node_spacing f.state) (layout_rank_spacing f.state)
      (max_node_width (layout_sized metrics f).nodes)
      (max_node_height (layout_sized metrics f).nodes)
      ((layout_layers metrics f).getD j (-1))
      ((layout_layers metrics f).count ((layout_layers metrics f).getD j (-1)))
      _ _ hr u.width u.height v.width v.height hsp.1 hW hH
    refine ⟨fun hd => ?_, fun hd => ?_⟩
    · have := a hd
      rw [exu, exv]
      linarith
    · have := b hd
      rw [eyu, eyv]
      linarith
  · rcases lt_or_gt_of_ne hl with hlt | hgt
    · obtain ⟨a, b⟩ := plain_apart_across_layers f.state.direction (layout_layers metrics f)
        (layout_node_spacing f.state) (layout_rank_spacing f.state)
        (max_node_width (layout_sized metrics f).nodes)
        (max_node_height (layout_sized metrics f).nodes) _ _ hlt
        ((layout_layers metrics f).count ((layout_layers metrics f).getD i (-1)))
        (rank_in_layer (layout_layers metrics f) i)
        ((layout_layers metrics f).count ((layout_layers metrics f).getD j (-1)))
        (rank_in_layer (layout_layers metrics f) j)
        u.width u.height v.width v.height hsp.2 hW hH
      refine ⟨fun hd => ?_, fun hd => ?_⟩
      · rw [eyu, eyv]
        rcases a hd with h | h
        · left; linarith
        · right; linarith
      · rw [exu, exv]
        rcases b hd with h | h
        · left; linarith
        · right; linarith
    · obtain ⟨a, b⟩ := plain_apart_across_layers f.state.direction (layout_layers metrics f)
        (layout_node_spacing f.state) (layout_rank_spacing f.state)
        (max_node_width (layout_sized metrics f).nodes)
        (max_node_height (layout_sized metrics f).nodes) _ _ hgt
        ((layout_layers metrics f).count ((layout_layers metrics f).getD j (-1)))
        (rank_in_layer (layout_layers metrics f) j)
        ((layout_layers metrics f).count ((layout_layers metrics f).getD i (-1)))
        (rank_in_layer (layout_layers metrics f) i)
        v.width v.height u.width u.height hsp.2 ⟨hW.2.1, hW.1, hW.2.2⟩ ⟨hH.2.1, hH.1, hH.2.2⟩
      refine ⟨fun hd => ?_, fun hd => ?_⟩
      · rw [eyu, eyv]
        rcases a hd with h | h
        · right; linarith
        · left; linarith
      · rw [exu, exv]
        rcases b hd with h | h
        · right; linarith
        · left; linarith

/-- The separation in exact arithmetic, without the rounding of `float`: in a
flowchart of any direction none of whose registered nodes is in a
subgraph, laid out (not from the cache) in a viewport at least as large as the
natural size, two registered nodes of different index in the same layer are at
least the node spacing apart across the axis of the layers (x for TB and BT, y
for LR and RL), two nodes of different layers are at least the rank spacing
apart along that axis, and both spacings are positive: the two rectangles do
not overlap. -/
theorem node_rectangles_are_apart (metrics : Option IRFontMetrics) (flowchart : Flowchart)
    (available_width available_height : ℚ) (i j : Nat) (u v : IRFlowchartNodeData)
    (hc : flowchart.state.layout_computed = false)
    (hs : ∀ node ∈ flowchart.state.nodes, node.subgraph_id = none)
    (hw : layout_natural_width metrics flowchart ≤ available_width)
    (hh : layout_natural_height metrics flowchart ≤ available_height)
    (hij : i ≠ j)
    (hu : (ir_layout_compute_flowchart metrics flowchart available_width
      available_height).state.nodes.get? i = some u)
    (hv : (ir_layout_compute_flowchart metrics flowchart available_width
      available_height).state.nodes.get? j = some v) :
    ((layout_layers metrics flowchart).getD i (-1) = (layout_layers metrics flowchart).getD j (-1) →
      (is_horizontal flowchart.state.direction = false →
        u.x + u.width + layout_node_spacing flowchart.state ≤ v.x ∨
          v.x + v.width + layout_node_spacing flowchart.state ≤ u.x) ∧
      (is_horizontal flowchart.state.direction = true →
        u.y + u.height + layout_node_spacing flowchart.state ≤ v.y ∨
          v.y + v.height + layout_node_spacing flowchart.state ≤ u.y)) ∧
    ((layout_layers metrics flowchart).getD i (-1) ≠ (layout_layers metrics flowchart).getD j (-1) →
      (is_horizontal flowchart.state.direction = false →
        u.y + u.height + layout_rank_spacing flowchart.state ≤ v.y ∨
          v.y + v.height + layout_rank_spacing flowchart.state ≤ u.y) ∧
      (is_horizontal flowchart.state.direction = true →
        u.x + u.width + layout_rank_spacing flowchart.state ≤ v.x ∨
          v.x + v.width + layout_rank_spacing flowchart.state ≤ u.x)) ∧
    0 < layout_node_spacing flowchart.state ∧ 0 < layout_rank_spacing flowchart.state ∧
    (u.x + u.width ≤ v.x ∨ v.x + v.width ≤ u.x ∨ u.y + u.height ≤ v.y ∨ v.y + v.height ≤ u.y) := by
  have hsp := layout_spacing_pos flowchart.state
  have main : ((layout_layers metrics flowchart).getD i (-1) =
        (layout_layers metrics flowchart).getD j (-1) →
      (is_horizontal flowchart.state.direction = false →
        u.x + u.width + layout_node_spacing flowchart.state ≤ v.x ∨
          v.x + v.width + layout_node_spacing flowchart.state ≤ u.x) ∧
      (is_horizontal flowchart.state.direction = true →
        u.y + u.height + layout_node_spacing flowchart.state ≤ v.y ∨
          v.y + v.height + layout_node_spacing flowchart.state ≤ u.y)) ∧
    ((layout_layers metrics flowchart).getD i (-1) ≠ (layout_layers metrics flowchart).getD j (-1) →
      (is_horizontal flowchart.state.direction = false →
        u.y + u.height + layout_rank_spacing flowchart.state ≤ v.y ∨
          v.y + v.height + layout_rank_spacing flowchart.state ≤ u.y) ∧
      (is_horizontal flowchart.state.direction = true →
        u.x + u.width + layout_rank_spacing flowchart.state ≤ v.x ∨
          v.x + v.width + layout_rank_spacing flowchart.state ≤ u.x)) := by
    rcases Nat.lt_or_gt_of_ne hij with h | h
    · obtain ⟨a, b⟩ := rectangles_apart_of_lt metrics flowchart available_width available_height
        i j u v hc hs hw hh h hu hv
      exact ⟨fun hl => ⟨fun hd => Or.inl ((a hl).1 hd), fun hd => Or.inl ((a hl).2 hd)⟩, b⟩
    · obtain ⟨a, b⟩ := rectangles_apart_of_lt metrics flowchart available_width available_height
        j i v u hc hs hw hh h hv hu
      exact ⟨fun hl => ⟨fun hd => Or.inr ((a hl.symm).1 hd), fun hd => Or.inr ((a hl.symm).2 hd)⟩,
        fun hl => ⟨fun hd => ((b (Ne.symm hl)).1 hd).symm, fun hd => ((b (Ne.symm hl)).2 hd).symm⟩⟩
  refine ⟨main.1, main.2, hsp.1, hsp.2, ?_⟩
  by_cases hl : (layout_layers metrics flowchart).getD i (-1) =
      (layout_layers metrics flowchart).getD j (-1)
  · by_cases hd : is_horizontal flowchart.state.direction = true
    · rcases (main.1 hl).2 hd with h | h
      · right; right; left; linarith
      · right; right; right; linarith
    · rcases (main.1 hl).1 (by simpa using hd) with h | h
      · left; linarith
      · right; left; linarith
  · by_cases hd : is_horizontal flowchart.state.direction = true
    · rcases (main.2 hl).2 hd with h | h
      · left; linarith
      · right; left; linarith
    · rcases (main.2 hl).1 (by simpa using hd) with h | h
      · right; right; left; linarith
      · right; right; right; linarith

/-- The statement at the nodes B and C, both of layer 1, of the flowchart of
direction RL with the edges A to B and A to C, in a viewport of 800 x 600: B
ends at y = 117.6 and C begins at y = 168. -/
theorem node_rectangles_are_apart_witness :
    (fork_flowchart IRFlowchartDirection.RL).state.layout_computed = false ∧
    (∀ node ∈ (fork_flowchart IRFlowchartDirection.RL).state.nodes, node.subgraph_id = none) ∧
    layout_natural_width none (fork_flowchart IRFlowchartDirection.RL) ≤ 800 ∧
    layout_natural_height none (fork_flowchart IRFlowchartDirection.RL) ≤ 600 ∧
    layout_layers none (fork_flowchart IRFlowchartDirection.RL) = [0, 1, 1] ∧
    ∃ u v : IRFlowchartNodeData,
      (ir_layout_compute_flowchart none (fork_flowchart IRFlowchartDirection.RL)
        800 600).state.nodes.get? 1 = some u ∧
      (ir_layout_compute_flowchart none (fork_flowchart IRFlowchartDirection.RL)
        800 600).state.nodes.get? 2 = some v ∧
      (u.y + u.height + layout_node_spacing (fork_flowchart IRFlowchartDirection.RL).state ≤ v.y ∨
        v.y + v.height + layout_node_spacing (fork_flowchart IRFlowchartDirection.RL).state
          ≤ u.y) ∧
      (u.x + u.width ≤ v.x ∨ v.x + v.width ≤ u.x ∨ u.y + u.height ≤ v.y ∨
        v.y + v.height ≤ u.y) ∧
      u.y + u.height = 588 / 5 ∧ v.y = 168 := by
  have h := node_rectangles_are_apart none (fork_flowchart IRFlowchartDirection.RL) 800 600 1 2 _ _
    (by decide!) (by decide!) (by decide!) (by decide!) (by decide) rfl rfl
  exact ⟨by decide!, by decide!, by decide!, by decide!, by decide!, _, _, rfl, rfl,
    (h.1 (by decide!)).2 (by decide!), h.2.2.2.2, by decide!, by decide!⟩

/-! ## A second layout -/

/-! The layering reads the ids of the nodes and the ends of the edges only. -/

theorem any_congr_map {α β : Type} (f : α → β) (p : α → Bool) (q : β → Bool)
    (h : ∀ a, p a = q (f a)) (l : List α) : l.any p = (l.map f).any q := by
  induction l with
  | nil => rfl
  | cons a l ih => simp [List.any_cons, h a, ih]

theorem findIdx_congr_map {α β : Type} (f : α → β) (p : α → Bool) (q : β → Bool)
    (h : ∀ a, p a = q (f a)) (l : List α) : l.findIdx p = (l.map f).findIdx q := by
  induction l with
  | nil => rfl
  | cons a l ih => simp [List.findIdx_cons, h a, ih]

theorem is_start_node_congr (s t : IRFlowchartState) (n m : IRFlowchartNodeData)
    (he : t.edges.map edge_ends = s.edges.map edge_ends) (hn : m.node_id = n.node_id) :
    is_start_node t m = is_start_node s n := by
  unfold is_start_node
  rw [hn]
  cases n.node_id with
  | none => rfl
  | some id =>
    dsimp only
    rw [any_congr_map edge_ends (fun edge => edge.to_id == some id) (fun e => e.2 == some id)
        (fun a => rfl) t.edges,
      any_congr_map edge_ends (fun edge => edge.to_id == some id) (fun e => e.2 == some id)
        (fun a => rfl) s.edges, he]

theorem map_congr_of_ids {γ : Type} (s t : List IRFlowchartNodeData)
    (hn : t.map (fun n => n.node_id) = s.map (fun n => n.node_id))
    (F G : IRFlowchartNodeData → γ)
    (h : ∀ n m : IRFlowchartNodeData, m.node_id = n.node_id → G m = F n) :
    t.map G = s.map F := by
  induction s generalizing t with
  | nil =>
    cases t with
    | nil => rfl
    | cons a t => simp at hn
  | cons b s ih =>
    cases t with
    | nil => simp at hn
    | cons a t =>
      simp only [List.map_cons, List.cons.injEq] at hn ⊢
      exact ⟨h b a hn.1, ih t hn.2⟩

theorem initial_layering_congr (s t : IRFlowchartState)
    (hn : t.nodes.map (fun n => n.node_id) = s.nodes.map (fun n => n.node_id))
    (he : t.edges.map edge_ends = s.edges.map edge_ends) :
    initial_layering t = initial_layering s := by
  have hlen : t.nodes.length = s.nodes.length := by
    have := congrArg List.length hn
    simpa using this
  have e1 : t.nodes.map (fun node => if is_start_node t node then (0 : Int) else -1) =
      s.nodes.map (fun node => if is_start_node s node then (0 : Int) else -1) :=
    map_congr_of_ids s.nodes t.nodes hn _ _
      (fun n m h => by rw [is_start_node_congr s t n m he h])
  have e2 : t.nodes.map (fun node => is_start_node t node) =
      s.nodes.map (fun node => is_start_node s node) :=
    map_congr_of_ids s.nodes t.nodes hn _ _ (fun n m h => is_start_node_congr s t n m he h)
  unfold initial_layering
  rw [e1, e2, hlen]

theorem find_source_index_congr (s t : IRFlowchartState)
    (hn : t.nodes.map (fun n => n.node_id) = s.nodes.map (fun n => n.node_id))
    (from_id : Option (List Char)) :
    find_source_index t from_id = find_source_index s from_id := by
  have hlen : t.nodes.length = s.nodes.length := by
    have := congrArg List.length hn
    simpa using this
  unfold find_source_index
  cases from_id with
  | none => rfl
  | some id =>
    dsimp only
    rw [findIdx_congr_map (fun n : IRFlowchartNodeData => n.node_id)
        (fun node => node.node_id == some id) (fun i => i == some id) (fun a => rfl) t.nodes,
      findIdx_congr_map (fun n : IRFlowchartNodeData => n.node_id)
        (fun node => node.node_id == some id) (fun i => i == some id) (fun a => rfl) s.nodes,
      hn, hlen]

theorem scan_predecessors_congr (s t : IRFlowchartState)
    (hn : t.nodes.map (fun n => n.node_id) = s.nodes.map (fun n => n.node_id))
    (he : t.edges.map edge_ends = s.edges.map edge_ends) (nl : List Int) (id : List Char) :
    scan_predecessors t nl id = scan_predecessors s nl id := by
  unfold scan_predecessors
  have step : ∀ st : IRFlowchartState, ∀ es : List IRFlowchartEdgeData, ∀ acc : Int × Bool,
      es.foldl
        (fun acc edge =>
          if edge.to_id == some id then
            match find_source_index st edge.from_id with
            | some j => if nl.getD j (-1) ≥ 0 then (max acc.1 (nl.getD j (-1)), true) else acc
            | none => acc
          else acc) acc =
      (es.map edge_ends).foldl
        (fun acc e =>
          if e.2 == some id then
            match find_source_index st e.1 with
            | some j => if nl.getD j (-1) ≥ 0 then (max acc.1 (nl.getD j (-1)), true) else acc
            | none => acc
          else acc) acc := by
    intro st es acc
    rw [List.foldl_map]
    rfl
  refine (step t t.edges (-1, false)).trans (Eq.trans ?_ (step s s.edges (-1, false)).symm)
  rw [he]
  congr 1
  funext acc e
  rw [find_source_index_congr s t hn]

theorem layer_sweep_node_congr (s t : IRFlowchartState)
    (hn : t.nodes.map (fun n => n.node_id) = s.nodes.map (fun n => n.node_id))
    (he : t.edges.map edge_ends = s.edges.map edge_ends) (l : Layering) (i : Nat) :
    layer_sweep_node t l i = layer_sweep_node s l i := by
  have hid : (t.nodes.get? i).bind (fun node => node.node_id) =
      (s.nodes.get? i).bind (fun node => node.node_id) := by
    have h1 : ∀ ns : List IRFlowchartNodeData,
        (ns.get? i).bind (fun node => node.node_id) =
          ((ns.map (fun n => n.node_id)).get? i).bind id := by
      intro ns
      rw [List.get?_eq_getElem?, List.get?_eq_getElem?, List.getElem?_map]
      cases ns[i]? <;> rfl
    rw [h1, h1, hn]
  unfold layer_sweep_node
  rw [hid]
  split
  · rfl
  · cases (s.nodes.get? i).bind (fun node => node.node_id) with
    | none => rfl
    | some id =>
      dsimp only
      rw [scan_predecessors_congr s t hn he]

theorem layering_turn_congr (s t : IRFlowchartState)
    (hn : t.nodes.map (fun n => n.node_id) = s.nodes.map (fun n => n.node_id))
    (he : t.edges.map edge_ends = s.edges.map edge_ends) (l : Layering) :
    layering_turn t l = layering_turn s l := by
  have hlen : t.nodes.length = s.nodes.length := by
    have := congrArg List.length hn
    simpa using this
  have hf : layer_sweep_node t = layer_sweep_node s := by
    funext l i
    exact layer_sweep_node_congr s t hn he l i
  unfold layering_turn
  rw [hf, hlen]

theorem layering_loop_congr (s t : IRFlowchartState)
    (hn : t.nodes.map (fun n => n.node_id) = s.nodes.map (fun n => n.node_id))
    (he : t.edges.map edge_ends = s.edges.map edge_ends) :
    ∀ (k : Nat) (l : Layering), layering_loop t k l = layering_loop s k l := by
  intro k
  induction k with
  | zero => intro l; rfl
  | succ k ih =>
    intro l
    simp only [layering_loop]
    rw [layering_turn_congr s t hn he, ih]

theorem assign_layers_congr (s t : IRFlowchartState)
    (hn : t.nodes.map (fun n => n.node_id) = s.nodes.map (fun n => n.node_id))
    (he : t.edges.map edge_ends = s.edges.map edge_ends) :
    assign_layers t = assign_layers s := by
  have hlen : t.nodes.length = s.nodes.length := by
    have := congrArg List.length hn
    simpa using this
  unfold assign_layers
  rw [layering_loop_congr s t hn he, initial_layering_congr s t hn he, hlen]

/-- The body of the positioning loop, for any node: the corner is the one of
the slot formulas for the direction used for the node. -/
theorem position_node_full (state : IRFlowchartState) (node_layer : List Int)
    (ns rs W H : ℚ) (acc : Positioning) (i : Nat) (node : IRFlowchartNodeData)
    (h : acc.nodes.get? i = some node) :
    (position_node state node_layer ns rs W H acc i).nodes =
      acc.nodes.set i
        { node with
          x := (plain_position (node_direction state node) node_layer ns rs W H
            (node_layer.getD i (-1))
            (nodes_in_this_layer acc.nodes node_layer node (node_layer.getD i (-1)))
            (position_in_layer state node_layer acc.nodes acc.layer_position i node)
            node.width node.height).1
          y := (plain_position (node_direction state node) node_layer ns rs W H
            (node_layer.getD i (-1))
            (nodes_in_this_layer acc.nodes node_layer node (node_layer.getD i (-1)))
            (position_in_layer state node_layer acc.nodes acc.layer_position i node)
            node.width node.height).2 } ∧
    (position_node state node_layer ns rs W H acc i).layer_position =
      (if node_in_directional_subgraph state node then acc.layer_position
       else acc.layer_position.set (node_layer.getD i (-1)).toNat
        (acc.layer_position.getD (node_layer.getD i (-1)).toNat 0 + 1)) ∧
    (position_node state node_layer ns rs W H acc i).total_primary_size =
      max acc.total_primary_size
        (if is_horizontal state.direction then
          (plain_position (node_direction state node) node_layer ns rs W H
            (node_layer.getD i (-1))
            (nodes_in_this_layer acc.nodes node_layer node (node_layer.getD i (-1)))
            (position_in_layer state node_layer acc.nodes acc.layer_position i node)
            node.width node.height).1 + node.width
         else
          (plain_position (node_direction state node) node_layer ns rs W H
            (node_layer.getD i (-1))
            (nodes_in_this_layer acc.nodes node_layer node (node_layer.getD i (-1)))
            (position_in_layer state node_layer acc.nodes acc.layer_position i node)
            node.width node.height).2 + node.height) ∧
    (position_node state node_layer ns rs W H acc i).total_secondary_size =
      max acc.total_secondary_size
        (if is_horizontal state.direction then
          (plain_position (node_direction state node) node_layer ns rs W H
            (node_layer.getD i (-1))
            (nodes_in_this_layer acc.nodes node_layer node (node_layer.getD i (-1)))
            (position_in_layer state node_layer acc.nodes acc.layer_position i node)
            node.width node.height).2 + node.height
         else
          (plain_position (node_direction state node) node_layer ns rs W H
            (node_layer.getD i (-1))
            (nodes_in_this_layer acc.nodes node_layer node (node_layer.getD i (-1)))
            (position_in_layer state node_layer acc.nodes acc.layer_position i node)
            node.width node.height).1 + node.width) := by
  unfold position_node
  rw [h]
  dsimp only
  unfold plain_position position_in_layer nodes_in_this_layer primary_coord
  dsimp only
  cases hin : node_in_directional_subgraph state node <;>
    cases hh : is_horizontal (node_direction state node) <;>
    cases hr : is_reversed (node_direction state node) <;>
    exact ⟨rfl, rfl, rfl, rfl⟩

/-- Two node records that agree once their positions are cleared agree in every
other field, and are equal once both are given the same position. -/
theorem unplaced_fields (n m : IRFlowchartNodeData) (h : node_unplaced n = node_unplaced m) :
    n.node_id = m.node_id ∧ n.shape = m.shape ∧ n.label = m.label ∧ n.width = m.width ∧
    n.height = m.height ∧ n.subgraph_id = m.subgraph_id ∧
    ∀ x y : ℚ, ({ n with x := x, y := y } : IRFlowchartNodeData) = { m with x := x, y := y } := by
  cases n
  cases m
  simp only [node_unplaced, IRFlowchartNodeData.mk.injEq] at h
  obtain ⟨h1, h2, h3, _, _, h6, h7, h8, h9, h10, h11⟩ := h
  subst h1 h2 h3 h6 h7 h8 h9 h10 h11
  exact ⟨rfl, rfl, rfl, rfl, rfl, rfl, fun x y => rfl⟩

theorem unplaced_get (a b : List IRFlowchartNodeData)
    (h : a.map node_unplaced = b.map node_unplaced) (j : Nat) :
    (a.get? j).map node_unplaced = (b.get? j).map node_unplaced := by
  rw [List.get?_eq_getElem?, List.get?_eq_getElem?, ← List.getElem?_map, ← List.getElem?_map, h]

theorem unplaced_length (a b : List IRFlowchartNodeData)
    (h : a.map node_unplaced = b.map node_unplaced) : a.length = b.length := by
  have := congrArg List.length h
  simpa using this

theorem has_directional_subgraphs_congr (s t : IRFlowchartState)
    (hd : t.direction = s.direction)
    (hg : t.subgraphs.map subgraph_key = s.subgraphs.map subgraph_key) :
    has_directional_subgraphs t = has_directional_subgraphs s := by
  unfold has_directional_subgraphs
  rw [any_congr_map subgraph_key (fun sg => sg.direction != t.direction)
      (fun k => k.2 != t.direction) (fun a => rfl) t.subgraphs,
    any_congr_map subgraph_key (fun sg => sg.direction != s.direction)
      (fun k => k.2 != s.direction) (fun a => rfl) s.subgraphs, hg, hd]

theorem node_in_directional_subgraph_congr (s t : IRFlowchartState)
    (hd : t.direction = s.direction)
    (hg : t.subgraphs.map subgraph_key = s.subgraphs.map subgraph_key)
    (n m : IRFlowchartNodeData) (h : m.subgraph_id = n.subgraph_id) :
    node_in_directional_subgraph t m = node_in_directional_subgraph s n := by
  unfold node_in_directional_subgraph
  rw [has_directional_subgraphs_congr s t hd hg, h]
  cases n.subgraph_id with
  | none => rfl
  | some sid =>
    dsimp only
    rw [any_congr_map subgraph_key
        (fun sg => sg.subgraph_id == some sid && sg.direction != t.direction)
        (fun k => k.1 == some sid && k.2 != t.direction) (fun a => rfl) t.subgraphs,
      any_congr_map subgraph_key
        (fun sg => sg.subgraph_id == some sid && sg.direction != s.direction)
        (fun k => k.1 == some sid && k.2 != s.direction) (fun a => rfl) s.subgraphs, hg, hd]

theorem find_key_congr (a b : List IRFlowchartSubgraphData)
    (h : a.map subgraph_key = b.map subgraph_key) (sid : List Char) :
    (a.find? (fun sg => sg.subgraph_id == some sid)).map subgraph_key =
      (b.find? (fun sg => sg.subgraph_id == some sid)).map subgraph_key := by
  induction a generalizing b with
  | nil =>
    cases b with
    | nil => rfl
    | cons y b => simp at h
  | cons x a ih =>
    cases b with
    | nil => simp at h
    | cons y b =>
      simp only [List.map_cons, List.cons.injEq] at h
      have hk : x.subgraph_id = y.subgraph_id := congrArg Prod.fst h.1
      simp only [List.find?_cons, hk]
      cases hc : (y.subgraph_id == some sid)
      · exact ih b h.2
      · simp only [Option.map_some', h.1]

theorem node_direction_congr (s t : IRFlowchartState)
    (hd : t.direction = s.direction)
    (hg : t.subgraphs.map subgraph_key = s.subgraphs.map subgraph_key)
    (n m : IRFlowchartNodeData) (h : m.subgraph_id = n.subgraph_id) :
    node_direction t m = node_direction s n := by
  unfold node_direction
  rw [has_directional_subgraphs_congr s t hd hg, h, hd]
  split
  · cases n.subgraph_id with
    | none => rfl
    | some sid =>
      dsimp only
      have hf := find_key_congr t.subgraphs s.subgraphs hg sid
      cases ht : t.subgraphs.find? (fun sg => sg.subgraph_id == some sid) with
      | none =>
        rw [ht] at hf
        cases hs : s.subgraphs.find? (fun sg => sg.subgraph_id == some sid) with
        | none => rfl
        | some y => rw [hs] at hf; simp at hf
      | some x =>
        rw [ht] at hf
        cases hs : s.subgraphs.find? (fun sg => sg.subgraph_id == some sid) with
        | none => rw [hs] at hf; simp at hf
        | some y =>
          rw [hs] at hf
          simp only [Option.map_some', Option.some.injEq] at hf
          have e : x.direction = y.direction := congrArg Prod.snd hf
          dsimp only
          rw [e]
  · rfl

theorem nodes_in_this_layer_congr (a b : List IRFlowchartNodeData)
    (h : a.map node_unplaced = b.map node_unplaced) (nl : List Int)
    (n m : IRFlowchartNodeData) (hs : m.subgraph_id = n.subgraph_id) (layer : Int) :
    nodes_in_this_layer a nl m layer = nodes_in_this_layer b nl n layer := by
  unfold nodes_in_this_layer
  rw [unplaced_length a b h]
  congr 1
  apply List.filter_congr
  intro j _
  have hj := unplaced_get a b h j
  cases ha : a.get? j with
  | none =>
    rw [ha] at hj
    cases hb : b.get? j with
    | none => rfl
    | some y => rw [hb] at hj; simp at hj
  | some x =>
    rw [ha] at hj
    cases hb : b.get? j with
    | none => rw [hb] at hj; simp at hj
    | some y =>
      rw [hb] at hj
      simp only [Option.map_some', Option.some.injEq] at hj
      have e := (unplaced_fields x y hj).2.2.2.2.2.1
      simp only [same_subgraph, hs, e]

theorem position_in_layer_congr (s t : IRFlowchartState)
    (hd : t.direction = s.direction)
    (hg : t.subgraphs.map subgraph_key = s.subgraphs.map subgraph_key)
    (a b : List IRFlowchartNodeData) (h : a.map node_unplaced = b.map node_unplaced)
    (nl : List Int) (lp : List Nat) (i : Nat)
    (n m : IRFlowchartNodeData) (hs : m.subgraph_id = n.subgraph_id) :
    position_in_layer t nl a lp i m = position_in_layer s nl b lp i n := by
  unfold position_in_layer
  rw [node_in_directional_subgraph_congr s t hd hg n m hs]
  split
  · congr 1
    apply List.filter_congr
    intro j _
    have hj := unplaced_get a b h j
    cases ha : a.get? j with
    | none =>
      rw [ha] at hj
      cases hb : b.get? j with
      | none => rfl
      | some y => rw [hb] at hj; simp at hj
    | some x =>
      rw [ha] at hj
      cases hb : b.get? j with
      | none => rw [hb] at hj; simp at hj
      | some y =>
        rw [hb] at hj
        simp only [Option.map_some', Option.some.injEq] at hj
        have e := (unplaced_fields x y hj).2.2.2.2.2.1
        simp only [hs, e]
  · rfl

/-- One turn of the positioning loop on two states that differ in node
positions and subgraph boxes only: the placed node is the same and the rest of
the loop state stays in step. -/
theorem position_node_congr (s t : IRFlowchartState) (nl : List Int) (ns rs W H : ℚ)
    (a b : Positioning) (i : Nat)
    (hd : t.direction = s.direction)
    (hg : t.subgraphs.map subgraph_key = s.subgraphs.map subgraph_key)
    (hn : a.nodes.map node_unplaced = b.nodes.map node_unplaced)
    (hl : a.layer_position = b.layer_position)
    (hp : a.total_primary_size = b.total_primary_size)
    (hq : a.total_secondary_size = b.total_secondary_size) :
    (position_node t nl ns rs W H a i).nodes.map node_unplaced =
      (position_node s nl ns rs W H b i).nodes.map node_unplaced ∧
    (position_node t nl ns rs W H a i).layer_position =
      (position_node s nl ns rs W H b i).layer_position ∧
    (position_node t nl ns rs W H a i).total_primary_size =
      (position_node s nl ns rs W H b i).total_primary_size ∧
    (position_node t nl ns rs W H a i).total_secondary_size =
      (position_node s nl ns rs W H b i).total_secondary_size ∧
    ((position_node t nl ns rs W H a i).nodes.get? i =
      (position_node s nl ns rs W H b i).nodes.get? i) ∧
    (∀ j, j ≠ i →
      (position_node t nl ns rs W H a i).nodes.get? j = a.nodes.get? j ∧
      (position_node s nl ns rs W H b i).nodes.get? j = b.nodes.get? j) := by
  have hi := unplaced_get a.nodes b.nodes hn i
  have hlen := unplaced_length a.nodes b.nodes hn
  cases ha : a.nodes.get? i with
  | none =>
    rw [ha] at hi
    cases hb : b.nodes.get? i with
    | some y => rw [hb] at hi; simp at hi
    | none =>
      have ea : position_node t nl ns rs W H a i = a := by
        unfold position_node; rw [ha]
      have eb : position_node s nl ns rs W H b i = b := by
        unfold position_node; rw [hb]
      rw [ea, eb]
      exact ⟨hn, hl, hp, hq, by rw [ha, hb], fun j _ => ⟨rfl, rfl⟩⟩
  | some na =>
    rw [ha] at hi
    cases hb : b.nodes.get? i with
    | none => rw [hb] at hi; simp at hi
    | some nb =>
      rw [hb] at hi
      simp only [Option.map_some', Option.some.injEq] at hi
      obtain ⟨_, _, _, fw, fh, fs, fxy⟩ := unplaced_fields na nb hi
      obtain ⟨a1, a2, a3, a4⟩ := position_node_full t nl ns rs W H a i na ha
      obtain ⟨b1, b2, b3, b4⟩ := position_node_full s nl ns rs W H b i nb hb
      have e1 := node_direction_congr s t hd hg nb na fs
      have e2 := nodes_in_this_layer_congr a.nodes b.nodes hn nl nb na fs (nl.getD i (-1))
      have e3 := position_in_layer_congr s t hd hg a.nodes b.nodes hn nl a.layer_position i nb na fs
      have e4 := node_in_directional_subgraph_congr s t hd hg nb na fs
      have hX : plain_position (node_direction t na) nl ns rs W H (nl.getD i (-1))
            (nodes_in_this_layer a.nodes nl na (nl.getD i (-1)))
            (position_in_layer t nl a.nodes a.layer_position i na) na.width na.height =
          plain_position (node_direction s nb) nl ns rs W H (nl.getD i (-1))
            (nodes_in_this_layer b.nodes nl nb (nl.getD i (-1)))
            (position_in_layer s nl b.nodes b.layer_position i nb) nb.width nb.height := by
        rw [e1, e2, e3, hl, fw, fh]
      rw [hX] at a1 a3 a4
      rw [fw, fh] at a3 a4
      rw [e4, hl] at a2
      rw [fxy] at a1
      rw [hd, hp] at a3
      rw [hd, hq] at a4
      have hia : i < a.nodes.length := by
        rw [List.get?_eq_getElem?] at ha
        exact (List.getElem?_eq_some_iff.mp ha).1
      have hib : i < b.nodes.length := by omega
      refine ⟨?_, by rw [a2, b2], by rw [a3, b3], by rw [a4, b4], ?_, ?_⟩
      · rw [a1, b1, List.map_set, List.map_set, hn]
      · rw [a1, b1, List.get?_eq_getElem?, List.get?_eq_getElem?, List.getElem?_set_self hia,
          List.getElem?_set_self hib]
      · intro j hj
        constructor
        · rw [a1, List.get?_eq_getElem?, List.getElem?_set_ne (fun e => hj e.symm),
            ← List.get?_eq_getElem?]
        · rw [b1, List.get?_eq_getElem?, List.getElem?_set_ne (fun e => hj e.symm),
            ← List.get?_eq_getElem?]

theorem position_fold_congr (s t : IRFlowchartState) (nl : List Int) (ns rs W H : ℚ)
    (hd : t.direction = s.direction)
    (hg : t.subgraphs.map subgraph_key = s.subgraphs.map subgraph_key)
    (a0 b0 : Positioning)
    (hn : a0.nodes.map node_unplaced = b0.nodes.map node_unplaced)
    (hl : a0.layer_position = b0.layer_position)
    (hp : a0.total_primary_size = b0.total_primary_size)
    (hq : a0.total_secondary_size = b0.total_secondary_size) :
    ∀ k : Nat,
      ((List.range k).foldl (position_node t nl ns rs W H) a0).nodes.map node_unplaced =
        ((List.range k).foldl (position_node s nl ns rs W H) b0).nodes.map node_unplaced ∧
      ((List.range k).foldl (position_node t nl ns rs W H) a0).layer_position =
        ((List.range k).foldl (position_node s nl ns rs W H) b0).layer_position ∧
      ((List.range k).foldl (position_node t nl ns rs W H) a0).total_primary_size =
        ((List.range k).foldl (position_node s nl ns rs W H) b0).total_primary_size ∧
      ((List.range k).foldl (position_node t nl ns rs W H) a0).total_secondary_size =
        ((List.range k).foldl (position_node s nl ns rs W H) b0).total_secondary_size ∧
      (∀ j, j < k →
        ((List.range k).foldl (position_node t nl ns rs W H) a0).nodes.get? j =
          ((List.range k).foldl (position_node s nl ns rs W H) b0).nodes.get? j) := by
  intro k
  induction k with
  | zero =>
    rw [List.range_zero, List.foldl_nil, List.foldl_nil]
    exact ⟨hn, hl, hp, hq, fun j hj => by omega⟩
  | succ k ih =>
    obtain ⟨i1, i2, i3, i4, i5⟩ := ih
    rw [List.range_succ, List.foldl_append, List.foldl_append]
    simp only [List.foldl_cons, List.foldl_nil]
    generalize (List.range k).foldl (position_node t nl ns rs W H) a0 = a at i1 i2 i3 i4 i5 ⊢
    generalize (List.range k).foldl (position_node s nl ns rs W H) b0 = b at i1 i2 i3 i4 i5 ⊢
    obtain ⟨c1, c2, c3, c4, c5, c6⟩ :=
      position_node_congr s t nl ns rs W H a b k hd hg i1 i2 i3 i4
    refine ⟨c1, c2, c3, c4, ?_⟩
    intro j hj
    by_cases e : j = k
    · subst e; exact c5
    · rw [(c6 j e).1, (c6 j e).2]
      exact i5 j (by omega)

theorem position_node_length (state : IRFlowchartState) (nl : List Int) (ns rs W H : ℚ)
    (acc : Positioning) (i : Nat) :
    (position_node state nl ns rs W H acc i).nodes.length = acc.nodes.length := by
  cases h : acc.nodes.get? i with
  | none =>
    have : position_node state nl ns rs W H acc i = acc := by
      unfold position_node; rw [h]
    rw [this]
  | some node => rw [(position_node_full state nl ns rs W H acc i node h).1, List.length_set]

theorem position_fold_length (state : IRFlowchartState) (nl : List Int) (ns rs W H : ℚ) :
    ∀ (k : Nat) (acc : Positioning),
      ((List.range k).foldl (position_node state nl ns rs W H) acc).nodes.length
        = acc.nodes.length := by
  intro k
  induction k with
  | zero => intro acc; rfl
  | succ k ih =>
    intro acc
    rw [List.range_succ, List.foldl_append]
    simp only [List.foldl_cons, List.foldl_nil]
    rw [position_node_length, ih]

theorem max_width_congr (a b : List IRFlowchartNodeData)
    (h : a.map node_unplaced = b.map node_unplaced) :
    a.foldl (fun m node => max m node.width) FLOWCHART_NODE_MIN_WIDTH =
      b.foldl (fun m node => max m node.width) FLOWCHART_NODE_MIN_WIDTH ∧
    a.foldl (fun m node => max m node.height) FLOWCHART_NODE_MIN_HEIGHT =
      b.foldl (fun m node => max m node.height) FLOWCHART_NODE_MIN_HEIGHT := by
  have e1 : ∀ (l : List IRFlowchartNodeData) (c : ℚ),
      l.foldl (fun m node => max m node.width) c =
        (l.map node_unplaced).foldl (fun m node => max m node.width) c := by
    intro l c
    rw [List.foldl_map]
    rfl
  have e2 : ∀ (l : List IRFlowchartNodeData) (c : ℚ),
      l.foldl (fun m node => max m node.height) c =
        (l.map node_unplaced).foldl (fun m node => max m node.height) c := by
    intro l c
    rw [List.foldl_map]
    rfl
  exact ⟨by rw [e1 a, e1 b, h], by rw [e2 a, e2 b, h]⟩

/-- The positioning phase gives the same nodes and extents on two states that
differ in node positions and subgraph boxes only. -/
theorem position_nodes_congr (s t : IRFlowchartState) (nl : List Int) (ns rs : ℚ)
    (hd : t.direction = s.direction)
    (hg : t.subgraphs.map subgraph_key = s.subgraphs.map subgraph_key)
    (hn : t.nodes.map node_unplaced = s.nodes.map node_unplaced) :
    (position_nodes t nl ns rs).nodes = (position_nodes s nl ns rs).nodes ∧
    (position_nodes t nl ns rs).total_primary_size =
      (position_nodes s nl ns rs).total_primary_size ∧
    (position_nodes t nl ns rs).total_secondary_size =
      (position_nodes s nl ns rs).total_secondary_size := by
  have hlen := unplaced_length t.nodes s.nodes hn
  obtain ⟨w, h⟩ := max_width_congr t.nodes s.nodes hn
  unfold position_nodes
  dsimp only
  rw [w, h, hlen]
  obtain ⟨k1, _, k3, k4, k5⟩ := position_fold_congr s t nl ns rs
    (s.nodes.foldl (fun m node => max m node.width) FLOWCHART_NODE_MIN_WIDTH)
    (s.nodes.foldl (fun m node => max m node.height) FLOWCHART_NODE_MIN_HEIGHT) hd hg
    { nodes := t.nodes, layer_position := List.replicate ((max_layer_of nl).toNat + 1) 0 }
    { nodes := s.nodes, layer_position := List.replicate ((max_layer_of nl).toNat + 1) 0 }
    hn rfl rfl rfl s.nodes.length
  refine ⟨?_, k3, k4⟩
  apply List.ext_get?
  intro j
  by_cases hj : j < s.nodes.length
  · exact k5 j hj
  · have l1 := unplaced_length _ _ k1
    have l2 := position_fold_length s nl ns rs
      (s.nodes.foldl (fun m node => max m node.width) FLOWCHART_NODE_MIN_WIDTH)
      (s.nodes.foldl (fun m node => max m node.height) FLOWCHART_NODE_MIN_HEIGHT) s.nodes.length
      { nodes := s.nodes, layer_position := List.replicate ((max_layer_of nl).toNat + 1) 0 }
    dsimp only at l2
    rw [List.get?_eq_none.mpr (by omega), List.get?_eq_none.mpr (by omega)]

theorem unrouted_fields (a b : IRFlowchartEdgeData) (h : edge_unrouted a = edge_unrouted b) :
    a.from_id = b.from_id ∧ a.to_id = b.to_id ∧
    ∀ (c : Nat) (p : Option (List ℚ)),
      ({ a with path_point_count := c, path_points := p } : IRFlowchartEdgeData) =
        { b with path_point_count := c, path_points := p } := by
  cases a
  cases b
  simp only [edge_unrouted, IRFlowchartEdgeData.mk.injEq] at h
  obtain ⟨h1, h2, h3, h4, h5, h6, _, _, h9, h10⟩ := h
  subst h1 h2 h3 h4 h5 h6 h9 h10
  exact ⟨rfl, rfl, fun c p => rfl⟩

theorem route_edge_unrouted (nodes : List IRFlowchartNodeData) (e : IRFlowchartEdgeData) :
    edge_unrouted (route_edge nodes e) = edge_unrouted e := by
  unfold route_edge
  split <;> rfl

theorem transform_edge_path_unrouted (m : ℚ → ℚ) (e : IRFlowchartEdgeData) :
    edge_unrouted (transform_edge_path m e) = edge_unrouted e := by
  unfold transform_edge_path
  split <;> rfl

theorem find_last_node_none_iff (nodes : List IRFlowchartNodeData) (id : Option (List Char)) :
    find_last_node nodes id = none ↔ (id = none ∨ id ∉ nodes.map (fun n => n.node_id)) := by
  unfold find_last_node
  cases id with
  | none => simp
  | some i =>
    simp only [List.find?_eq_none, List.mem_reverse, beq_iff_eq, reduceCtorEq, List.mem_map,
      not_exists, not_and, false_or]

theorem find_last_node_none_congr (a b : List IRFlowchartNodeData)
    (h : a.map (fun n => n.node_id) = b.map (fun n => n.node_id)) (id : Option (List Char)) :
    find_last_node a id = none ↔ find_last_node b id = none := by
  rw [find_last_node_none_iff, find_last_node_none_iff, h]

theorem route_edge_resolved (nodes : List IRFlowchartNodeData) (e : IRFlowchartEdgeData)
    (x y : IRFlowchartNodeData) (ha : find_last_node nodes e.from_id = some x)
    (hb : find_last_node nodes e.to_id = some y) :
    route_edge nodes e =
      { e with
        path_point_count := 2
        path_points := some
          [x.x + x.width / 2, x.y + x.height / 2, y.x + y.width / 2, y.y + y.height / 2] } := by
  unfold route_edge
  rw [ha, hb]

theorem route_edge_unresolved (nodes : List IRFlowchartNodeData) (e : IRFlowchartEdgeData)
    (h : find_last_node nodes e.from_id = none ∨ find_last_node nodes e.to_id = none) :
    route_edge nodes e = e := by
  unfold route_edge
  rcases h with h | h
  · rw [h]
  · rw [h]
    cases find_last_node nodes e.from_id <;> rfl

/-- Routing an edge that the layout has routed and moved before gives what
routing the edge itself gives, when the edge had no path unless it resolves. -/
theorem route_edge_again (nodes : List IRFlowchartNodeData) (m : ℚ → ℚ)
    (e : IRFlowchartEdgeData)
    (hf : (find_last_node nodes e.from_id = none ∨ find_last_node nodes e.to_id = none) →
      e.path_points = none) :
    route_edge nodes (transform_edge_path m (route_edge nodes e)) = route_edge nodes e := by
  have hu : edge_unrouted (transform_edge_path m (route_edge nodes e)) = edge_unrouted e := by
    rw [transform_edge_path_unrouted, route_edge_unrouted]
  obtain ⟨f1, f2, f3⟩ := unrouted_fields _ _ hu
  by_cases hr : find_last_node nodes e.from_id = none ∨ find_last_node nodes e.to_id = none
  · have hp := hf hr
    have e1 : route_edge nodes e = e := route_edge_unresolved nodes e hr
    have e2 : transform_edge_path m e = e := by
      unfold transform_edge_path; rw [hp]
    rw [e1, e2, e1]
  · cases ha : find_last_node nodes e.from_id with
    | none => exact absurd (Or.inl ha) hr
    | some x =>
      cases hb : find_last_node nodes e.to_id with
      | none => exact absurd (Or.inr hb) hr
      | some y =>
        rw [route_edge_resolved nodes (transform_edge_path m (route_edge nodes e)) x y
          (f1 ▸ ha) (f2 ▸ hb), f3, ← route_edge_resolved nodes e x y ha hb]

theorem compute_subgraph_bound_key (nodes : List IRFlowchartNodeData)
    (sg : IRFlowchartSubgraphData) :
    subgraph_key (compute_subgraph_bound nodes sg) = subgraph_key sg := by
  unfold compute_subgraph_bound
  split
  · rfl
  · split <;> rfl

theorem filter_nil_congr (a b : List IRFlowchartNodeData)
    (h : a.map (fun n => n.subgraph_id) = b.map (fun n => n.subgraph_id)) (sid : List Char) :
    a.filter (fun node => node.subgraph_id == some sid) = [] ↔
      b.filter (fun node => node.subgraph_id == some sid) = [] := by
  have key : ∀ l : List IRFlowchartNodeData,
      l.filter (fun node => node.subgraph_id == some sid) = [] ↔
        some sid ∉ l.map (fun n => n.subgraph_id) := by
    intro l
    simp only [List.filter_eq_nil_iff, beq_iff_eq, List.mem_map, not_exists, not_and]
  rw [key, key, h]

theorem compute_subgraph_bound_no_id (nodes : List IRFlowchartNodeData)
    (sg : IRFlowchartSubgraphData) (hid : sg.subgraph_id = none) :
    compute_subgraph_bound nodes sg = sg := by
  unfold compute_subgraph_bound
  rw [hid]

theorem compute_subgraph_bound_no_member (nodes : List IRFlowchartNodeData)
    (sg : IRFlowchartSubgraphData) (sid : List Char) (hid : sg.subgraph_id = some sid)
    (hf : nodes.filter (fun node => node.subgraph_id == some sid) = []) :
    compute_subgraph_bound nodes sg = sg := by
  unfold compute_subgraph_bound
  rw [hid]
  dsimp only
  rw [hf]

theorem compute_subgraph_bound_members (nodes : List IRFlowchartNodeData)
    (sg : IRFlowchartSubgraphData) (sid : List Char) (hid : sg.subgraph_id = some sid)
    (m : IRFlowchartNodeData) (ms : List IRFlowchartNodeData)
    (hf : nodes.filter (fun node => node.subgraph_id == some sid) = m :: ms) :
    compute_subgraph_bound nodes sg =
      { sg with
        x := ms.foldl (fun a node => if node.x < a then node.x else a) m.x -
          FLOWCHART_SUBGRAPH_PADDING
        y := ms.foldl (fun a node => if node.y < a then node.y else a) m.y -
          FLOWCHART_SUBGRAPH_PADDING - FLOWCHART_SUBGRAPH_TITLE_HEIGHT
        width := (ms.foldl
            (fun a node => if node.x + node.width > a then node.x + node.width else a)
            (m.x + m.width) -
          ms.foldl (fun a node => if node.x < a then node.x else a) m.x) +
          FLOWCHART_SUBGRAPH_PADDING * 2
        height := (ms.foldl
            (fun a node => if node.y + node.height > a then node.y + node.height else a)
            (m.y + m.height) -
          ms.foldl (fun a node => if node.y < a then node.y else a) m.y) +
          FLOWCHART_SUBGRAPH_PADDING * 2 + FLOWCHART_SUBGRAPH_TITLE_HEIGHT } := by
  unfold compute_subgraph_bound
  rw [hid]
  dsimp only
  rw [hf]

/-- Computing the box of a subgraph whose box the layout has computed before
gives what computing the box of the subgraph itself gives. -/
theorem compute_subgraph_bound_again (n1 n2 : List IRFlowchartNodeData)
    (h : n2.map (fun n => n.subgraph_id) = n1.map (fun n => n.subgraph_id))
    (sg : IRFlowchartSubgraphData) :
    compute_subgraph_bound n2 (compute_subgraph_bound n1 sg) = compute_subgraph_bound n2 sg := by
  cases hid : sg.subgraph_id with
  | none =>
    rw [compute_subgraph_bound_no_id n1 sg hid]
  | some sid =>
    cases h1 : n1.filter (fun node => node.subgraph_id == some sid) with
    | nil =>
      rw [compute_subgraph_bound_no_member n1 sg sid hid h1]
    | cons m1 ms1 =>
      cases h2 : n2.filter (fun node => node.subgraph_id == some sid) with
      | nil =>
        have := (filter_nil_congr n2 n1 h sid).mp h2
        rw [h1] at this
        cases this
      | cons m2 ms2 =>
        have hid1 : (compute_subgraph_bound n1 sg).subgraph_id = some sid := by
          rw [compute_subgraph_bound_id, hid]
        rw [compute_subgraph_bound_members n2 _ sid hid1 m2 ms2 h2,
          compute_subgraph_bound_members n2 sg sid hid m2 ms2 h2,
          compute_subgraph_bound_members n1 sg sid hid m1 ms1 h1]

theorem compute_node_size_of_resized (metrics : Option IRFontMetrics) (font_size : ℚ)
    (node : IRFlowchartNodeData) (a b : ℚ) :
    compute_node_size metrics font_size { node with width := a, height := b } =
      compute_node_size metrics font_size node := by
  unfold compute_node_size
  dsimp only

theorem compute_node_size_twice (metrics : Option IRFontMetrics) (font_size : ℚ)
    (node : IRFlowchartNodeData) :
    compute_node_size metrics font_size (compute_node_size metrics font_size node) =
      compute_node_size metrics font_size node :=
  (congrArg (compute_node_size metrics font_size)
    (compute_node_size_eq metrics font_size node)).trans
    (compute_node_size_of_resized metrics font_size node _ _)

theorem compute_node_size_unplaced (metrics : Option IRFontMetrics) (font_size : ℚ)
    (node : IRFlowchartNodeData) :
    node_unplaced (compute_node_size metrics font_size node) =
      compute_node_size metrics font_size (node_unplaced node) := by
  unfold compute_node_size node_unplaced
  dsimp only
  split <;> rfl

theorem compute_layout_eq (metrics : Option IRFontMetrics) (f : Flowchart) (w h : ℚ) :
    compute_layout metrics f w h =
      { state :=
          { direction := f.state.direction
            nodes := (layout_placed metrics f).nodes.map (fun node =>
              { node with x := layout_move (layout_scale metrics f w h) node.x,
                          y := layout_move (layout_scale metrics f w h) node.y })
            edges := (layout_routed metrics f).map
              (transform_edge_path (layout_move (layout_scale metrics f w h)))
            subgraphs := f.state.subgraphs.map
              (compute_subgraph_bound ((layout_placed metrics f).nodes.map (fun node =>
                { node with x := layout_move (layout_scale metrics f w h) node.x,
                            y := layout_move (layout_scale metrics f w h) node.y })))
            layout_computed := true
            computed_width := w
            computed_height := h
            natural_width := layout_natural_width metrics f
            natural_height := layout_natural_height metrics f
            content_width := layout_natural_width metrics f - 20 * 2
            content_height := layout_natural_height metrics f - 20 * 2
            content_offset_x := 0
            content_offset_y := 0
            node_spacing := f.state.node_spacing
            rank_spacing := f.state.rank_spacing
            subgraph_padding := f.state.subgraph_padding }
        children := f.children
        style_font_size := f.style_font_size } := rfl

/-- The layout reads of a flowchart its children, its style, its direction and
spacings, of its nodes everything but the position, of its edges the ends and
what routing makes of them, of its subgraphs the id, the direction and what
the box computation makes of them. -/
theorem compute_layout_congr (metrics : Option IRFontMetrics) (f g : Flowchart) (w h : ℚ)
    (hc : g.children = f.children) (hs : g.style_font_size = f.style_font_size)
    (hd : g.state.direction = f.state.direction)
    (hns : g.state.node_spacing = f.state.node_spacing)
    (hrs : g.state.rank_spacing = f.state.rank_spacing)
    (hsp : g.state.subgraph_padding = f.state.subgraph_padding)
    (hn : (g.state.nodes.map (compute_node_size metrics (layout_font_size f))).map
        node_unplaced =
      (f.state.nodes.map (compute_node_size metrics (layout_font_size f))).map node_unplaced)
    (he1 : g.state.edges.map edge_ends = f.state.edges.map edge_ends)
    (he2 : g.state.edges.map (route_edge (layout_placed metrics f).nodes) =
      f.state.edges.map (route_edge (layout_placed metrics f).nodes))
    (hg1 : g.state.subgraphs.map subgraph_key = f.state.subgraphs.map subgraph_key)
    (hg2 : g.state.subgraphs.map
        (compute_subgraph_bound (compute_layout metrics f w h).state.nodes) =
      f.state.subgraphs.map
        (compute_subgraph_bound (compute_layout metrics f w h).state.nodes)) :
    compute_layout metrics g w h = compute_layout metrics f w h := by
  have hfs : layout_font_size g = layout_font_size f := by
    unfold layout_font_size
    rw [hs]
  have hsz : (layout_sized metrics g).nodes.map node_unplaced =
      (layout_sized metrics f).nodes.map node_unplaced := by
    show (g.state.nodes.map (compute_node_size metrics (layout_font_size g))).map node_unplaced =
      (f.state.nodes.map (compute_node_size metrics (layout_font_size f))).map node_unplaced
    rw [hfs]
    exact hn
  have hids : (layout_sized metrics g).nodes.map (fun n => n.node_id) =
      (layout_sized metrics f).nodes.map (fun n => n.node_id) := by
    have := congrArg (List.map (fun n : IRFlowchartNodeData => n.node_id)) hsz
    rw [List.map_map, List.map_map] at this
    exact this
  have hlay : layout_layers metrics g = layout_layers metrics f := by
    unfold layout_layers
    rw [assign_layers_congr (layout_sized metrics f) (layout_sized metrics g) hids he1]
  obtain ⟨p1, p2, p3⟩ := position_nodes_congr (layout_sized metrics f) (layout_sized metrics g)
    (layout_layers metrics f) (layout_node_spacing f.state) (layout_rank_spacing f.state)
    hd hg1 hsz
  have hsn : layout_node_spacing g.state = layout_node_spacing f.state := by
    unfold layout_node_spacing
    rw [hns]
  have hsr : layout_rank_spacing g.state = layout_rank_spacing f.state := by
    unfold layout_rank_spacing
    rw [hrs]
  have q1 : (layout_placed metrics g).nodes = (layout_placed metrics f).nodes := by
    unfold layout_placed
    rw [hlay, hsn, hsr]
    exact p1
  have q2 : (layout_placed metrics g).total_primary_size =
      (layout_placed metrics f).total_primary_size := by
    unfold layout_placed
    rw [hlay, hsn, hsr]
    exact p2
  have q3 : (layout_placed metrics g).total_secondary_size =
      (layout_placed metrics f).total_secondary_size := by
    unfold layout_placed
    rw [hlay, hsn, hsr]
    exact p3
  have hr : layout_routed metrics g = layout_routed metrics f := by
    unfold layout_routed
    rw [q1]
    exact he2
  have hw : layout_natural_width metrics g = layout_natural_width metrics f := by
    unfold layout_natural_width
    rw [hd, q2, q3]
  have hh : layout_natural_height metrics g = layout_natural_height metrics f := by
    unfold layout_natural_height
    rw [hd, q2, q3]
  have hsc : layout_scale metrics g w h = layout_scale metrics f w h := by
    unfold layout_scale
    rw [hw, hh]
  have hg3 := hg2
  rw [compute_layout_nodes] at hg3
  rw [compute_layout_eq metrics g w h, compute_layout_eq metrics f w h, hc, hs, hd, hns, hrs,
    hsp, q1, hr, hw, hh, hsc, hg3]

/-- A second layout of a laid out flowchart computes what the layout of the
flowchart itself computes, when the edges that do not resolve carry no path. -/
theorem compute_layout_again (metrics : Option IRFontMetrics) (f : Flowchart)
    (w1 h1 w2 h2 : ℚ) (hu : unrouted_edges_have_no_path f.state) :
    compute_layout metrics (compute_layout metrics f w1 h1) w2 h2 =
      compute_layout metrics f w2 h2 := by
  have hpl : (layout_placed metrics f).nodes.map node_unplaced =
      (f.state.nodes.map (compute_node_size metrics (layout_font_size f))).map
        node_unplaced := by
    obtain ⟨hlen, hget, _⟩ := layout_placed_spec metrics f
    apply List.ext_get?
    intro j
    simp only [List.get?_eq_getElem?, List.getElem?_map]
    rw [← List.get?_eq_getElem?, ← List.get?_eq_getElem?]
    cases hj : f.state.nodes.get? j with
    | none =>
      have : (layout_placed metrics f).nodes.get? j = none := by
        rw [List.get?_eq_none] at hj ⊢
        omega
      rw [this]
      rfl
    | some node =>
      obtain ⟨x, y, e, _⟩ := hget j node hj
      rw [e]
      rfl
  have hids : (layout_placed metrics f).nodes.map (fun n => n.node_id) =
      f.state.nodes.map (fun n => n.node_id) := by
    have := congrArg (List.map (fun n : IRFlowchartNodeData => n.node_id)) hpl
    rw [List.map_map, List.map_map, List.map_map] at this
    refine this.trans ?_
    apply List.map_congr_left
    intro n _
    show (compute_node_size metrics (layout_font_size f) n).node_id = n.node_id
    rw [compute_node_size_eq]
  refine compute_layout_congr metrics f (compute_layout metrics f w1 h1) w2 h2 rfl rfl rfl rfl
    rfl rfl ?_ ?_ ?_ ?_ ?_
  · rw [compute_layout_nodes]
    have e : node_unplaced ∘ compute_node_size metrics (layout_font_size f) =
        compute_node_size metrics (layout_font_size f) ∘ node_unplaced := by
      funext n
      exact compute_node_size_unplaced metrics _ n
    have e2 : ∀ l : List IRFlowchartNodeData,
        (l.map (compute_node_size metrics (layout_font_size f))).map node_unplaced =
          (l.map node_unplaced).map (compute_node_size metrics (layout_font_size f)) := by
      intro l
      rw [List.map_map, List.map_map, e]
    have e3 : ∀ (m : ℚ → ℚ) (l : List IRFlowchartNodeData),
        (l.map (fun node => { node with x := m node.x, y := m node.y })).map node_unplaced =
          l.map node_unplaced := by
      intro m l
      rw [List.map_map]
      rfl
    rw [e2, e3, hpl, ← e2, List.map_map, List.map_map, List.map_map]
    apply List.map_congr_left
    intro n _
    show node_unplaced (compute_node_size metrics (layout_font_size f)
      (compute_node_size metrics (layout_font_size f) n)) =
        node_unplaced (compute_node_size metrics (layout_font_size f) n)
    rw [compute_node_size_twice]
  · rw [compute_layout_edges]
    show ((f.state.edges.map (route_edge (layout_placed metrics f).nodes)).map
      (transform_edge_path (layout_move (layout_scale metrics f w1 h1)))).map edge_ends =
        f.state.edges.map edge_ends
    rw [List.map_map, List.map_map]
    apply List.map_congr_left
    intro e _
    have hu2 : edge_unrouted (transform_edge_path (layout_move (layout_scale metrics f w1 h1))
        (route_edge (layout_placed metrics f).nodes e)) = edge_unrouted e := by
      rw [transform_edge_path_unrouted, route_edge_unrouted]
    obtain ⟨f1, f2, _⟩ := unrouted_fields _ _ hu2
    show ((transform_edge_path (layout_move (layout_scale metrics f w1 h1))
        (route_edge (layout_placed metrics f).nodes e)).from_id,
      (transform_edge_path (layout_move (layout_scale metrics f w1 h1))
        (route_edge (layout_placed metrics f).nodes e)).to_id) = (e.from_id, e.to_id)
    rw [f1, f2]
  · rw [compute_layout_edges]
    show ((f.state.edges.map (route_edge (layout_placed metrics f).nodes)).map
      (transform_edge_path (layout_move (layout_scale metrics f w1 h1)))).map
        (route_edge (layout_placed metrics f).nodes) =
        f.state.edges.map (route_edge (layout_placed metrics f).nodes)
    rw [List.map_map, List.map_map]
    apply List.map_congr_left
    intro e he
    apply route_edge_again
    intro hr
    apply hu e he
    rw [find_last_node_none_congr _ _ hids e.from_id,
      find_last_node_none_congr _ _ hids e.to_id] at hr
    exact hr
  · rw [compute_layout_subgraphs, List.map_map]
    apply List.map_congr_left
    intro sg _
    exact compute_subgraph_bound_key _ sg
  · rw [compute_layout_subgraphs, List.map_map]
    apply List.map_congr_left
    intro sg _
    apply compute_subgraph_bound_again
    rw [compute_layout_nodes, compute_layout_nodes, List.map_map, List.map_map]
    rfl

/-- The layout keeps the number of the nodes. -/
theorem compute_layout_length (metrics : Option IRFontMetrics) (f : Flowchart) (w h : ℚ) :
    (compute_layout metrics f w h).state.nodes.length = f.state.nodes.length := by
  rw [compute_layout_nodes, List.length_map]
  exact (layout_placed_spec metrics f).1

/-- C36: re-layout does not accumulate state.  For a flowchart whose layout is
not computed yet and whose edges carry no path unless both ends resolve to a
registered node (the state in which the builder and the parser leave a
finalized flowchart), `ir_layout_compute_flowchart` at the viewport `w1 × h1`
followed by `ir_layout_compute_flowchart` at the viewport `w2 × h2` returns the
same flowchart as `ir_layout_compute_flowchart` at `w2 × h2` alone: the same
state (node geometry, edge paths, subgraph boxes, natural and content sizes,
cache fields), the same children and the same style. -/
theorem relayout_equals_fresh_layout (metrics : Option IRFontMetrics) (flowchart : Flowchart)
    (w1 h1 w2 h2 : ℚ) (hc : flowchart.state.layout_computed = false)
    (hu : unrouted_edges_have_no_path flowchart.state) :
    ir_layout_compute_flowchart metrics
        (ir_layout_compute_flowchart metrics flowchart w1 h1) w2 h2 =
      ir_layout_compute_flowchart metrics flowchart w2 h2 := by
  by_cases hn : flowchart.state.nodes = []
  · rw [ir_layout_no_nodes metrics flowchart w1 h1 hc hn,
      ir_layout_no_nodes metrics flowchart w2 h2 hc hn]
    unfold ir_layout_compute_flowchart
    dsimp only
    by_cases hv : w1 = w2 ∧ h1 = h2
    · obtain ⟨a, b⟩ := hv
      subst a b
      simp
    · rw [if_neg (fun hx => hv hx.2), hn]
      simp
  · rw [ir_layout_not_cached metrics flowchart w1 h1 hc hn,
      ir_layout_not_cached metrics flowchart w2 h2 hc hn]
    have hl : ¬ (compute_layout metrics flowchart w1 h1).state.nodes.length = 0 := by
      rw [compute_layout_length]
      exact fun hx => hn (List.length_eq_zero.mp hx)
    unfold ir_layout_compute_flowchart
    dsimp only
    by_cases hv : w1 = w2 ∧ h1 = h2
    · obtain ⟨a, b⟩ := hv
      subst a b
      have : (compute_layout metrics flowchart w1 h1).state.layout_computed = true ∧
          (compute_layout metrics flowchart w1 h1).state.computed_width = w1 ∧
          (compute_layout metrics flowchart w1 h1).state.computed_height = h1 := ⟨rfl, rfl, rfl⟩
      rw [if_pos this]
    · have : ¬ ((compute_layout metrics flowchart w1 h1).state.layout_computed = true ∧
          (compute_layout metrics flowchart w1 h1).state.computed_width = w2 ∧
          (compute_layout metrics flowchart w1 h1).state.computed_height = h2) :=
        fun hx => hv hx.2
      rw [if_neg this, if_neg hl]
      exact compute_layout_again metrics flowchart w1 h1 w2 h2 hu

/-- C36 at the sample flowchart, laid out in 100 × 100 (where the fit scales it
down) and then in 800 × 600: the first layout moves the first node to another
place than the layout in 800 × 600 does, and the second layout gives what the
layout in 800 × 600 alone gives. -/
theorem relayout_equals_fresh_layout_witness :
    sample_flowchart.state.layout_computed = false ∧
    unrouted_edges_have_no_path sample_flowchart.state ∧
    (ir_layout_compute_flowchart none sample_flowchart 100 100).state.nodes.map
        (fun n => (n.x, n.y)) ≠
      (ir_layout_compute_flowchart none sample_flowchart 800 600).state.nodes.map
        (fun n => (n.x, n.y)) ∧
    ir_layout_compute_flowchart none
        (ir_layout_compute_flowchart none sample_flowchart 100 100) 800 600 =
      ir_layout_compute_flowchart none sample_flowchart 800 600 :=
  ⟨by decide!, by unfold unrouted_edges_have_no_path; decide!, by decide!,
    relayout_equals_fresh_layout none sample_flowchart 100 100 800 600 (by decide!)
      (by unfold unrouted_edges_have_no_path; decide!)⟩

/-! ## A second finalize -/

/-- C32: for each of the four directions, eleven shapes, five edge types and four
markers, the parse function of the attribute returns the value again from the
string that the to-string function gives for it; the parse functions do not
look at the letter case, and they map `NULL` and an unknown word to the first
value. -/
theorem enum_strings_round_trip :
    (∀ d : IRFlowchartDirection,
      ir_flowchart_parse_direction (some (ir_flowchart_direction_to_string d)) = d) ∧
    (∀ s : IRFlowchartShape,
      ir_flowchart_parse_shape (some (ir_flowchart_shape_to_string s)) = s) ∧
    (∀ t : IRFlowchartEdgeType,
      ir_flowchart_parse_edge_type (some (ir_flowchart_edge_type_to_string t)) = t) ∧
    (∀ m : IRFlowchartMarker,
      ir_flowchart_parse_marker (some (ir_flowchart_marker_to_string m)) = m) ∧
    (∀ d : IRFlowchartDirection,
      ir_flowchart_parse_direction
        (some ((ir_flowchart_direction_to_string d).map tolower)) = d) ∧
    (∀ s : IRFlowchartShape,
      ir_flowchart_parse_shape
        (some ((ir_flowchart_shape_to_string s).map Char.toUpper)) = s) ∧
    ir_flowchart_parse_direction (some "TD".toList) = IRFlowchartDirection.TB ∧
    ir_flowchart_parse_direction none = IRFlowchartDirection.TB ∧
    ir_flowchart_parse_shape (some "star".toList) = IRFlowchartShape.RECTANGLE ∧
    ir_flowchart_parse_edge_type (some "arrows".toList) = IRFlowchartEdgeType.ARROW ∧
    ir_flowchart_parse_marker (some "".toList) = IRFlowchartMarker.NONE := by
  refine ⟨?_, ?_, ?_, ?_, ?_, ?_, ?_, ?_, ?_, ?_, ?_⟩
  · intro d; cases d <;> decide
  · intro s; cases s <;> decide
  · intro t; cases t <;> decide
  · intro m; cases m <;> decide
  · intro d; cases d <;> decide
  · intro s; cases s <;> decide
  · decide
  · decide
  · decide
  · decide
  · decide

/-! ## Keywords at the start of a line -/

theorem begins_with_ci_first (kw : List Char) (k c : Char) (ks t : List Char) (hk : kw = k :: ks)
    (h : tolower k ≠ tolower c) : begins_with_ci kw (c :: t) = false := by
  subst hk
  unfold begins_with_ci
  simp [List.isPrefixOf, h]

theorem spells_head (w word : List Char) (x : Char) (xs : List Char) (hw : word = x :: xs)
    (h : spells w word = true) : ∃ c cs, w = c :: cs ∧ tolower c = tolower x := by
  subst hw
  simp only [spells, List.map_cons, beq_iff_eq] at h
  cases w with
  | nil => simp at h
  | cons c cs =>
    simp only [List.map_cons, List.cons.injEq] at h
    exact ⟨c, cs, rfl, h.1⟩

/-- The start of `parse_line` on a line that begins, after blanks, with a
letter: the blanks are skipped and the line is neither empty nor a comment. -/
theorem parse_line_at_letter (ws : List Char) (c : Char) (t : List Char)
    (hws : is_blanks ws = true) (hc : isalpha (tolower c) = true) :
    skip_whitespace (ws ++ c :: t) = c :: t ∧ c ≠ '\n' ∧ c ≠ '%' := by
  have n1 : c ≠ ' ' := by rintro rfl; revert hc; decide
  have n2 : c ≠ '\t' := by rintro rfl; revert hc; decide
  have n3 : c ≠ '\n' := by rintro rfl; revert hc; decide
  have n4 : c ≠ '%' := by rintro rfl; revert hc; decide
  refine ⟨?_, n3, n4⟩
  rw [skip_whitespace_blanks ws _ hws]
  unfold skip_whitespace
  rw [List.dropWhile_cons_of_neg (by simp [n1, n2])]

/-- A line that begins with the three letters of `end`, whatever follows them,
is read as the statement `end`. -/
theorem parse_line_end_word (p : FlowchartParser) (ws w tail : List Char)
    (hws : is_blanks ws = true) (hw : spells w "end".toList = true) :
    parse_line { p with rest := ws ++ (w ++ tail) } =
      some (parser_pop_subgraph { p with rest := tail }) := by
  obtain ⟨c, cs, rfl, hc⟩ := spells_head w _ 'e' "nd".toList rfl hw
  have hce : tolower c = 'e' := hc
  obtain ⟨s1, s2, s3⟩ := parse_line_at_letter ws c (cs ++ tail) hws (by rw [hce]; decide)
  unfold parse_line
  dsimp only
  rw [List.cons_append, s1]
  have a1 : (is_at_end (c :: (cs ++ tail)) || peek (c :: (cs ++ tail)) == '\n') = false := by
    simp [is_at_end, peek, s2]
  have a2 : (peek (c :: (cs ++ tail)) == '%') = false := by simp [peek, s3]
  have m1 : (match_case_insensitive (c :: (cs ++ tail)) "subgraph".toList).1 = false := by
    rw [match_case_insensitive_fst]
    exact begins_with_ci_first _ 's' c "ubgraph".toList _ rfl (by rw [hce]; decide)
  have m2 := match_case_insensitive_word (c :: cs) "end".toList tail hw
  rw [List.cons_append] at m2
  simp only [a1, a2, m1, m2, Bool.false_eq_true, if_false, if_true]

/-- A line that begins with the letters of `class`, `classDef` or `linkStyle`,
whatever follows them, is skipped. -/
theorem parse_line_skipped_word (p : FlowchartParser) (ws w tail kw : List Char)
    (hws : is_blanks ws = true)
    (hkw : kw = "class".toList ∨ kw = "classDef".toList ∨ kw = "linkStyle".toList)
    (hw : spells w kw = true) :
    ∃ r, parse_line { p with rest := ws ++ (w ++ tail) } = some { p with rest := r } := by
  have hx : ∃ x xs, kw = x :: xs ∧ (x = 'c' ∨ x = 'l') := by
    rcases hkw with rfl | rfl | rfl
    · exact ⟨'c', _, rfl, Or.inl rfl⟩
    · exact ⟨'c', _, rfl, Or.inl rfl⟩
    · exact ⟨'l', _, rfl, Or.inr rfl⟩
  obtain ⟨x, xs, hkx, hxc⟩ := hx
  obtain ⟨c, cs, rfl, hc⟩ := spells_head w kw x xs hkx hw
  have hcl : tolower c = 'c' ∨ tolower c = 'l' := by
    rcases hxc with rfl | rfl
    · exact Or.inl hc
    · exact Or.inr hc
  have hal : isalpha (tolower c) = true := by
    rcases hcl with e | e <;> rw [e] <;> decide
  obtain ⟨s1, s2, s3⟩ := parse_line_at_letter ws c (cs ++ tail) hws hal
  unfold parse_line
  dsimp only
  rw [List.cons_append, s1]
  have a1 : (is_at_end (c :: (cs ++ tail)) || peek (c :: (cs ++ tail)) == '\n') = false := by
    simp [is_at_end, peek, s2]
  have a2 : (peek (c :: (cs ++ tail)) == '%') = false := by simp [peek, s3]
  have ne : ∀ k : Char, k = 's' ∨ k = 'e' → tolower k ≠ tolower c := by
    intro k hk
    rcases hk with rfl | rfl <;> rcases hcl with e | e <;> rw [e] <;> decide
  have m1 : (match_case_insensitive (c :: (cs ++ tail)) "subgraph".toList).1 = false := by
    rw [match_case_insensitive_fst]
    exact begins_with_ci_first _ 's' c "ubgraph".toList _ rfl (ne _ (Or.inl rfl))
  have m2 : (match_case_insensitive (c :: (cs ++ tail)) "end".toList).1 = false := by
    rw [match_case_insensitive_fst]
    exact begins_with_ci_first _ 'e' c "nd".toList _ rfl (ne _ (Or.inr rfl))
  have m3 : (match_case_insensitive (c :: (cs ++ tail)) "style".toList).1 = false := by
    rw [match_case_insensitive_fst]
    exact begins_with_ci_first _ 's' c "tyle".toList _ rfl (ne _ (Or.inl rfl))
  have mk := match_case_insensitive_word (c :: cs) kw tail hw
  rw [List.cons_append] at mk
  simp only [a1, a2, m1, m2, m3, Bool.false_eq_true, if_false]
  by_cases h4 : (match_case_insensitive (c :: (cs ++ tail)) "classDef".toList).1 = true
  · rw [if_pos h4]
    exact ⟨_, rfl⟩
  · rw [if_neg h4]
    by_cases h5 : (match_case_insensitive (c :: (cs ++ tail)) "class".toList).1 = true
    · rw [if_pos h5]
      exact ⟨_, rfl⟩
    · rw [if_neg h5]
      rcases hkw with rfl | rfl | rfl
      · rw [mk] at h5; exact absurd rfl h5
      · rw [mk] at h4; exact absurd rfl h4
      · rw [mk, if_pos rfl]
        exact ⟨_, rfl⟩

/-- C37: the keywords are matched as beginnings of the line, not as words.  For
every parser state, a line that begins (after blanks) with the three letters of
`end` in any letter case is read as `end`, whatever follows the letters: the
top of the subgraph stack is removed and nothing is added to the graph; a line
that begins with the letters of `class`, `classDef` or `linkStyle` leaves
everything but the cursor as it was.  So `endpoint --> B`, `End[Done]` and
`classifier --> X` give no node and no edge, while `xendpoint --> B` gives two
nodes and an edge; inside the subgraph `s`, the line `endpoint --> B` closes
`s`, and the nodes C and D of the next line become children of the root. -/
theorem keyword_is_matched_as_beginning :
    (∀ (p : FlowchartParser) (ws w tail : List Char), is_blanks ws = true →
      spells w "end".toList = true →
      parse_line { p with rest := ws ++ (w ++ tail) } =
        some (parser_pop_subgraph { p with rest := tail })) ∧
    (∀ (p : FlowchartParser) (ws w tail kw : List Char), is_blanks ws = true →
      kw = "class".toList ∨ kw = "classDef".toList ∨ kw = "linkStyle".toList →
      spells w kw = true →
      ∃ r, parse_line { p with rest := ws ++ (w ++ tail) } = some { p with rest := r }) ∧
    (∃ fc : Flowchart, ir_flowchart_parse "flowchart TB\nendpoint --> B".toList = some (some fc) ∧
      fc.state.nodes = [] ∧ fc.state.edges = [] ∧ fc.children.length = 0) ∧
    (∃ fc : Flowchart, ir_flowchart_parse "flowchart TB\nEnd[Done]".toList = some (some fc) ∧
      fc.state.nodes = [] ∧ fc.state.edges = [] ∧ fc.children.length = 0) ∧
    (∃ fc : Flowchart,
      ir_flowchart_parse "flowchart TB\nclassifier --> X".toList = some (some fc) ∧
      fc.state.nodes = [] ∧ fc.state.edges = [] ∧ fc.children.length = 0) ∧
    (∃ fc : Flowchart,
      ir_flowchart_parse "flowchart TB\nxendpoint --> B".toList = some (some fc) ∧
      fc.state.nodes.map (fun n => n.node_id) = [some "xendpoint".toList, some "B".toList] ∧
      fc.state.edges.map (fun e => (e.from_id, e.to_id)) =
        [(some "xendpoint".toList, some "B".toList)]) ∧
    (∃ fc : Flowchart,
      ir_flowchart_parse
        "flowchart TB\nsubgraph s\ndirection TB\nendpoint --> B\nC --> D\nend".toList
          = some (some fc) ∧
      (root_nodes fc.children).map (fun n => n.node_id) = [some "C".toList, some "D".toList] ∧
      fc.children.length = 4 ∧
      fc.state.subgraphs.map (fun g => g.subgraph_id) = [some "s".toList] ∧
      fc.state.edges.map (fun e => (e.from_id, e.to_id)) = [(some "C".toList, some "D".toList)]) ∧
    (∃ fc : Flowchart,
      ir_flowchart_parse
        "flowchart TB\nsubgraph s\ndirection TB\nxendpoint --> B\nC --> D\nend".toList
          = some (some fc) ∧
      (root_nodes fc.children).map (fun n => n.node_id) = [] ∧
      fc.children.length = 3 ∧
      fc.state.subgraphs.map (fun g => g.subgraph_id) = [some "s".toList] ∧
      fc.state.edges.map (fun e => (e.from_id, e.to_id)) =
        [(some "xendpoint".toList, some "B".toList), (some "C".toList, some "D".toList)]) := by
  refine ⟨parse_line_end_word, parse_line_skipped_word, ?_, ?_, ?_, ?_, ?_, ?_⟩
  · refine ⟨_, rfl, ?_, ?_, ?_⟩ <;> decide!
  · refine ⟨_, rfl, ?_, ?_, ?_⟩ <;> decide!
  · refine ⟨_, rfl, ?_, ?_, ?_⟩ <;> decide!
  · refine ⟨_, rfl, ?_, ?_⟩ <;> decide!
  · obtain ⟨fc, hp, hv⟩ := parse_result_of_map
      "flowchart TB\nsubgraph s\ndirection TB\nendpoint --> B\nC --> D\nend".toList
      (fun fc => (root_nodes fc.children).map (fun n => n.node_id))
      [some "C".toList, some "D".toList] (by decide!)
    refine ⟨fc, hp, hv, ?_, ?_, ?_⟩
    · exact parse_value_of_map _ (fun fc => fc.children.length) 4 (by decide!) fc hp
    · exact parse_value_of_map _ (fun fc => fc.state.subgraphs.map (fun g => g.subgraph_id))
        [some "s".toList] (by decide!) fc hp
    · exact parse_value_of_map _ (fun fc => fc.state.edges.map (fun e => (e.from_id, e.to_id)))
        [(some "C".toList, some "D".toList)] (by decide!) fc hp
  · obtain ⟨fc, hp, hv⟩ := parse_result_of_map
      "flowchart TB\nsubgraph s\ndirection TB\nxendpoint --> B\nC --> D\nend".toList
      (fun fc => (root_nodes fc.children).map (fun n => n.node_id)) [] (by decide!)
    refine ⟨fc, hp, hv, ?_, ?_, ?_⟩
    · exact parse_value_of_map _ (fun fc => fc.children.length) 3 (by decide!) fc hp
    · exact parse_value_of_map _ (fun fc => fc.state.subgraphs.map (fun g => g.subgraph_id))
        [some "s".toList] (by decide!) fc hp
    · exact parse_value_of_map _ (fun fc => fc.state.edges.map (fun e => (e.from_id, e.to_id)))
        [(some "xendpoint".toList, some "B".toList), (some "C".toList, some "D".toList)]
        (by decide!) fc hp

/-! ## The Mermaid test -/

theorem parse_gives_graph_iff (source : List Char) :
    (∃ fc, ir_flowchart_parse source = some (some fc)) ↔
      (source ≠ [] ∧ has_header source = true) := by
  unfold ir_flowchart_parse ir_flowchart_parse_fuel
  by_cases h0 : source = []
  · subst h0
    simp
  · have hlen : ¬ (source.length == 0) = true := by simpa using h0
    rw [if_neg hlen]
    have hh := parse_header_isSome source
    cases hp : parse_header source with
    | none =>
      rw [hp] at hh
      simp [← hh]
    | some h =>
      rw [hp] at hh
      have hs := (parse_header_suffix source h hp).length_le
      obtain ⟨p1, e1⟩ := parse_body_total (source.length + 1)
        { rest := h.2, direction := h.1, flowchart := ir_flowchart h.1, subgraph_stack := [] }
        (by dsimp only; omega)
      dsimp only
      rw [e1]
      simp [h0, ← hh]

theorem strncasecmp_eq_begins (r kw : List Char) :
    (decide (kw.length ≤ r.length) && strncasecmp_eq r kw) = begins_with_ci kw r := by
  have h := match_case_insensitive_fst r kw
  unfold match_case_insensitive at h
  by_cases hl : r.length < kw.length
  · rw [if_pos hl] at h
    rw [← h]
    simp only [Bool.and_eq_false_imp, decide_eq_true_eq]
    intro hc
    omega
  · rw [if_neg hl] at h
    have hle : kw.length ≤ r.length := by omega
    rw [← h]
    simp only [hle, decide_True, Bool.true_and]
    split <;> simp_all

theorem is_mermaid_iff (source : List Char) :
    ir_flowchart_is_mermaid source = true ↔
      (source ≠ [] ∧
        (begins_with_ci "flowchart".toList (source.dropWhile isspace) ||
          begins_with_ci "graph".toList (source.dropWhile isspace)) = true) := by
  unfold ir_flowchart_is_mermaid
  by_cases h0 : source = []
  · subst h0
    simp
  · have hlen : ¬ (source.length == 0) = true := by simpa using h0
    rw [if_neg hlen]
    dsimp only
    have e1 := strncasecmp_eq_begins (source.dropWhile isspace) "flowchart".toList
    have e2 := strncasecmp_eq_begins (source.dropWhile isspace) "graph".toList
    have l1 : "flowchart".toList.length = 9 := rfl
    have l2 : "graph".toList.length = 5 := rfl
    rw [l1] at e1
    rw [l2] at e2
    rw [e1, e2]
    simp only [h0, ne_eq, not_false_eq_true, true_and, Bool.or_eq_true]
    constructor
    · intro h
      split at h
      · next h1 => exact Or.inl h1
      · split at h
        · next h2 => exact Or.inr h2
        · cases h
    · rintro (h | h)
      · rw [if_pos h]
      · split
        · rfl
        · rfl

/-- After blanks and line ends only, before a character that `isspace` rejects
and that is not `%`, the two ways of skipping stop at the same place. -/
theorem skips_agree (ws rest : List Char)
    (hws : ∀ c ∈ ws, c = ' ' ∨ c = '\t' ∨ c = '\n' ∨ c = '\r')
    (hrest : ∀ c ∈ rest.head?, isspace c = false ∧ c ≠ '%') :
    strip_leading (ws ++ rest) = rest ∧ (ws ++ rest).dropWhile isspace = rest := by
  induction ws with
  | nil =>
    simp only [List.nil_append]
    cases rest with
    | nil => simp [strip_leading]
    | cons c cs =>
      obtain ⟨h1, h2⟩ := hrest c (by simp)
      have n1 : c ≠ ' ' := by rintro rfl; revert h1; decide
      have n2 : c ≠ '\t' := by rintro rfl; revert h1; decide
      have n3 : c ≠ '\n' := by rintro rfl; revert h1; decide
      have n4 : c ≠ '\r' := by rintro rfl; revert h1; decide
      refine ⟨?_, ?_⟩
      · rw [strip_leading]
        simp [n1, n2, n3, n4, h2]
      · rw [List.dropWhile_cons_of_neg (by simp [h1])]
  | cons w ws ih =>
    have hw := hws w (by simp)
    obtain ⟨a, b⟩ := ih (fun c hc => hws c (by simp [hc]))
    have hsp : isspace w = true := by
      rcases hw with rfl | rfl | rfl | rfl <;> decide
    refine ⟨?_, ?_⟩
    · rw [List.cons_append, strip_leading]
      rw [if_pos hw]
      exact a
    · rw [List.cons_append, List.dropWhile_cons_of_pos hsp]
      exact b

/-- C38: `ir_flowchart_parse` returns a flowchart exactly for a text that is not
empty and has a header after its leading blanks, line ends and `%%` comment
lines; `ir_flowchart_is_mermaid` returns true exactly for a text that is not
empty and has a header after its leading `isspace` characters.  The two agree
on every text made of blanks and line ends followed by nothing or by a
character that `isspace` rejects and that is not `%`.  They differ on a header
after a comment line (parsed, but not recognised) and on a header after a
vertical tab or a form feed (recognised, but not parsed). -/
theorem is_mermaid_differs_from_parse :
    (∀ source : List Char,
      ((∃ fc, ir_flowchart_parse source = some (some fc)) ↔
        (source ≠ [] ∧
          (begins_with_ci "flowchart".toList (skip_whitespace_and_newlines source) ||
            begins_with_ci "graph".toList (skip_whitespace_and_newlines source)) = true)) ∧
      (ir_flowchart_is_mermaid source = true ↔
        (source ≠ [] ∧
          (begins_with_ci "flowchart".toList (source.dropWhile isspace) ||
            begins_with_ci "graph".toList (source.dropWhile isspace)) = true))) ∧
    (∀ ws rest : List Char,
      (∀ c ∈ ws, c = ' ' ∨ c = '\t' ∨ c = '\n' ∨ c = '\r') →
      (∀ c ∈ rest.head?, isspace c = false ∧ c ≠ '%') →
      (ir_flowchart_is_mermaid (ws ++ rest) = true ↔
        ∃ fc, ir_flowchart_parse (ws ++ rest) = some (some fc))) ∧
    ((∃ fc, ir_flowchart_parse "%% demo\nflowchart TB\nA-->B".toList = some (some fc)) ∧
      ir_flowchart_is_mermaid "%% demo\nflowchart TB\nA-->B".toList = false) ∧
    (ir_flowchart_parse (Char.ofNat 11 :: "flowchart TB\nA-->B".toList) = some none ∧
      ir_flowchart_is_mermaid (Char.ofNat 11 :: "flowchart TB\nA-->B".toList) = true) ∧
    (ir_flowchart_parse (Char.ofNat 12 :: "graph LR".toList) = some none ∧
      ir_flowchart_is_mermaid (Char.ofNat 12 :: "graph LR".toList) = true) ∧
    ((∃ fc, ir_flowchart_parse " \n\tflowchart TB\nA-->B".toList = some (some fc)) ∧
      ir_flowchart_is_mermaid " \n\tflowchart TB\nA-->B".toList = true) := by
  have gen : ∀ source : List Char,
      ((∃ fc, ir_flowchart_parse source = some (some fc)) ↔
        (source ≠ [] ∧
          (begins_with_ci "flowchart".toList (skip_whitespace_and_newlines source) ||
            begins_with_ci "graph".toList (skip_whitespace_and_newlines source)) = true)) ∧
      (ir_flowchart_is_mermaid source = true ↔
        (source ≠ [] ∧
          (begins_with_ci "flowchart".toList (source.dropWhile isspace) ||
            begins_with_ci "graph".toList (source.dropWhile isspace)) = true)) := by
    intro source
    refine ⟨?_, is_mermaid_iff source⟩
    rw [parse_gives_graph_iff]
    unfold has_header
    rw [strip_leading_eq_skip]
  refine ⟨gen, ?_, ⟨⟨_, rfl⟩, by decide⟩, ⟨rfl, by decide⟩, ⟨rfl, by decide⟩,
    ⟨⟨_, rfl⟩, by decide⟩⟩
  intro ws rest hws hrest
  obtain ⟨a, b⟩ := skips_agree ws rest hws hrest
  rw [(gen (ws ++ rest)).2, (gen (ws ++ rest)).1, ← strip_leading_eq_skip, a, b]

/-! ## The buffer of a label text -/

theorem process_html_writes_spec : ∀ (fuel : Nat) (text : List Char) (out_pos : Nat),
    process_html_writes fuel text out_pos =
      (List.range ((process_html_loop fuel text).length + 1)).map (fun k => out_pos + k) := by
  intro fuel
  induction fuel with
  | zero => intro text out_pos; simp [process_html_writes, process_html_loop, List.range_succ]
  | succ fuel ih =>
    intro text out_pos
    have step : ∀ (t : List Char),
        out_pos :: (List.range ((process_html_loop fuel t).length + 1)).map
            (fun k => out_pos + 1 + k) =
          (List.range (('\n' :: process_html_loop fuel t).length + 1)).map
            (fun k => out_pos + k) := by
      intro t
      rw [List.length_cons, List.range_succ_eq_map (n := (process_html_loop fuel t).length + 1)]
      simp only [List.map_cons, List.map_map, Nat.add_zero, List.cons.injEq, true_and]
      apply List.map_congr_left
      intro k _
      simp only [Function.comp]
      omega
    cases text with
    | nil => simp [process_html_writes, process_html_loop, List.range_succ]
    | cons c cs =>
      rw [process_html_writes, process_html_loop]
      split
      · split
        · rw [ih]; exact step _
        · split
          · rw [ih]; exact step _
          · split
            · rw [ih]; exact step _
            · exact ih _ _
      · rw [ih]
        exact step _

theorem process_html_loop_length : ∀ (fuel : Nat) (text : List Char),
    (process_html_loop fuel text).length ≤ text.length := by
  intro fuel
  induction fuel with
  | zero => intro text; simp [process_html_loop]
  | succ fuel ih =>
    intro text
    cases text with
    | nil => simp [process_html_loop]
    | cons c cs =>
      rw [process_html_loop]
      have hd : ∀ n, (cs.drop n).length ≤ cs.length := fun n => by
        rw [List.length_drop]; omega
      split
      · split
        · have := ih (cs.drop 4); have := hd 4
          simp only [List.length_cons]; omega
        · split
          · have := ih (cs.drop 3); have := hd 3
            simp only [List.length_cons]; omega
          · split
            · have := ih (cs.drop 5); have := hd 5
              simp only [List.length_cons]; omega
            · have h1 := ih (((c :: cs).dropWhile (fun d => d != '>')).tail)
              have h2 := (List.dropWhile_suffix (l := c :: cs) (fun d => d != '>')).length_le
              have h3 : (((c :: cs).dropWhile (fun d => d != '>')).tail).length
                  ≤ ((c :: cs).dropWhile (fun d => d != '>')).length := by
                rw [List.length_tail]; omega
              omega
      · have := ih cs
        simp only [List.length_cons]; omega

/-- C39: the indices that `process_html_in_text` writes are 0, 1, ... up to the
length of its output, the last being the index of the terminating NUL, and the
output is never longer than the text; so for a text that is not empty every
written index is below the allocated size 2 x len.  For the empty text, which
the definition `A[]` (like `A[ ]` and `A()`) hands to the function, the size is
0 and the NUL is written at index 0, outside the buffer. -/
theorem empty_text_writes_outside_buffer :
    (∀ text : List Char,
      process_html_written text = List.range ((process_html_in_text text).length + 1) ∧
      (process_html_in_text text).length ≤ text.length) ∧
    (∀ text : List Char, text ≠ [] →
      ∀ i ∈ process_html_written text, i < process_html_output_size text) ∧
    process_html_output_size [] = 0 ∧
    process_html_written [] = [0] ∧
    (c_str (trim_end (bracket_scan '[' ']' 1 (advance "[]".toList)).1)).dropWhile isspace = [] ∧
    parse_text_in_brackets "[]".toList '[' ']' = (some (process_html_in_text []), []) ∧
    parse_text_in_brackets "[ ]".toList '[' ']' = (some (process_html_in_text []), []) ∧
    parse_text_in_brackets "()".toList '(' ')' = (some (process_html_in_text []), []) ∧
    (∃ fc : Flowchart, ir_flowchart_parse "flowchart TB\nA[]".toList = some (some fc) ∧
      fc.state.nodes.map (fun n => (n.node_id, n.label)) = [(some "A".toList, some [])]) ∧
    process_html_written "a<br>b<i>c".toList = [0, 1, 2, 3, 4] ∧
    process_html_output_size "a<br>b<i>c".toList = 20 := by
  have gen : ∀ text : List Char,
      process_html_written text = List.range ((process_html_in_text text).length + 1) ∧
      (process_html_in_text text).length ≤ text.length := by
    intro text
    refine ⟨?_, process_html_loop_length _ _⟩
    unfold process_html_written process_html_in_text
    rw [process_html_writes_spec]
    simp
  refine ⟨gen, ?_, rfl, rfl, by decide, by decide, by decide, by decide, ?_, by decide, rfl⟩
  · intro text hne i hi
    obtain ⟨a, b⟩ := gen text
    rw [a, List.mem_range] at hi
    have : 0 < text.length := List.length_pos.mpr hne
    unfold process_html_output_size
    omega
  · refine ⟨_, rfl, ?_⟩
    decide

/-! ## Lines in the terminal buffer -/

theorem draw_line_loop_succ (c2 : TerminalCell) (dx dy sx sy : Int) (ch : Char) :
    ∀ (fuel : Nat) (buffer : TerminalBuffer) (col row err : Int)
      (r : TerminalBuffer × List TerminalCell),
      draw_line_loop c2 dx dy sx sy ch fuel buffer col row err = some r →
      draw_line_loop c2 dx dy sx sy ch (fuel + 1) buffer col row err = some r := by
  intro fuel
  induction fuel with
  | zero => intro buffer col row err r h; simp [draw_line_loop] at h
  | succ fuel ih =>
    intro buffer col row err r h
    rw [draw_line_loop] at h ⊢
    dsimp only at h ⊢
    split
    · next hc => rw [if_pos hc] at h; exact h
    · next hc =>
      rw [if_neg hc] at h
      cases hr : draw_line_loop c2 dx dy sx sy ch fuel (terminal_buffer_set_char buffer col row ch)
          (if 2 * err > -dy then col + sx else col) (if 2 * err < dx then row + sy else row)
          (if 2 * err < dx then (if 2 * err > -dy then err - dy else err) + dx
            else if 2 * err > -dy then err - dy else err) with
      | none => rw [hr] at h; simp at h
      | some r1 =>
        rw [hr] at h
        rw [ih _ _ _ _ _ hr]
        exact h

theorem draw_line_loop_add (c2 : TerminalCell) (dx dy sx sy : Int) (ch : Char)
    (fuel : Nat) (buffer : TerminalBuffer) (col row err : Int)
    (r : TerminalBuffer × List TerminalCell)
    (h : draw_line_loop c2 dx dy sx sy ch fuel buffer col row err = some r) (extra : Nat) :
    draw_line_loop c2 dx dy sx sy ch (fuel + extra) buffer col row err = some r := by
  induction extra with
  | zero => exact h
  | succ k ih => exact draw_line_loop_succ c2 dx dy sx sy ch _ _ _ _ _ _ ih

/-- The loop of `draw_line_terminal` after `a` steps along the columns and `b`
steps along the rows: it ends within `(dx - a) + (dy - b) + 1` turns, at `c2`,
and every cell it visits is reached by at most `dx` column steps and `dy` row
steps from `c1`. -/
theorem draw_line_loop_spec (c1 c2 : TerminalCell) (dx dy sx sy : Int) (ch : Char)
    (hdx : 0 ≤ dx) (hdy : 0 ≤ dy) (hx : c2.col = c1.col + sx * dx)
    (hy : c2.row = c1.row + sy * dy) :
    ∀ (fuel : Nat) (buffer : TerminalBuffer) (a b : Int), 0 ≤ a → a ≤ dx → 0 ≤ b → b ≤ dy →
      (dx - a) + (dy - b) < (fuel : Int) →
      ∃ cells : List TerminalCell,
        draw_line_loop c2 dx dy sx sy ch fuel buffer (c1.col + sx * a) (c1.row + sy * b)
            (dx - dy - a * dy + b * dx) =
          some (cells.foldl (fun buf c => terminal_buffer_set_char buf c.col c.row ch) buffer,
            cells) ∧
        cells.head? = some { col := c1.col + sx * a, row := c1.row + sy * b } ∧
        cells.getLast? = some c2 ∧
        (∀ c ∈ cells, ∃ a1 b1 : Int, a ≤ a1 ∧ a1 ≤ dx ∧ b ≤ b1 ∧ b1 ≤ dy ∧
          c = { col := c1.col + sx * a1, row := c1.row + sy * b1 }) ∧
        (cells.length : Int) ≤ (dx - a) + (dy - b) + 1 := by
  intro fuel
  induction fuel with
  | zero =>
    intro buffer a b _ ha _ hb hf
    exfalso
    simp only [Nat.cast_zero] at hf
    omega
  | succ fuel ih =>
    intro buffer a b ha0 ha hb0 hb hf
    rw [draw_line_loop]
    dsimp only
    by_cases hend : c1.col + sx * a = c2.col ∧ c1.row + sy * b = c2.row
    · rw [if_pos hend]
      refine ⟨[{ col := c1.col + sx * a, row := c1.row + sy * b }], rfl, rfl, ?_, ?_, ?_⟩
      · simp only [List.getLast?_singleton, Option.some.injEq]
        cases c2
        simp only [TerminalCell.mk.injEq]
        exact hend
      · intro c hc
        simp only [List.mem_singleton] at hc
        exact ⟨a, b, le_refl _, ha, le_refl _, hb, hc⟩
      · simp only [List.length_singleton, Nat.cast_one]
        omega
    · rw [if_neg hend]
      -- the position is not the target, so a step is left on one of the axes
      have hab : a < dx ∨ b < dy := by
        by_contra hc
        push_neg at hc
        have ea : a = dx := le_antisymm ha hc.1
        have eb : b = dy := le_antisymm hb hc.2
        apply hend
        rw [ea, eb, hx, hy]
        exact ⟨rfl, rfl⟩
      -- no column step is taken once the column of the target is reached
      have nox : a = dx → ¬ (2 * (dx - dy - a * dy + b * dx) > -dy) := by
        intro ea
        have hb1 : b < dy := by
          rcases hab with h | h
          · omega
          · exact h
        subst ea
        have : a * (dy - b - 1) ≥ 0 := mul_nonneg ha0 (by omega)
        nlinarith
      have noy : b = dy → ¬ (2 * (dx - dy - a * dy + b * dx) < dx) := by
        intro eb
        have ha1 : a < dx := by
          rcases hab with h | h
          · exact h
          · omega
        subst eb
        have : b * (dx - a - 1) ≥ 0 := mul_nonneg hb0 (by omega)
        nlinarith
      have some_step : 2 * (dx - dy - a * dy + b * dx) > -dy ∨
          2 * (dx - dy - a * dy + b * dx) < dx := by
        by_contra hc
        push_neg at hc
        have : dx = 0 ∧ dy = 0 := by omega
        omega
      by_cases h1 : 2 * (dx - dy - a * dy + b * dx) > -dy
      · have ha1 : a < dx := lt_of_le_of_ne ha (fun e => nox e h1)
        by_cases h2 : 2 * (dx - dy - a * dy + b * dx) < dx
        · have hb1 : b < dy := lt_of_le_of_ne hb (fun e => noy e h2)
          simp only [h1, h2, if_true]
          have e1 : c1.col + sx * a + sx = c1.col + sx * (a + 1) := by ring
          have e2 : c1.row + sy * b + sy = c1.row + sy * (b + 1) := by ring
          have e3 : dx - dy - a * dy + b * dx - dy + dx =
              dx - dy - (a + 1) * dy + (b + 1) * dx := by ring
          rw [e1, e2, e3]
          obtain ⟨cells, r1, r2, r3, r4, r5⟩ := ih
            (terminal_buffer_set_char buffer (c1.col + sx * a) (c1.row + sy * b) ch)
            (a + 1) (b + 1) (by omega) (by omega) (by omega) (by omega)
            (by push_cast at hf ⊢; omega)
          rw [r1]
          refine ⟨{ col := c1.col + sx * a, row := c1.row + sy * b } :: cells, rfl, rfl, ?_, ?_, ?_⟩
          · cases cells with
            | nil => simp at r2
            | cons c cs => rw [List.getLast?_cons_cons]; exact r3
          · intro c hc
            rcases List.mem_cons.mp hc with e | hm
            · exact ⟨a, b, le_refl _, ha, le_refl _, hb, e⟩
            · obtain ⟨a1, b1, q1, q2, q3, q4, q5⟩ := r4 c hm
              exact ⟨a1, b1, by omega, q2, by omega, q4, q5⟩
          · simp only [List.length_cons]
            push_cast
            omega
        · simp only [h1, h2, if_true, if_false]
          have e1 : c1.col + sx * a + sx = c1.col + sx * (a + 1) := by ring
          have e3 : dx - dy - a * dy + b * dx - dy = dx - dy - (a + 1) * dy + b * dx := by ring
          rw [e1, e3]
          obtain ⟨cells, r1, r2, r3, r4, r5⟩ := ih
            (terminal_buffer_set_char buffer (c1.col + sx * a) (c1.row + sy * b) ch)
            (a + 1) b (by omega) (by omega) hb0 hb (by push_cast at hf ⊢; omega)
          rw [r1]
          refine ⟨{ col := c1.col + sx * a, row := c1.row + sy * b } :: cells, rfl, rfl, ?_, ?_, ?_⟩
          · cases cells with
            | nil => simp at r2
            | cons c cs => rw [List.getLast?_cons_cons]; exact r3
          · intro c hc
            rcases List.mem_cons.mp hc with e | hm
            · exact ⟨a, b, le_refl _, ha, le_refl _, hb, e⟩
            · obtain ⟨a1, b1, q1, q2, q3, q4, q5⟩ := r4 c hm
              exact ⟨a1, b1, by omega, q2, q3, q4, q5⟩
          · simp only [List.length_cons]
            push_cast
            omega
      · have h2 : 2 * (dx - dy - a * dy + b * dx) < dx := by
          rcases some_step with h | h
          · exact absurd h h1
          · exact h
        have hb1 : b < dy := lt_of_le_of_ne hb (fun e => noy e h2)
        simp only [h1, h2, if_true, if_false]
        have e2 : c1.row + sy * b + sy = c1.row + sy * (b + 1) := by ring
        have e3 : dx - dy - a * dy + b * dx + dx = dx - dy - a * dy + (b + 1) * dx := by ring
        rw [e2, e3]
        obtain ⟨cells, r1, r2, r3, r4, r5⟩ := ih
          (terminal_buffer_set_char buffer (c1.col + sx * a) (c1.row + sy * b) ch)
          a (b + 1) ha0 ha (by omega) (by omega) (by push_cast at hf ⊢; omega)
        rw [r1]
        refine ⟨{ col := c1.col + sx * a, row := c1.row + sy * b } :: cells, rfl, rfl, ?_, ?_, ?_⟩
        · cases cells with
          | nil => simp at r2
          | cons c cs => rw [List.getLast?_cons_cons]; exact r3
        · intro c hc
          rcases List.mem_cons.mp hc with e | hm
          · exact ⟨a, b, le_refl _, ha, le_refl _, hb, e⟩
          · obtain ⟨a1, b1, q1, q2, q3, q4, q5⟩ := r4 c hm
            exact ⟨a1, b1, q1, q2, by omega, q4, q5⟩
        · simp only [List.length_cons]
          push_cast
          omega

theorem set_char_frame (buffer : TerminalBuffer) (col row : Int) (ch : Char) :
    (terminal_buffer_set_char buffer col row ch).width = buffer.width ∧
    (terminal_buffer_set_char buffer col row ch).height = buffer.height ∧
    (terminal_buffer_set_char buffer col row ch).colors = buffer.colors ∧
    (terminal_buffer_set_char buffer col row ch).chars.length = buffer.chars.length := by
  unfold terminal_buffer_set_char
  split
  · exact ⟨rfl, rfl, rfl, by simp⟩
  · exact ⟨rfl, rfl, rfl, rfl⟩

/-- A call of `terminal_buffer_set_char` changes at most the character of its
cell, and only when the cell lies inside the buffer. -/
theorem set_char_other (buffer : TerminalBuffer) (col row : Int) (ch : Char) (r c : Nat)
    (h : ((terminal_buffer_set_char buffer col row ch).chars.getD r [])[c]? ≠
      (buffer.chars.getD r [])[c]?) :
    (c : Int) = col ∧ (r : Int) = row ∧ col < buffer.width ∧ row < buffer.height := by
  unfold terminal_buffer_set_char at h
  split at h
  · next hin =>
    obtain ⟨h1, h2, h3, h4⟩ := hin
    refine ⟨?_, ?_, h2, h4⟩
    · by_contra hc
      apply h
      dsimp only
      by_cases hr : r = row.toNat
      · subst hr
        by_cases hl : row.toNat < buffer.chars.length
        · rw [List.getD_eq_getElem?_getD, List.getElem?_set_self hl, Option.getD_some,
            List.getElem?_set_ne]
          intro e
          apply hc
          omega
        · rw [List.set_eq_of_length_le (by omega)]
      · rw [List.getD_eq_getElem?_getD, List.getElem?_set_ne (fun e => hr e.symm),
          ← List.getD_eq_getElem?_getD]
    · by_contra hc
      apply h
      dsimp only
      rw [List.getD_eq_getElem?_getD, List.getElem?_set_ne (by omega),
        ← List.getD_eq_getElem?_getD]
  · exact absurd rfl h

theorem set_chars_frame (ch : Char) (cells : List TerminalCell) :
    ∀ buffer : TerminalBuffer,
      (cells.foldl (fun buf c => terminal_buffer_set_char buf c.col c.row ch) buffer).width
        = buffer.width ∧
      (cells.foldl (fun buf c => terminal_buffer_set_char buf c.col c.row ch) buffer).height
        = buffer.height ∧
      (cells.foldl (fun buf c => terminal_buffer_set_char buf c.col c.row ch) buffer).colors
        = buffer.colors ∧
      (cells.foldl (fun buf c => terminal_buffer_set_char buf c.col c.row ch) buffer).chars.length
        = buffer.chars.length ∧
      ∀ r c : Nat,
        ((cells.foldl (fun buf c => terminal_buffer_set_char buf c.col c.row ch)
          buffer).chars.getD r [])[c]? ≠ (buffer.chars.getD r [])[c]? →
        ({ col := c, row := r } : TerminalCell) ∈ cells ∧
          (c : Int) < buffer.width ∧ (r : Int) < buffer.height := by
  induction cells with
  | nil => intro buffer; exact ⟨rfl, rfl, rfl, rfl, fun r c h => absurd rfl h⟩
  | cons x xs ih =>
    intro buffer
    simp only [List.foldl_cons]
    obtain ⟨a1, a2, a3, a4, a5⟩ := ih (terminal_buffer_set_char buffer x.col x.row ch)
    obtain ⟨b1, b2, b3, b4⟩ := set_char_frame buffer x.col x.row ch
    refine ⟨a1.trans b1, a2.trans b2, a3.trans b3, a4.trans b4, ?_⟩
    intro r c h
    by_cases hx : ((terminal_buffer_set_char buffer x.col x.row ch).chars.getD r [])[c]? =
        (buffer.chars.getD r [])[c]?
    · rw [← hx] at h
      obtain ⟨m, w1, w2⟩ := a5 r c h
      exact ⟨List.mem_cons_of_mem _ m, by rw [← b1]; exact w1, by rw [← b2]; exact w2⟩
    · obtain ⟨e1, e2, e3, e4⟩ := set_char_other buffer x.col x.row ch r c hx
      refine ⟨?_, by rw [e1]; exact e3, by rw [e2]; exact e4⟩
      rw [e1, e2]
      exact List.mem_cons_self _ _

/-- C40: for every buffer, every two cells and every edge type, the loop of
`draw_line_terminal` ends, within one turn per column and per row between the
two cells and one more; more turns allowed give the same result.  The cells it
visits begin with `c1` and end with `c2`, each lies in the rectangle spanned by
`c1` and `c2`, and the resulting buffer has the size and the colours of the
given one and differs from it only in characters at visited cells inside the
buffer.  From (0, 0) to (3, 1) the cells are (0, 0), (1, 0), (2, 1), (3, 1). -/
theorem draw_line_ends_at_target :
    (∀ (buffer : TerminalBuffer) (c1 c2 : TerminalCell) (edge_type : IRFlowchartEdgeType),
      ∃ (result : TerminalBuffer) (cells : List TerminalCell),
        draw_line_terminal buffer c1 c2 edge_type = some (result, cells) ∧
        (∀ extra : Nat,
          draw_line_terminal_fuel
            ((c2.col - c1.col).natAbs + (c2.row - c1.row).natAbs + 1 + extra)
            buffer c1 c2 edge_type = some (result, cells)) ∧
        cells.head? = some c1 ∧ cells.getLast? = some c2 ∧
        (∀ c ∈ cells, min c1.col c2.col ≤ c.col ∧ c.col ≤ max c1.col c2.col ∧
          min c1.row c2.row ≤ c.row ∧ c.row ≤ max c1.row c2.row) ∧
        cells.length ≤ (c2.col - c1.col).natAbs + (c2.row - c1.row).natAbs + 1 ∧
        result.width = buffer.width ∧ result.height = buffer.height ∧
        result.colors = buffer.colors ∧ result.chars.length = buffer.chars.length ∧
        (∀ row col : Nat,
          (result.chars.getD row [])[col]? ≠ (buffer.chars.getD row [])[col]? →
          ({ col := col, row := row } : TerminalCell) ∈ cells ∧
            (col : Int) < buffer.width ∧ (row : Int) < buffer.height)) ∧
    draw_line_terminal
        { chars := ["    ".toList, "    ".toList], colors := [[0, 0, 0, 0], [0, 0, 0, 0]],
          width := 4, height := 2 }
        { col := 0, row := 0 } { col := 3, row := 1 } IRFlowchartEdgeType.ARROW =
      some ({ chars := ["--  ".toList, "  --".toList], colors := [[0, 0, 0, 0], [0, 0, 0, 0]],
              width := 4, height := 2 },
            [{ col := 0, row := 0 }, { col := 1, row := 0 }, { col := 2, row := 1 },
             { col := 3, row := 1 }]) ∧
    draw_line_terminal
        { chars := ["  ".toList, "  ".toList], colors := [[0, 0], [0, 0]], width := 2, height := 2 }
        { col := 1, row := 3 } { col := 1, row := -1 } IRFlowchartEdgeType.DOTTED =
      some ({ chars := [" :".toList, " :".toList], colors := [[0, 0], [0, 0]],
              width := 2, height := 2 },
            [{ col := 1, row := 3 }, { col := 1, row := 2 }, { col := 1, row := 1 },
             { col := 1, row := 0 }, { col := 1, row := -1 }]) := by
  refine ⟨?_, by decide, by decide⟩
  intro buffer c1 c2 edge_type
  have hx : c2.col = c1.col + (if c1.col < c2.col then 1 else -1) *
      ((c2.col - c1.col).natAbs : Int) := by
    split
    · rw [Int.natAbs_of_nonneg (by omega)]; ring
    · have : ((c2.col - c1.col).natAbs : Int) = c1.col - c2.col := by omega
      rw [this]; ring
  have hy : c2.row = c1.row + (if c1.row < c2.row then 1 else -1) *
      ((c2.row - c1.row).natAbs : Int) := by
    split
    · rw [Int.natAbs_of_nonneg (by omega)]; ring
    · have : ((c2.row - c1.row).natAbs : Int) = c1.row - c2.row := by omega
      rw [this]; ring
  obtain ⟨cells, r1, r2, r3, r4, r5⟩ := draw_line_loop_spec c1 c2
    ((c2.col - c1.col).natAbs : Int) ((c2.row - c1.row).natAbs : Int)
    (if c1.col < c2.col then 1 else -1) (if c1.row < c2.row then 1 else -1)
    (if ((c2.col - c1.col).natAbs : Int) > ((c2.row - c1.row).natAbs : Int) then
      (if edge_type = IRFlowchartEdgeType.DOTTED then '.' else '-')
     else (if edge_type = IRFlowchartEdgeType.DOTTED then ':' else '|'))
    (by omega) (by omega) hx hy
    ((c2.col - c1.col).natAbs + (c2.row - c1.row).natAbs + 1) buffer 0 0
    (le_refl _) (by omega) (le_refl _) (by omega) (by push_cast; omega)
  simp only [mul_zero, add_zero, zero_mul, sub_zero] at r1 r2
  obtain ⟨f1, f2, f3, f4, f5⟩ := set_chars_frame
    (if ((c2.col - c1.col).natAbs : Int) > ((c2.row - c1.row).natAbs : Int) then
      (if edge_type = IRFlowchartEdgeType.DOTTED then '.' else '-')
     else (if edge_type = IRFlowchartEdgeType.DOTTED then ':' else '|')) cells buffer
  refine ⟨_, cells, r1, ?_, ?_, r3, ?_, ?_, f1, f2, f3, f4, f5⟩
  · intro extra
    exact draw_line_loop_add _ _ _ _ _ _ _ _ _ _ _ _ r1 extra
  · rw [r2]
  · intro c hc
    obtain ⟨a1, b1, q1, q2, q3, q4, q5⟩ := r4 c hc
    subst q5
    dsimp only
    have q2n : a1 ≤ ((c2.col - c1.col).natAbs : Int) := q2
    have q4n : b1 ≤ ((c2.row - c1.row).natAbs : Int) := q4
    refine ⟨?_, ?_, ?_, ?_⟩
    · split <;> simp only [min_le_iff] <;> omega
    · split <;> simp only [le_max_iff] <;> omega
    · split <;> simp only [min_le_iff] <;> omega
    · split <;> simp only [le_max_iff] <;> omega
  · have : (cells.length : Int) ≤
        ((c2.col - c1.col).natAbs : Int) + ((c2.row - c1.row).natAbs : Int) + 1 := by
      simpa using r5
    exact_mod_cast this

/-! ## The rounding to `float` -/

theorem round_half_even_near (q : ℚ) : |(round_half_even q : ℚ) - q| ≤ 1 / 2 := by
  have h1 := Int.floor_le q
  have h2 := Int.lt_floor_add_one q
  unfold round_half_even
  rw [abs_le]
  split_ifs with a b c
  · constructor <;> linarith
  · push_cast; constructor <;> linarith
  · constructor <;> linarith
  · push_cast; constructor <;> linarith

theorem halvings_spec (fuel n : Nat) (h : n ≤ fuel) (hn : n ≠ 0) :
    2 ^ halvings fuel n ≤ n ∧ n < 2 ^ (halvings fuel n + 1) := by
  induction fuel generalizing n with
  | zero => omega
  | succ fuel ih =>
    unfold halvings
    split_ifs with h2
    · obtain ⟨a, b⟩ := ih (n / 2) (by omega) (by omega)
      constructor
      · rw [pow_succ]; omega
      · rw [pow_succ]; omega
    · have : n = 1 := by omega
      subst this
      simp

theorem ratio_between (n d a b : Nat) (hd : 0 < d) (a1 : 2 ^ a ≤ n) (a2 : n < 2 ^ (a + 1))
    (b1 : 2 ^ b ≤ d) (b2 : d < 2 ^ (b + 1)) :
    (2 : ℚ) ^ ((a : Int) - (b : Int) - 1) ≤ (n : ℚ) / (d : ℚ) ∧
    (n : ℚ) / (d : ℚ) < (2 : ℚ) ^ ((a : Int) - (b : Int) + 1) := by
  have hdq : (0 : ℚ) < (d : ℚ) := by exact_mod_cast hd
  have a1q : (2 : ℚ) ^ a ≤ (n : ℚ) := by exact_mod_cast a1
  have a2q : (n : ℚ) < (2 : ℚ) ^ (a + 1) := by exact_mod_cast a2
  have b1q : (2 : ℚ) ^ b ≤ (d : ℚ) := by exact_mod_cast b1
  have b2q : (d : ℚ) < (2 : ℚ) ^ (b + 1) := by exact_mod_cast b2
  have two : (0 : ℚ) < 2 := by norm_num
  have pa : (0 : ℚ) < 2 ^ a := pow_pos two a
  have pb : (0 : ℚ) < 2 ^ b := pow_pos two b
  constructor
  · rw [le_div_iff₀ hdq]
    have e : (2 : ℚ) ^ ((a : Int) - (b : Int) - 1) = 2 ^ a / 2 ^ (b + 1) := by
      rw [zpow_sub₀ (by norm_num), zpow_sub₀ (by norm_num), zpow_natCast, zpow_natCast, zpow_one,
        pow_succ]
      field_simp
    rw [e, div_mul_eq_mul_div, div_le_iff₀ (pow_pos two _)]
    nlinarith
  · rw [div_lt_iff₀ hdq]
    have e : (2 : ℚ) ^ ((a : Int) - (b : Int) + 1) = 2 ^ (a + 1) / 2 ^ b := by
      rw [zpow_add₀ (by norm_num), zpow_sub₀ (by norm_num), zpow_natCast, zpow_natCast, zpow_one,
        pow_succ]
      field_simp
    rw [e, div_mul_eq_mul_div, lt_div_iff₀ pb]
    nlinarith

theorem binary_exponent_spec (x : ℚ) (hx : x ≠ 0) :
    (2 : ℚ) ^ binary_exponent x ≤ |x| ∧ |x| < (2 : ℚ) ^ (binary_exponent x + 1) := by
  have hnum : x.num.natAbs ≠ 0 := by
    intro h
    exact hx (Rat.num_eq_zero.mp (Int.natAbs_eq_zero.mp h))
  obtain ⟨a1, a2⟩ := halvings_spec x.num.natAbs x.num.natAbs (le_refl _) hnum
  obtain ⟨b1, b2⟩ := halvings_spec x.den x.den (le_refl _) x.den_nz
  have habs : |x| = (x.num.natAbs : ℚ) / (x.den : ℚ) := by
    conv_lhs => rw [← Rat.num_div_den x]
    rw [abs_div, Nat.abs_cast, Nat.cast_natAbs, Int.cast_abs]
  obtain ⟨low, high⟩ := ratio_between _ _ _ _ x.den_pos a1 a2 b1 b2
  rw [← habs] at low high
  unfold binary_exponent
  dsimp only
  split_ifs with h
  · exact ⟨h, high⟩
  · refine ⟨low, ?_⟩
    rw [sub_add_cancel]
    exact not_le.mp h

/-- Rounding to `float` changes a value by at most its `2 ^ 24`-th part. -/
theorem f32_round_error (x : ℚ) : |f32_round x - x| ≤ |x| / 2 ^ 24 := by
  unfold f32_round
  split_ifs with hx
  · subst hx
    simp
  · obtain ⟨lo, _⟩ := binary_exponent_spec x hx
    have two : (0 : ℚ) < 2 := by norm_num
    have hp : (0 : ℚ) < (2 : ℚ) ^ (binary_exponent x - 23) := zpow_pos two _
    have hr := round_half_even_near (x / (2 : ℚ) ^ (binary_exponent x - 23))
    have e : (round_half_even (x / (2 : ℚ) ^ (binary_exponent x - 23)) : ℚ) *
        (2 : ℚ) ^ (binary_exponent x - 23) - x =
        ((round_half_even (x / (2 : ℚ) ^ (binary_exponent x - 23)) : ℚ) -
          x / (2 : ℚ) ^ (binary_exponent x - 23)) * (2 : ℚ) ^ (binary_exponent x - 23) := by
      field_simp
    rw [e, abs_mul, abs_of_pos hp]
    have e2 : (2 : ℚ) ^ (binary_exponent x - 23) = (2 : ℚ) ^ binary_exponent x / 2 ^ 23 := by
      rw [zpow_sub₀ (by norm_num)]
      norm_num
    have h1 : |(round_half_even (x / (2 : ℚ) ^ (binary_exponent x - 23)) : ℚ) -
        x / (2 : ℚ) ^ (binary_exponent x - 23)| * (2 : ℚ) ^ (binary_exponent x - 23) ≤
        1 / 2 * (2 : ℚ) ^ (binary_exponent x - 23) :=
      mul_le_mul_of_nonneg_right hr hp.le
    rw [e2] at h1 ⊢
    have e3 : (1 : ℚ) / 2 * ((2 : ℚ) ^ binary_exponent x / 2 ^ 23) =
        (2 : ℚ) ^ binary_exponent x / 2 ^ 24 := by ring
    have : (2 : ℚ) ^ binary_exponent x / 2 ^ 24 ≤ |x| / 2 ^ 24 :=
      div_le_div_of_nonneg_right lo (by positivity)
    linarith

theorem within_zero (u e : ℚ) : within 0 u e e := by
  unfold within
  simp

theorem within_nonneg (k : Nat) (u e v : ℚ) (hu1 : u ≤ 1) (he : 0 ≤ e)
    (h : within k u e v) : 0 ≤ v :=
  le_trans (mul_nonneg (pow_nonneg (by linarith) k) he) h.1

theorem within_succ (k : Nat) (u e v : ℚ) (hu0 : 0 ≤ u) (hu1 : u ≤ 1) (he : 0 ≤ e)
    (h : within k u e v) : within (k + 1) u e v := by
  have a : 0 ≤ (1 - u) ^ k * e := mul_nonneg (pow_nonneg (by linarith) k) he
  have b : 0 ≤ (1 + u) ^ k * e := mul_nonneg (pow_nonneg (by linarith) k) he
  unfold within at h ⊢
  rw [pow_succ, pow_succ]
  constructor
  · nlinarith [h.1]
  · nlinarith [h.2]

theorem within_mono (j k : Nat) (u e v : ℚ) (hu0 : 0 ≤ u) (hu1 : u ≤ 1) (he : 0 ≤ e)
    (hjk : j ≤ k) (h : within j u e v) : within k u e v := by
  induction k with
  | zero =>
    have : j = 0 := by omega
    subst this
    exact h
  | succ k ih =>
    by_cases e1 : j = k + 1
    · subst e1
      exact h
    · exact within_succ k u e v hu0 hu1 he (ih (by omega))

/-- One rounding of a value known up to `k` roundings. -/
theorem within_fl (fl : ℚ → ℚ) (k : Nat) (u e v : ℚ) (hu0 : 0 ≤ u) (hu1 : u ≤ 1)
    (hfl : ∀ x, |fl x - x| ≤ u * |x|) (he : 0 ≤ e) (h : within k u e v) :
    within (k + 1) u e (fl v) := by
  have hv : 0 ≤ v := within_nonneg k u e v hu1 he h
  have hx := hfl v
  rw [abs_of_nonneg hv, abs_le] at hx
  have a : 0 ≤ (1 - u) ^ k * e := mul_nonneg (pow_nonneg (by linarith) k) he
  unfold within at h ⊢
  rw [pow_succ, pow_succ]
  constructor
  · nlinarith [h.1, hx.1]
  · nlinarith [h.2, hx.2]

theorem within_add (k : Nat) (u e1 v1 e2 v2 : ℚ) (h1 : within k u e1 v1)
    (h2 : within k u e2 v2) : within k u (e1 + e2) (v1 + v2) := by
  unfold within at h1 h2 ⊢
  constructor
  · linarith [h1.1, h2.1]
  · linarith [h1.2, h2.2]

theorem within_mul (j k : Nat) (u e1 v1 e2 v2 : ℚ) (hu0 : 0 ≤ u) (hu1 : u ≤ 1) (he1 : 0 ≤ e1)
    (he2 : 0 ≤ e2) (h1 : within j u e1 v1) (h2 : within k u e2 v2) :
    within (j + k) u (e1 * e2) (v1 * v2) := by
  have a1 : 0 ≤ (1 - u) ^ j * e1 := mul_nonneg (pow_nonneg (by linarith) j) he1
  have a2 : 0 ≤ (1 - u) ^ k * e2 := mul_nonneg (pow_nonneg (by linarith) k) he2
  have hv1 : 0 ≤ v1 := within_nonneg j u e1 v1 hu1 he1 h1
  have hv2 : 0 ≤ v2 := within_nonneg k u e2 v2 hu1 he2 h2
  unfold within at h1 h2 ⊢
  rw [pow_add, pow_add]
  constructor
  · have := mul_le_mul h1.1 h2.1 a2 hv1
    calc (1 - u) ^ j * (1 - u) ^ k * (e1 * e2) = (1 - u) ^ j * e1 * ((1 - u) ^ k * e2) := by ring
      _ ≤ v1 * v2 := this
  · have b2 : 0 ≤ (1 + u) ^ j * e1 := mul_nonneg (pow_nonneg (by linarith) j) he1
    have := mul_le_mul h1.2 h2.2 hv2 b2
    calc v1 * v2 ≤ (1 + u) ^ j * e1 * ((1 + u) ^ k * e2) := this
      _ = (1 + u) ^ j * (1 + u) ^ k * (e1 * e2) := by ring

theorem within_half (k : Nat) (u e v : ℚ) (h : within k u e v) : within k u (e / 2) (v / 2) := by
  unfold within at h ⊢
  constructor
  · linarith [h.1]
  · linarith [h.2]

/-- A product of a converted integer and a rounded sum, rounded: three
roundings. -/
theorem rounded_product_within (fl : ℚ → ℚ) (u a S sp : ℚ) (hu0 : 0 ≤ u) (hu1 : u ≤ 1)
    (hfl : ∀ x, |fl x - x| ≤ u * |x|) (ha : 0 ≤ a) (hS : 0 ≤ S + sp) :
    within 3 u (a * (S + sp)) (fl (fl a * fl (S + sp))) := by
  have c := within_fl fl 0 u (S + sp) (S + sp) hu0 hu1 hfl hS (within_zero u _)
  have s := within_fl fl 0 u a a hu0 hu1 hfl ha (within_zero u _)
  have p := within_mul 1 1 u _ _ _ _ hu0 hu1 ha hS s c
  exact within_fl fl 2 u _ _ hu0 hu1 hfl (mul_nonneg ha hS) p

/-- The offset of a node in its slot, rounded: two roundings. -/
theorem rounded_offset_within (fl : ℚ → ℚ) (u S w : ℚ) (hu0 : 0 ≤ u) (hu1 : u ≤ 1)
    (hfl : ∀ x, |fl x - x| ≤ u * |x|) (hw : w ≤ S) :
    within 2 u ((S - w) / 2) (fl (fl (S - w) / 2)) := by
  have g := within_fl fl 0 u (S - w) (S - w) hu0 hu1 hfl (by linarith) (within_zero u _)
  exact within_fl fl 1 u _ _ hu0 hu1 hfl (by linarith) (within_half 1 u _ _ g)

/-- The coordinate across the layers as computed with rounding: six roundings
at most on every path. -/
theorem secondary_within (fl : ℚ → ℚ) (u slack pos S sp w : ℚ) (hu0 : 0 ≤ u) (hu1 : u ≤ 1)
    (hfl : ∀ x, |fl x - x| ≤ u * |x|) (hsl : 0 ≤ slack) (hpos : 0 ≤ pos) (hS : 0 ≤ S + sp)
    (hw : w ≤ S) :
    within 6 u (slack * (S + sp) / 2 + pos * (S + sp) + (S - w) / 2)
      (fl (fl (fl (fl (fl slack * fl (S + sp)) / 2) + fl (fl pos * fl (S + sp))) +
        fl (fl (S - w) / 2))) := by
  have n1 : 0 ≤ slack * (S + sp) / 2 := by positivity
  have n2 : 0 ≤ pos * (S + sp) := by positivity
  have n3 : 0 ≤ (S - w) / 2 := by linarith
  have ls := within_fl fl 3 u _ _ hu0 hu1 hfl n1
    (within_half 3 u _ _ (rounded_product_within fl u slack S sp hu0 hu1 hfl hsl hS))
  have q := within_mono 3 4 u _ _ hu0 hu1 n2 (by omega)
    (rounded_product_within fl u pos S sp hu0 hu1 hfl hpos hS)
  have sec := within_fl fl 4 u _ _ hu0 hu1 hfl (by linarith) (within_add 4 u _ _ _ _ ls q)
  have g := within_mono 2 5 u _ _ hu0 hu1 n3 (by omega)
    (rounded_offset_within fl u S w hu0 hu1 hfl hw)
  exact within_fl fl 5 u _ _ hu0 hu1 hfl (by linarith) (within_add 5 u _ _ _ _ sec g)

/-- The coordinate along the layers as computed with rounding. -/
theorem primary_within (fl : ℚ → ℚ) (u l S sp w : ℚ) (hu0 : 0 ≤ u) (hu1 : u ≤ 1)
    (hfl : ∀ x, |fl x - x| ≤ u * |x|) (hl : 0 ≤ l) (hS : 0 ≤ S + sp) (hw : w ≤ S) :
    within 6 u (l * (S + sp) + (S - w) / 2)
      (fl (fl (fl l * fl (S + sp)) + fl (fl (S - w) / 2))) := by
  have n2 : 0 ≤ l * (S + sp) := by positivity
  have n3 : 0 ≤ (S - w) / 2 := by linarith
  have p := rounded_product_within fl u l S sp hu0 hu1 hfl hl hS
  have g := within_mono 2 3 u _ _ hu0 hu1 n3 (by omega)
    (rounded_offset_within fl u S w hu0 hu1 hfl hw)
  have s := within_fl fl 3 u _ _ hu0 hu1 hfl (by linarith) (within_add 3 u _ _ _ _ p g)
  exact within_mono 4 6 u _ _ hu0 hu1 (by linarith) (by omega) s

/-- A coordinate moved by the padding, rounded: one more rounding. -/
theorem moved_within (fl : ℚ → ℚ) (u e v : ℚ) (hu0 : 0 ≤ u) (hu1 : u ≤ 1)
    (hfl : ∀ x, |fl x - x| ≤ u * |x|) (he : 0 ≤ e) (h : within 6 u e v) :
    within 7 u (20 + e) (fl (v + 20)) := by
  have p := within_mono 0 6 u 20 20 hu0 hu1 (by norm_num) (by omega) (within_zero u 20)
  have s := within_add 6 u _ _ _ _ p h
  rw [add_comm 20 v] at s
  exact within_fl fl 6 u _ _ hu0 hu1 hfl (by linarith) s

/-- The corner computed with rounding is the corner of the slot formulas up to
six roundings, for a node that fits its slot, in a layer between 0 and the
last, that has at most `max_nodes_in_layer` nodes. -/
theorem plain_position_fl_within (fl : ℚ → ℚ) (u : ℚ) (d : IRFlowchartDirection)
    (nl : List Int) (ns rs W H : ℚ) (layer : Int) (n pos : Nat) (w h : ℚ)
    (hu0 : 0 ≤ u) (hu1 : u ≤ 1) (hfl : ∀ x, |fl x - x| ≤ u * |x|)
    (hn : n ≤ max_nodes_in_layer nl) (hl0 : 0 ≤ layer) (hl1 : layer ≤ max_layer_of nl)
    (hns : 0 ≤ ns) (hrs : 0 ≤ rs) (hW : 0 ≤ W) (hH : 0 ≤ H) (hw : w ≤ W) (hh : h ≤ H) :
    within 6 u (plain_position d nl ns rs W H layer n pos w h).1
      (plain_position_fl fl d nl ns rs W H layer n pos w h).1 ∧
    within 6 u (plain_position d nl ns rs W H layer n pos w h).2
      (plain_position_fl fl d nl ns rs W H layer n pos w h).2 := by
  have hsl : (0 : ℚ) ≤ (((max_nodes_in_layer nl : Int) - (n : Int) : Int) : ℚ) := by
    have : (0 : Int) ≤ (max_nodes_in_layer nl : Int) - (n : Int) := by omega
    exact_mod_cast this
  have hpos : (0 : ℚ) ≤ (pos : ℚ) := Nat.cast_nonneg pos
  have hlq : (0 : ℚ) ≤ (layer : ℚ) := by exact_mod_cast hl0
  have hrq : (0 : ℚ) ≤ ((max_layer_of nl - layer : Int) : ℚ) := by
    have : (0 : Int) ≤ max_layer_of nl - layer := by omega
    exact_mod_cast this
  unfold plain_position plain_position_fl primary_coord
  dsimp only
  cases hd : is_horizontal d <;> cases hr : is_reversed d
  · exact ⟨secondary_within fl u _ _ W ns w hu0 hu1 hfl hsl hpos (by linarith) hw,
      primary_within fl u _ H rs h hu0 hu1 hfl hlq (by linarith) hh⟩
  · exact ⟨secondary_within fl u _ _ W ns w hu0 hu1 hfl hsl hpos (by linarith) hw,
      primary_within fl u _ H rs h hu0 hu1 hfl hrq (by linarith) hh⟩
  · exact ⟨primary_within fl u _ W rs w hu0 hu1 hfl hlq (by linarith) hw,
      secondary_within fl u _ _ H ns h hu0 hu1 hfl hsl hpos (by linarith) hh⟩
  · exact ⟨primary_within fl u _ W rs w hu0 hu1 hfl hrq (by linarith) hw,
      secondary_within fl u _ _ H ns h hu0 hu1 hfl hsl hpos (by linarith) hh⟩

theorem f32_round_relative (x : ℚ) : |f32_round x - x| ≤ 1 / 2 ^ 24 * |x| := by
  have := f32_round_error x
  calc |f32_round x - x| ≤ |x| / 2 ^ 24 := this
    _ = 1 / 2 ^ 24 * |x| := by ring

/-- A value known up to seven roundings to `float` differs from the exact value
by at most its `2 ^ 21`-th part. -/
theorem within_seven (e v : ℚ) (he : 0 ≤ e) (h : within 7 (1 / 2 ^ 24) e v) :
    (1 - 1 / 2 ^ 21) * e ≤ v ∧ v ≤ (1 + 1 / 2 ^ 21) * e ∧ |v - e| ≤ e / 2 ^ 21 := by
  unfold within at h
  have a : (1 - 1 / 2 ^ 21 : ℚ) ≤ (1 - 1 / 2 ^ 24) ^ 7 := by norm_num
  have b : ((1 + 1 / 2 ^ 24) ^ 7 : ℚ) ≤ 1 + 1 / 2 ^ 21 := by norm_num
  have l1 : (1 - 1 / 2 ^ 21) * e ≤ v := le_trans (mul_le_mul_of_nonneg_right a he) h.1
  have l2 : v ≤ (1 + 1 / 2 ^ 21) * e := le_trans h.2 (mul_le_mul_of_nonneg_right b he)
  refine ⟨l1, l2, ?_⟩
  rw [abs_le]
  constructor <;> linarith

/-- Two coordinates known up to seven roundings, the exact values a gap `g`
apart: the rounded values keep the gap up to its `2 ^ 20`-th part. -/
theorem gap_up_to_rounding (eu ev xu xv g : ℚ) (h1 : within 7 (1 / 2 ^ 24) eu xu)
    (h2 : within 7 (1 / 2 ^ 24) ev xv) (heu : 0 ≤ eu) (hg : 0 ≤ g) (hgap : eu + g ≤ ev) :
    (1 - 1 / 2 ^ 20) * (xu + g) ≤ xv := by
  obtain ⟨_, a2, _⟩ := within_seven eu xu heu h1
  obtain ⟨b1, _, _⟩ := within_seven ev xv (by linarith) h2
  have s1 : xu + g ≤ (1 + 1 / 2 ^ 21) * (eu + g) := by nlinarith
  have s2 : (1 - 1 / 2 ^ 20 : ℚ) * ((1 + 1 / 2 ^ 21) * (eu + g)) ≤ (1 - 1 / 2 ^ 21) * (eu + g) := by
    have : (1 - 1 / 2 ^ 20 : ℚ) * (1 + 1 / 2 ^ 21) ≤ 1 - 1 / 2 ^ 21 := by norm_num
    calc (1 - 1 / 2 ^ 20 : ℚ) * ((1 + 1 / 2 ^ 21) * (eu + g))
        = ((1 - 1 / 2 ^ 20) * (1 + 1 / 2 ^ 21)) * (eu + g) := by ring
      _ ≤ (1 - 1 / 2 ^ 21) * (eu + g) := mul_le_mul_of_nonneg_right this (by linarith)
  have s3 : (1 - 1 / 2 ^ 21 : ℚ) * (eu + g) ≤ (1 - 1 / 2 ^ 21) * ev :=
    mul_le_mul_of_nonneg_left hgap (by norm_num)
  have s4 : (1 - 1 / 2 ^ 20 : ℚ) * (xu + g) ≤ (1 - 1 / 2 ^ 20) * ((1 + 1 / 2 ^ 21) * (eu + g)) :=
    mul_le_mul_of_nonneg_left s1 (by norm_num)
  linarith

/-- A gap kept up to its `2 ^ 20`-th part is a gap, while the coordinate is at
most `2 ^ 20 - 1` times the spacing. -/
theorem apart_of_gap (end_u xv sp : ℚ) (h : (1 - 1 / 2 ^ 20) * (end_u + sp) ≤ xv)
    (hb : end_u ≤ (2 ^ 20 - 1) * sp) : end_u ≤ xv := by
  have : (1 - 1 / 2 ^ 20 : ℚ) * (end_u + sp) = end_u + ((2 ^ 20 - 1) * sp - end_u) / 2 ^ 20 := by
    ring
  rw [this] at h
  have : 0 ≤ ((2 ^ 20 - 1) * sp - end_u) / 2 ^ 20 := by
    apply div_nonneg
    · linarith
    · norm_num
  linarith

/-! ## The node geometry with rounding -/

theorem compute_node_size_fl_id (metrics : Option IRFontMetrics) (font_size : ℚ)
    (node : IRFlowchartNodeData) :
    compute_node_size_fl id metrics font_size node = compute_node_size metrics font_size node :=
  rfl

theorem position_node_fl_id (state : IRFlowchartState) (node_layer : List Int)
    (ns rs W H : ℚ) (acc : Positioning) (i : Nat) :
    position_node_fl id state node_layer ns rs W H acc i =
      position_node state node_layer ns rs W H acc i := rfl

theorem fit_scale_fl_id (nw nh aw ah : ℚ) : fit_scale_fl id nw nh aw ah = fit_scale nw nh aw ah :=
  rfl

theorem layout_sized_fl_id (metrics : Option IRFontMetrics) (f : Flowchart) :
    layout_sized_fl id metrics f = layout_sized metrics f := by
  unfold layout_sized_fl layout_sized compute_flowchart_node_sizes
  congr 1

theorem position_nodes_fl_id (state : IRFlowchartState) (node_layer : List Int) (ns rs : ℚ) :
    position_nodes_fl id state node_layer ns rs = position_nodes state node_layer ns rs := by
  unfold position_nodes_fl position_nodes
  rfl

theorem layout_placed_fl_id (metrics : Option IRFontMetrics) (f : Flowchart) :
    layout_placed_fl id metrics f = layout_placed metrics f := by
  unfold layout_placed_fl layout_placed layout_layers
  rw [layout_sized_fl_id, position_nodes_fl_id]

theorem layout_scale_fl_id (metrics : Option IRFontMetrics) (f : Flowchart) (aw ah : ℚ) :
    layout_scale_fl id metrics f aw ah = layout_scale metrics f aw ah := by
  unfold layout_scale_fl layout_scale layout_natural_width_fl layout_natural_height_fl
    layout_natural_width layout_natural_height
  rw [layout_placed_fl_id, fit_scale_fl_id]
  rfl

/-- Without rounding the nodes are those of the layout in exact arithmetic. -/
theorem ir_layout_nodes_fl_id (metrics : Option IRFontMetrics) (f : Flowchart) (aw ah : ℚ) :
    ir_layout_nodes_fl id metrics f aw ah =
      (ir_layout_compute_flowchart metrics f aw ah).state.nodes := by
  unfold ir_layout_nodes_fl ir_layout_compute_flowchart
  dsimp only
  split_ifs
  · rfl
  · rfl
  · rw [compute_layout_nodes, layout_placed_fl_id, layout_scale_fl_id]
    rfl

/-- Sizing with rounding changes the width and the height of a node and nothing
else. -/
theorem compute_node_size_fl_eq (fl : ℚ → ℚ) (metrics : Option IRFontMetrics) (font_size : ℚ)
    (node : IRFlowchartNodeData) :
    compute_node_size_fl fl metrics font_size node =
      { node with width := (compute_node_size_fl fl metrics font_size node).width,
                  height := (compute_node_size_fl fl metrics font_size node).height } := by
  unfold compute_node_size_fl
  dsimp only
  split <;> rfl

theorem compute_node_size_fl_bounds (fl : ℚ → ℚ) (metrics : Option IRFontMetrics)
    (font_size : ℚ) (node : IRFlowchartNodeData) :
    40 ≤ (compute_node_size_fl fl metrics font_size node).width ∧
    24 ≤ (compute_node_size_fl fl metrics font_size node).height := by
  unfold compute_node_size_fl
  dsimp only
  split
  · refine ⟨?_, ?_⟩
    · exact le_max_of_le_left (le_max_left _ _)
    · exact le_max_of_le_right (le_max_left _ _)
  · exact ⟨le_max_left _ _, le_max_left _ _⟩

theorem layout_sized_fl_nodes (fl : ℚ → ℚ) (metrics : Option IRFontMetrics) (f : Flowchart) :
    (layout_sized_fl fl metrics f).nodes =
      f.state.nodes.map (compute_node_size_fl fl metrics (layout_font_size f)) := rfl

/-- The layers do not depend on the sizes: with rounding they are the layers of
the layout in exact arithmetic. -/
theorem layout_layers_fl (fl : ℚ → ℚ) (metrics : Option IRFontMetrics) (f : Flowchart) :
    (assign_layers (layout_sized_fl fl metrics f)).node_layer = layout_layers metrics f := by
  unfold layout_layers
  rw [assign_layers_congr (layout_sized metrics f) (layout_sized_fl fl metrics f) ?_ rfl]
  rw [layout_sized_fl_nodes, layout_sized_nodes, List.map_map, List.map_map]
  apply List.map_congr_left
  intro n _
  show (compute_node_size_fl fl metrics (layout_font_size f) n).node_id =
    (compute_node_size metrics (layout_font_size f) n).node_id
  rw [compute_node_size_fl_eq, compute_node_size_eq]

theorem sized_fl_in_slot (fl : ℚ → ℚ) (metrics : Option IRFontMetrics) (f : Flowchart) (j : Nat)
    (node : IRFlowchartNodeData) (hj : f.state.nodes.get? j = some node) :
    0 < (compute_node_size_fl fl metrics (layout_font_size f) node).width ∧
    (compute_node_size_fl fl metrics (layout_font_size f) node).width ≤
      max_node_width (layout_sized_fl fl metrics f).nodes ∧
    0 < (compute_node_size_fl fl metrics (layout_font_size f) node).height ∧
    (compute_node_size_fl fl metrics (layout_font_size f) node).height ≤
      max_node_height (layout_sized_fl fl metrics f).nodes := by
  have hmem : compute_node_size_fl fl metrics (layout_font_size f) node ∈
      (layout_sized_fl fl metrics f).nodes := by
    rw [layout_sized_fl_nodes]
    exact List.mem_map_of_mem _ (List.get?_mem hj)
  have hb := compute_node_size_fl_bounds fl metrics (layout_font_size f) node
  refine ⟨by linarith [hb.1], ?_, by linarith [hb.2], ?_⟩
  · exact (foldl_max_field_ge (fun n : IRFlowchartNodeData => n.width) _ _).2 _ hmem
  · exact (foldl_max_field_ge (fun n : IRFlowchartNodeData => n.height) _ _).2 _ hmem

theorem sized_fl_subgraph_none (fl : ℚ → ℚ) (metrics : Option IRFontMetrics) (f : Flowchart)
    (hs : ∀ node ∈ f.state.nodes, node.subgraph_id = none) :
    ∀ node ∈ (layout_sized_fl fl metrics f).nodes, node.subgraph_id = none := by
  intro node hm
  rw [layout_sized_fl_nodes, List.mem_map] at hm
  obtain ⟨n0, h0, rfl⟩ := hm
  rw [compute_node_size_fl_eq]
  exact hs n0 h0

/-- The body of the positioning loop with rounding for a node outside every
subgraph. -/
theorem position_node_fl_plain (fl : ℚ → ℚ) (state : IRFlowchartState) (node_layer : List Int)
    (ns rs W H : ℚ) (acc : Positioning) (i : Nat) (node : IRFlowchartNodeData)
    (h : acc.nodes.get? i = some node) (hs : node.subgraph_id = none) :
    (position_node_fl fl state node_layer ns rs W H acc i).nodes =
      acc.nodes.set i
        { node with
          x := (plain_position_fl fl state.direction node_layer ns rs W H
            (node_layer.getD i (-1))
            (nodes_in_this_layer acc.nodes node_layer node (node_layer.getD i (-1)))
            (acc.layer_position.getD (node_layer.getD i (-1)).toNat 0) node.width node.height).1
          y := (plain_position_fl fl state.direction node_layer ns rs W H
            (node_layer.getD i (-1))
            (nodes_in_this_layer acc.nodes node_layer node (node_layer.getD i (-1)))
            (acc.layer_position.getD (node_layer.getD i (-1)).toNat 0) node.width node.height).2 } ∧
    (position_node_fl fl state node_layer ns rs W H acc i).layer_position =
      acc.layer_position.set (node_layer.getD i (-1)).toNat
        (acc.layer_position.getD (node_layer.getD i (-1)).toNat 0 + 1) := by
  unfold position_node_fl
  rw [h]
  dsimp only
  rw [node_in_directional_subgraph_top state node hs, node_direction_top state node hs]
  simp only [Bool.false_eq_true, if_false]
  refine ⟨?_, trivial⟩
  unfold plain_position_fl nodes_in_this_layer
  dsimp only
  cases hh : is_horizontal state.direction <;> cases hr : is_reversed state.direction <;> rfl

/-- The positioning loop with rounding on a state none of whose nodes is in a subgraph: after
`k` turns the first `k` nodes are at the corners computed with rounding, the other
nodes are untouched, and the counter of each layer is the number of the first
`k` nodes in that layer. -/
theorem position_fold_fl_plain (fl : ℚ → ℚ) (state : IRFlowchartState) (node_layer : List Int) (ns rs W H : ℚ)
    (hlen : node_layer.length = state.nodes.length)
    (hl0 : ∀ i, i < state.nodes.length → 0 ≤ node_layer.getD i (-1))
    (hall : ∀ node ∈ state.nodes, node.subgraph_id = none) :
    ∀ k, k ≤ state.nodes.length →
      ((List.range k).foldl (position_node_fl fl state node_layer ns rs W H)
        { nodes := state.nodes
          layer_position := List.replicate ((max_layer_of node_layer).toNat + 1) 0 }).nodes.length
        = state.nodes.length ∧
      (∀ j, k ≤ j →
        ((List.range k).foldl (position_node_fl fl state node_layer ns rs W H)
          { nodes := state.nodes
            layer_position :=
              List.replicate ((max_layer_of node_layer).toNat + 1) 0 }).nodes.get? j
          = state.nodes.get? j) ∧
      (∀ j node, j < k → state.nodes.get? j = some node →
        ((List.range k).foldl (position_node_fl fl state node_layer ns rs W H)
          { nodes := state.nodes
            layer_position :=
              List.replicate ((max_layer_of node_layer).toNat + 1) 0 }).nodes.get? j
          = some { node with
              x := (plain_position_fl fl state.direction node_layer ns rs W H (node_layer.getD j (-1))
                (node_layer.count (node_layer.getD j (-1))) (rank_in_layer node_layer j)
                node.width node.height).1
              y := (plain_position_fl fl state.direction node_layer ns rs W H (node_layer.getD j (-1))
                (node_layer.count (node_layer.getD j (-1))) (rank_in_layer node_layer j)
                node.width node.height).2 }) ∧
      (∀ L : Nat, L ≤ (max_layer_of node_layer).toNat →
        ((List.range k).foldl (position_node_fl fl state node_layer ns rs W H)
          { nodes := state.nodes
            layer_position :=
              List.replicate ((max_layer_of node_layer).toNat + 1) 0 }).layer_position.getD L 0
          = (node_layer.take k).count (L : Int)) ∧
      ((List.range k).foldl (position_node_fl fl state node_layer ns rs W H)
        { nodes := state.nodes
          layer_position :=
            List.replicate ((max_layer_of node_layer).toNat + 1) 0 }).layer_position.length
        = (max_layer_of node_layer).toNat + 1 := by
  intro k
  induction k with
  | zero =>
    intro _
    rw [List.range_zero, List.foldl_nil]
    refine ⟨rfl, fun j _ => rfl, fun j node hj => by omega, ?_, by simp⟩
    intro L hL
    simp [List.getD_eq_getElem?_getD]
  | succ k ih =>
    intro hk
    obtain ⟨a1, a2, a3, a4, a5⟩ := ih (by omega)
    rw [List.range_succ, List.foldl_append]
    simp only [List.foldl_cons, List.foldl_nil]
    generalize (List.range k).foldl (position_node_fl fl state node_layer ns rs W H)
        { nodes := state.nodes
          layer_position := List.replicate ((max_layer_of node_layer).toNat + 1) 0 } = acc
      at a1 a2 a3 a4 a5 ⊢
    have hkn : k < state.nodes.length := by omega
    have hnode : state.nodes.get? k = some (state.nodes.get ⟨k, hkn⟩) := List.get?_eq_get hkn
    have hacc : acc.nodes.get? k = some (state.nodes.get ⟨k, hkn⟩) := by
      rw [a2 k (le_refl _), hnode]
    have hsub : (state.nodes.get ⟨k, hkn⟩).subgraph_id = none :=
      hall _ (List.get_mem state.nodes k hkn)
    have hacc_all : ∀ other ∈ acc.nodes, other.subgraph_id = none := by
      intro other hm
      obtain ⟨j, hj, e⟩ := List.getElem_of_mem hm
      have hj1 : j < state.nodes.length := by omega
      have hs := hall _ (List.getElem_mem hj1)
      by_cases hjk : j < k
      · have := a3 j _ hjk (List.get?_eq_getElem? _ _ ▸ List.getElem?_eq_getElem hj1)
        rw [List.get?_eq_getElem?, List.getElem?_eq_getElem hj, e] at this
        cases this
        exact hs
      · have := a2 j (by omega)
        rw [List.get?_eq_getElem?, List.get?_eq_getElem?, List.getElem?_eq_getElem hj,
          List.getElem?_eq_getElem hj1, e] at this
        cases this
        exact hs
    obtain ⟨e1, e2⟩ := position_node_fl_plain fl state node_layer ns rs W H acc k _ hacc hsub
    have hcount := nodes_in_this_layer_plain acc.nodes node_layer (state.nodes.get ⟨k, hkn⟩)
      (node_layer.getD k (-1)) (by rw [a1, hlen]) hsub hacc_all
    have hlk0 := hl0 k hkn
    have hlkm := le_max_layer_of node_layer k (by omega)
    have hpos : acc.layer_position.getD (node_layer.getD k (-1)).toNat 0 =
        rank_in_layer node_layer k := by
      rw [a4 _ (by omega), Int.toNat_of_nonneg hlk0]
      rfl
    rw [hcount, hpos] at e1
    refine ⟨by rw [e1, List.length_set, a1], ?_, ?_, ?_, by rw [e2, List.length_set, a5]⟩
    · intro j hj
      rw [e1, List.get?_eq_getElem?, List.getElem?_set_ne (by omega), ← List.get?_eq_getElem?]
      exact a2 j (by omega)
    · intro j node hj hn
      by_cases hjk : j = k
      · subst hjk
        rw [hnode] at hn
        cases hn
        rw [e1, List.get?_eq_getElem?, List.getElem?_set_self (by rw [a1]; exact hkn)]
      · rw [e1, List.get?_eq_getElem?, List.getElem?_set_ne (by omega), ← List.get?_eq_getElem?]
        exact a3 j node (by omega) hn
    · intro L hL
      rw [e2, count_take_succ node_layer k (by omega)]
      by_cases hLk : L = (node_layer.getD k (-1)).toNat
      · have e : node_layer.getD k (-1) = (L : Int) := by omega
        rw [← hLk, List.getD_eq_getElem?_getD, List.getElem?_set_self (by rw [a5]; omega)]
        simp only [Option.getD_some, e, if_true]
        rw [a4 L hL]
      · have e : ¬ node_layer.getD k (-1) = (L : Int) := by omega
        rw [List.getD_eq_getElem?_getD, List.getElem?_set_ne (fun h => hLk h.symm),
          ← List.getD_eq_getElem?_getD, a4 L hL]
        simp only [e, if_false, Nat.add_zero]

/-- After the positioning phase with rounding of a flowchart none of whose
nodes is in a subgraph, node `j` is the sized node `j` at the corner computed
with rounding for its layer, the population of the layer and its rank in it. -/
theorem layout_placed_fl_plain (fl : ℚ → ℚ) (metrics : Option IRFontMetrics) (f : Flowchart)
    (hs : ∀ node ∈ f.state.nodes, node.subgraph_id = none) (j : Nat)
    (node : IRFlowchartNodeData) (hj : f.state.nodes.get? j = some node) :
    (layout_placed_fl fl metrics f).nodes.get? j =
      some { compute_node_size_fl fl metrics (layout_font_size f) node with
        x := (plain_position_fl fl f.state.direction (layout_layers metrics f)
          (layout_node_spacing f.state) (layout_rank_spacing f.state)
          (max_node_width (layout_sized_fl fl metrics f).nodes)
          (max_node_height (layout_sized_fl fl metrics f).nodes)
          ((layout_layers metrics f).getD j (-1))
          ((layout_layers metrics f).count ((layout_layers metrics f).getD j (-1)))
          (rank_in_layer (layout_layers metrics f) j)
          (compute_node_size_fl fl metrics (layout_font_size f) node).width
          (compute_node_size_fl fl metrics (layout_font_size f) node).height).1
        y := (plain_position_fl fl f.state.direction (layout_layers metrics f)
          (layout_node_spacing f.state) (layout_rank_spacing f.state)
          (max_node_width (layout_sized_fl fl metrics f).nodes)
          (max_node_height (layout_sized_fl fl metrics f).nodes)
          ((layout_layers metrics f).getD j (-1))
          ((layout_layers metrics f).count ((layout_layers metrics f).getD j (-1)))
          (rank_in_layer (layout_layers metrics f) j)
          (compute_node_size_fl fl metrics (layout_font_size f) node).width
          (compute_node_size_fl fl metrics (layout_font_size f) node).height).2 } := by
  have hlay := assign_layers_ok (layout_sized_fl fl metrics f)
  rw [layout_layers_fl] at hlay
  have hn : (layout_sized_fl fl metrics f).nodes.length = f.state.nodes.length := by
    rw [layout_sized_fl_nodes, List.length_map]
  have key := position_fold_fl_plain fl (layout_sized_fl fl metrics f) (layout_layers metrics f)
    (layout_node_spacing f.state) (layout_rank_spacing f.state)
    (max_node_width (layout_sized_fl fl metrics f).nodes)
    (max_node_height (layout_sized_fl fl metrics f).nodes)
    hlay.1 hlay.2 (sized_fl_subgraph_none fl metrics f hs)
    (layout_sized_fl fl metrics f).nodes.length (le_refl _)
  have e : (layout_placed_fl fl metrics f) =
      (List.range (layout_sized_fl fl metrics f).nodes.length).foldl
        (position_node_fl fl (layout_sized_fl fl metrics f) (layout_layers metrics f)
          (layout_node_spacing f.state) (layout_rank_spacing f.state)
          (max_node_width (layout_sized_fl fl metrics f).nodes)
          (max_node_height (layout_sized_fl fl metrics f).nodes))
        { nodes := (layout_sized_fl fl metrics f).nodes
          layer_position :=
            List.replicate ((max_layer_of (layout_layers metrics f)).toNat + 1) 0 } := by
    unfold layout_placed_fl
    rw [layout_layers_fl]
    rfl
  rw [← e] at key
  obtain ⟨_, _, k3, _, _⟩ := key
  have hlt : j < f.state.nodes.length := by
    rw [List.get?_eq_getElem?] at hj
    exact (List.getElem?_eq_some_iff.mp hj).1
  have hsz : (layout_sized_fl fl metrics f).nodes.get? j =
      some (compute_node_size_fl fl metrics (layout_font_size f) node) := by
    rw [layout_sized_fl_nodes, List.get?_eq_getElem?, List.getElem?_map,
      ← List.get?_eq_getElem?, hj]
    rfl
  exact k3 j _ (by rw [hn]; exact hlt) hsz

theorem layout_placed_fl_length (fl : ℚ → ℚ) (metrics : Option IRFontMetrics) (f : Flowchart)
    (hs : ∀ node ∈ f.state.nodes, node.subgraph_id = none) :
    (layout_placed_fl fl metrics f).nodes.length = f.state.nodes.length := by
  have hlay := assign_layers_ok (layout_sized_fl fl metrics f)
  rw [layout_layers_fl] at hlay
  have hn : (layout_sized_fl fl metrics f).nodes.length = f.state.nodes.length := by
    rw [layout_sized_fl_nodes, List.length_map]
  have key := position_fold_fl_plain fl (layout_sized_fl fl metrics f) (layout_layers metrics f)
    (layout_node_spacing f.state) (layout_rank_spacing f.state)
    (max_node_width (layout_sized_fl fl metrics f).nodes)
    (max_node_height (layout_sized_fl fl metrics f).nodes)
    hlay.1 hlay.2 (sized_fl_subgraph_none fl metrics f hs)
    (layout_sized_fl fl metrics f).nodes.length (le_refl _)
  have e : (layout_placed_fl fl metrics f) =
      (List.range (layout_sized_fl fl metrics f).nodes.length).foldl
        (position_node_fl fl (layout_sized_fl fl metrics f) (layout_layers metrics f)
          (layout_node_spacing f.state) (layout_rank_spacing f.state)
          (max_node_width (layout_sized_fl fl metrics f).nodes)
          (max_node_height (layout_sized_fl fl metrics f).nodes))
        { nodes := (layout_sized_fl fl metrics f).nodes
          layer_position :=
            List.replicate ((max_layer_of (layout_layers metrics f)).toNat + 1) 0 } := by
    unfold layout_placed_fl
    rw [layout_layers_fl]
    rfl
  rw [← e] at key
  rw [key.1, hn]

/-- In a viewport that is at least as large as the natural size the scale is 1,
when the `float` nearest to 0.6 is at most 1. -/
theorem fit_scale_fl_fits (fl : ℚ → ℚ) (nw nh aw ah : ℚ) (h35 : fl (3 / 5) ≤ 1) (hw : nw ≤ aw)
    (hh : nh ≤ ah) : fit_scale_fl fl nw nh aw ah = 1 := by
  have a : ¬ (nw > aw ∧ aw > 0) := fun h => absurd h.1 (not_lt.mpr hw)
  have b : ¬ (nh > ah ∧ ah > 0) := fun h => absurd h.1 (not_lt.mpr hh)
  unfold fit_scale_fl
  simp only [a, b, if_false, min_self]
  rw [if_neg (not_lt.mpr h35)]

/-- After the whole layout with rounding in a viewport that is at least as
large as the natural size, node `j` is the sized node `j` at the corner
computed with rounding, moved by the padding of 20. -/
theorem layout_nodes_fl_plain (fl : ℚ → ℚ) (metrics : Option IRFontMetrics) (f : Flowchart)
    (aw ah : ℚ) (h35 : fl (3 / 5) ≤ 1)
    (hc : f.state.layout_computed = false)
    (hs : ∀ node ∈ f.state.nodes, node.subgraph_id = none)
    (hw : layout_natural_width_fl fl metrics f ≤ aw)
    (hh : layout_natural_height_fl fl metrics f ≤ ah)
    (j : Nat) (u : IRFlowchartNodeData)
    (hu : (ir_layout_nodes_fl fl metrics f aw ah).get? j = some u) :
    ∃ node, f.state.nodes.get? j = some node ∧
      u.width = (compute_node_size_fl fl metrics (layout_font_size f) node).width ∧
      u.height = (compute_node_size_fl fl metrics (layout_font_size f) node).height ∧
      u.x = fl ((plain_position_fl fl f.state.direction (layout_layers metrics f)
          (layout_node_spacing f.state) (layout_rank_spacing f.state)
          (max_node_width (layout_sized_fl fl metrics f).nodes)
          (max_node_height (layout_sized_fl fl metrics f).nodes)
          ((layout_layers metrics f).getD j (-1))
          ((layout_layers metrics f).count ((layout_layers metrics f).getD j (-1)))
          (rank_in_layer (layout_layers metrics f) j) u.width u.height).1 + 20) ∧
      u.y = fl ((plain_position_fl fl f.state.direction (layout_layers metrics f)
          (layout_node_spacing f.state) (layout_rank_spacing f.state)
          (max_node_width (layout_sized_fl fl metrics f).nodes)
          (max_node_height (layout_sized_fl fl metrics f).nodes)
          ((layout_layers metrics f).getD j (-1))
          ((layout_layers metrics f).count ((layout_layers metrics f).getD j (-1)))
          (rank_in_layer (layout_layers metrics f) j) u.width u.height).2 + 20) := by
  have hsc : layout_scale_fl fl metrics f aw ah = 1 := fit_scale_fl_fits fl _ _ aw ah h35 hw hh
  have hmove : layout_move_fl fl 1 = fun v => fl (v + 20) := by
    unfold layout_move_fl
    rw [if_neg (lt_irrefl _)]
  unfold ir_layout_nodes_fl at hu
  dsimp only at hu
  rw [hc] at hu
  simp only [Bool.false_eq_true, false_and, if_false] at hu
  by_cases hn : f.state.nodes.length = 0
  · rw [if_pos hn] at hu
    have : f.state.nodes = [] := List.length_eq_zero.mp hn
    rw [this] at hu
    cases hu
  · rw [if_neg hn, hsc, hmove] at hu
    have hlen := layout_placed_fl_length fl metrics f hs
    have hj : j < f.state.nodes.length := by
      rw [← hlen]
      rw [List.get?_eq_getElem?] at hu
      have := (List.getElem?_eq_some_iff.mp hu).1
      simpa using this
    have hnode : f.state.nodes.get? j = some (f.state.nodes.get ⟨j, hj⟩) := List.get?_eq_get hj
    have hp := layout_placed_fl_plain fl metrics f hs j _ hnode
    rw [List.get?_eq_getElem?, List.getElem?_map, ← List.get?_eq_getElem?, hp] at hu
    simp only [Option.map_some', Option.some.injEq] at hu
    subst hu
    exact ⟨_, hnode, rfl, rfl, rfl, rfl⟩

/-- The nodes after the layout with rounding in a viewport that is at least as
large as the natural size: the placed nodes moved by the padding of 20. -/
theorem layout_nodes_fl_eq (fl : ℚ → ℚ) (metrics : Option IRFontMetrics) (f : Flowchart)
    (aw ah : ℚ) (h35 : fl (3 / 5) ≤ 1) (hc : f.state.layout_computed = false)
    (hn : f.state.nodes ≠ [])
    (hw : layout_natural_width_fl fl metrics f ≤ aw)
    (hh : layout_natural_height_fl fl metrics f ≤ ah) :
    ir_layout_nodes_fl fl metrics f aw ah =
      (layout_placed_fl fl metrics f).nodes.map
        (fun node => { node with x := fl (node.x + 20), y := fl (node.y + 20) }) := by
  have hsc : layout_scale_fl fl metrics f aw ah = 1 := fit_scale_fl_fits fl _ _ aw ah h35 hw hh
  have hmove : layout_move_fl fl 1 = fun v => fl (v + 20) := by
    unfold layout_move_fl
    rw [if_neg (lt_irrefl _)]
  have hl : ¬ f.state.nodes.length = 0 := fun h => hn (List.length_eq_zero.mp h)
  unfold ir_layout_nodes_fl
  dsimp only
  rw [hc]
  simp only [Bool.false_eq_true, false_and, if_false]
  rw [if_neg hl, hsc, hmove]

/-- The slot size is the largest width and the largest height of the nodes of
the result, also with rounding. -/
theorem slot_size_fl_is_largest (fl : ℚ → ℚ) (metrics : Option IRFontMetrics) (f : Flowchart)
    (aw ah : ℚ) (h35 : fl (3 / 5) ≤ 1) (hc : f.state.layout_computed = false)
    (hn : f.state.nodes ≠ []) (hs : ∀ node ∈ f.state.nodes, node.subgraph_id = none)
    (hw : layout_natural_width_fl fl metrics f ≤ aw)
    (hh : layout_natural_height_fl fl metrics f ≤ ah) :
    (∀ v ∈ ir_layout_nodes_fl fl metrics f aw ah,
      v.width ≤ max_node_width (layout_sized_fl fl metrics f).nodes ∧
      v.height ≤ max_node_height (layout_sized_fl fl metrics f).nodes) ∧
    (∃ v ∈ ir_layout_nodes_fl fl metrics f aw ah,
      v.width = max_node_width (layout_sized_fl fl metrics f).nodes) ∧
    (∃ v ∈ ir_layout_nodes_fl fl metrics f aw ah,
      v.height = max_node_height (layout_sized_fl fl metrics f).nodes) := by
  have heq := layout_nodes_fl_eq fl metrics f aw ah h35 hc hn hw hh
  have hlen : (ir_layout_nodes_fl fl metrics f aw ah).length = f.state.nodes.length := by
    rw [heq, List.length_map, layout_placed_fl_length fl metrics f hs]
  have at_index : ∀ j (hj : j < f.state.nodes.length),
      ∃ v, (ir_layout_nodes_fl fl metrics f aw ah).get? j = some v ∧
        v.width =
          (compute_node_size_fl fl metrics (layout_font_size f) (f.state.nodes.get ⟨j, hj⟩)).width ∧
        v.height =
          (compute_node_size_fl fl metrics (layout_font_size f)
            (f.state.nodes.get ⟨j, hj⟩)).height := by
    intro j hj
    have hp := layout_placed_fl_plain fl metrics f hs j _ (List.get?_eq_get hj)
    have e : (ir_layout_nodes_fl fl metrics f aw ah).get? j =
        ((layout_placed_fl fl metrics f).nodes.get? j).map
          (fun node => { node with x := fl (node.x + 20), y := fl (node.y + 20) }) := by
      rw [heq, List.get?_eq_getElem?, List.getElem?_map, List.get?_eq_getElem?]
    rw [hp] at e
    exact ⟨_, e, rfl, rfl⟩
  have of_sized : ∀ s ∈ (layout_sized_fl fl metrics f).nodes,
      ∃ v ∈ ir_layout_nodes_fl fl metrics f aw ah, v.width = s.width ∧ v.height = s.height := by
    intro s hs1
    rw [layout_sized_fl_nodes, List.mem_map] at hs1
    obtain ⟨n0, h0, rfl⟩ := hs1
    obtain ⟨j, hj, e⟩ := List.getElem_of_mem h0
    obtain ⟨v, hv, e1, e2⟩ := at_index j hj
    refine ⟨v, List.get?_mem hv, ?_, ?_⟩
    · rw [e1]; congr 2
    · rw [e2]; congr 2
  have bound : ∀ v ∈ ir_layout_nodes_fl fl metrics f aw ah,
      (40 ≤ v.width ∧ v.width ≤ max_node_width (layout_sized_fl fl metrics f).nodes) ∧
      (24 ≤ v.height ∧ v.height ≤ max_node_height (layout_sized_fl fl metrics f).nodes) := by
    intro v hv
    obtain ⟨j, hj, e⟩ := List.getElem_of_mem hv
    have hj1 : j < f.state.nodes.length := by omega
    obtain ⟨v2, hv2, e1, e2⟩ := at_index j hj1
    rw [List.get?_eq_getElem?, List.getElem?_eq_getElem hj, e] at hv2
    cases hv2
    have b := compute_node_size_fl_bounds fl metrics (layout_font_size f)
      (f.state.nodes.get ⟨j, hj1⟩)
    obtain ⟨_, s2, _, s4⟩ := sized_fl_in_slot fl metrics f j _ (List.get?_eq_get hj1)
    rw [e1, e2]
    exact ⟨⟨b.1, s2⟩, ⟨b.2, s4⟩⟩
  have some_node : ∃ v, v ∈ ir_layout_nodes_fl fl metrics f aw ah := by
    have : 0 < f.state.nodes.length := List.length_pos.mpr hn
    obtain ⟨v, hv, _⟩ := at_index 0 this
    exact ⟨v, List.get?_mem hv⟩
  refine ⟨fun v hv => ⟨(bound v hv).1.2, (bound v hv).2.2⟩, ?_, ?_⟩
  · rcases foldl_max_field_mem (fun n : IRFlowchartNodeData => n.width)
        (layout_sized_fl fl metrics f).nodes FLOWCHART_NODE_MIN_WIDTH with h | ⟨s, hs1, e⟩
    · obtain ⟨v, hv⟩ := some_node
      have b := (bound v hv).1
      have h1 : max_node_width (layout_sized_fl fl metrics f).nodes = 40 := h
      exact ⟨v, hv, by rw [h1] at b ⊢; exact le_antisymm b.2 b.1⟩
    · obtain ⟨v, hv, e1, _⟩ := of_sized s hs1
      exact ⟨v, hv, e1.trans e⟩
  · rcases foldl_max_field_mem (fun n : IRFlowchartNodeData => n.height)
        (layout_sized_fl fl metrics f).nodes FLOWCHART_NODE_MIN_HEIGHT with h | ⟨s, hs1, e⟩
    · obtain ⟨v, hv⟩ := some_node
      have b := (bound v hv).2
      have h1 : max_node_height (layout_sized_fl fl metrics f).nodes = 24 := h
      exact ⟨v, hv, by rw [h1] at b ⊢; exact le_antisymm b.2 b.1⟩
    · obtain ⟨v, hv, _, e2⟩ := of_sized s hs1
      exact ⟨v, hv, e2.trans e⟩

theorem secondary_nonneg (slack pos S sp w : ℚ) (hsl : 0 ≤ slack) (hpos : 0 ≤ pos)
    (hS : 0 ≤ S + sp) (hw : w ≤ S) :
    0 ≤ slack * (S + sp) / 2 + pos * (S + sp) + (S - w) / 2 := by
  have a := mul_nonneg hsl hS
  have b := mul_nonneg hpos hS
  linarith

theorem primary_nonneg (l S sp w : ℚ) (hl : 0 ≤ l) (hS : 0 ≤ S + sp) (hw : w ≤ S) :
    0 ≤ l * (S + sp) + (S - w) / 2 := by
  have a := mul_nonneg hl hS
  linarith

/-- The corner of the slot formulas has no negative coordinate. -/
theorem plain_position_nonneg (d : IRFlowchartDirection)
    (nl : List Int) (ns rs W H : ℚ) (layer : Int) (n pos : Nat) (w h : ℚ)
    (hn : n ≤ max_nodes_in_layer nl) (hl0 : 0 ≤ layer) (hl1 : layer ≤ max_layer_of nl)
    (hns : 0 ≤ ns) (hrs : 0 ≤ rs) (hW : 0 ≤ W) (hH : 0 ≤ H) (hw : w ≤ W) (hh : h ≤ H) :
    0 ≤ (plain_position d nl ns rs W H layer n pos w h).1 ∧
    0 ≤ (plain_position d nl ns rs W H layer n pos w h).2 := by
  have hsl : (0 : ℚ) ≤ (((max_nodes_in_layer nl : Int) - (n : Int) : Int) : ℚ) := by
    have : (0 : Int) ≤ (max_nodes_in_layer nl : Int) - (n : Int) := by omega
    exact_mod_cast this
  have hpos : (0 : ℚ) ≤ (pos : ℚ) := Nat.cast_nonneg pos
  have hlq : (0 : ℚ) ≤ (layer : ℚ) := by exact_mod_cast hl0
  have hrq : (0 : ℚ) ≤ ((max_layer_of nl - layer : Int) : ℚ) := by
    have : (0 : Int) ≤ max_layer_of nl - layer := by omega
    exact_mod_cast this
  unfold plain_position primary_coord
  dsimp only
  cases hd : is_horizontal d <;> cases hr : is_reversed d
  · exact ⟨secondary_nonneg _ _ W ns w hsl hpos (by linarith) hw,
      primary_nonneg _ H rs h hlq (by linarith) hh⟩
  · exact ⟨secondary_nonneg _ _ W ns w hsl hpos (by linarith) hw,
      primary_nonneg _ H rs h hrq (by linarith) hh⟩
  · exact ⟨primary_nonneg _ W rs w hlq (by linarith) hw,
      secondary_nonneg _ _ H ns h hsl hpos (by linarith) hh⟩
  · exact ⟨primary_nonneg _ W rs w hrq (by linarith) hw,
      secondary_nonneg _ _ H ns h hsl hpos (by linarith) hh⟩

/-- The position of a node after the layout with rounding to `float`, in a
viewport at least as large as the natural size, outside every subgraph: both
coordinates are those of the slot formulas, moved by the padding, up to seven
roundings. -/
theorem layout_nodes_f32_within (metrics : Option IRFontMetrics) (f : Flowchart) (aw ah : ℚ)
    (hc : f.state.layout_computed = false)
    (hs : ∀ node ∈ f.state.nodes, node.subgraph_id = none)
    (hw : layout_natural_width_fl f32_round metrics f ≤ aw)
    (hh : layout_natural_height_fl f32_round metrics f ≤ ah)
    (j : Nat) (u : IRFlowchartNodeData)
    (hu : (ir_layout_nodes_fl f32_round metrics f aw ah).get? j = some u) :
    j < (layout_layers metrics f).length ∧
    0 ≤ (layout_layers metrics f).getD j (-1) ∧
    0 < u.width ∧ u.width ≤ max_node_width (layout_sized_fl f32_round metrics f).nodes ∧
    0 < u.height ∧ u.height ≤ max_node_height (layout_sized_fl f32_round metrics f).nodes ∧
    0 ≤ (plain_position f.state.direction (layout_layers metrics f)
          (layout_node_spacing f.state) (layout_rank_spacing f.state)
          (max_node_width (layout_sized_fl f32_round metrics f).nodes)
          (max_node_height (layout_sized_fl f32_round metrics f).nodes)
          ((layout_layers metrics f).getD j (-1))
          ((layout_layers metrics f).count ((layout_layers metrics f).getD j (-1)))
          (rank_in_layer (layout_layers metrics f) j) u.width u.height).1 ∧
    0 ≤ (plain_position f.state.direction (layout_layers metrics f)
          (layout_node_spacing f.state) (layout_rank_spacing f.state)
          (max_node_width (layout_sized_fl f32_round metrics f).nodes)
          (max_node_height (layout_sized_fl f32_round metrics f).nodes)
          ((layout_layers metrics f).getD j (-1))
          ((layout_layers metrics f).count ((layout_layers metrics f).getD j (-1)))
          (rank_in_layer (layout_layers metrics f) j) u.width u.height).2 ∧
    within 7 (1 / 2 ^ 24)
      (20 + (plain_position f.state.direction (layout_layers metrics f)
          (layout_node_spacing f.state) (layout_rank_spacing f.state)
          (max_node_width (layout_sized_fl f32_round metrics f).nodes)
          (max_node_height (layout_sized_fl f32_round metrics f).nodes)
          ((layout_layers metrics f).getD j (-1))
          ((layout_layers metrics f).count ((layout_layers metrics f).getD j (-1)))
          (rank_in_layer (layout_layers metrics f) j) u.width u.height).1) u.x ∧
    within 7 (1 / 2 ^ 24)
      (20 + (plain_position f.state.direction (layout_layers metrics f)
          (layout_node_spacing f.state) (layout_rank_spacing f.state)
          (max_node_width (layout_sized_fl f32_round metrics f).nodes)
          (max_node_height (layout_sized_fl f32_round metrics f).nodes)
          ((layout_layers metrics f).getD j (-1))
          ((layout_layers metrics f).count ((layout_layers metrics f).getD j (-1)))
          (rank_in_layer (layout_layers metrics f) j) u.width u.height).2) u.y := by
  have h35 : f32_round (3 / 5) ≤ 1 := by decide!
  have hu0 : (0 : ℚ) ≤ 1 / 2 ^ 24 := by norm_num
  have hu1 : (1 / 2 ^ 24 : ℚ) ≤ 1 := by norm_num
  obtain ⟨node, hnode, ew, eh, ex, ey⟩ :=
    layout_nodes_fl_plain f32_round metrics f aw ah h35 hc hs hw hh j u hu
  obtain ⟨w1, w2, h1, h2⟩ := sized_fl_in_slot f32_round metrics f j node hnode
  rw [← ew] at w1 w2
  rw [← eh] at h1 h2
  have hsp := layout_spacing_pos f.state
  have hlay := assign_layers_ok (layout_sized_fl f32_round metrics f)
  rw [layout_layers_fl] at hlay
  have hn : (layout_sized_fl f32_round metrics f).nodes.length = f.state.nodes.length := by
    rw [layout_sized_fl_nodes, List.length_map]
  have hj : j < f.state.nodes.length := by
    rw [List.get?_eq_getElem?] at hnode
    exact (List.getElem?_eq_some_iff.mp hnode).1
  have hjl : j < (layout_layers metrics f).length := by
    rw [hlay.1, hn]
    exact hj
  have hl0 : 0 ≤ (layout_layers metrics f).getD j (-1) := hlay.2 j (by rw [hn]; exact hj)
  have hl1 := le_max_layer_of (layout_layers metrics f) j hjl
  have hcnt : (layout_layers metrics f).count ((layout_layers metrics f).getD j (-1)) ≤
      max_nodes_in_layer (layout_layers metrics f) :=
    count_le_max_nodes_in_layer _ _ hl0 hl1
  obtain ⟨px, py⟩ := plain_position_fl_within f32_round (1 / 2 ^ 24) f.state.direction
    (layout_layers metrics f) (layout_node_spacing f.state) (layout_rank_spacing f.state)
    (max_node_width (layout_sized_fl f32_round metrics f).nodes)
    (max_node_height (layout_sized_fl f32_round metrics f).nodes)
    ((layout_layers metrics f).getD j (-1))
    ((layout_layers metrics f).count ((layout_layers metrics f).getD j (-1)))
    (rank_in_layer (layout_layers metrics f) j) u.width u.height hu0 hu1 f32_round_relative
    hcnt hl0 hl1 hsp.1.le hsp.2.le (by linarith) (by linarith) w2 h2
  have nx := plain_position_nonneg f.state.direction
    (layout_layers metrics f) (layout_node_spacing f.state) (layout_rank_spacing f.state)
    (max_node_width (layout_sized_fl f32_round metrics f).nodes)
    (max_node_height (layout_sized_fl f32_round metrics f).nodes)
    ((layout_layers metrics f).getD j (-1))
    ((layout_layers metrics f).count ((layout_layers metrics f).getD j (-1)))
    (rank_in_layer (layout_layers metrics f) j) u.width u.height
    hcnt hl0 hl1 hsp.1.le hsp.2.le (by linarith) (by linarith) w2 h2
  refine ⟨hjl, hl0, w1, w2, h1, h2, nx.1, nx.2, ?_, ?_⟩
  · rw [ex]
    exact moved_within f32_round _ _ _ hu0 hu1 f32_round_relative nx.1 px
  · rw [ey]
    exact moved_within f32_round _ _ _ hu0 hu1 f32_round_relative nx.2 py

/-! ## Slot centres up to rounding -/

/-- C33 as stated fails for the values that the code stores.  The flowchart of
direction TB with the rectangles A and B, both labelled `abc` and both in layer
0, laid out with every `float` operation rounded, in a viewport of 800 x 600
that is larger than the natural size: the width of both nodes is the `float`
57.2000008, and B, the node number 1 of the 2 nodes of its layer, has its
centre at 65955429 / 524288 = 125.7999973, while the formula
20 + (M - n)(W + s)/2 + k(W + s) + W/2 gives 65955431 / 524288 = 125.8000011. -/
theorem slot_centre_formula_is_not_exact :
    (pair_flowchart IRFlowchartDirection.TB).state.layout_computed = false ∧
    (pair_flowchart IRFlowchartDirection.TB).state.direction = IRFlowchartDirection.TB ∧
    (∀ node ∈ (pair_flowchart IRFlowchartDirection.TB).state.nodes, node.subgraph_id = none) ∧
    layout_natural_width_fl f32_round none (pair_flowchart IRFlowchartDirection.TB) ≤ 800 ∧
    layout_natural_height_fl f32_round none (pair_flowchart IRFlowchartDirection.TB) ≤ 600 ∧
    layout_layers none (pair_flowchart IRFlowchartDirection.TB) = [0, 0] ∧
    max_nodes_in_layer (layout_layers none (pair_flowchart IRFlowchartDirection.TB)) = 2 ∧
    nodes_per_layer (layout_layers none (pair_flowchart IRFlowchartDirection.TB)) 0 = 2 ∧
    rank_in_layer (layout_layers none (pair_flowchart IRFlowchartDirection.TB)) 1 = 1 ∧
    max_node_width (layout_sized_fl f32_round none (pair_flowchart IRFlowchartDirection.TB)).nodes
      = 14994637 / 262144 ∧
    layout_node_spacing (pair_flowchart IRFlowchartDirection.TB).state = 20 ∧
    ∃ u : IRFlowchartNodeData,
      (ir_layout_nodes_fl f32_round none (pair_flowchart IRFlowchartDirection.TB) 800 600).get? 1
        = some u ∧
      u.x = 6370099 / 65536 ∧ u.width = 14994637 / 262144 ∧
      u.x + u.width / 2 = 65955429 / 524288 ∧
      (20 + (((2 : Int) - (2 : Int) : Int) : ℚ) * (14994637 / 262144 + 20) / 2 +
        ((1 : Nat) : ℚ) * (14994637 / 262144 + 20) + (14994637 / 262144) / 2 : ℚ)
        = 65955431 / 524288 ∧
      u.x + u.width / 2 ≠
        20 + (((max_nodes_in_layer (layout_layers none (pair_flowchart IRFlowchartDirection.TB))
                : Int) -
              (nodes_per_layer (layout_layers none (pair_flowchart IRFlowchartDirection.TB))
                ((layout_layers none (pair_flowchart IRFlowchartDirection.TB)).getD 1 (-1))
                : Int) : Int) : ℚ) *
            (max_node_width
                (layout_sized_fl f32_round none (pair_flowchart IRFlowchartDirection.TB)).nodes +
              layout_node_spacing (pair_flowchart IRFlowchartDirection.TB).state) / 2 +
          (rank_in_layer (layout_layers none (pair_flowchart IRFlowchartDirection.TB)) 1 : ℚ) *
            (max_node_width
                (layout_sized_fl f32_round none (pair_flowchart IRFlowchartDirection.TB)).nodes +
              layout_node_spacing (pair_flowchart IRFlowchartDirection.TB).state) +
          max_node_width
            (layout_sized_fl f32_round none (pair_flowchart IRFlowchartDirection.TB)).nodes / 2 := by
  refine ⟨by decide!, by decide!, by decide!, by decide!, by decide!, by decide!, by decide!,
    by decide!, by decide!, by decide!, by decide!, _, rfl, by decide!, by decide!, by decide!,
    by decide!, by decide!⟩

/-- C33 up to rounding: in a flowchart of direction TB none of whose registered
nodes is in a subgraph, laid out (not from the cache) with every `float`
operation rounded, in a viewport at least as large as the natural size, the
centre of the registered node of index `i`, of layer `L`, differs from
x = 20 + (M - n)(W + s)/2 + k(W + s) + W/2 and y = 20 + L(H + r) + H/2 by at
most the `2 ^ 21`-th part of these values, where `n` is the number of nodes of
layer `L`, `k` the number of nodes of layer `L` registered before it, `M` the
value of `max_nodes_in_layer`, `s` and `r` the node and rank spacing, and `W`,
`H` the largest width and height among the nodes, which are the stored width of
some node and the stored height of some node. -/
theorem slot_centres_up_to_rounding (metrics : Option IRFontMetrics) (flowchart : Flowchart)
    (available_width available_height : ℚ) (i : Nat) (u : IRFlowchartNodeData)
    (hc : flowchart.state.layout_computed = false)
    (hd : flowchart.state.direction = IRFlowchartDirection.TB)
    (hs : ∀ node ∈ flowchart.state.nodes, node.subgraph_id = none)
    (hw : layout_natural_width_fl f32_round metrics flowchart ≤ available_width)
    (hh : layout_natural_height_fl f32_round metrics flowchart ≤ available_height)
    (hu : (ir_layout_nodes_fl f32_round metrics flowchart available_width
      available_height).get? i = some u) :
    |u.x + u.width / 2 -
      (20 + (((max_nodes_in_layer (layout_layers metrics flowchart) : Int) -
            (nodes_per_layer (layout_layers metrics flowchart)
              ((layout_layers metrics flowchart).getD i (-1)) : Int) : Int) : ℚ) *
          (max_node_width (layout_sized_fl f32_round metrics flowchart).nodes +
            layout_node_spacing flowchart.state) / 2 +
        (rank_in_layer (layout_layers metrics flowchart) i : ℚ) *
          (max_node_width (layout_sized_fl f32_round metrics flowchart).nodes +
            layout_node_spacing flowchart.state) +
        max_node_width (layout_sized_fl f32_round metrics flowchart).nodes / 2)| ≤
      (20 + (((max_nodes_in_layer (layout_layers metrics flowchart) : Int) -
            (nodes_per_layer (layout_layers metrics flowchart)
              ((layout_layers metrics flowchart).getD i (-1)) : Int) : Int) : ℚ) *
          (max_node_width (layout_sized_fl f32_round metrics flowchart).nodes +
            layout_node_spacing flowchart.state) / 2 +
        (rank_in_layer (layout_layers metrics flowchart) i : ℚ) *
          (max_node_width (layout_sized_fl f32_round metrics flowchart).nodes +
            layout_node_spacing flowchart.state) +
        max_node_width (layout_sized_fl f32_round metrics flowchart).nodes / 2) / 2 ^ 21 ∧
    |u.y + u.height / 2 -
      (20 + (((layout_layers metrics flowchart).getD i (-1) : Int) : ℚ) *
          (max_node_height (layout_sized_fl f32_round metrics flowchart).nodes +
            layout_rank_spacing flowchart.state) +
        max_node_height (layout_sized_fl f32_round metrics flowchart).nodes / 2)| ≤
      (20 + (((layout_layers metrics flowchart).getD i (-1) : Int) : ℚ) *
          (max_node_height (layout_sized_fl f32_round metrics flowchart).nodes +
            layout_rank_spacing flowchart.state) +
        max_node_height (layout_sized_fl f32_round metrics flowchart).nodes / 2) / 2 ^ 21 ∧
    nodes_per_layer (layout_layers metrics flowchart)
        ((layout_layers metrics flowchart).getD i (-1)) ≤
      max_nodes_in_layer (layout_layers metrics flowchart) ∧
    (∀ v ∈ ir_layout_nodes_fl f32_round metrics flowchart available_width available_height,
      v.width ≤ max_node_width (layout_sized_fl f32_round metrics flowchart).nodes ∧
      v.height ≤ max_node_height (layout_sized_fl f32_round metrics flowchart).nodes) ∧
    (∃ v ∈ ir_layout_nodes_fl f32_round metrics flowchart available_width available_height,
      v.width = max_node_width (layout_sized_fl f32_round metrics flowchart).nodes) ∧
    (∃ v ∈ ir_layout_nodes_fl f32_round metrics flowchart available_width available_height,
      v.height = max_node_height (layout_sized_fl f32_round metrics flowchart).nodes) := by
  have h35 : f32_round (3 / 5) ≤ 1 := by decide!
  obtain ⟨hjl, hl0, w1, w2, h1, h2, nx, ny, px, py⟩ :=
    layout_nodes_f32_within metrics flowchart available_width available_height hc hs hw hh i u hu
  have hne : flowchart.state.nodes ≠ [] := by
    obtain ⟨node, hnode, _⟩ := layout_nodes_fl_plain f32_round metrics flowchart available_width
      available_height h35 hc hs hw hh i u hu
    intro e
    rw [e] at hnode
    cases hnode
  obtain ⟨g1, g2, g3⟩ := slot_size_fl_is_largest f32_round metrics flowchart available_width
    available_height h35 hc hne hs hw hh
  have hl1 := le_max_layer_of (layout_layers metrics flowchart) i hjl
  have hcnt : nodes_per_layer (layout_layers metrics flowchart)
        ((layout_layers metrics flowchart).getD i (-1)) ≤
      max_nodes_in_layer (layout_layers metrics flowchart) :=
    count_le_max_nodes_in_layer _ _ hl0 hl1
  obtain ⟨_, _, bx⟩ := within_seven _ _ (by linarith) px
  obtain ⟨_, _, by1⟩ := within_seven _ _ (by linarith) py
  unfold plain_position at bx by1 nx ny
  rw [hd] at bx by1 nx ny
  simp only [is_horizontal, is_reversed, primary_coord] at bx by1 nx ny
  simp only [show (IRFlowchartDirection.TB == IRFlowchartDirection.LR) = false from rfl,
    show (IRFlowchartDirection.TB == IRFlowchartDirection.RL) = false from rfl,
    show (IRFlowchartDirection.TB == IRFlowchartDirection.BT) = false from rfl,
    Bool.or_self, Bool.false_eq_true, if_false] at bx by1 nx ny
  refine ⟨?_, ?_, hcnt, g1, g2, g3⟩
  · unfold nodes_per_layer
    rw [abs_le] at bx ⊢
    have : (0 : ℚ) ≤ u.width / 2 / 2 ^ 21 := by positivity
    constructor <;> linarith [bx.1, bx.2]
  · rw [abs_le] at by1 ⊢
    have : (0 : ℚ) ≤ u.height / 2 / 2 ^ 21 := by positivity
    constructor <;> linarith [by1.1, by1.2]

/-- The statement at the node C of the flowchart of direction TB with the edges
A to B and A to C, every `float` operation rounded, in a viewport of 800 x 600:
the layers are 0, 1, 1, the slots are 132.8000031 wide, and C, the node number
1 of the 2 nodes of layer 1, is at x = 172.8000031, y = 188. -/
theorem slot_centres_up_to_rounding_witness :
    (fork_flowchart IRFlowchartDirection.TB).state.layout_computed = false ∧
    (fork_flowchart IRFlowchartDirection.TB).state.direction = IRFlowchartDirection.TB ∧
    (∀ node ∈ (fork_flowchart IRFlowchartDirection.TB).state.nodes, node.subgraph_id = none) ∧
    layout_natural_width_fl f32_round none (fork_flowchart IRFlowchartDirection.TB) ≤ 800 ∧
    layout_natural_height_fl f32_round none (fork_flowchart IRFlowchartDirection.TB) ≤ 600 ∧
    layout_layers none (fork_flowchart IRFlowchartDirection.TB) = [0, 1, 1] ∧
    max_nodes_in_layer (layout_layers none (fork_flowchart IRFlowchartDirection.TB)) = 2 ∧
    max_node_width (layout_sized_fl f32_round none (fork_flowchart IRFlowchartDirection.TB)).nodes
      = 8703181 / 65536 ∧
    max_node_height (layout_sized_fl f32_round none (fork_flowchart IRFlowchartDirection.TB)).nodes
      = 3198157 / 32768 ∧
    ∃ u : IRFlowchartNodeData,
      (ir_layout_nodes_fl f32_round none (fork_flowchart IRFlowchartDirection.TB) 800 600).get? 2
        = some u ∧
      u.x = 11324621 / 65536 ∧ u.y = 188 ∧ u.width = 8703181 / 65536 ∧
      |u.x + u.width / 2 -
        (20 + (((max_nodes_in_layer (layout_layers none (fork_flowchart IRFlowchartDirection.TB))
                : Int) -
              (nodes_per_layer (layout_layers none (fork_flowchart IRFlowchartDirection.TB))
                ((layout_layers none (fork_flowchart IRFlowchartDirection.TB)).getD 2 (-1))
                : Int) : Int) : ℚ) *
            (max_node_width
                (layout_sized_fl f32_round none (fork_flowchart IRFlowchartDirection.TB)).nodes +
              layout_node_spacing (fork_flowchart IRFlowchartDirection.TB).state) / 2 +
          (rank_in_layer (layout_layers none (fork_flowchart IRFlowchartDirection.TB)) 2 : ℚ) *
            (max_node_width
                (layout_sized_fl f32_round none (fork_flowchart IRFlowchartDirection.TB)).nodes +
              layout_node_spacing (fork_flowchart IRFlowchartDirection.TB).state) +
          max_node_width
            (layout_sized_fl f32_round none (fork_flowchart IRFlowchartDirection.TB)).nodes / 2)| ≤
        (20 + (((max_nodes_in_layer (layout_layers none (fork_flowchart IRFlowchartDirection.TB))
                : Int) -
              (nodes_per_layer (layout_layers none (fork_flowchart IRFlowchartDirection.TB))
                ((layout_layers none (fork_flowchart IRFlowchartDirection.TB)).getD 2 (-1))
                : Int) : Int) : ℚ) *
            (max_node_width
                (layout_sized_fl f32_round none (fork_flowchart IRFlowchartDirection.TB)).nodes +
              layout_node_spacing (fork_flowchart IRFlowchartDirection.TB).state) / 2 +
          (rank_in_layer (layout_layers none (fork_flowchart IRFlowchartDirection.TB)) 2 : ℚ) *
            (max_node_width
                (layout_sized_fl f32_round none (fork_flowchart IRFlowchartDirection.TB)).nodes +
              layout_node_spacing (fork_flowchart IRFlowchartDirection.TB).state) +
          max_node_width
            (layout_sized_fl f32_round none (fork_flowchart IRFlowchartDirection.TB)).nodes / 2) /
          2 ^ 21 := by
  have h := slot_centres_up_to_rounding none (fork_flowchart IRFlowchartDirection.TB) 800 600 2 _
    (by decide!) (by decide!) (by decide!) (by decide!) (by decide!) rfl
  exact ⟨by decide!, by decide!, by decide!, by decide!, by decide!, by decide!, by decide!,
    by decide!, by decide!, _, rfl, by decide!, by decide!, by decide!, h.1⟩

/-! ## Node rectangles up to rounding -/

theorem rectangles_apart_f32_of_lt (metrics : Option IRFontMetrics) (f : Flowchart) (aw ah : ℚ)
    (i j : Nat) (u v : IRFlowchartNodeData)
    (hc : f.state.layout_computed = false)
    (hs : ∀ node ∈ f.state.nodes, node.subgraph_id = none)
    (hw : layout_natural_width_fl f32_round metrics f ≤ aw)
    (hh : layout_natural_height_fl f32_round metrics f ≤ ah)
    (hij : i < j)
    (hu : (ir_layout_nodes_fl f32_round metrics f aw ah).get? i = some u)
    (hv : (ir_layout_nodes_fl f32_round metrics f aw ah).get? j = some v) :
    ((layout_layers metrics f).getD i (-1) = (layout_layers metrics f).getD j (-1) →
      (is_horizontal f.state.direction = false →
        (1 - 1 / 2 ^ 20) * (u.x + u.width + layout_node_spacing f.state) ≤ v.x) ∧
      (is_horizontal f.state.direction = true →
        (1 - 1 / 2 ^ 20) * (u.y + u.height + layout_node_spacing f.state) ≤ v.y)) ∧
    ((layout_layers metrics f).getD i (-1) ≠ (layout_layers metrics f).getD j (-1) →
      (is_horizontal f.state.direction = false →
        (1 - 1 / 2 ^ 20) * (u.y + u.height + layout_rank_spacing f.state) ≤ v.y ∨
          (1 - 1 / 2 ^ 20) * (v.y + v.height + layout_rank_spacing f.state) ≤ u.y) ∧
      (is_horizontal f.state.direction = true →
        (1 - 1 / 2 ^ 20) * (u.x + u.width + layout_rank_spacing f.state) ≤ v.x ∨
          (1 - 1 / 2 ^ 20) * (v.x + v.width + layout_rank_spacing f.state) ≤ u.x)) := by
  obtain ⟨_, _, wu1, wu2, hu1, hu2, nxu, nyu, pxu, pyu⟩ :=
    layout_nodes_f32_within metrics f aw ah hc hs hw hh i u hu
  obtain ⟨hj, _, wv1, wv2, hv1, hv2, nxv, nyv, pxv, pyv⟩ :=
    layout_nodes_f32_within metrics f aw ah hc hs hw hh j v hv
  have hW : u.width ≤ max_node_width (layout_sized_fl f32_round metrics f).nodes ∧
      v.width ≤ max_node_width (layout_sized_fl f32_round metrics f).nodes ∧
      0 ≤ max_node_width (layout_sized_fl f32_round metrics f).nodes := ⟨wu2, wv2, by linarith⟩
  have hH : u.height ≤ max_node_height (layout_sized_fl f32_round metrics f).nodes ∧
      v.height ≤ max_node_height (layout_sized_fl f32_round metrics f).nodes ∧
      0 ≤ max_node_height (layout_sized_fl f32_round metrics f).nodes := ⟨hu2, hv2, by linarith⟩
  have hsp := layout_spacing_pos f.state
  refine ⟨fun hl => ?_, fun hl => ?_⟩
  · have hr := rank_in_layer_lt (layout_layers metrics f) i j hij hj hl
    rw [hl] at pxu pyu nxu nyu
    obtain ⟨a, b⟩ := plain_apart_in_layer f.state.direction (layout_layers metrics f)
      (layout_node_spacing f.state) (layout_rank_spacing f.state)
      (max_node_width (layout_sized_fl f32_round metrics f).nodes)
      (max_node_height (layout_sized_fl f32_round metrics f).nodes)
      ((layout_layers metrics f).getD j (-1))
      ((layout_layers metrics f).count ((layout_layers metrics f).getD j (-1)))
      _ _ hr u.width u.height v.width v.height hsp.1 hW hH
    refine ⟨fun hd => ?_, fun hd => ?_⟩
    · have g := gap_up_to_rounding _ _ _ _ (u.width + layout_node_spacing f.state) pxu pxv
        (by linarith) (by linarith) (by linarith [a hd])
      rw [← add_assoc] at g
      exact g
    · have g := gap_up_to_rounding _ _ _ _ (u.height + layout_node_spacing f.state) pyu pyv
        (by linarith) (by linarith) (by linarith [b hd])
      rw [← add_assoc] at g
      exact g
  · rcases lt_or_gt_of_ne hl with hlt | hgt
    · obtain ⟨a, b⟩ := plain_apart_across_layers f.state.direction (layout_layers metrics f)
        (layout_node_spacing f.state) (layout_rank_spacing f.state)
        (max_node_width (layout_sized_fl f32_round metrics f).nodes)
        (max_node_height (layout_sized_fl f32_round metrics f).nodes) _ _ hlt
        ((layout_layers metrics f).count ((layout_layers metrics f).getD i (-1)))
        (rank_in_layer (layout_layers metrics f) i)
        ((layout_layers metrics f).count ((layout_layers metrics f).getD j (-1)))
        (rank_in_layer (layout_layers metrics f) j)
        u.width u.height v.width v.height hsp.2 hW hH
      refine ⟨fun hd => ?_, fun hd => ?_⟩
      · rcases a hd with h | h
        · left
          have g := gap_up_to_rounding _ _ _ _ (u.height + layout_rank_spacing f.state) pyu pyv
            (by linarith) (by linarith) (by linarith)
          rw [← add_assoc] at g
          exact g
        · right
          have g := gap_up_to_rounding _ _ _ _ (v.height + layout_rank_spacing f.state) pyv pyu
            (by linarith) (by linarith) (by linarith)
          rw [← add_assoc] at g
          exact g
      · rcases b hd with h | h
        · left
          have g := gap_up_to_rounding _ _ _ _ (u.width + layout_rank_spacing f.state) pxu pxv
            (by linarith) (by linarith) (by linarith)
          rw [← add_assoc] at g
          exact g
        · right
          have g := gap_up_to_rounding _ _ _ _ (v.width + layout_rank_spacing f.state) pxv pxu
            (by linarith) (by linarith) (by linarith)
          rw [← add_assoc] at g
          exact g
    · obtain ⟨a, b⟩ := plain_apart_across_layers f.state.direction (layout_layers metrics f)
        (layout_node_spacing f.state) (layout_rank_spacing f.state)
        (max_node_width (layout_sized_fl f32_round metrics f).nodes)
        (max_node_height (layout_sized_fl f32_round metrics f).nodes) _ _ hgt
        ((layout_layers metrics f).count ((layout_layers metrics f).getD j (-1)))
        (rank_in_layer (layout_layers metrics f) j)
        ((layout_layers metrics f).count ((layout_layers metrics f).getD i (-1)))
        (rank_in_layer (layout_layers metrics f) i)
        v.width v.height u.width u.height hsp.2 ⟨hW.2.1, hW.1, hW.2.2⟩ ⟨hH.2.1, hH.1, hH.2.2⟩
      refine ⟨fun hd => ?_, fun hd => ?_⟩
      · rcases a hd with h | h
        · right
          have g := gap_up_to_rounding _ _ _ _ (v.height + layout_rank_spacing f.state) pyv pyu
            (by linarith) (by linarith) (by linarith)
          rw [← add_assoc] at g
          exact g
        · left
          have g := gap_up_to_rounding _ _ _ _ (u.height + layout_rank_spacing f.state) pyu pyv
            (by linarith) (by linarith) (by linarith)
          rw [← add_assoc] at g
          exact g
      · rcases b hd with h | h
        · right
          have g := gap_up_to_rounding _ _ _ _ (v.width + layout_rank_spacing f.state) pxv pxu
            (by linarith) (by linarith) (by linarith)
          rw [← add_assoc] at g
          exact g
        · left
          have g := gap_up_to_rounding _ _ _ _ (u.width + layout_rank_spacing f.state) pxu pxv
            (by linarith) (by linarith) (by linarith)
          rw [← add_assoc] at g
          exact g

/-- C35 as stated fails for the values that the code stores.  The flowchart of
direction TB with the rectangles A and B, both labelled `abc` and both in layer
0, laid out with every `float` operation rounded, in a viewport of 800 x 600
that is larger than the natural size: A ends at x = 20 + 57.2000008 and B
begins at x = 97.1999969, which is less than the node spacing of 20 after the
end of A; the two rectangles do not overlap. -/
theorem node_spacing_is_not_kept_exactly :
    (pair_flowchart IRFlowchartDirection.TB).state.layout_computed = false ∧
    (∀ node ∈ (pair_flowchart IRFlowchartDirection.TB).state.nodes, node.subgraph_id = none) ∧
    layout_natural_width_fl f32_round none (pair_flowchart IRFlowchartDirection.TB) ≤ 800 ∧
    layout_natural_height_fl f32_round none (pair_flowchart IRFlowchartDirection.TB) ≤ 600 ∧
    layout_layers none (pair_flowchart IRFlowchartDirection.TB) = [0, 0] ∧
    layout_node_spacing (pair_flowchart IRFlowchartDirection.TB).state = 20 ∧
    ∃ u v : IRFlowchartNodeData,
      (ir_layout_nodes_fl f32_round none (pair_flowchart IRFlowchartDirection.TB) 800 600).get? 0
        = some u ∧
      (ir_layout_nodes_fl f32_round none (pair_flowchart IRFlowchartDirection.TB) 800 600).get? 1
        = some v ∧
      u.x = 20 ∧ u.width = 14994637 / 262144 ∧ v.x = 6370099 / 65536 ∧
      u.y = v.y ∧
      u.x + u.width + layout_node_spacing (pair_flowchart IRFlowchartDirection.TB).state
        = 25480397 / 262144 ∧
      ¬ (u.x + u.width + layout_node_spacing (pair_flowchart IRFlowchartDirection.TB).state
        ≤ v.x) ∧
      ¬ (v.x + v.width + layout_node_spacing (pair_flowchart IRFlowchartDirection.TB).state
        ≤ u.x) ∧
      u.x + u.width ≤ v.x := by
  refine ⟨by decide!, by decide!, by decide!, by decide!, by decide!, by decide!, _, _, rfl, rfl,
    by decide!, by decide!, by decide!, by decide!, by decide!, by decide!, by decide!, by decide!⟩

/-- C35 up to rounding: in a flowchart of any direction none of whose
registered nodes is in a subgraph, laid out (not from the cache) with every
`float` operation rounded, in a viewport at least as large as the natural size,
two registered nodes of different index in the same layer are the node spacing
apart across the axis of the layers (x for TB and BT, y for LR and RL), and two
nodes of different layers the rank spacing along that axis, up to the
`2 ^ 20`-th part of the coordinate: the later rectangle begins at
`(1 - 2 ^ -20) * (end of the earlier one + spacing)` at least.  Both spacings
are positive, and the two rectangles do not overlap when their ends are at most
`2 ^ 20 - 1` times each spacing. -/
theorem node_rectangles_apart_up_to_rounding (metrics : Option IRFontMetrics)
    (flowchart : Flowchart) (available_width available_height : ℚ) (i j : Nat)
    (u v : IRFlowchartNodeData)
    (hc : flowchart.state.layout_computed = false)
    (hs : ∀ node ∈ flowchart.state.nodes, node.subgraph_id = none)
    (hw : layout_natural_width_fl f32_round metrics flowchart ≤ available_width)
    (hh : layout_natural_height_fl f32_round metrics flowchart ≤ available_height)
    (hij : i ≠ j)
    (hu : (ir_layout_nodes_fl f32_round metrics flowchart available_width
      available_height).get? i = some u)
    (hv : (ir_layout_nodes_fl f32_round metrics flowchart available_width
      available_height).get? j = some v) :
    ((layout_layers metrics flowchart).getD i (-1) = (layout_layers metrics flowchart).getD j (-1) →
      (is_horizontal flowchart.state.direction = false →
        (1 - 1 / 2 ^ 20) * (u.x + u.width + layout_node_spacing flowchart.state) ≤ v.x ∨
          (1 - 1 / 2 ^ 20) * (v.x + v.width + layout_node_spacing flowchart.state) ≤ u.x) ∧
      (is_horizontal flowchart.state.direction = true →
        (1 - 1 / 2 ^ 20) * (u.y + u.height + layout_node_spacing flowchart.state) ≤ v.y ∨
          (1 - 1 / 2 ^ 20) * (v.y + v.height + layout_node_spacing flowchart.state) ≤ u.y)) ∧
    ((layout_layers metrics flowchart).getD i (-1) ≠ (layout_layers metrics flowchart).getD j (-1) →
      (is_horizontal flowchart.state.direction = false →
        (1 - 1 / 2 ^ 20) * (u.y + u.height + layout_rank_spacing flowchart.state) ≤ v.y ∨
          (1 - 1 / 2 ^ 20) * (v.y + v.height + layout_rank_spacing flowchart.state) ≤ u.y) ∧
      (is_horizontal flowchart.state.direction = true →
        (1 - 1 / 2 ^ 20) * (u.x + u.width + layout_rank_spacing flowchart.state) ≤ v.x ∨
          (1 - 1 / 2 ^ 20) * (v.x + v.width + layout_rank_spacing flowchart.state) ≤ u.x)) ∧
    0 < layout_node_spacing flowchart.state ∧ 0 < layout_rank_spacing flowchart.state ∧
    ((∀ e ∈ [u.x + u.width, v.x + v.width, u.y + u.height, v.y + v.height],
        e ≤ (2 ^ 20 - 1) * layout_node_spacing flowchart.state ∧
        e ≤ (2 ^ 20 - 1) * layout_rank_spacing flowchart.state) →
      (u.x + u.width ≤ v.x ∨ v.x + v.width ≤ u.x ∨ u.y + u.height ≤ v.y ∨
        v.y + v.height ≤ u.y)) := by
  have hsp := layout_spacing_pos flowchart.state
  have main : ((layout_layers metrics flowchart).getD i (-1) =
        (layout_layers metrics flowchart).getD j (-1) →
      (is_horizontal flowchart.state.direction = false →
        (1 - 1 / 2 ^ 20) * (u.x + u.width + layout_node_spacing flowchart.state) ≤ v.x ∨
          (1 - 1 / 2 ^ 20) * (v.x + v.width + layout_node_spacing flowchart.state) ≤ u.x) ∧
      (is_horizontal flowchart.state.direction = true →
        (1 - 1 / 2 ^ 20) * (u.y + u.height + layout_node_spacing flowchart.state) ≤ v.y ∨
          (1 - 1 / 2 ^ 20) * (v.y + v.height + layout_node_spacing flowchart.state) ≤ u.y)) ∧
    ((layout_layers metrics flowchart).getD i (-1) ≠ (layout_layers metrics flowchart).getD j (-1) →
      (is_horizontal flowchart.state.direction = false →
        (1 - 1 / 2 ^ 20) * (u.y + u.height + layout_rank_spacing flowchart.state) ≤ v.y ∨
          (1 - 1 / 2 ^ 20) * (v.y + v.height + layout_rank_spacing flowchart.state) ≤ u.y) ∧
      (is_horizontal flowchart.state.direction = true →
        (1 - 1 / 2 ^ 20) * (u.x + u.width + layout_rank_spacing flowchart.state) ≤ v.x ∨
          (1 - 1 / 2 ^ 20) * (v.x + v.width + layout_rank_spacing flowchart.state) ≤ u.x)) := by
    rcases Nat.lt_or_gt_of_ne hij with h | h
    · obtain ⟨a, b⟩ := rectangles_apart_f32_of_lt metrics flowchart available_width
        available_height i j u v hc hs hw hh h hu hv
      exact ⟨fun hl => ⟨fun hd => Or.inl ((a hl).1 hd), fun hd => Or.inl ((a hl).2 hd)⟩, b⟩
    · obtain ⟨a, b⟩ := rectangles_apart_f32_of_lt metrics flowchart available_width
        available_height j i v u hc hs hw hh h hv hu
      exact ⟨fun hl => ⟨fun hd => Or.inr ((a hl.symm).1 hd), fun hd => Or.inr ((a hl.symm).2 hd)⟩,
        fun hl => ⟨fun hd => ((b (Ne.symm hl)).1 hd).symm, fun hd => ((b (Ne.symm hl)).2 hd).symm⟩⟩
  refine ⟨main.1, main.2, hsp.1, hsp.2, ?_⟩
  intro hb
  have b1 := hb (u.x + u.width) (by simp)
  have b2 := hb (v.x + v.width) (by simp)
  have b3 := hb (u.y + u.height) (by simp)
  have b4 := hb (v.y + v.height) (by simp)
  by_cases hl : (layout_layers metrics flowchart).getD i (-1) =
      (layout_layers metrics flowchart).getD j (-1)
  · by_cases hd : is_horizontal flowchart.state.direction = true
    · rcases (main.1 hl).2 hd with h | h
      · right; right; left; exact apart_of_gap _ _ _ h b3.1
      · right; right; right; exact apart_of_gap _ _ _ h b4.1
    · rcases (main.1 hl).1 (by simpa using hd) with h | h
      · left; exact apart_of_gap _ _ _ h b1.1
      · right; left; exact apart_of_gap _ _ _ h b2.1
  · by_cases hd : is_horizontal flowchart.state.direction = true
    · rcases (main.2 hl).2 hd with h | h
      · left; exact apart_of_gap _ _ _ h b1.2
      · right; left; exact apart_of_gap _ _ _ h b2.2
    · rcases (main.2 hl).1 (by simpa using hd) with h | h
      · right; right; left; exact apart_of_gap _ _ _ h b3.2
      · right; right; right; exact apart_of_gap _ _ _ h b4.2

/-- The statement at the nodes B and C, both of layer 1, of the flowchart of
direction RL with the edges A to B and A to C, every `float` operation rounded,
in a viewport of 800 x 600: B ends at y = 117.6000061 and C begins at y = 168. -/
theorem node_rectangles_apart_up_to_rounding_witness :
    (fork_flowchart IRFlowchartDirection.RL).state.layout_computed = false ∧
    (∀ node ∈ (fork_flowchart IRFlowchartDirection.RL).state.nodes, node.subgraph_id = none) ∧
    layout_natural_width_fl f32_round none (fork_flowchart IRFlowchartDirection.RL) ≤ 800 ∧
    layout_natural_height_fl f32_round none (fork_flowchart IRFlowchartDirection.RL) ≤ 600 ∧
    layout_layers none (fork_flowchart IRFlowchartDirection.RL) = [0, 1, 1] ∧
    ∃ u v : IRFlowchartNodeData,
      (ir_layout_nodes_fl f32_round none (fork_flowchart IRFlowchartDirection.RL) 800 600).get? 1
        = some u ∧
      (ir_layout_nodes_fl f32_round none (fork_flowchart IRFlowchartDirection.RL) 800 600).get? 2
        = some v ∧
      ((1 - 1 / 2 ^ 20) *
          (u.y + u.height + layout_node_spacing (fork_flowchart IRFlowchartDirection.RL).state)
            ≤ v.y ∨
        (1 - 1 / 2 ^ 20) *
          (v.y + v.height + layout_node_spacing (fork_flowchart IRFlowchartDirection.RL).state)
            ≤ u.y) ∧
      (u.x + u.width ≤ v.x ∨ v.x + v.width ≤ u.x ∨ u.y + u.height ≤ v.y ∨
        v.y + v.height ≤ u.y) ∧
      u.y + u.height = 3853517 / 32768 ∧ v.y = 168 := by
  have h := node_rectangles_apart_up_to_rounding none (fork_flowchart IRFlowchartDirection.RL)
    800 600 1 2 _ _ (by decide!) (by decide!) (by decide!) (by decide!) (by decide) rfl rfl
  exact ⟨by decide!, by decide!, by decide!, by decide!, by decide!, _, _, rfl, rfl,
    (h.1 (by decide!)).2 (by decide!), h.2.2.2.2 (by decide!), by decide!, by decide!⟩

end KryonFlowchart
